import Mathlib

/-!
# nilfs-utils: the segment scanner and rollback engine of `fsck0.nilfs2`

A shallow embedding of `sbin/fsck/fsck0.nilfs2.c`, of the superblock library
`lib/sb.c` (its definitions are in the namespace `Lib`, since the two files
give some of their static functions the same name), of the argument loop of
`bin/dumpseg.c` and of the path resolution of `lib/realpath.c`.

* Machine integers are natural numbers; where the C code computes in a
  fixed width the embedding reduces modulo `2^16`, `2^32` or `2^64`.
* The device is a size in bytes together with the byte stored at each offset.
* A function that can leave through `die`, a failed `assert` or a fault
  returns `Option`; `none` stands for the run that does not return.
* `malloc` is taken to succeed, so the shrink hook of `nilfs_malloc` never runs.
* A pointer to a cached segment is modelled by the segment number of the
  entry together with a snapshot of the record; every field except `refcnt`
  is fixed once `load_segment` has returned, and `refcnt` is only ever read
  and written through the cache.
-/

namespace Nilfs

/-! ## Constants of the on-disk format -/

/-- Modelled from the spec: NILFS_SEGSUM_MAGIC, the magic number of a segment
summary; the header that defines it (nilfs2_fs.h) is not under src/. -/
def NILFS_SEGSUM_MAGIC : Nat := 0x1eaffa11

/-- Modelled from the spec: flag bit LOGBGN, the first log of a logical segment. -/
def NILFS_SS_LOGBGN : Nat := 0x0001

/-- Modelled from the spec: flag bit LOGEND, the last log of a logical segment. -/
def NILFS_SS_LOGEND : Nat := 0x0002

/-- Modelled from the spec: flag bit SR, the log has a super root. -/
def NILFS_SS_SR : Nat := 0x0004

/-- The constant NILFS_SUPER_MAGIC of include/compat.h. -/
def NILFS_SUPER_MAGIC : Nat := 0x3434

/-- Modelled from the spec: state bit NILFS_VALID_FS (bit set = valid FS). -/
def NILFS_VALID_FS : Nat := 0x0001

/-- The constant NILFS_MAX_SB_SIZE of fsck0.nilfs2.c. -/
def NILFS_MAX_SB_SIZE : Nat := 1024

/-- The constant NILFS_SB_BLOCK_SIZE_SHIFT of fsck0.nilfs2.c. -/
def NILFS_SB_BLOCK_SIZE_SHIFT : Nat := 10

/-- Modelled from the spec: NILFS_SB_OFFSET_BYTES, the byte offset 1024 of the
first superblock copy (§6). -/
def NILFS_SB_OFFSET_BYTES : Nat := 1024

/-- Modelled from the spec: NILFS_SB2_OFFSET_BYTES(devsize), the byte offset of
the second superblock copy: the last 4 KiB-aligned 4 KiB unit of the device,
computed in 64 bits. -/
def NILFS_SB2_OFFSET_BYTES (devsize : Nat) : Nat :=
  (((devsize / 4096 + 18446744073709551616 - 1) % 18446744073709551616) * 4096)
    % 18446744073709551616

/-- The constant MAX_SCAN_SEGMENT of fsck0.nilfs2.c. -/
def MAX_SCAN_SEGMENT : Nat := 50

/-- Modelled from the spec: sizeof(struct nilfs_segment_summary); the header
has the fields of §6 and ends with the 64-bit `cno` that is present when the
declared size is at least 64. -/
def SEGSUM_SIZE : Nat := 64

/-- Modelled from the spec: sizeof(struct nilfs_cpfile_header), two 64-bit
counters; the declaration is not under src/. -/
def CPFILE_HEADER_SIZE : Nat := 16

/-! ## Little-endian codec -/

/-- The value of a little-endian byte string. -/
def le_value : List Nat → Nat
  | [] => 0
  | b :: bs => b % 256 + 256 * le_value bs

/-- The `n` little-endian bytes of `v`. -/
def le_bytes : Nat → Nat → List Nat
  | 0, _ => []
  | n + 1, v => v % 256 :: le_bytes n (v / 256)

/-- A memory buffer: the byte stored at each index. -/
abbrev Buf := Nat → Nat

/-- The `n` bytes of a buffer that start at `off`. -/
def buf_bytes (b : Buf) (off n : Nat) : List Nat :=
  (List.range n).map (fun i => b (off + i) % 256)

/-- Reads an `n`-byte little-endian field at `off` (le16_to_cpu and friends). -/
def get_le (b : Buf) (off n : Nat) : Nat := le_value (buf_bytes b off n)

/-- Stores `v` as an `n`-byte little-endian field at `off`. -/
def put_le (b : Buf) (off n v : Nat) : Buf :=
  fun i => if off ≤ i ∧ i < off + n then (le_bytes n v).getD (i - off) 0 else b i

/-- A byte list seen as a buffer (bytes past the end read as 0). -/
def buf_of_list (l : List Nat) : Buf := fun i => l.getD i 0

/-! ## CRC32 -/

/-- Modelled from the spec: one bit step of crc32_le (§4.2), reflected
polynomial 0xEDB88320: `(crc >> 1) ^ (crc & 1 ? 0xEDB88320 : 0)`. -/
def crc32_bit (c : Nat) : Nat :=
  (c >>> 1) ^^^ (0xEDB88320 * (c % 2))

/-- Modelled from the spec: crc32_le folds one byte into the running 32-bit
value (§4.2). -/
def crc32_byte (crc b : Nat) : Nat :=
  crc32_bit (crc32_bit (crc32_bit (crc32_bit (crc32_bit (crc32_bit (crc32_bit
    (crc32_bit ((crc % 4294967296) ^^^ (b % 256)))))))))

/-- Passes the value of `n` to `k`; the match makes an evaluator compute `n`
before it goes on, as an assignment to a C variable does. -/
def with_value {α : Type} (n : Nat) (k : Nat → α) : α :=
  match n with
  | 0 => k 0
  | m + 1 => k (m + 1)

/-- Modelled from the spec: crc32_le(seed, data, length), declared `extern` in
fsck0.nilfs2.c and defined outside src/. §4.2: seeded, reflected polynomial
0xEDB88320, no final inversion; the running value is updated byte by byte. -/
def crc32_le : Nat → List Nat → Nat
  | seed, [] => seed % 4294967296
  | seed, b :: bs => with_value (crc32_byte seed b) (fun c => crc32_le c bs)

/-! ## Device, geometry and block input -/

/-- A block device or image file: its size in bytes and the byte at each offset. -/
structure Device where
  size : Nat
  data : Nat → Nat

/-- The `len` bytes of the device that start at byte offset `off`. -/
def dev_bytes (dev : Device) (off len : Nat) : List Nat :=
  (List.range len).map (fun i => dev.data (off + i) % 256)

/-- The file-scope variables of fsck0.nilfs2.c that read_sb_info fills in. -/
structure Geometry where
  blocksize : Nat
  crc_seed : Nat
  blocks_per_segment : Nat
  first_data_block : Nat
  nsegments : Nat
  checkpoint_size : Nat
  sb_bytes : Nat
  first_checkpoint_offset : Nat
  ncheckpoints_per_block : Nat
deriving DecidableEq, Repr

/-- The function read_block: `lseek64` to `blocknr * blocksize` (a 64-bit
product, taken as a signed offset) and `read` of `size` bytes; `none` is `die`.
The device delivers the bytes it has, so the read comes short exactly when the
range passes the end of the device. -/
def read_block (G : Geometry) (dev : Device) (blocknr size : Nat) : Option (List Nat) :=
  let off := (blocknr * G.blocksize) % 18446744073709551616
  if 9223372036854775808 ≤ off then none
  else if off + size ≤ dev.size then some (dev_bytes dev off size)
  else none

/-- The function segment_start_blocknr. -/
def segment_start_blocknr (G : Geometry) (segnum : Nat) : Nat :=
  if segnum > 0 then (G.blocks_per_segment * segnum) % 18446744073709551616
  else G.first_data_block

/-! ## Segment summary -/

/-- Modelled from the spec: struct nilfs_segment_summary, the fields of §6 in
their on-disk order (two 32-bit checksums first); its declaration is not under
src/. -/
structure nilfs_segment_summary where
  ss_datasum : Nat
  ss_sumsum : Nat
  ss_magic : Nat
  ss_bytes : Nat
  ss_flags : Nat
  ss_seq : Nat
  ss_create : Nat
  ss_next : Nat
  ss_nblocks : Nat
  ss_nfinfo : Nat
  ss_sumbytes : Nat
  ss_pad : Nat
  ss_cno : Nat
deriving DecidableEq, Repr

/-- Modelled from the spec: the summary header as read from the first
SEGSUM_SIZE bytes of a block, every field decoded little-endian at its
on-disk offset. -/
def decode_segsum (b : List Nat) : nilfs_segment_summary :=
  let f := fun (off n : Nat) => le_value ((b.drop off).take n)
  { ss_datasum := f 0 4, ss_sumsum := f 4 4, ss_magic := f 8 4, ss_bytes := f 12 2,
    ss_flags := f 14 2, ss_seq := f 16 8, ss_create := f 24 8, ss_next := f 32 8,
    ss_nblocks := f 40 4, ss_nfinfo := f 44 4, ss_sumbytes := f 48 4, ss_pad := f 52 4,
    ss_cno := f 56 8 }

/-! ## Log validator -/

/-- The loop `while (--nblocks > 0)` of log_is_valid: `n` further blocks are
read and folded whole into the running CRC. -/
def log_is_valid_rest (G : Geometry) (dev : Device) : Nat → Nat → Nat → Option Nat
  | 0, _, crc => some crc
  | n + 1, blocknr, crc =>
    match read_block G dev blocknr G.blocksize with
    | none => none
    | some b => log_is_valid_rest G dev n ((blocknr + 1) % 18446744073709551616) (crc32_le crc b)

/-- The number of passes of `while (--nblocks > 0)` for `int nblocks` holding
the 32-bit value `nb`: a value of `2^31` or more is negative as an `int` and
the loop body does not run. -/
def log_rest_count (nb : Nat) : Nat := if nb < 2147483648 then nb - 1 else 0

/-- The function log_is_valid; `none` is `die` inside read_block. -/
def log_is_valid (G : Geometry) (dev : Device) (log_start : Nat)
    (ss : nilfs_segment_summary) : Option Bool :=
  if ss.ss_magic ≠ NILFS_SEGSUM_MAGIC then some false
  else if ss.ss_nblocks = 0 ∨ ss.ss_nblocks > G.blocks_per_segment then some false
  else
    match read_block G dev log_start G.blocksize with
    | none => none
    | some b0 =>
      match log_is_valid_rest G dev (log_rest_count ss.ss_nblocks)
          ((log_start + 1) % 18446744073709551616) (crc32_le G.crc_seed (b0.drop 4)) with
      | none => none
      | some crc => some (crc == ss.ss_datasum)

/-- The blocks `blocknr`, `blocknr + 1`, ... (`n` of them) as read_block
delivers them, concatenated. -/
def log_blocks (G : Geometry) (dev : Device) : Nat → Nat → Option (List Nat)
  | 0, _ => some []
  | n + 1, blocknr =>
    match read_block G dev blocknr G.blocksize with
    | none => none
    | some b =>
      match log_blocks G dev n ((blocknr + 1) % 18446744073709551616) with
      | none => none
      | some r => some (b ++ r)

/-! ## Log and segment records, segment cache -/

/-- The struct nilfs_log_info (the list links are the position in `log_list`). -/
structure nilfs_log_info where
  log_start : Nat
  nblocks : Nat
  segsum : nilfs_segment_summary
  flags : Nat
deriving DecidableEq, Repr

/-- The struct nilfs_segment_info; `log_list` is the list headed by the field
of that name, first log first. -/
structure nilfs_segment_info where
  log_list : List nilfs_log_info
  seg_start : Nat
  next : Nat
  segseq : Nat
  segnum : Nat
  nlogs : Nat
  refcnt : Nat
deriving DecidableEq, Repr

/-- The list `segment_cache`, in insertion order (nilfs_list_add appends). -/
abbrev SegmentCache := List nilfs_segment_info

/-- The entry a pointer obtained for `segnum` refers to: the first entry of
the cache with that segment number. -/
def cache_entry (cache : SegmentCache) (segnum : Nat) : Option nilfs_segment_info :=
  cache.find? (fun s => s.segnum == segnum)

/-- Applies `f` to the entry for `segnum`. -/
def cache_update (f : nilfs_segment_info → nilfs_segment_info) (segnum : Nat) :
    SegmentCache → SegmentCache
  | [] => []
  | s :: rest =>
    if s.segnum = segnum then f s :: rest else s :: cache_update f segnum rest

/-- The function get_segment_info: `refcnt++` on the entry. -/
def get_segment_info (cache : SegmentCache) (segnum : Nat) : SegmentCache :=
  cache_update (fun s => { s with refcnt := s.refcnt + 1 }) segnum cache

/-- The function put_segment_info: `assert(refcnt > 0); refcnt--`; `none` is
the failed assertion. -/
def put_segment_info (cache : SegmentCache) (segnum : Nat) : Option SegmentCache :=
  match cache_entry cache segnum with
  | none => none
  | some s =>
    if s.refcnt > 0 then
      some (cache_update (fun s => { s with refcnt := s.refcnt - 1 }) segnum cache)
    else none

/-- The function lookup_segment: the first entry with that segnum, with its
reference count raised. -/
def lookup_segment (cache : SegmentCache) (segnum : Nat) :
    Option (SegmentCache × nilfs_segment_info) :=
  match cache_entry cache segnum with
  | none => none
  | some s => some (get_segment_info cache segnum, { s with refcnt := s.refcnt + 1 })

/-- The do-while loop of load_segment. On entry `ss` is the validated summary of
the log at `blocknr`; the result is that log followed by the further logs that
are linked. Every pass moves on by `nblocks >= 1` blocks, so
`blocks_per_segment` passes reach `end` unless the 64-bit block number wraps;
the walk is given that many passes as fuel and `none` also stands for a walk
that does not end within them. -/
def load_logs (G : Geometry) (dev : Device) (segseq endb : Nat) :
    Nat → Nat → nilfs_segment_summary → Option (List nilfs_log_info)
  | 0, _, _ => none
  | fuel + 1, blocknr, ss =>
    let loginfo : nilfs_log_info :=
      { log_start := blocknr, nblocks := ss.ss_nblocks, segsum := ss, flags := ss.ss_flags }
    let next := (blocknr + ss.ss_nblocks) % 18446744073709551616
    if next ≥ endb then some [loginfo]
    else
      match read_block G dev next SEGSUM_SIZE with
      | none => none
      | some b =>
        match log_is_valid G dev next (decode_segsum b) with
        | none => none
        | some v =>
          if v && (decode_segsum b).ss_seq == segseq then
            (load_logs G dev segseq endb fuel next (decode_segsum b)).map (fun r => loginfo :: r)
          else some [loginfo]

/-- The part of load_segment that runs when the segment is not cached: the
first summary is read and validated and the logs are walked. The result is the
new cache entry and whether the segment was loaded; after a failed validation
the entry stays in the cache with its reference dropped, holding the one log
record that was allocated for the first block. -/
def read_segment (G : Geometry) (dev : Device) (segnum : Nat) :
    Option (nilfs_segment_info × Bool) :=
  let blocknr := segment_start_blocknr G segnum
  match read_block G dev blocknr SEGSUM_SIZE with
  | none => none
  | some b =>
    let ss := decode_segsum b
    match log_is_valid G dev blocknr ss with
    | none => none
    | some false =>
      some ({ log_list := [{ log_start := blocknr, nblocks := 0, segsum := ss, flags := 0 }],
              seg_start := blocknr, next := 0, segseq := 0, segnum := segnum,
              nlogs := 0, refcnt := 0 }, false)
    | some true =>
      match load_logs G dev ss.ss_seq ((blocknr + G.blocks_per_segment) % 18446744073709551616)
          G.blocks_per_segment blocknr ss with
      | none => none
      | some logs =>
        some ({ log_list := logs, seg_start := blocknr, next := ss.ss_next,
                segseq := ss.ss_seq, segnum := segnum, nlogs := logs.length,
                refcnt := 1 }, true)

/-- The function load_segment: the new cache and the segment returned (`none`
for NULL); the outer `none` is a run that does not return. -/
def load_segment (G : Geometry) (dev : Device) (cache : SegmentCache) (segnum : Nat) :
    Option (SegmentCache × Option nilfs_segment_info) :=
  match lookup_segment cache segnum with
  | some (c, s) => some (c, some s)
  | none =>
    match read_segment G dev segnum with
    | none => none
    | some (s, true) => some (cache ++ [s], some s)
    | some (s, false) => some (cache ++ [s], none)

/-- The function lookup_log. -/
def lookup_log (seginfo : nilfs_segment_info) (blocknr : Nat) : Option nilfs_log_info :=
  seginfo.log_list.find? (fun l => l.log_start == blocknr)

/-- The function first_log. -/
def first_log (seginfo : nilfs_segment_info) : Option nilfs_log_info :=
  seginfo.log_list.head?

/-- The function last_log. -/
def last_log (seginfo : nilfs_segment_info) : Option nilfs_log_info :=
  seginfo.log_list.getLast?

/-- The test `flags & NILFS_SS_SR`. -/
def has_sr (l : nilfs_log_info) : Bool := l.flags &&& NILFS_SS_SR != 0

/-- The function lookup_last_super_root: the list is walked from its last log
backwards. -/
def lookup_last_super_root (seginfo : nilfs_segment_info) : Option nilfs_log_info :=
  seginfo.log_list.reverse.find? has_sr

/-- The function log_length, in 64-bit arithmetic. -/
def log_length (seginfo : nilfs_segment_info) : Nat :=
  match seginfo.log_list.getLast? with
  | none => 0
  | some l =>
    ((l.log_start + 18446744073709551616 - seginfo.seg_start) % 18446744073709551616
      + l.nblocks) % 18446744073709551616

/-! ## Rollback engine -/

/-- The struct nilfs_log_ref. -/
structure nilfs_log_ref where
  blocknr : Nat
  seqnum : Nat
  cno : Nat
  ctime : Nat
deriving DecidableEq, Repr

/-- The local variables of find_latest_super_root together with the cache. -/
structure ScanState where
  cache : SegmentCache
  segnum : Nat
  seginfo : Option nilfs_segment_info
  seginfo_sr : Option nilfs_segment_info
  log_sr : Option nilfs_log_info
  cont : Bool
  invert : Nat
deriving DecidableEq, Repr

/-- What one pass of the scan loop leaves: the state for the next pass, or the
segment and log of the `return` inside the loop. -/
inductive ScanOutcome where
  | running (st : ScanState)
  | found (cache : SegmentCache) (seginfo : nilfs_segment_info) (log : nilfs_log_info)
deriving DecidableEq, Repr

/-- The step `segnum = (segnum == 0) ? nsegments - 1 : segnum - 1`. -/
def prev_segnum (G : Geometry) (segnum : Nat) : Nat :=
  if segnum = 0 then (G.nsegments + 18446744073709551616 - 1) % 18446744073709551616
  else segnum - 1

/-- A put_segment_info through a pointer variable; a NULL pointer faults. -/
def put_ptr (cache : SegmentCache) (p : Option nilfs_segment_info) : Option SegmentCache :=
  match p with
  | none => none
  | some s => put_segment_info cache s.segnum

/-- The statement `if (p) put_segment_info(p)`. -/
def put_if (cache : SegmentCache) (p : Option nilfs_segment_info) : Option SegmentCache :=
  match p with
  | none => some cache
  | some s => put_segment_info cache s.segnum

/-- One pass of the `for` loop of find_latest_super_root. -/
def scan_step (G : Geometry) (dev : Device) (st : ScanState) : Option ScanOutcome :=
  let segnum := prev_segnum G st.segnum
  match load_segment G dev st.cache segnum with
  | none => none
  | some (c, none) =>
    match (if st.log_sr.isSome && st.cont then
            (put_ptr c st.seginfo_sr).map (fun c1 => (c1, none, none))
          else some (c, st.seginfo_sr, st.log_sr)) with
    | none => none
    | some (c1, sr1, lsr1) =>
      (put_if c1 st.seginfo).map (fun c2 =>
        ScanOutcome.running
          { cache := c2, segnum := segnum, seginfo := none, seginfo_sr := sr1,
            log_sr := lsr1, cont := false, invert := st.invert })
  | some (c, some seginfo2) =>
    match st.seginfo with
    | none =>
      match (if st.log_sr.isSome then put_ptr c st.seginfo_sr else some c) with
      | none => none
      | some c1 =>
        match lookup_last_super_root seginfo2 with
        | some l =>
          some (ScanOutcome.running
            { cache := get_segment_info c1 seginfo2.segnum, segnum := segnum,
              seginfo := some seginfo2, seginfo_sr := some seginfo2, log_sr := some l,
              cont := st.cont, invert := st.invert })
        | none =>
          some (ScanOutcome.running
            { cache := c1, segnum := segnum, seginfo := some seginfo2,
              seginfo_sr := st.seginfo_sr, log_sr := none,
              cont := st.cont, invert := st.invert })
    | some seginfo =>
      let cont1 := st.cont && ((seginfo2.segseq + 1) % 18446744073709551616 == seginfo.segseq)
      let wrapped := decide (seginfo2.segseq > seginfo.segseq)
      let invert1 := if wrapped then st.invert + 1 else st.invert
      match (if wrapped && st.log_sr.isSome then
              (put_ptr c st.seginfo_sr).map (fun c1 => (c1, none, none))
            else some (c, st.seginfo_sr, st.log_sr)) with
      | none => none
      | some (c1, sr1, lsr1) =>
        match (if invert1 != 0 && lsr1.isNone then lookup_last_super_root seginfo2
               else none) with
        | some l =>
          (put_segment_info c1 seginfo.segnum).map (fun c2 => ScanOutcome.found c2 seginfo2 l)
        | none =>
          match (if !cont1 && lsr1.isNone then
                  (match lookup_last_super_root seginfo2 with
                   | some l => (get_segment_info c1 seginfo2.segnum, some seginfo2, some l)
                   | none => (c1, sr1, none))
                else (c1, sr1, lsr1)) with
          | (c2, sr2, lsr2) =>
            (put_segment_info c2 seginfo.segnum).map (fun c3 =>
              ScanOutcome.running
                { cache := c3, segnum := segnum, seginfo := some seginfo2, seginfo_sr := sr2,
                  log_sr := lsr2, cont := cont1, invert := invert1 })

/-- The `for` loop of find_latest_super_root, `n` passes. -/
def scan_loop (G : Geometry) (dev : Device) : Nat → ScanState → Option ScanOutcome
  | 0, st => some (ScanOutcome.running st)
  | n + 1, st =>
    match scan_step G dev st with
    | none => none
    | some (ScanOutcome.found c s l) => some (ScanOutcome.found c s l)
    | some (ScanOutcome.running st1) => scan_loop G dev n st1

/-- The statements of find_latest_super_root before the loop. -/
def scan_init (G : Geometry) (dev : Device) (cache : SegmentCache) (segnum blocknr : Nat) :
    Option ScanState :=
  match load_segment G dev cache segnum with
  | none => none
  | some (c, none) =>
    some { cache := c, segnum := segnum, seginfo := none, seginfo_sr := none,
           log_sr := none, cont := false, invert := 0 }
  | some (c, some seginfo) =>
    let cont := decide (blocknr < (seginfo.seg_start + log_length seginfo) % 18446744073709551616)
    match lookup_last_super_root seginfo with
    | some l =>
      some { cache := get_segment_info c seginfo.segnum, segnum := segnum,
             seginfo := some seginfo, seginfo_sr := some seginfo, log_sr := some l,
             cont := cont, invert := 0 }
    | none =>
      some { cache := c, segnum := segnum, seginfo := some seginfo, seginfo_sr := none,
             log_sr := none, cont := cont, invert := 0 }

/-- The statements of find_latest_super_root after the loop. -/
def scan_finish (st : ScanState) :
    Option (SegmentCache × Option (nilfs_segment_info × nilfs_log_info)) :=
  match put_if st.cache st.seginfo with
  | none => none
  | some c1 =>
    match (if st.cont then none else st.log_sr) with
    | some l =>
      match st.seginfo_sr with
      | some s => some (c1, some (s, l))
      | none => none
    | none => (put_if c1 st.seginfo_sr).map (fun c2 => (c2, none))

/-- The function find_latest_super_root: the cache it leaves and the segment
and log it returns (`none` for NULL); the outer `none` is a run that does not
return. -/
def find_latest_super_root (G : Geometry) (dev : Device) (cache : SegmentCache)
    (segnum blocknr : Nat) :
    Option (SegmentCache × Option (nilfs_segment_info × nilfs_log_info)) :=
  match scan_init G dev cache segnum blocknr with
  | none => none
  | some st0 =>
    match scan_loop G dev MAX_SCAN_SEGMENT st0 with
    | none => none
    | some (ScanOutcome.found c s l) => some (c, some (s, l))
    | some (ScanOutcome.running st) => scan_finish st

/-- The segments that the loop loads, pass by pass (`none` for a load that
returned NULL), up to the pass that returns or does not come back. -/
def scan_loads (G : Geometry) (dev : Device) :
    Nat → ScanState → List (Option nilfs_segment_info)
  | 0, _ => []
  | n + 1, st =>
    match load_segment G dev st.cache (prev_segnum G st.segnum) with
    | none => []
    | some (_, r) =>
      r :: (match scan_step G dev st with
            | some (ScanOutcome.running st1) => scan_loads G dev n st1
            | _ => [])

/-- The segments that find_latest_super_root loads, in the order of the calls
to load_segment: the start segment first, then one per pass of the loop. -/
def search_loads (G : Geometry) (dev : Device) (cache : SegmentCache)
    (segnum blocknr : Nat) : List (Option nilfs_segment_info) :=
  match load_segment G dev cache segnum, scan_init G dev cache segnum blocknr with
  | some (_, r), some st0 => r :: scan_loads G dev MAX_SCAN_SEGMENT st0
  | _, _ => []

/-- The function test_latest_log: the cache it leaves, its return value and
the log reference (ctime filled in on success). A zero `blocks_per_segment`
faults in the division. -/
def test_latest_log (G : Geometry) (dev : Device) (cache : SegmentCache)
    (log_ref : nilfs_log_ref) : Option (SegmentCache × Int × nilfs_log_ref) :=
  if G.blocks_per_segment = 0 then none
  else
    match load_segment G dev cache (log_ref.blocknr / G.blocks_per_segment) with
    | none => none
    | some (c, none) => some (c, -1, log_ref)
    | some (c, some seginfo) =>
      let r : Int × nilfs_log_ref :=
        match lookup_log seginfo log_ref.blocknr with
        | none => (-1, log_ref)
        | some loginfo =>
          if seginfo.segseq == log_ref.seqnum && has_sr loginfo then
            (0, { log_ref with ctime := loginfo.segsum.ss_create })
          else (-1, log_ref)
      (put_segment_info c seginfo.segnum).map (fun c1 => (c1, r.1, r.2))

/-! ## Superblock -/

/-- Modelled from the spec: struct nilfs_super_block, the offset and width of
each field in the 1024-byte on-disk copy; its declaration (nilfs2_ondisk.h) is
not under src/. A superblock in memory is the buffer `sbp`. -/
structure SbField where
  off : Nat
  width : Nat
deriving DecidableEq, Repr

/-- Modelled from the spec: field s_magic (16 bits). -/
def F_magic : SbField := ⟨6, 2⟩
/-- Modelled from the spec: field s_bytes, the declared length. -/
def F_bytes : SbField := ⟨8, 2⟩
/-- Modelled from the spec: field s_crc_seed. -/
def F_crc_seed : SbField := ⟨12, 4⟩
/-- Modelled from the spec: field s_sum, the stored CRC. -/
def F_sum : SbField := ⟨16, 4⟩
/-- Modelled from the spec: field s_log_block_size. -/
def F_log_block_size : SbField := ⟨20, 4⟩
/-- Modelled from the spec: field s_nsegments. -/
def F_nsegments : SbField := ⟨24, 8⟩
/-- Modelled from the spec: field s_first_data_block. -/
def F_first_data_block : SbField := ⟨40, 8⟩
/-- Modelled from the spec: field s_blocks_per_segment. -/
def F_blocks_per_segment : SbField := ⟨48, 4⟩
/-- Modelled from the spec: field s_last_cno. -/
def F_last_cno : SbField := ⟨56, 8⟩
/-- Modelled from the spec: field s_last_pseg. -/
def F_last_pseg : SbField := ⟨64, 8⟩
/-- Modelled from the spec: field s_last_seq. -/
def F_last_seq : SbField := ⟨72, 8⟩
/-- Modelled from the spec: field s_wtime. -/
def F_wtime : SbField := ⟨104, 8⟩
/-- Modelled from the spec: field s_state. -/
def F_state : SbField := ⟨116, 2⟩
/-- Modelled from the spec: field s_checkpoint_size. -/
def F_checkpoint_size : SbField := ⟨148, 2⟩

/-- Reads a superblock field (le16_to_cpu, le32_to_cpu, le64_to_cpu). -/
def sb_get (sbp : Buf) (f : SbField) : Nat := get_le sbp f.off f.width

/-- Stores a superblock field (cpu_to_le16, cpu_to_le32, cpu_to_le64). -/
def sb_set (sbp : Buf) (f : SbField) (v : Nat) : Buf := put_le sbp f.off f.width v

/-- The function nilfs_sb_is_valid of fsck0.nilfs2.c; s_sum is zeroed for the
computation and restored, so the buffer is left as it was. -/
def nilfs_sb_is_valid (sbp : Buf) (check_crc : Bool) : Bool :=
  if sb_get sbp F_magic ≠ NILFS_SUPER_MAGIC then false
  else if sb_get sbp F_bytes > NILFS_MAX_SB_SIZE then false
  else if !check_crc then true
  else
    crc32_le (sb_get sbp F_crc_seed) (buf_bytes (sb_set sbp F_sum 0) 0 (sb_get sbp F_bytes))
      == sb_get sbp F_sum

/-- The function read_sb_info. `1 << (s_log_block_size + 10)` is an `int`
shift, defined for a shift count below 31, and the two checkpoint figures
divide by `checkpoint_size`; `none` is a run that overflows the shift or
divides by zero. -/
def read_sb_info (sbp : Buf) : Option Geometry :=
  let shift := (sb_get sbp F_log_block_size + 10) % 4294967296
  let checkpoint_size := sb_get sbp F_checkpoint_size
  if 31 ≤ shift then none
  else if checkpoint_size = 0 then none
  else
    some { blocksize := 2 ^ shift,
           crc_seed := sb_get sbp F_crc_seed,
           blocks_per_segment := sb_get sbp F_blocks_per_segment,
           first_data_block := sb_get sbp F_first_data_block,
           nsegments := sb_get sbp F_nsegments,
           checkpoint_size := checkpoint_size,
           sb_bytes := sb_get sbp F_bytes,
           first_checkpoint_offset := (CPFILE_HEADER_SIZE + checkpoint_size - 1) / checkpoint_size,
           ncheckpoints_per_block := 2 ^ shift / checkpoint_size }

/-- The function commit_super_block; `now` is the value of `time(NULL)`. -/
def commit_super_block (G : Geometry) (sbp : Buf) (log_ref : nilfs_log_ref) (now : Nat) : Buf :=
  let b1 := sb_set sbp F_last_pseg log_ref.blocknr
  let b2 := sb_set b1 F_last_seq log_ref.seqnum
  let b3 := sb_set b2 F_last_cno log_ref.cno
  let b4 := sb_set b3 F_wtime now
  let b5 := sb_set b4 F_state (sb_get b4 F_state &&& (4294967295 - NILFS_VALID_FS))
  let b6 := sb_set b5 F_sum 0
  sb_set b6 F_sum (crc32_le G.crc_seed (buf_bytes b6 0 G.sb_bytes))

/-- What the system calls of one superblock write deliver: whether `lseek64`
succeeds, the value `write` returns, and whether `fsync` succeeds. -/
structure WriteOutcome where
  seek_ok : Bool
  count : Int
  fsync_ok : Bool
deriving DecidableEq, Repr

/-- What the system calls of nilfs_write_super_block deliver. -/
structure CommitCalls where
  ioctl_ok : Bool
  primary : WriteOutcome
  secondary : WriteOutcome
deriving DecidableEq, Repr

/-- The device after `write` has stored the first `n` bytes of `sbp` at `off`. -/
def dev_write (dev : Device) (off n : Nat) (sbp : Buf) : Device :=
  { size := dev.size,
    data := fun i => if off ≤ i ∧ i < off + n then sbp (i - off) % 256 else dev.data i }

/-- One `lseek64(..) < 0 || write(..) < sb_bytes || fsync(..) < 0` of
nilfs_write_super_block: the device afterwards and whether the whole
condition is false (the copy was written). -/
def write_copy (G : Geometry) (dev : Device) (off : Nat) (sbp : Buf) (o : WriteOutcome) :
    Device × Bool :=
  if !o.seek_ok then (dev, false)
  else
    let dev1 := dev_write dev off (min o.count.toNat G.sb_bytes) sbp
    if o.count < (G.sb_bytes : Int) then (dev1, false)
    else (dev1, o.fsync_ok)

/-- The function nilfs_write_super_block: its return value and the device
afterwards. -/
def nilfs_write_super_block (G : Geometry) (calls : CommitCalls) (dev : Device) (sbp : Buf) :
    Int × Device :=
  if !calls.ioctl_ok then (-1, dev)
  else
    let w1 := write_copy G dev NILFS_SB_OFFSET_BYTES sbp calls.primary
    let ret : Int := if w1.2 then 0 else -1
    let sb2_offset := NILFS_SB2_OFFSET_BYTES dev.size
    if sb2_offset < (G.nsegments * G.blocks_per_segment * G.blocksize) % 18446744073709551616 then
      (ret, w1.1)
    else
      let w2 := write_copy G w1.1 sb2_offset sbp calls.secondary
      (if w2.2 then 0 else ret, w2.1)

/-! ## Predicates used in the statements -/

/-- The reference count of the entry for `segnum`, 0 when there is none. -/
def refcnt_of (cache : SegmentCache) (segnum : Nat) : Nat :=
  match cache_entry cache segnum with
  | none => 0
  | some s => s.refcnt

/-- The logs of a list follow each other: the first starts at `b`, holds
between 1 and `bps` blocks, and the next starts right behind it (in 64 bits). -/
def log_chain (bps : Nat) : Nat → List nilfs_log_info → Prop
  | _, [] => True
  | b, l :: rest =>
    l.log_start = b ∧ 1 ≤ l.nblocks ∧ l.nblocks ≤ bps ∧
      log_chain bps ((b + l.nblocks) % 18446744073709551616) rest

/-- The value find_latest_super_root returns, without the cache: `some none`
is NULL and `none` a run that does not return. -/
def find_latest_super_root_ret (G : Geometry) (dev : Device) (cache : SegmentCache)
    (segnum blocknr : Nat) : Option (Option (nilfs_segment_info × nilfs_log_info)) :=
  (find_latest_super_root G dev cache segnum blocknr).map (fun p => p.2)

/-- The return value of test_latest_log, without the cache. -/
def test_latest_log_ret (G : Geometry) (dev : Device) (cache : SegmentCache)
    (log_ref : nilfs_log_ref) : Option (Int × nilfs_log_ref) :=
  (test_latest_log G dev cache log_ref).map (fun p => p.2)

/-- What one pass of the scan loop decides from the segment `r` that it
loaded, reference counts apart: the local variables for the next pass (the
cache is passed through untouched) or the segment and log it returns. -/
def scan_decide (G : Geometry) (st : ScanState) (r : Option nilfs_segment_info) : ScanOutcome :=
  let segnum := prev_segnum G st.segnum
  match r with
  | none =>
    let discard := st.log_sr.isSome && st.cont
    ScanOutcome.running
      { st with segnum := segnum, seginfo := none,
                seginfo_sr := if discard then none else st.seginfo_sr,
                log_sr := if discard then none else st.log_sr, cont := false }
  | some seginfo2 =>
    match st.seginfo with
    | none =>
      ScanOutcome.running
        { st with segnum := segnum, seginfo := some seginfo2,
                  seginfo_sr := if (lookup_last_super_root seginfo2).isSome then some seginfo2
                                else st.seginfo_sr,
                  log_sr := lookup_last_super_root seginfo2 }
    | some seginfo =>
      let cont1 := st.cont && ((seginfo2.segseq + 1) % 18446744073709551616 == seginfo.segseq)
      let wrapped := decide (seginfo2.segseq > seginfo.segseq)
      let invert1 := if wrapped then st.invert + 1 else st.invert
      let sr1 := if wrapped && st.log_sr.isSome then none else st.seginfo_sr
      let lsr1 := if wrapped then none else st.log_sr
      match (if invert1 != 0 && lsr1.isNone then lookup_last_super_root seginfo2 else none) with
      | some l => ScanOutcome.found st.cache seginfo2 l
      | none =>
        let adopt := !cont1 && lsr1.isNone && (lookup_last_super_root seginfo2).isSome
        ScanOutcome.running
          { st with segnum := segnum, seginfo := some seginfo2,
                    seginfo_sr := if adopt then some seginfo2 else sr1,
                    log_sr := if !cont1 && lsr1.isNone then lookup_last_super_root seginfo2
                              else lsr1,
                    cont := cont1, invert := invert1 }

/-- The outcome with the cache left out of account. -/
def ScanOutcome.forget : ScanOutcome → ScanOutcome
  | ScanOutcome.running st => ScanOutcome.running { st with cache := [] }
  | ScanOutcome.found _ s l => ScanOutcome.found [] s l

/-- The number of references the local variables hold on segment `n`: one
through `seginfo`, one through `seginfo_sr` while a candidate log is held. -/
def held (st : ScanState) (n : Nat) : Nat :=
  (match st.seginfo with
   | some s => if s.segnum = n then 1 else 0
   | none => 0) +
  (match st.log_sr, st.seginfo_sr with
   | some _, some s => if s.segnum = n then 1 else 0
   | _, _ => 0)

/-- The reference counts cover the references the local variables hold, and a
candidate log comes with its segment. -/
def RefInv (st : ScanState) : Prop :=
  (st.log_sr.isSome → st.seginfo_sr.isSome) ∧ ∀ n, held st n ≤ refcnt_of st.cache n

/-- The cache with the reference counts left out of account. -/
def cache_shape (c : SegmentCache) : SegmentCache :=
  c.map (fun s => { s with refcnt := 0 })

/-- The cache an outcome carries. -/
def ScanOutcome.cache : ScanOutcome → SegmentCache
  | ScanOutcome.running st => st.cache
  | ScanOutcome.found c _ _ => c

/-- A run of loads that leaves a held candidate alone: a load that returns NULL
is followed by such loads only, and a segment that loads has a sequence number
not above that of the current segment `cur`. -/
def calm_loads : Option nilfs_segment_info → List (Option nilfs_segment_info) → Bool
  | _, [] => true
  | _, none :: rest => calm_loads none rest
  | some cur, some s :: rest => decide (s.segseq ≤ cur.segseq) && calm_loads (some s) rest
  | none, some _ :: _ => false

/-- The candidate held in `seginfo_sr` and `log_sr` fits the loads `hist` made
so far: it is the last SR log of a segment that was loaded, and no segment
loaded after it, the current one included, has a greater sequence number. -/
def cand_ok (st : ScanState) (hist : List (Option nilfs_segment_info)) : Prop :=
  ∀ l s, st.log_sr = some l → st.seginfo_sr = some s →
    lookup_last_super_root s = some l ∧
    (∀ cur, st.seginfo = some cur → cur.segseq ≤ s.segseq) ∧
    ∃ pre post, hist = pre ++ some s :: post ∧ ∀ t, some t ∈ post → t.segseq ≤ s.segseq

/-- The record is what read_segment loads from the device for its segnum. -/
def disk_segment (G : Geometry) (dev : Device) (s : nilfs_segment_info) : Prop :=
  read_segment G dev s.segnum = some ({ s with refcnt := 1 }, true)

/-- A record that holds an SR log is what the device holds for its segnum. -/
def sr_on_disk (G : Geometry) (dev : Device) (s : nilfs_segment_info) : Prop :=
  (lookup_last_super_root s).isSome = true → disk_segment G dev s

/-! ## Sample images

Small volumes used to evaluate the engine: 1 KiB blocks, 4 blocks per segment,
64 segments, every block zero except the summary blocks listed. -/

/-- The 64 summary bytes of a log with the given checksum, flags, sequence
number and block count (declared size 64, no finfo). -/
def sample_summary (datasum flags seq nblocks : Nat) : List Nat :=
  le_bytes 4 datasum ++ le_bytes 4 0 ++ le_bytes 4 NILFS_SEGSUM_MAGIC ++ le_bytes 2 64 ++
  le_bytes 2 flags ++ le_bytes 8 seq ++ le_bytes 8 0 ++ le_bytes 8 0 ++ le_bytes 4 nblocks ++
  le_bytes 4 0 ++ le_bytes 4 64 ++ le_bytes 4 0 ++ le_bytes 8 0

/-- A device of `size` bytes that is zero except for the first 64 bytes of the
listed blocks, each given by its block number and these bytes. -/
def sample_device (blocksize size : Nat) (blocks : List (Nat × List Nat)) : Device :=
  { size := size,
    data := fun off =>
      if off % blocksize < 64 then
        match blocks.find? (fun p => p.1 == off / blocksize) with
        | some p => p.2.getD (off % blocksize) 0
        | none => 0
      else 0 }

/-- The log record load_segment builds for a sample summary at `blocknr`. -/
def sample_log (blocknr datasum flags seq nblocks : Nat) : nilfs_log_info :=
  { log_start := blocknr, nblocks := nblocks,
    segsum := decode_segsum (sample_summary datasum flags seq nblocks), flags := flags }

/-- The segment record load_segment returns for freshly loaded sample logs. -/
def sample_segment (segnum seg_start seq : Nat) (logs : List nilfs_log_info) :
    nilfs_segment_info :=
  { log_list := logs, seg_start := seg_start, next := 0, segseq := seq, segnum := segnum,
    nlogs := logs.length, refcnt := 1 }

/-- The geometry of the sample volumes. -/
def sample_geometry : Geometry :=
  { blocksize := 1024, crc_seed := 0x5eed, blocks_per_segment := 4, first_data_block := 1,
    nsegments := 64, checkpoint_size := 192, sb_bytes := 280, first_checkpoint_offset := 1,
    ncheckpoints_per_block := 5 }

/-- The sample geometry with segment 0 starting at block 2. -/
def sample_geometry_fdb2 : Geometry := { sample_geometry with first_data_block := 2 }

/-- A superblock of the sample volume: it declares the sample geometry, a clean
state, and a last log at block 240 (segment 60) under sequence number 10. -/
def sample_sb : Buf :=
  sb_set (sb_set (sb_set (sb_set (sb_set (sb_set (sb_set (sb_set (sb_set (sb_set (sb_set
    (sb_set (fun _ => 0) F_magic NILFS_SUPER_MAGIC) F_bytes 280) F_crc_seed 0x5eed)
    F_log_block_size 0) F_nsegments 64) F_first_data_block 1) F_blocks_per_segment 4)
    F_checkpoint_size 192) F_state 1) F_last_pseg 240) F_last_seq 10) F_last_cno 3

/-- Ring wrap: segments 3, 2, 1 hold sequence numbers 10, 9, 8 and segment 0
holds 1,000,000 with an SR log. -/
def image_wrap : Device :=
  sample_device 1024 270336
    [(12, sample_summary 3274782164 3 10 1), (8, sample_summary 1903012778 3 9 1),
     (4, sample_summary 2844337087 3 8 1), (1, sample_summary 1262077798 7 1000000 1)]

/-- Discontinuous sequence numbers: segment 3 holds 100 with an SR log,
segment 2 holds 5, segment 1 holds 50 with an SR log. -/
def image_jump : Device :=
  sample_device 1024 270336
    [(12, sample_summary 3482190225 7 100 1), (8, sample_summary 3582777489 3 5 1),
     (4, sample_summary 2836166428 7 50 1)]

/-- Torn tail: segment 60 is zeroed and segment 59 holds sequence number 9 with
an SR log. -/
def image_torn : Device :=
  sample_device 1024 270336 [(236, sample_summary 2497147040 7 9 1)]

/-- Torn tail with a gap: as image_torn, with segment 58 zeroed and segment 57
holding sequence number 5 with an SR log. -/
def image_torn_gap : Device :=
  sample_device 1024 270336
    [(236, sample_summary 2497147040 7 9 1), (228, sample_summary 808846235 7 5 1)]

/-- Unbroken chain: segment 60 holds sequence number 10 without an SR log and
segment 59 holds 9 with an SR log. -/
def image_chain : Device :=
  sample_device 1024 270336
    [(240, sample_summary 3274782164 3 10 1), (236, sample_summary 2497147040 7 9 1)]

/-- Broken chain: segment 60 holds sequence number 10 without an SR log and
segment 59 holds 7 with an SR log. -/
def image_broken : Device :=
  sample_device 1024 270336
    [(240, sample_summary 3274782164 3 10 1), (236, sample_summary 1519261168 7 7 1)]

/-- Long first segment (first data block 2): segment 0 holds a 3-block log at
block 2 and an SR log at block 5, both under sequence number 20. -/
def image_long0 : Device :=
  sample_device 1024 270336
    [(2, sample_summary 2630275991 3 20 3), (5, sample_summary 200291412 7 20 1)]

/-- System calls of a superblock write that all succeed. -/
def calls_ok : CommitCalls :=
  { ioctl_ok := true, primary := ⟨true, 280, true⟩, secondary := ⟨true, 280, true⟩ }

/-- System calls of a superblock write in which the second `write` fails. -/
def calls_second_fails : CommitCalls :=
  { ioctl_ok := true, primary := ⟨true, 280, true⟩, secondary := ⟨true, -1, true⟩ }

/-- The sample superblock for the geometry with first data block 2. -/
def sample_sb_fdb2 : Buf := sb_set sample_sb F_first_data_block 2

/-- The image after the superblock `sbp`, committed for `log_ref` at time `now`,
has been written to both slots. -/
def committed (G : Geometry) (sbp : Buf) (dev : Device) (log_ref : nilfs_log_ref)
    (now : Nat) : Device :=
  (nilfs_write_super_block G calls_ok dev (commit_super_block G sbp log_ref now)).2

/-! ## Superblock pair: the two readers and the library writer -/

/-- Modelled from the spec: field s_uuid (16 bytes). -/
def F_uuid : SbField := ⟨152, 16⟩

/-- Modelled from the spec: field s_volume_name (80 bytes). -/
def F_volume_name : SbField := ⟨168, 80⟩

/-- Modelled from the spec: field s_c_interval, the commit interval. -/
def F_c_interval : SbField := ⟨248, 4⟩

/-- Modelled from the spec: field s_c_block_max. -/
def F_c_block_max : SbField := ⟨252, 4⟩

/-- Modelled from the spec: field s_feature_compat. -/
def F_feature_compat : SbField := ⟨256, 8⟩

/-- Modelled from the spec: field s_feature_compat_ro. -/
def F_feature_compat_ro : SbField := ⟨264, 8⟩

/-- Modelled from the spec: field s_feature_incompat. -/
def F_feature_incompat : SbField := ⟨272, 8⟩

/-- Modelled from the spec: the mask bits NILFS_SB_LABEL, NILFS_SB_COMMIT_INTERVAL,
NILFS_SB_BLOCK_MAX, NILFS_SB_UUID and NILFS_SB_FEATURES of nilfs_sb_write (§4.4).
The header that gives them their values (nilfs.h) is not under src/ and the
spec names the bits only, so the values are left open. -/
structure SbMaskBits where
  NILFS_SB_LABEL : Nat
  NILFS_SB_COMMIT_INTERVAL : Nat
  NILFS_SB_BLOCK_MAX : Nat
  NILFS_SB_UUID : Nat
  NILFS_SB_FEATURES : Nat
deriving DecidableEq, Repr

/-- The expression `x << s` for a 64-bit unsigned `x`: defined for a count
below 64, and the bits shifted out at the top are lost. -/
def shl64 (x s : Nat) : Option Nat :=
  if s < 64 then some ((x * 2 ^ s) % 18446744073709551616) else none

/-- The kind of file behind the descriptor, as `fstat` reports it. -/
inductive FileKind where
  | blk
  | reg
  | other
deriving DecidableEq, Repr

/-- What the calls around the superblock reads deliver: whether `fstat`
succeeds and the kind of file it reports, whether `ioctl(BLKGETSIZE64)`
succeeds, and the bytes the two buffers hold when `malloc` hands them out. -/
structure SbCalls where
  fstat_ok : Bool
  kind : FileKind
  ioctl_ok : Bool
  heap0 : Buf
  heap1 : Buf

/-- The bytes of the device from `off` on, as a buffer. -/
def dev_slot (dev : Device) (off : Nat) : Buf := fun i => dev.data (off + i) % 256

/-- The call `pread(devfd, buf, count, offset)`: the value returned and the
buffer afterwards. An offset that is negative as an `off_t` is refused;
otherwise the device delivers the bytes it has from there on, `count` at most,
and the rest of the buffer stays as it was. -/
def pread (dev : Device) (buf : Buf) (count off : Nat) : Int × Buf :=
  if 9223372036854775808 ≤ off then (-1, buf)
  else
    (((min count (dev.size - off) : Nat) : Int),
      fun i => if i < min count (dev.size - off) then dev.data (off + i) % 256 else buf i)

/-- The function nilfs_sb_check_sum of lib/sb.c; s_sum is zeroed for the
computation and restored. -/
def Lib.nilfs_sb_check_sum (sbp : Buf) : Nat :=
  crc32_le (sb_get sbp F_crc_seed) (buf_bytes (sb_set sbp F_sum 0) 0 (sb_get sbp F_bytes))

/-- The function nilfs_sb_is_valid of lib/sb.c. -/
def Lib.nilfs_sb_is_valid (sbp : Buf) (check_crc : Bool) : Bool :=
  if sb_get sbp F_magic ≠ NILFS_SUPER_MAGIC then false
  else if sb_get sbp F_bytes > NILFS_MAX_SB_SIZE then false
  else if !check_crc then true
  else Lib.nilfs_sb_check_sum sbp == sb_get sbp F_sum

/-- The function nilfs_sb2_offset_is_too_small of lib/sb.c: a 64-bit product,
shifted by `s_log_block_size + 10` taken in 32 bits; `none` is a shift count of
64 or more, for which the expression has no value. -/
def Lib.nilfs_sb2_offset_is_too_small (sbp : Buf) (sb2_offset : Nat) : Option Bool :=
  (shl64 ((sb_get sbp F_nsegments * sb_get sbp F_blocks_per_segment) % 18446744073709551616)
      ((sb_get sbp F_log_block_size + 10) % 4294967296)).map
    (fun v => decide (sb2_offset < v))

/-- What __nilfs_sb_read hands back: its return value, the two buffer
pointers (`none` for NULL) and the two offsets it stored. After a failure both
buffers are freed, and a failure before the reads stores no offsets (0 here). -/
structure SbPair where
  ret : Int
  sbp0 : Option Buf
  sbp1 : Option Buf
  offset0 : Nat
  offset1 : Nat

/-- The end of __nilfs_sb_read from label sb2_ok on. -/
def Lib.sb_read_finish (sbp0 sbp1 : Option Buf) (sb2_offset : Nat) : SbPair :=
  if sbp0.isNone && sbp1.isNone then
    { ret := -1, sbp0 := none, sbp1 := none, offset0 := NILFS_SB_OFFSET_BYTES,
      offset1 := sb2_offset }
  else
    { ret := 0, sbp0 := sbp0, sbp1 := sbp1, offset0 := NILFS_SB_OFFSET_BYTES,
      offset1 := sb2_offset }

/-- The function __nilfs_sb_read of lib/sb.c, called with an `offsets` array.
The device size is what BLKGETSIZE64 or `st_size` report; the outer `none` is a
run in which the shift of nilfs_sb2_offset_is_too_small has no value. -/
def Lib.__nilfs_sb_read (calls : SbCalls) (dev : Device) : Option SbPair :=
  let failed : SbPair := { ret := -1, sbp0 := none, sbp1 := none, offset0 := 0, offset1 := 0 }
  if !calls.fstat_ok then some failed
  else if calls.kind = FileKind.blk ∧ calls.ioctl_ok = false then some failed
  else if calls.kind = FileKind.other then some failed
  else
    let r0 := pread dev calls.heap0 NILFS_MAX_SB_SIZE NILFS_SB_OFFSET_BYTES
    let sbp0 : Option Buf :=
      if r0.1 = (NILFS_MAX_SB_SIZE : Int) ∧ Lib.nilfs_sb_is_valid r0.2 false = true then some r0.2
      else none
    let sb2_offset := NILFS_SB2_OFFSET_BYTES dev.size
    let r1 := pread dev calls.heap1 NILFS_MAX_SB_SIZE sb2_offset
    if r1.1 = (NILFS_MAX_SB_SIZE : Int) ∧ Lib.nilfs_sb_is_valid r1.2 false = true then
      match Lib.nilfs_sb2_offset_is_too_small r1.2 sb2_offset with
      | none => none
      | some true => some (Lib.sb_read_finish sbp0 none sb2_offset)
      | some false => some (Lib.sb_read_finish sbp0 (some r1.2) sb2_offset)
    else some (Lib.sb_read_finish sbp0 none sb2_offset)

/-- The function nilfs_sb_read of lib/sb.c: the buffer it returns, as the
index of the buffer (0 for the one read at offset 1024, 1 for the one read at
the second offset) and its bytes; `some none` is NULL. -/
def Lib.nilfs_sb_read (calls : SbCalls) (dev : Device) : Option (Option (Nat × Buf)) :=
  match Lib.__nilfs_sb_read calls dev with
  | none => none
  | some r =>
    if r.ret < 0 then some none
    else
      match r.sbp0 with
      | some b => some (some (0, b))
      | none => some (r.sbp1.map (fun b => (1, b)))

/-- A `memcpy` or assignment of one field from `src` to `dst`. -/
def sb_copy (dst src : Buf) (f : SbField) : Buf :=
  fun i => if f.off ≤ i ∧ i < f.off + f.width then src i else dst i

/-- The body of the loop of nilfs_sb_write for a copy that was read, up to the
store of the checksum: the buffer that is then handed to `pwrite`. -/
def Lib.sb_write_fill (K : SbMaskBits) (sbp : Buf) (mask : Nat) (dst : Buf) : Buf :=
  let b1 := if mask &&& K.NILFS_SB_LABEL ≠ 0 then sb_copy dst sbp F_volume_name else dst
  let b2 := if mask &&& K.NILFS_SB_COMMIT_INTERVAL ≠ 0 then sb_copy b1 sbp F_c_interval else b1
  let b3 := if mask &&& K.NILFS_SB_BLOCK_MAX ≠ 0 then sb_copy b2 sbp F_c_block_max else b2
  let b4 := if mask &&& K.NILFS_SB_UUID ≠ 0 then sb_copy b3 sbp F_uuid else b3
  let b5 :=
    if mask &&& K.NILFS_SB_FEATURES ≠ 0 then
      sb_copy (sb_copy (sb_copy b4 sbp F_feature_compat) sbp F_feature_compat_ro) sbp
        F_feature_incompat
    else b4
  sb_set b5 F_sum (Lib.nilfs_sb_check_sum b5)

/-- One `pwrite` of nilfs_sb_write returning `count`: the device afterwards
(the first `count` bytes of the buffer are stored, 1024 at most) and whether
the loop goes on. -/
def Lib.sb_pwrite (dev : Device) (off : Nat) (buf : Buf) (count : Int) : Device × Bool :=
  (dev_write dev off (min count.toNat NILFS_MAX_SB_SIZE) buf,
    decide (¬ count < (NILFS_MAX_SB_SIZE : Int)))

/-- The function nilfs_sb_write of lib/sb.c for an open descriptor (the
assertion on `devfd` holds): its return value and the device afterwards.
`count0` and `count1` are the values the two `pwrite` calls return when they
are made; the outer `none` is a run in which __nilfs_sb_read has no value. -/
def Lib.nilfs_sb_write (K : SbMaskBits) (calls : SbCalls) (count0 count1 : Int) (dev : Device)
    (sbp : Option Buf) (mask : Nat) : Option (Int × Device) :=
  match sbp with
  | none => some (-1, dev)
  | some sbp =>
    match Lib.__nilfs_sb_read calls dev with
    | none => none
    | some r =>
      if r.ret < 0 then some (-1, dev)
      else
        let w0 : Device × Bool :=
          match r.sbp0 with
          | none => (dev, true)
          | some b => Lib.sb_pwrite dev r.offset0 (Lib.sb_write_fill K sbp mask b) count0
        if w0.2 = false then some (-1, w0.1)
        else
          match r.sbp1 with
          | none => some (0, w0.1)
          | some b =>
            let w1 := Lib.sb_pwrite w0.1 r.offset1 (Lib.sb_write_fill K sbp mask b) count1
            some (if w1.2 then 0 else -1, w1.1)

/-! ## The reader and the flow of fsck0.nilfs2 -/

/-- The pair `lseek64(fd, off, SEEK_SET) < 0 || read(fd, buf, 1024) < 0` of
nilfs_read_super_block: `none` when one of the two calls fails, else the buffer
afterwards. The seek fails for an offset that is negative as an `off64_t`; the
read delivers the bytes the device has from there on and leaves the rest of
the buffer as `malloc` handed it out. -/
def seek_read (dev : Device) (buf : Buf) (off : Nat) : Option Buf :=
  if 9223372036854775808 ≤ off then none
  else
    some (fun i =>
      if i < min NILFS_MAX_SB_SIZE (dev.size - off) then dev.data (off + i) % 256 else buf i)

/-- The pointer sbp[0] of nilfs_read_super_block after the first copy has been
read and checked. -/
def read_sb_first (calls : SbCalls) (dev : Device) : Option Buf :=
  match seek_read dev calls.heap0 NILFS_SB_OFFSET_BYTES with
  | none => none
  | some b => if nilfs_sb_is_valid b false then some b else none

/-- The pointer sbp[1] of nilfs_read_super_block at label sb2_done; the outer
`none` is a run in which the shift by `s_log_block_size + 10` has no value. -/
def read_sb_second (calls : SbCalls) (dev : Device) : Option (Option Buf) :=
  let sb2_offset := NILFS_SB2_OFFSET_BYTES dev.size
  match seek_read dev calls.heap1 sb2_offset with
  | none => some none
  | some b =>
    if nilfs_sb_is_valid b false then
      match shl64 ((sb_get b F_nsegments * sb_get b F_blocks_per_segment) % 18446744073709551616)
          ((sb_get b F_log_block_size + NILFS_SB_BLOCK_SIZE_SHIFT) % 4294967296) with
      | none => none
      | some v => some (if sb2_offset < v then none else some b)
    else some none

/-- The function nilfs_read_super_block from label sb2_done on: the buffer
returned, as its index (0 for the buffer of the first copy, 1 for the buffer of
the second) and its bytes; `none` is NULL. -/
def select_super_block (p0 p1 : Option Buf) : Option (Nat × Buf) :=
  let s0 : Option (Nat × Buf) :=
    match p0 with
    | some b => some (0, b)
    | none => p1.map (fun b => (1, b))
  let s1 : Option (Nat × Buf) :=
    match p0 with
    | some _ => p1.map (fun b => (1, b))
    | none => none
  match s1, s0 with
  | some q1, some q0 => if sb_get q1.2 F_last_cno > sb_get q0.2 F_last_cno then some q1 else some q0
  | _, some q0 => some q0
  | _, none => none

/-- The function nilfs_read_super_block of fsck0.nilfs2.c: the inner `none` is
NULL, the outer `none` a run in which the shift has no value. -/
def nilfs_read_super_block (calls : SbCalls) (dev : Device) : Option (Option (Nat × Buf)) :=
  if !calls.ioctl_ok then some none
  else
    match read_sb_second calls dev with
    | none => none
    | some p1 => some (select_super_block (read_sb_first calls dev) p1)

/-- The function nilfs_do_rollback: the cache it leaves and the log reference
it fills in; `none` is `die` (no super root, no checkpoint number) or a run
that does not return. `cno_search` stands for the call of
find_latest_cno_in_logical_segment, which reads the device and the cache. -/
def nilfs_do_rollback (G : Geometry) (dev : Device) (cache : SegmentCache)
    (cno_search : SegmentCache → nilfs_segment_info → nilfs_log_info →
      Option (SegmentCache × Nat))
    (log_ref : nilfs_log_ref) : Option (SegmentCache × nilfs_log_ref) :=
  if G.blocks_per_segment = 0 then none
  else
    match find_latest_super_root G dev cache (log_ref.blocknr / G.blocks_per_segment)
        log_ref.blocknr with
    | none => none
    | some (_, none) => none
    | some (c, some (seginfo, loginfo)) =>
      let lr : nilfs_log_ref :=
        { blocknr := loginfo.log_start, seqnum := seginfo.segseq, cno := log_ref.cno,
          ctime := loginfo.segsum.ss_create }
      if loginfo.segsum.ss_bytes ≥ 64 then some (c, { lr with cno := loginfo.segsum.ss_cno })
      else
        match cno_search c seginfo loginfo with
        | none => none
        | some (c2, cno) => if cno = 0 then none else some (c2, { lr with cno := cno })

/-- What the environment of one run of nilfs_fsck delivers: whether the two
`open` calls succeed, whether check_mount returns, the calls of the superblock
reader, the value of `getchar`, the value of `time(NULL)` and the calls of the
superblock write. -/
structure FsckCalls where
  open_ok : Bool
  check_mount_ok : Bool
  sb : SbCalls
  reopen_ok : Bool
  answer : Int
  now : Nat
  commit : CommitCalls

/-- The function nilfs_fsck: the device when the run ends and whether
nilfs_fsck returned; `false` is a run that leaves through `die`, a failed
assertion or a fault, and before the superblock write such a run has not
touched the device. -/
def nilfs_fsck (calls : FsckCalls)
    (cno_search : Geometry → Device → SegmentCache → nilfs_segment_info → nilfs_log_info →
      Option (SegmentCache × Nat))
    (dev : Device) : Device × Bool :=
  if !calls.open_ok then (dev, false)
  else if !calls.check_mount_ok then (dev, false)
  else
    match nilfs_read_super_block calls.sb dev with
    | none => (dev, false)
    | some none => (dev, false)
    | some (some (_, sbp)) =>
      match read_sb_info sbp with
      | none => (dev, false)
      | some G =>
        let log_ref : nilfs_log_ref :=
          { blocknr := sb_get sbp F_last_pseg, seqnum := sb_get sbp F_last_seq,
            cno := sb_get sbp F_last_cno, ctime := 0 }
        match test_latest_log G dev [] log_ref with
        | none => (dev, false)
        | some (c, ret, lr) =>
          if ret < 0 then
            match nilfs_do_rollback G dev c (cno_search G dev) lr with
            | none => (dev, false)
            | some (_, lr2) =>
              if !calls.reopen_ok then (dev, false)
              else if calls.answer = 121 ∨ calls.answer = 89 then
                let w := nilfs_write_super_block G calls.commit dev
                  (commit_super_block G sbp lr2 calls.now)
                (w.2, decide (¬ w.1 < 0))
              else (dev, true)
          else (dev, true)

/-- The record is what read_segment builds from the device for its segment
number, the reference count apart: a segment that loaded, or the record that a
failed load leaves behind. -/
def from_disk (G : Geometry) (dev : Device) (e : nilfs_segment_info) : Prop :=
  ∃ ok, read_segment G dev e.segnum = some ({ e with refcnt := if ok then 1 else 0 }, ok)

/-- Every entry of the cache was built by read_segment from the device. -/
def cache_loaded (G : Geometry) (dev : Device) (c : SegmentCache) : Prop :=
  ∀ e ∈ c, from_disk G dev e

/-- The step from a log to the log behind it in a list: the first holds at
least one block and the second starts right behind it. -/
def log_follows (a b : nilfs_log_info) : Prop :=
  1 ≤ a.nblocks ∧ b.log_start = a.log_start + a.nblocks

/-- Bad checksum: the first block of segment 2 holds a summary with sequence
number 9 whose stored checksum (0) does not match, so the segment does not
load. -/
def image_badsum : Device :=
  sample_device 1024 270336 [(8, sample_summary 0 3 9 1)]

/-- The byte index lies inside the field. -/
def in_field (f : SbField) (j : Nat) : Prop := f.off ≤ j ∧ j < f.off + f.width

/-- The calls of a superblock read on a regular file, with zeroed buffers. -/
def sample_sb_calls : SbCalls :=
  { fstat_ok := true, kind := FileKind.reg, ioctl_ok := true, heap0 := fun _ => 0,
    heap1 := fun _ => 0 }

/-- A device of 270336 bytes that holds `sb1` in the first superblock slot
(offset 1024) and `sb2` in the second (offset 266240) and is zero elsewhere. -/
def sb_image (sb1 sb2 : Buf) : Device :=
  dev_write (dev_write { size := 270336, data := fun _ => 0 } 1024 1024 sb1) 266240 1024 sb2

/-- The sample superblock with the given last checkpoint number. -/
def sample_sb_cno (cno : Nat) : Buf := sb_set sample_sb F_last_cno cno

/-- A superblock that declares `2^63` segments of 2 blocks of 1 KiB: the
64-bit product of the two counts is 0. -/
def sample_sb_huge : Buf :=
  sb_set (sb_set sample_sb F_nsegments 9223372036854775808) F_blocks_per_segment 2

/-- The byte index lies in a field that the mask selects: the volume name for
NILFS_SB_LABEL, the commit interval for NILFS_SB_COMMIT_INTERVAL, the block
maximum for NILFS_SB_BLOCK_MAX, the UUID for NILFS_SB_UUID and the three
feature words for NILFS_SB_FEATURES. -/
def mask_selects (K : SbMaskBits) (mask j : Nat) : Prop :=
  (mask &&& K.NILFS_SB_LABEL ≠ 0 ∧ in_field F_volume_name j) ∨
  (mask &&& K.NILFS_SB_COMMIT_INTERVAL ≠ 0 ∧ in_field F_c_interval j) ∨
  (mask &&& K.NILFS_SB_BLOCK_MAX ≠ 0 ∧ in_field F_c_block_max j) ∨
  (mask &&& K.NILFS_SB_UUID ≠ 0 ∧ in_field F_uuid j) ∨
  (mask &&& K.NILFS_SB_FEATURES ≠ 0 ∧
    (in_field F_feature_compat j ∨ in_field F_feature_compat_ro j ∨
      in_field F_feature_incompat j))

/-- The buffer of sb_write_fill before the checksum is stored: the copy read
from the device with the selected fields taken from `sbp`. -/
def sb_overlay (K : SbMaskBits) (sbp : Buf) (mask : Nat) (dst : Buf) : Buf :=
  let b1 := if mask &&& K.NILFS_SB_LABEL ≠ 0 then sb_copy dst sbp F_volume_name else dst
  let b2 := if mask &&& K.NILFS_SB_COMMIT_INTERVAL ≠ 0 then sb_copy b1 sbp F_c_interval else b1
  let b3 := if mask &&& K.NILFS_SB_BLOCK_MAX ≠ 0 then sb_copy b2 sbp F_c_block_max else b2
  let b4 := if mask &&& K.NILFS_SB_UUID ≠ 0 then sb_copy b3 sbp F_uuid else b3
  if mask &&& K.NILFS_SB_FEATURES ≠ 0 then
    sb_copy (sb_copy (sb_copy b4 sbp F_feature_compat) sbp F_feature_compat_ro) sbp
      F_feature_incompat
  else b4

/-- Mask bits for the examples. -/
def sample_mask_bits : SbMaskBits :=
  { NILFS_SB_LABEL := 1, NILFS_SB_COMMIT_INTERVAL := 16384, NILFS_SB_BLOCK_MAX := 32768,
    NILFS_SB_UUID := 2, NILFS_SB_FEATURES := 4 }

/-- A source superblock for the examples: every byte is 65. -/
def sample_source : Buf := fun _ => 65

/-- The first copy as __nilfs_sb_read keeps it, from what `pread` delivered. -/
def keep_first (rd : Int × Buf) : Option Buf :=
  if rd.1 = (NILFS_MAX_SB_SIZE : Int) ∧ Lib.nilfs_sb_is_valid rd.2 false = true then some rd.2
  else none

/-- The second copy as __nilfs_sb_read keeps it, from what `pread` delivered;
the outer `none` is the shift without a value. -/
def keep_second (rd : Int × Buf) (sb2_offset : Nat) : Option (Option Buf) :=
  if rd.1 = (NILFS_MAX_SB_SIZE : Int) ∧ Lib.nilfs_sb_is_valid rd.2 false = true then
    match Lib.nilfs_sb2_offset_is_too_small rd.2 sb2_offset with
    | none => none
    | some true => some none
    | some false => some (some rd.2)
  else some none

/-- One of the calls before the reads of __nilfs_sb_read fails. -/
def sb_calls_fail (calls : SbCalls) : Prop :=
  calls.fstat_ok = false ∨ (calls.kind = FileKind.blk ∧ calls.ioctl_ok = false) ∨
    calls.kind = FileKind.other

/-- The torn-tail image with the sample superblock in both slots. -/
def image_fsck : Device :=
  dev_write (dev_write image_torn 1024 1024 sample_sb) 266240 1024 sample_sb

/-- A run of nilfs_fsck in which every call succeeds and the user answers `y`. -/
def sample_fsck_calls : FsckCalls :=
  { open_ok := true, check_mount_ok := true, sb := sample_sb_calls, reopen_ok := true,
    answer := 121, now := 1700000000, commit := calls_ok }

/-- A checkpoint search that does not return. -/
def no_cno_search : Geometry → Device → SegmentCache → nilfs_segment_info → nilfs_log_info →
    Option (SegmentCache × Nat) :=
  fun _ _ _ _ _ => none

/-- Overrunning log: segment 2 (blocks 8 to 11) holds a 3-block log at block 8
and a 4-block log at block 11, both under sequence number 20; the second log
ends at block 15, three blocks behind the end of the segment. -/
def image_overrun : Device :=
  sample_device 1024 270336
    [(8, sample_summary 2630275991 3 20 3), (11, sample_summary 2151957522 3 20 4)]

/-- Bad magic: the first block of segment 2 is zero. -/
def image_zero : Device := sample_device 1024 270336 []

/-- Block count out of range: the first block of segment 2 holds a summary
that declares 5 blocks, one more than a segment has. -/
def image_badcount : Device :=
  sample_device 1024 270336 [(8, sample_summary 0 3 9 5)]

/-- Dangling candidate: segment 60 holds a 1-block SR log (sequence number 9),
segment 59 is zeroed and segment 58 holds a log without super root (sequence
number 8). -/
def image_dangling : Device :=
  sample_device 1024 270336
    [(240, sample_summary 2497147040 7 9 1), (232, sample_summary 2844337087 3 8 1)]

/-- The sample superblock with s_checkpoint_size 0. -/
def sample_sb_cs0 : Buf := sb_set sample_sb F_checkpoint_size 0

/-- The sample superblock with s_log_block_size 21, a block size of `2^31`. -/
def sample_sb_shift31 : Buf := sb_set sample_sb F_log_block_size 21

/-- A failed load stays in the cache: the first load_segment for `segnum` from
the empty cache returns NULL and leaves an entry for `segnum` with one log
record, and the second call returns that entry. -/
def failed_load_stays (G : Geometry) (dev : Device) (segnum : Nat) : Prop :=
  ∃ c1 c2 e s, load_segment G dev [] segnum = some (c1, none) ∧
    cache_entry c1 segnum = some e ∧ e.log_list.length = 1 ∧
    load_segment G dev c1 segnum = some (c2, some s) ∧ s.segnum = segnum

/-- The function read_block over the values its two system calls return:
`seek_ret` from lseek64 and `read_ret` from read, which on success has stored
that many bytes of `src` in the buffer. The result is the buffer when
read_block returns and `none` when it calls die. In `read(..) < size` the
`ssize_t` value is converted to `unsigned long`, the type of `size`, before the
comparison. -/
def read_block_calls (buf : Buf) (seek_ret read_ret : Int) (src : Buf) (size : Nat) :
    Option Buf :=
  if seek_ret < 0 then none
  else if (read_ret % 18446744073709551616).toNat < size % 18446744073709551616 then none
  else some (fun i => if (i : Int) < read_ret then src i else buf i)

/-- The segment numbers the loop of find_latest_super_root passes to
load_segment, pass by pass, up to the pass that returns or does not come
back. -/
def scan_segnums (G : Geometry) (dev : Device) : Nat → ScanState → List Nat
  | 0, _ => []
  | n + 1, st =>
    prev_segnum G st.segnum ::
      (match scan_step G dev st with
       | some (ScanOutcome.running st1) => scan_segnums G dev n st1
       | _ => [])

/-- The segment numbers find_latest_super_root passes to load_segment, in the
order of the calls: the start segment, then one per pass of the loop. -/
def search_segnums (G : Geometry) (dev : Device) (cache : SegmentCache)
    (segnum blocknr : Nat) : List Nat :=
  segnum ::
    (match scan_init G dev cache segnum blocknr with
     | some st0 => scan_segnums G dev MAX_SCAN_SEGMENT st0
     | none => [])

/-! ## Checkpoint number of a log without `ss_cno` -/

/-- Modelled from the spec: NILFS_DAT_INO, the inode number of the DAT file;
the header that defines it is not under src/. -/
def NILFS_DAT_INO : Nat := 3

/-- Modelled from the spec: NILFS_CPFILE_INO, the inode number of the
checkpoint file. -/
def NILFS_CPFILE_INO : Nat := 4

/-- Modelled from the spec: the bit of cp_flags that nilfs_checkpoint_invalid
tests, `1 << NILFS_CHECKPOINT_INVALID`. -/
def CP_INVALID_BIT : Nat := 2

/-- Modelled from the spec: the byte offset of cp_cno in struct
nilfs_checkpoint, behind the 32-bit cp_flags and cp_checkpoints_count and the
two 64-bit links of cp_snapshot_list. -/
def CP_CNO_OFFSET : Nat := 24

/-- Modelled from the spec: sizeof(struct nilfs_finfo): fi_ino and fi_cno of
64 bits, fi_nblocks and fi_ndatablk of 32 bits. -/
def FINFO_SIZE : Nat := 24

/-- Modelled from the spec: sizeof(struct nilfs_binfo_v): bi_vblocknr and
bi_blkoff of 64 bits. -/
def BINFO_V_SIZE : Nat := 16

/-- Modelled from the spec: sizeof(struct nilfs_binfo_dat): bi_blkoff of 64
bits, the level byte and seven bytes of padding. -/
def BINFO_DAT_SIZE : Nat := 16

/-- A little-endian field of `n` bytes at byte offset `off` of the block
buffer; `none` is a read past the end of the buffer. -/
def buf_field (b : List Nat) (off n : Nat) : Option Nat :=
  if off + n ≤ b.length then some (le_value ((b.drop off).take n)) else none

/-- The loop of find_latest_checkpoint: `n` entries are looked at, `cp` being
`off` bytes into the block buffer; cp_cno is read only when the invalid bit is
clear. -/
def cp_scan (G : Geometry) (b : List Nat) : Nat → Nat → Nat → Option Nat
  | 0, _, cno => some cno
  | n + 1, off, cno =>
    match buf_field b off 4 with
    | none => none
    | some flags =>
      if flags &&& CP_INVALID_BIT ≠ 0 then cp_scan G b n (off + G.checkpoint_size) cno
      else
        match buf_field b (off + CP_CNO_OFFSET) 8 with
        | none => none
        | some c => cp_scan G b n (off + G.checkpoint_size) (if c > cno then c else cno)

/-- The function find_latest_checkpoint: the block buffer it leaves and the
value it returns; `none` is `die` in read_block or a read past the buffer.
`ncp` is an `int`, so a first_checkpoint_offset above ncheckpoints_per_block
leaves no pass. -/
def find_latest_checkpoint (G : Geometry) (dev : Device) (cpblocknr blkoff : Nat) :
    Option (List Nat × Nat) :=
  match read_block G dev cpblocknr G.blocksize with
  | none => none
  | some b =>
    (if blkoff = 0 then
        cp_scan G b (G.ncheckpoints_per_block - G.first_checkpoint_offset)
          (G.first_checkpoint_offset * G.checkpoint_size) 0
      else cp_scan G b G.ncheckpoints_per_block 0 0).map (fun cno => (b, cno))

/-- The summary cursor of get_latest_cno: the contents of block_buffer and the
variables `blocknr` and `offset`. -/
structure SsCursor where
  buf : List Nat
  blocknr : Nat
  offset : Nat
deriving DecidableEq, Repr

/-- The function next_ss_entry: the cursor afterwards and the pointer returned,
as a byte offset into block_buffer. `offset` and `entry_size` are `unsigned`. -/
def next_ss_entry (G : Geometry) (dev : Device) (cur : SsCursor) (entry_size : Nat) :
    Option (SsCursor × Nat) :=
  if (cur.offset + entry_size) % 4294967296 > G.blocksize then
    match read_block G dev ((cur.blocknr + 1) % 18446744073709551616) G.blocksize with
    | none => none
    | some b =>
      some ({ buf := b, blocknr := (cur.blocknr + 1) % 18446744073709551616,
              offset := entry_size % 4294967296 }, 0)
  else some ({ cur with offset := (cur.offset + entry_size) % 4294967296 }, cur.offset)

/-- A loop `for (j = 0; j < n; j++, fblocknr++) p = next_ss_entry(.., size)` of
get_latest_cno: the cursor and `fblocknr` afterwards and the pointer assigned
last (`p` as passed in when the body did not run). The counter is compared as
an unsigned 32-bit value, so the body runs `n` times. -/
def ss_skip (G : Geometry) (dev : Device) (size : Nat) :
    Nat → SsCursor → Nat → Option Nat → Option (SsCursor × Nat × Option Nat)
  | 0, cur, fblocknr, p => some (cur, fblocknr, p)
  | n + 1, cur, fblocknr, _ =>
    match next_ss_entry G dev cur size with
    | none => none
    | some (cur1, p1) =>
      ss_skip G dev size n cur1 ((fblocknr + 1) % 18446744073709551616) (some p1)

/-- The variables of the loop over the finfo records of get_latest_cno, with
the arguments (cpblocknr, blkoff) of the calls of find_latest_checkpoint made
so far. -/
structure FinfoState where
  cur : SsCursor
  fblocknr : Nat
  latest_cno : Nat
  calls : List (Nat × Nat)
deriving DecidableEq, Repr

/-- The call of find_latest_checkpoint in get_latest_cno, made when the inode
is the checkpoint file and `ndatablk > 0`: the block buffer, `latest_cno` and
the list of calls afterwards. `binfo_v` is the pointer the loop over the data
blocks assigned last and `fblocknr` the counter behind that loop. -/
def cp_lookup (G : Geometry) (dev : Device) (st : FinfoState) (cur : SsCursor)
    (fblocknr : Nat) (binfo_v : Option Nat) : Option (List Nat × Nat × List (Nat × Nat)) :=
  match binfo_v with
  | none => none
  | some p =>
    match buf_field cur.buf (p + 8) 8 with
    | none => none
    | some blkoff =>
      let cpblocknr := (fblocknr + 18446744073709551616 - 1) % 18446744073709551616
      (find_latest_checkpoint G dev cpblocknr blkoff).map (fun r =>
        (r.1, if r.2 > st.latest_cno then r.2 else st.latest_cno,
          st.calls ++ [(cpblocknr, blkoff)]))

/-- One pass of the loop over the finfo records of get_latest_cno. -/
def finfo_step (G : Geometry) (dev : Device) (st : FinfoState) : Option FinfoState :=
  match next_ss_entry G dev st.cur FINFO_SIZE with
  | none => none
  | some (c1, p) =>
    match buf_field c1.buf (p + 16) 4, buf_field c1.buf (p + 20) 4, buf_field c1.buf p 8 with
    | some nblocks, some ndatablk, some ino =>
      let nnodeblk := (nblocks + 4294967296 - ndatablk) % 4294967296
      if ino = NILFS_DAT_INO then
        match ss_skip G dev 8 ndatablk c1 st.fblocknr none with
        | none => none
        | some (c2, fb2, _) =>
          (ss_skip G dev BINFO_DAT_SIZE nnodeblk c2 fb2 none).map (fun r =>
            { st with cur := r.1, fblocknr := r.2.1 })
      else
        match ss_skip G dev BINFO_V_SIZE ndatablk c1 st.fblocknr none with
        | none => none
        | some (c2, fb2, binfo_v) =>
          match (if ino = NILFS_CPFILE_INO ∧ ndatablk > 0 then cp_lookup G dev st c2 fb2 binfo_v
                 else some (c2.buf, st.latest_cno, st.calls)) with
          | none => none
          | some (buf3, latest3, calls3) =>
            (ss_skip G dev 8 nnodeblk { c2 with buf := buf3 } fb2 none).map (fun r =>
              { cur := r.1, fblocknr := r.2.1, latest_cno := latest3, calls := calls3 })
    | _, _, _ => none

/-- The loop `for (i = 0; i < nfinfo; i++)` of get_latest_cno. -/
def finfo_loop (G : Geometry) (dev : Device) : Nat → FinfoState → Option FinfoState
  | 0, st => some st
  | n + 1, st =>
    match finfo_step G dev st with
    | none => none
    | some st1 => finfo_loop G dev n st1

/-- The state in which the loop of get_latest_cno starts: the first block of
the log is in the buffer, `offset` is ss_bytes and `fblocknr` is the block
behind the summary, DIV_ROUND_UP being computed in `unsigned`. -/
def finfo_init (G : Geometry) (dev : Device) (log_start : Nat) : Option (Nat × FinfoState) :=
  if G.blocksize = 0 then none
  else
    match read_block G dev log_start G.blocksize with
    | none => none
    | some b =>
      match buf_field b 44 4, buf_field b 12 2, buf_field b 48 4 with
      | some nfinfo, some bytes, some sumbytes =>
        some (nfinfo,
          { cur := { buf := b, blocknr := log_start, offset := bytes },
            fblocknr := (log_start + ((sumbytes + G.blocksize - 1) % 4294967296) / G.blocksize)
              % 18446744073709551616,
            latest_cno := 0, calls := [] })
      | _, _, _ => none

/-- The function get_latest_cno, with the calls of find_latest_checkpoint it
made: the state when the loop over the finfo records ends. -/
def get_latest_cno_run (G : Geometry) (dev : Device) (log_start : Nat) : Option FinfoState :=
  match finfo_init G dev log_start with
  | none => none
  | some (nfinfo, st) => finfo_loop G dev nfinfo st

/-- The function get_latest_cno; `none` is a run that does not return. -/
def get_latest_cno (G : Geometry) (dev : Device) (log_start : Nat) : Option Nat :=
  (get_latest_cno_run G dev log_start).map (fun st => st.latest_cno)

/-- The do-while loop of find_latest_cno_in_logical_segment inside one segment:
`loginfo` is the head of the list and prev_log delivers the rest, the log list
of the segment read backwards. The result is `latest_cno` and whether the walk
left the segment at its first log (`loginfo == NULL` after prev_log); `false`
is the `break` at a log with LOGBGN or the end of the loop at a log with
LOGEND. -/
def cno_walk_logs (G : Geometry) (dev : Device) :
    List nilfs_log_info → Nat → Option (Nat × Bool)
  | [], latest => some (latest, true)
  | l :: rest, latest =>
    match get_latest_cno G dev l.log_start with
    | none => none
    | some cno =>
      let latest1 := if cno > latest then cno else latest
      if l.flags &&& NILFS_SS_LOGBGN ≠ 0 then some (latest1, false)
      else
        match rest with
        | [] => some (latest1, true)
        | l2 :: _ =>
          if l2.flags &&& NILFS_SS_LOGEND ≠ 0 then some (latest1, false)
          else cno_walk_logs G dev rest latest1

/-- The do-while loop of find_latest_cno_in_logical_segment from one segment to
the segments before it; `n` is the number of times `++i > MAX_SCAN_SEGMENT` is
still false. The result is the cache and `latest_cno` when the function
returns. -/
def cno_walk (G : Geometry) (dev : Device) :
    Nat → SegmentCache → nilfs_segment_info → List nilfs_log_info → Nat →
      Option (SegmentCache × Nat)
  | n, cache, seginfo, logs, latest =>
    match cno_walk_logs G dev logs latest with
    | none => none
    | some (latest1, false) =>
      (put_segment_info cache seginfo.segnum).map (fun c => (c, latest1))
    | some (latest1, true) =>
      match n with
      | 0 => (put_segment_info cache seginfo.segnum).map (fun c => (c, latest1))
      | m + 1 =>
        match put_segment_info cache seginfo.segnum with
        | none => none
        | some c1 =>
          match load_segment G dev c1 (prev_segnum G seginfo.segnum) with
          | none => none
          | some (c2, none) => some (c2, latest1)
          | some (c2, some seginfo2) =>
            if seginfo2.segseq ≠ (seginfo.segseq + 18446744073709551616 - 1)
                % 18446744073709551616 then
              (put_segment_info c2 seginfo2.segnum).map (fun c => (c, latest1))
            else
              match seginfo2.log_list.reverse with
              | [] => (put_segment_info c2 seginfo2.segnum).map (fun c => (c, latest1))
              | l :: rest =>
                if l.flags &&& NILFS_SS_LOGEND ≠ 0 then
                  (put_segment_info c2 seginfo2.segnum).map (fun c => (c, latest1))
                else cno_walk G dev m c2 seginfo2 (l :: rest) latest1

/-- The function find_latest_cno_in_logical_segment: the cache it leaves and
the value it returns. `start` is a log of `seginfo` or NULL; the walk goes from
it, or from the last log, towards the first log of the segment. -/
def find_latest_cno_in_logical_segment (G : Geometry) (dev : Device) (cache : SegmentCache)
    (seginfo : nilfs_segment_info) (start : Option nilfs_log_info) :
    Option (SegmentCache × Nat) :=
  let logs :=
    match start with
    | some l => seginfo.log_list.reverse.dropWhile (fun x => x != l)
    | none => seginfo.log_list.reverse
  match logs with
  | [] => some (cache, 0)
  | l :: rest =>
    cno_walk G dev MAX_SCAN_SEGMENT (get_segment_info cache seginfo.segnum) seginfo (l :: rest) 0

/-- The entry `i` of a checkpoint block has its invalid bit set. -/
def cp_invalid (G : Geometry) (b : List Nat) (i : Nat) : Bool :=
  le_value ((b.drop (i * G.checkpoint_size)).take 4) &&& CP_INVALID_BIT != 0

/-- The cp_cno of entry `i` of a checkpoint block. -/
def cp_cno (G : Geometry) (b : List Nat) (i : Nat) : Nat :=
  le_value ((b.drop (i * G.checkpoint_size + CP_CNO_OFFSET)).take 8)

/-- The window of entries the claim names: entries first_checkpoint_offset up
to ncheckpoints_per_block when blkoff = 0, all ncheckpoints_per_block entries
otherwise. -/
def cp_in_window (G : Geometry) (blkoff i : Nat) : Prop :=
  (blkoff = 0 → G.first_checkpoint_offset ≤ i) ∧ i < G.ncheckpoints_per_block

/-- A device of `size` bytes that is zero except for the fields listed for some
of its blocks: a block is given by its number and its fields, a field by its
byte offset in the block, its width in bytes and its value, stored
little-endian. -/
def field_device (blocksize size : Nat) (blocks : List (Nat × List (Nat × Nat × Nat))) :
    Device :=
  { size := size,
    data := fun off =>
      match blocks.find? (fun p => p.1 == off / blocksize) with
      | none => 0
      | some p =>
        match p.2.find? (fun f =>
            decide (f.1 ≤ off % blocksize ∧ off % blocksize < f.1 + f.2.1)) with
        | none => 0
        | some f => (f.2.2 / 256 ^ (off % blocksize - f.1)) % 256 }

/-- Log without `ss_cno`: segment 60 holds a 4-block SR log at block 240 under
sequence number 9 whose declared header size is 56. Its summary has one finfo
record, of the checkpoint file (inode 4), with two data blocks whose block-info
entries carry the block offsets 3 and 7. Block 241 is the checkpoint-file block
of offset 3, with one entry of cp_cno 30; block 242 is the one of offset 7,
with the entries 40, 42 (invalid bit set) and 41. -/
def image_nocno : Device :=
  field_device 1024 270336
    [(240, [(0, 4, 2726987451), (8, 4, NILFS_SEGSUM_MAGIC), (12, 2, 56), (14, 2, 7), (16, 8, 9),
            (40, 4, 4), (44, 4, 1), (48, 4, 112),
            (56, 8, NILFS_CPFILE_INO), (64, 8, 41), (72, 4, 2), (76, 4, 2),
            (80, 8, 100), (88, 8, 3), (96, 8, 101), (104, 8, 7)]),
     (241, [(24, 8, 30)]),
     (242, [(24, 8, 40), (192, 4, 2), (216, 8, 42), (408, 8, 41)])]

/-- The entries that a loop of `n` calls of next_ss_entry steps over, in order,
each as the `size` bytes at the pointer returned. -/
def ss_entries (G : Geometry) (dev : Device) (size : Nat) :
    Nat → SsCursor → Option (List (List Nat))
  | 0, _ => some []
  | n + 1, cur =>
    match next_ss_entry G dev cur size with
    | none => none
    | some (cur1, p) =>
      (ss_entries G dev size n cur1).map (fun r => (cur1.buf.drop p).take size :: r)

/-- The field bi_blkoff of a struct nilfs_binfo_v given by its 16 bytes. -/
def binfo_v_blkoff (e : List Nat) : Nat := le_value ((e.drop 8).take 8)

/-- The first finfo record of a log as get_latest_cno meets it: the state in
which the loop starts, the cursor behind the record and the pointer to it. -/
def first_finfo (G : Geometry) (dev : Device) (log_start : Nat) :
    Option (FinfoState × SsCursor × Nat) :=
  match finfo_init G dev log_start with
  | none => none
  | some (_, st) => (next_ss_entry G dev st.cur FINFO_SIZE).map (fun q => (st, q.1, q.2))

/-- The state in which get_latest_cno meets the finfo record of image_nocno. -/
def nocno_state : FinfoState :=
  { cur := { buf := dev_bytes image_nocno 245760 1024, blocknr := 240, offset := 56 },
    fblocknr := 241, latest_cno := 0, calls := [] }

/-- The cursor behind the finfo record of image_nocno. -/
def nocno_cursor : SsCursor :=
  { buf := dev_bytes image_nocno 245760 1024, blocknr := 240, offset := 80 }

/-- The state behind the pass over the finfo record of image_nocno: the block
buffer holds block 242. -/
def nocno_state_after : FinfoState :=
  { cur := { buf := dev_bytes image_nocno 247808 1024, blocknr := 240, offset := 112 },
    fblocknr := 243, latest_cno := 41, calls := [(242, 7)] }

/-- The segment of image_nocno as load_segment returns it. -/
def nocno_segment : nilfs_segment_info :=
  { log_list := [{ log_start := 240, nblocks := 4,
                   segsum := decode_segsum (dev_bytes image_nocno 245760 64), flags := 7 }],
    seg_start := 240, next := 0, segseq := 9, segnum := 60, nlogs := 1, refcnt := 1 }

/-- The log of image_nocno. -/
def nocno_log : nilfs_log_info :=
  { log_start := 240, nblocks := 4, segsum := decode_segsum (dev_bytes image_nocno 245760 64),
    flags := 7 }

/-- The record a failed load of the zeroed segment `k` of a sample volume
leaves in the cache. -/
def failed_record (k : Nat) : nilfs_segment_info :=
  { log_list := [{ log_start := 4 * k, nblocks := 0,
                   segsum := decode_segsum (List.replicate 64 0), flags := 0 }],
    seg_start := 4 * k, next := 0, segseq := 0, segnum := k, nlogs := 0, refcnt := 0 }

/-- The cache the rollback search from block 244 leaves on image_nocno:
segment 61 did not load, segment 60 is held, segments 59 down to 11 did not
load. -/
def nocno_cache : SegmentCache :=
  failed_record 61 :: nocno_segment :: (List.range 49).map (fun i => failed_record (59 - i))



/-! ## The argument loop of dumpseg -/

/-- The C library test isspace in the C locale: space, tab, newline, vertical
tab, form feed and carriage return. -/
def is_space (c : Char) : Bool := c.toNat == 32 || (9 ≤ c.toNat && c.toNat ≤ 13)

/-- The C library test isdigit. -/
def is_digit (c : Char) : Bool := 48 ≤ c.toNat && c.toNat ≤ 57

/-- The digits at the head of a string: their value on top of `acc` and the
rest of the string. -/
def take_digits : List Char → Nat → Nat × List Char
  | [], acc => (acc, [])
  | c :: rest, acc =>
    if is_digit c then take_digits rest (acc * 10 + (c.toNat - 48)) else (acc, c :: rest)

/-- The C library function strtoull for base 10 (ISO C 7.22.1.4): white space,
an optional sign and decimal digits. The result is the value returned and the
string at which `endptr` points: the rest behind the digits, or the whole
string when there is no digit to convert. A value above ULLONG_MAX is returned
as ULLONG_MAX, and a minus sign negates the value in 64 bits. -/
def strtoull (s : List Char) : Nat × List Char :=
  let t := s.dropWhile is_space
  let signed : Bool × List Char :=
    match t with
    | c :: r => if c.toNat = 45 then (true, r) else if c.toNat = 43 then (false, r) else (false, t)
    | [] => (false, t)
  match signed.2 with
  | c :: _ =>
    if is_digit c then
      let d := take_digits signed.2 0
      (if d.1 ≥ 18446744073709551616 then 18446744073709551615
       else if signed.1 then (18446744073709551616 - d.1) % 18446744073709551616 else d.1,
       d.2)
    else (0, s)
  | [] => (0, s)

/-- What the library calls of one run of dumpseg deliver: whether nilfs_open
succeeds and the values nilfs_get_segment and nilfs_put_segment return for a
segment number. -/
structure DumpCalls where
  open_ok : Bool
  get_ret : Nat → Int
  put_ret : Nat → Int

/-- What a run of dumpseg does for one argument: it prints the segment
(dumpseg_print_segment), warns of an invalid segment number, or warns of a
failed read or release. -/
inductive DumpEvent where
  | dumped (segnum : Nat)
  | invalid (arg : String)
  | read_failed (segnum : Nat)
  | release_failed (segnum : Nat)
deriving DecidableEq, Repr

/-- The loop `for (i = optind; i < argc; i++)` of main in dumpseg.c over the
arguments left, with `status` as it stands: what is done, in order, and the
exit status. EXIT_SUCCESS is 0 and EXIT_FAILURE is 1. -/
def dump_loop (calls : DumpCalls) : List String → Int → List DumpEvent × Int
  | [], status => ([], status)
  | a :: rest, status =>
    if (strtoull a.data).2 ≠ [] then
      let r := dump_loop calls rest 1
      (DumpEvent.invalid a :: r.1, r.2)
    else if calls.get_ret (strtoull a.data).1 < 0 then
      ([DumpEvent.read_failed (strtoull a.data).1], 1)
    else if calls.put_ret (strtoull a.data).1 < 0 then
      ([DumpEvent.dumped (strtoull a.data).1, DumpEvent.release_failed (strtoull a.data).1], 1)
    else
      let r := dump_loop calls rest status
      (DumpEvent.dumped (strtoull a.data).1 :: r.1, r.2)

/-- The function main of dumpseg.c behind the option loop; `args` are the
arguments from argv[optind] on. The first of them is the device unless
strtoull converts all of it. -/
def dumpseg_main (calls : DumpCalls) (args : List String) : List DumpEvent × Int :=
  match args with
  | [] => ([], 1)
  | a :: rest =>
    if !calls.open_ok then ([], 1)
    else dump_loop calls (if (strtoull a.data).2 = [] then a :: rest else rest) 0

/-- Library calls of dumpseg that all succeed. -/
def dump_calls_ok : DumpCalls :=
  { open_ok := true, get_ret := fun _ => 0, put_ret := fun _ => 0 }

/-- Library calls of dumpseg in which segment 5 cannot be read. -/
def dump_calls_fail5 : DumpCalls :=
  { open_ok := true, get_ret := fun n => if n = 5 then -1 else 0, put_ret := fun _ => 0 }



/-! ## Calls on the segment cache -/

/-- The function shrink_segment_cache: every entry whose reference count is 0
is destroyed, the others stay in their order. -/
def shrink_segment_cache (cache : SegmentCache) : SegmentCache :=
  cache.filter (fun s => s.refcnt != 0)

/-- A call that works on the segment cache. A put_segment_info goes through a
pointer, which is modelled by the segment number of its entry. -/
inductive CacheCall where
  | load (segnum : Nat)
  | lookup (segnum : Nat)
  | put (segnum : Nat)
  | shrink
deriving DecidableEq, Repr

/-- The cache after one call; `none` is a run that does not return. -/
def cache_call (G : Geometry) (dev : Device) (c : SegmentCache) : CacheCall → Option SegmentCache
  | CacheCall.load k => (load_segment G dev c k).map (fun r => r.1)
  | CacheCall.lookup k =>
    match lookup_segment c k with
    | some (c1, _) => some c1
    | none => some c
  | CacheCall.put k => put_segment_info c k
  | CacheCall.shrink => some (shrink_segment_cache c)

/-- The cache after a sequence of calls. -/
def cache_calls (G : Geometry) (dev : Device) : List CacheCall → SegmentCache → Option SegmentCache
  | [], c => some c
  | a :: rest, c =>
    match cache_call G dev c a with
    | none => none
    | some c1 => cache_calls G dev rest c1





/-! ## Summary reads of load_segment -/

/-- The block numbers that the do-while loop of load_segment passes to
`read_block(fd, blocknr, ss, sizeof(*ss))`, in order; the control flow is that
of load_logs. -/
def load_logs_reads (G : Geometry) (dev : Device) (segseq endb : Nat) :
    Nat → Nat → nilfs_segment_summary → List Nat
  | 0, _, _ => []
  | fuel + 1, blocknr, ss =>
    let next := (blocknr + ss.ss_nblocks) % 18446744073709551616
    if next ≥ endb then []
    else
      next ::
        (match read_block G dev next SEGSUM_SIZE with
         | none => []
         | some b =>
           match log_is_valid G dev next (decode_segsum b) with
           | none => []
           | some v =>
             if v && (decode_segsum b).ss_seq == segseq then
               load_logs_reads G dev segseq endb fuel next (decode_segsum b)
             else [])

/-- The block numbers that load_segment reads as summaries when the segment is
not cached: the segment start, then those of the loop. -/
def load_segment_reads (G : Geometry) (dev : Device) (segnum : Nat) : List Nat :=
  let blocknr := segment_start_blocknr G segnum
  blocknr ::
    (match read_block G dev blocknr SEGSUM_SIZE with
     | none => []
     | some b =>
       match log_is_valid G dev blocknr (decode_segsum b) with
       | some true =>
         load_logs_reads G dev (decode_segsum b).ss_seq
           ((blocknr + G.blocks_per_segment) % 18446744073709551616)
           G.blocks_per_segment blocknr (decode_segsum b)
       | _ => [])

/-- The logs of the list lie on the device one behind the other from block
`b`: each has a valid summary under sequence number `seq`, is the record that
load_segment builds for it, and the next starts where it ends; the last one
ends exactly at block `endb`. -/
def exact_fill (G : Geometry) (dev : Device) (seq endb : Nat) :
    Nat → List nilfs_log_info → Prop
  | _, [] => False
  | b, l :: rest =>
    ∃ bytes, read_block G dev b SEGSUM_SIZE = some bytes ∧
      log_is_valid G dev b (decode_segsum bytes) = some true ∧
      (decode_segsum bytes).ss_seq = seq ∧
      l = { log_start := b, nblocks := (decode_segsum bytes).ss_nblocks,
            segsum := decode_segsum bytes, flags := (decode_segsum bytes).ss_flags } ∧
      (match rest with
       | [] => b + (decode_segsum bytes).ss_nblocks = endb
       | _ :: _ => b + (decode_segsum bytes).ss_nblocks < endb ∧
          exact_fill G dev seq endb (b + (decode_segsum bytes).ss_nblocks) rest)

/-- Exact fill: segment 2 (blocks 8 to 11) holds a 3-block log at block 8 and
an SR log of one block at block 11, both under sequence number 20. -/
def image_fill : Device :=
  sample_device 1024 270336
    [(8, sample_summary 2630275991 3 20 3), (11, sample_summary 200291412 7 20 1)]

/-! ## The summary walk of get_latest_cno on the summary's own bytes -/

/-- One finfo record with its block-info entries, every entry decoded from the
summary blocks of the log at the cursor: as finfo_step, but the block buffer
that the cursor reads is the summary block also behind a checkpoint lookup. -/
def finfo_step_summary (G : Geometry) (dev : Device) (st : FinfoState) : Option FinfoState :=
  match next_ss_entry G dev st.cur FINFO_SIZE with
  | none => none
  | some (c1, p) =>
    match buf_field c1.buf (p + 16) 4, buf_field c1.buf (p + 20) 4, buf_field c1.buf p 8 with
    | some nblocks, some ndatablk, some ino =>
      let nnodeblk := (nblocks + 4294967296 - ndatablk) % 4294967296
      if ino = NILFS_DAT_INO then
        match ss_skip G dev 8 ndatablk c1 st.fblocknr none with
        | none => none
        | some (c2, fb2, _) =>
          (ss_skip G dev BINFO_DAT_SIZE nnodeblk c2 fb2 none).map (fun r =>
            { st with cur := r.1, fblocknr := r.2.1 })
      else
        match ss_skip G dev BINFO_V_SIZE ndatablk c1 st.fblocknr none with
        | none => none
        | some (c2, fb2, binfo_v) =>
          match (if ino = NILFS_CPFILE_INO ∧ ndatablk > 0 then cp_lookup G dev st c2 fb2 binfo_v
                 else some (c2.buf, st.latest_cno, st.calls)) with
          | none => none
          | some (_, latest3, calls3) =>
            (ss_skip G dev 8 nnodeblk c2 fb2 none).map (fun r =>
              { cur := r.1, fblocknr := r.2.1, latest_cno := latest3, calls := calls3 })
    | _, _, _ => none

/-- The records of a summary, each decoded from the summary's own bytes. -/
def finfo_loop_summary (G : Geometry) (dev : Device) : Nat → FinfoState → Option FinfoState
  | 0, st => some st
  | n + 1, st =>
    match finfo_step_summary G dev st with
    | none => none
    | some st1 => finfo_loop_summary G dev n st1

/-- The maximum, over the finfo records of the summary of the log at
`log_start` that belong to the checkpoint file and have a data block, of the
checkpoint scan of the block referenced, with the (cpblocknr, blkoff) pairs
scanned; 0 when there is no such record. -/
def summary_latest_cno (G : Geometry) (dev : Device) (log_start : Nat) : Option FinfoState :=
  match finfo_init G dev log_start with
  | none => none
  | some (nfinfo, st) => finfo_loop_summary G dev nfinfo st

/-- Two checkpoint-file records: segment 60 holds a 3-block SR log at block 240
under sequence number 9. Its summary has two finfo records of the checkpoint
file (inode 4), each with one data block: the first at offset 56 with the
block-info entry of block offset 3 at offset 80, the second at offset 96 with
the entry of block offset 7 at offset 120. Block 241 is the checkpoint-file
block of the first record, with one entry of cp_cno 41; block 242 is that of
the second, with one entry of cp_cno 50. -/
def image_twocp : Device :=
  field_device 1024 270336
    [(240, [(0, 4, 3388696521), (8, 4, NILFS_SEGSUM_MAGIC), (12, 2, 56), (14, 2, 7), (16, 8, 9),
            (40, 4, 3), (44, 4, 2), (48, 4, 136),
            (56, 8, NILFS_CPFILE_INO), (64, 8, 41), (72, 4, 1), (76, 4, 1),
            (80, 8, 100), (88, 8, 3),
            (96, 8, NILFS_CPFILE_INO), (104, 8, 50), (112, 4, 1), (116, 4, 1),
            (120, 8, 101), (128, 8, 7)]),
     (241, [(24, 8, 41)]),
     (242, [(24, 8, 50)])]

/-! ## The logs walked by find_latest_cno_in_logical_segment -/

/-- The logs that the do-while loop of find_latest_cno_in_logical_segment
walks inside one segment, and whether it leaves the segment at its first log.
The argument is the log list read backwards from the start log. The walk ends
behind a log with LOGBGN, and with `logend` set also in front of a predecessor
with LOGEND; without `logend` that test is left out. -/
def walk_logs (logend : Bool) : List nilfs_log_info → List nilfs_log_info × Bool
  | [] => ([], true)
  | l :: rest =>
    if l.flags &&& NILFS_SS_LOGBGN ≠ 0 then ([l], false)
    else
      match rest with
      | [] => ([l], true)
      | l2 :: _ =>
        if logend && (l2.flags &&& NILFS_SS_LOGEND != 0) then ([l], false)
        else (l :: (walk_logs logend rest).1, (walk_logs logend rest).2)

/-- The logs walked from segment to segment, one list for each segment walked,
and the cache afterwards: the step into the ring-wise previous segment is taken
when that segment loads with segseq one less (and, with `logend`, its last log
is without LOGEND), `n` times at most. -/
def walk_segments (G : Geometry) (dev : Device) (logend : Bool) :
    Nat → SegmentCache → nilfs_segment_info → List nilfs_log_info →
      Option (SegmentCache × List (List nilfs_log_info))
  | n, cache, seginfo, logs =>
    match walk_logs logend logs with
    | (w, false) => (put_segment_info cache seginfo.segnum).map (fun c => (c, [w]))
    | (w, true) =>
      match n with
      | 0 => (put_segment_info cache seginfo.segnum).map (fun c => (c, [w]))
      | m + 1 =>
        match put_segment_info cache seginfo.segnum with
        | none => none
        | some c1 =>
          match load_segment G dev c1 (prev_segnum G seginfo.segnum) with
          | none => none
          | some (c2, none) => some (c2, [w])
          | some (c2, some seginfo2) =>
            if seginfo2.segseq ≠ (seginfo.segseq + 18446744073709551616 - 1)
                % 18446744073709551616 then
              (put_segment_info c2 seginfo2.segnum).map (fun c => (c, [w]))
            else
              match seginfo2.log_list.reverse with
              | [] => (put_segment_info c2 seginfo2.segnum).map (fun c => (c, [w]))
              | l :: rest =>
                if logend && (l.flags &&& NILFS_SS_LOGEND != 0) then
                  (put_segment_info c2 seginfo2.segnum).map (fun c => (c, [w]))
                else
                  (walk_segments G dev logend m c2 seginfo2 (l :: rest)).map (fun r =>
                    (r.1, w :: r.2))

/-- The walk of a logical segment from `start` (a log of `seginfo`, or its last
log for NULL): the logs walked, segment by segment, with at most
MAX_SCAN_SEGMENT steps into a previous segment. -/
def logical_segment_walk (G : Geometry) (dev : Device) (logend : Bool) (cache : SegmentCache)
    (seginfo : nilfs_segment_info) (start : Option nilfs_log_info) :
    Option (SegmentCache × List (List nilfs_log_info)) :=
  let logs :=
    match start with
    | some l => seginfo.log_list.reverse.dropWhile (fun x => x != l)
    | none => seginfo.log_list.reverse
  match logs with
  | [] => some (cache, [])
  | l :: rest =>
    walk_segments G dev logend MAX_SCAN_SEGMENT (get_segment_info cache seginfo.segnum) seginfo
      (l :: rest)

/-- The values of get_latest_cno for the logs of a list, in order; `none` when
one of the calls does not return. -/
def walk_cnos (G : Geometry) (dev : Device) : List nilfs_log_info → Option (List Nat)
  | [] => some []
  | l :: rest =>
    match get_latest_cno G dev l.log_start with
    | none => none
    | some c => (walk_cnos G dev rest).map (fun cs => c :: cs)

/-- A walked log and the log walked next: the first is without LOGBGN and the
second without LOGEND. -/
def walk_joins (a b : nilfs_log_info) : Prop :=
  a.flags &&& NILFS_SS_LOGBGN = 0 ∧ b.flags &&& NILFS_SS_LOGEND = 0

/-- Missing begin: segment 60 holds, under sequence number 9, a 2-block log at
block 240 with LOGBGN and LOGEND whose summary has one finfo record of the
checkpoint file (block 241, one entry of cp_cno 41), and behind it a 1-block
log at block 242 with LOGEND only and no finfo record. -/
def image_logend : Device :=
  field_device 1024 270336
    [(240, [(0, 4, 1458965153), (8, 4, NILFS_SEGSUM_MAGIC), (12, 2, 56), (14, 2, 3), (16, 8, 9),
            (40, 4, 2), (44, 4, 1), (48, 4, 96),
            (56, 8, NILFS_CPFILE_INO), (64, 8, 41), (72, 4, 1), (76, 4, 1),
            (80, 8, 100), (88, 8, 3)]),
     (241, [(24, 8, 41)]),
     (242, [(0, 4, 1569068321), (8, 4, NILFS_SEGSUM_MAGIC), (12, 2, 56), (14, 2, 2), (16, 8, 9),
            (40, 4, 1), (44, 4, 0), (48, 4, 56)])]

/-- The log at block 240 of image_logend as load_segment records it. -/
def logend_first : nilfs_log_info :=
  { log_start := 240, nblocks := 2, segsum := decode_segsum (dev_bytes image_logend 245760 64),
    flags := 3 }

/-- The log at block 242 of image_logend as load_segment records it. -/
def logend_second : nilfs_log_info :=
  { log_start := 242, nblocks := 1, segsum := decode_segsum (dev_bytes image_logend 247808 64),
    flags := 2 }

/-- The record load_segment builds for segment 60 of image_logend. -/
def logend_segment : nilfs_segment_info :=
  { log_list := [logend_first, logend_second], seg_start := 240, next := 0, segseq := 9,
    segnum := 60, nlogs := 2, refcnt := 1 }

/-! ## Mount check

The mount table is the contents of the file MOUNTS as a list of characters; a
C string is the list of its characters in front of the terminator. -/

/-- The constant LINE_BUFFER_SIZE. -/
def LINE_BUFFER_SIZE : Nat := 256

/-- The characters a C string function sees in a buffer: those in front of the
first NUL. -/
def c_string (b : List Char) : List Char := b.takeWhile (fun c => c != Char.ofNat 0)

/-- The characters that fgets stores when `n` more fit, and the rest of the
stream: it stops behind a newline, at the end of the stream or when the buffer
is full. -/
def fgets_take : Nat → List Char → List Char × List Char
  | 0, s => ([], s)
  | _ + 1, [] => ([], [])
  | n + 1, c :: s =>
    if c = Char.ofNat 10 then ([c], s)
    else (c :: (fgets_take n s).1, (fgets_take n s).2)

/-- The C library function fgets(line, size, fp): the line stored and the rest
of the stream; `none` is NULL, at the end of the stream. -/
def fgets (size : Nat) (stream : List Char) : Option (List Char × List Char) :=
  match stream with
  | [] => none
  | _ :: _ => some (fgets_take (size - 1) stream)

/-- The first call strtok(line, " "): the first token of the line, `none` for
NULL when the line holds nothing but spaces. -/
def strtok (line : List Char) : Option (List Char) :=
  match (c_string line).dropWhile (fun c => c == ' ') with
  | [] => none
  | c :: rest => some ((c :: rest).takeWhile (fun x => x != ' '))

/-- The test strncmp(s1, s2, n) == 0 on two C strings. -/
def strncmp_eq : Nat → List Char → List Char → Bool
  | 0, _, _ => true
  | _ + 1, [], [] => true
  | n + 1, c1 :: r1, c2 :: r2 => c1 == c2 && strncmp_eq n r1 r2
  | _ + 1, _, _ => false

/-- How check_mount ends. -/
inductive MountCheck where
  | returns
  | cannot_open
  | mounted
deriving DecidableEq, Repr

/-- The loop of check_mount over the rest of the stream; `none` is the call of
strncmp with the NULL that strtok returned. Every call of fgets takes at least
one character, so as many passes as the stream has characters reach its end;
the loop is given that many. -/
def check_mount_loop (device : List Char) : Nat → List Char → Option MountCheck
  | 0, _ => some MountCheck.returns
  | fuel + 1, stream =>
    match fgets LINE_BUFFER_SIZE stream with
    | none => some MountCheck.returns
    | some (line, rest) =>
      match strtok line with
      | none => none
      | some tok =>
        if strncmp_eq device.length tok device then some MountCheck.mounted
        else check_mount_loop device fuel rest

/-- The function check_mount; `mounts` is the contents of MOUNTS, `none` when
fopen fails. -/
def check_mount (mounts : Option (List Char)) (device : List Char) : Option MountCheck :=
  match mounts with
  | none => some MountCheck.cannot_open
  | some stream => check_mount_loop device stream.length stream

/-- The first space-delimited fields of the lines of a mount table. -/
def mount_fields (mounts : List Char) : List (List Char) :=
  (mounts.splitOn (Char.ofNat 10)).map (fun l => l.takeWhile (fun c => c != ' '))

/-! ## Path resolution (lib/realpath.c)

A path is the list of the characters of a C string. The result buffer is
followed through the bytes `resolved_path[0 .. npath)`, kept in reverse order
(the head is `npath[-1]`), and through the number `written`: every write so far
went to an index below it. -/

/-- The constant MAX_READLINKS. -/
def MAX_READLINKS : Nat := 32

/-- What readlink(resolved_path, link_path, PATH_MAX) delivers: the contents of
a symbolic link (at most PATH_MAX characters), the failure with EINVAL of a
file that is no symbolic link, or another failure. -/
inductive ReadlinkRet where
  | link (target : List Char)
  | einval
  | failed
deriving DecidableEq, Repr

/-- How myrealpath ends: with the resolved path, or with NULL for one of its
reasons. -/
inductive RealpathOut where
  | resolved (path : List Char)
  | enametoolong
  | eloop
  | readlink_failed
  | getcwd_failed
deriving DecidableEq, Repr

/-- The outcome of myrealpath and the bound of the indices written. -/
structure RealpathRet where
  out : RealpathOut
  written : Nat
deriving DecidableEq, Repr

/-- The loop `while (npath > resolved_path+1 && (--npath)[-1] != '/')` of the
".." case, on the reversed buffer contents. -/
def backup : List Char → List Char
  | [] => []
  | [c] => [c]
  | _ :: c :: rest => if c ≠ '/' then backup (c :: rest) else c :: rest

/-- The loop `while (*(--npath) != '/')` behind a relative symbolic link;
`none` is a read in front of the buffer. -/
def backup_component : List Char → Option (List Char)
  | [] => none
  | c :: rest => if c ≠ '/' then backup_component rest else some rest

/-- The passes of the main loop that end in `continue`: a stray "/", a "."
component and a ".." component. The result is the buffer and the path at the
first pass that copies a component, or at the end of the path. -/
def skip_dots : List Char → List Char → List Char × List Char
  | [], np => (np, [])
  | c :: p, np =>
    if c = '/' then skip_dots p np
    else if c = '.' then
      match p with
      | [] => (np, [])
      | c2 :: q =>
        if c2 = '/' then skip_dots q np
        else if c2 = '.' then
          match q with
          | [] => (backup np, [])
          | c3 :: r => if c3 = '/' then skip_dots r (backup np) else (np, c :: c2 :: c3 :: r)
        else (np, c :: c2 :: q)
    else (np, c :: p)

/-- The loop that copies a component: before every character the test
`npath-resolved_path > maxreslth-2`. The result tells whether the copy went
through (false is ENAMETOOLONG), with the buffer, the rest of the path and the
bound of the indices written. -/
def copy_component (maxreslth : Int) : List Char → List Char → Nat → Bool × List Char × List Char × Nat
  | [], np, w => (true, np, [], w)
  | c :: p, np, w =>
    if c = '/' then (true, np, c :: p, w)
    else if (np.length : Int) > maxreslth - 2 then (false, np, c :: p, w)
    else copy_component maxreslth p (c :: np) (max w (np.length + 1))

/-- The main loop of myrealpath from a pass on: `budget` is the number of
components that `readlinks++ > MAX_READLINKS` still lets through. The outer
`none` is a read in front of the buffer. malloc is taken to succeed. -/
def resolve (readlink : List Char → ReadlinkRet) (maxreslth : Int) :
    Nat → List Char → List Char → Nat → Option RealpathRet
  | budget, path, np, w =>
    match skip_dots path np with
    | (np1, []) =>
      match np1 with
      | [] => none
      | c :: rest =>
        let np2 := if (c :: rest).length ≠ 1 ∧ c = '/' then rest else c :: rest
        some { out := RealpathOut.resolved np2.reverse, written := max w (np2.length + 1) }
    | (np1, c :: p) =>
      match copy_component maxreslth (c :: p) np1 w with
      | (false, _, _, w2) => some { out := RealpathOut.enametoolong, written := w2 }
      | (true, np2, p2, w2) =>
        match budget with
        | 0 => some { out := RealpathOut.eloop, written := w2 }
        | b + 1 =>
          let w3 := max w2 (np2.length + 1)
          match readlink np2.reverse with
          | ReadlinkRet.failed => some { out := RealpathOut.readlink_failed, written := w3 }
          | ReadlinkRet.einval => resolve readlink maxreslth b p2 ('/' :: np2) w3
          | ReadlinkRet.link target =>
            match (if target.head? = some '/' then some [] else backup_component np2) with
            | none => none
            | some np3 =>
              resolve readlink maxreslth b (target ++ p2) ('/' :: np3) (max w3 (np3.length + 1))

/-- The function myrealpath. `cwd` is what getcwd delivers for a buffer that is
large enough (`none`: it fails); its size argument is `maxreslth-2` taken as a
size_t. -/
def myrealpath (readlink : List Char → ReadlinkRet) (cwd : Option (List Char))
    (path : List Char) (maxreslth : Int) : Option RealpathRet :=
  if path.head? = some '/' then
    resolve readlink maxreslth (MAX_READLINKS + 1) path.tail ['/'] 1
  else
    match cwd with
    | none => some { out := RealpathOut.getcwd_failed, written := 0 }
    | some d =>
      if ((d.length : Int) + 1 > (maxreslth - 2) % 18446744073709551616) then
        some { out := RealpathOut.getcwd_failed, written := 0 }
      else
        match d.reverse with
        | [] => none
        | c :: rest =>
          if c ≠ '/' then
            resolve readlink maxreslth (MAX_READLINKS + 1) path ('/' :: c :: rest) (d.length + 1)
          else resolve readlink maxreslth (MAX_READLINKS + 1) path (c :: rest) (d.length + 1)

/-! ### Lexical normalisation -/

/-- The components of a path: the pieces between its slashes. -/
def split_slash : List Char → List (List Char)
  | [] => [[]]
  | c :: p =>
    if c = '/' then [] :: split_slash p
    else
      match split_slash p with
      | [] => [[c]]
      | h :: t => (c :: h) :: t

/-- A component that is copied: not empty, not "." and not "..". -/
def is_name (c : List Char) : Bool := c != [] && c != ['.'] && c != ['.', '.']

/-- One step of the normalisation on the names kept so far, the last one
first: an empty or "." component changes nothing, ".." removes the last name
(none at the root), a name is added. -/
def norm_step (names : List (List Char)) (c : List Char) : List (List Char) :=
  if c = [] ∨ c = ['.'] then names
  else if c = ['.', '.'] then names.tail
  else c :: names

/-- The path of the names kept, the last one first: "/" for none, otherwise
each name behind a slash, without a trailing slash. -/
def render (names : List (List Char)) : List Char :=
  if names = [] then ['/'] else (names.reverse.map (fun c => '/' :: c)).flatten

/-- The lexical normalisation of the absolute path `/` followed by `p`. -/
def lexical_normalisation (p : List Char) : List Char :=
  render ((split_slash p).foldl norm_step [])

/-- Every form that the normalisation passes through, component by component,
is shorter than `maxreslth`, so that it fits in the buffer with its
terminator. -/
def forms_fit (maxreslth : Int) : List (List Char) → List (List Char) → Bool
  | names, [] => decide (((render names).length : Int) < maxreslth)
  | names, c :: cs =>
    decide (((render names).length : Int) < maxreslth) && forms_fit maxreslth (norm_step names c) cs

/-- The path with the given components: they are joined by slashes. -/
def join_slash : List (List Char) → List Char
  | [] => []
  | c :: cs =>
    c ++ (match cs with
          | [] => []
          | _ :: _ => '/' :: join_slash cs)

/-- The names kept, each behind a slash, the last one first in `names`. -/
def names_path (names : List (List Char)) : List Char :=
  (names.reverse.map (fun c => '/' :: c)).flatten

/-- The rest of a path behind a component: empty, or a slash and the further
components. -/
def join_rest (cs : List (List Char)) : List Char :=
  match cs with
  | [] => []
  | _ :: _ => '/' :: join_slash cs

/-! # Theorems -/

theorem with_value_eq {α : Type} (n : Nat) (k : Nat → α) : with_value n k = k n := by
  cases n <;> rfl

theorem crc32_le_cons (s b : Nat) (bs : List Nat) :
    crc32_le s (b :: bs) = crc32_le (crc32_byte s b) bs := by
  rw [crc32_le, with_value_eq]

theorem crc32_byte_mod (s b : Nat) : crc32_byte (s % 4294967296) b = crc32_byte s b := by
  simp [crc32_byte]

theorem crc32_le_mod (s : Nat) (l : List Nat) : crc32_le (s % 4294967296) l = crc32_le s l := by
  cases l with
  | nil => simp [crc32_le]
  | cons b bs => rw [crc32_le_cons, crc32_le_cons, crc32_byte_mod]

theorem crc32_le_append (s : Nat) (a b : List Nat) :
    crc32_le (crc32_le s a) b = crc32_le s (a ++ b) := by
  induction a generalizing s with
  | nil => simp [crc32_le, crc32_le_mod]
  | cons x a ih => rw [List.cons_append, crc32_le_cons, crc32_le_cons, ih]

theorem crc32_le_lt (s : Nat) (l : List Nat) : crc32_le s l < 4294967296 := by
  induction l generalizing s with
  | nil => simp [crc32_le]; omega
  | cons x a ih => rw [crc32_le_cons]; exact ih _

theorem read_block_length {G : Geometry} {dev : Device} {blocknr size : Nat} {b : List Nat}
    (h : read_block G dev blocknr size = some b) : b.length = size := by
  unfold read_block at h
  simp only at h
  split at h
  · simp at h
  · split at h
    · simp at h; subst h; simp [dev_bytes]
    · simp at h

theorem log_is_valid_rest_eq (G : Geometry) (dev : Device) (n blocknr s : Nat) (x : List Nat) :
    log_is_valid_rest G dev n blocknr (crc32_le s x)
      = (log_blocks G dev n blocknr).map (fun r => crc32_le s (x ++ r)) := by
  induction n generalizing blocknr x with
  | zero => simp [log_is_valid_rest, log_blocks]
  | succ n ih =>
    simp only [log_is_valid_rest, log_blocks]
    cases hb : read_block G dev blocknr G.blocksize with
    | none => simp
    | some b =>
      simp only [crc32_le_append, ih]
      cases hr : log_blocks G dev n ((blocknr + 1) % 18446744073709551616) with
      | none => simp
      | some r => simp

/-- C1: log_is_valid returns true exactly when the magic is NILFS_SEGSUM_MAGIC,
1 <= nblocks <= blocks_per_segment and the one-shot crc32_le(crc_seed, P) equals
the stored datasum, where P is the concatenation of the nblocks blocks from
log_start without its first 4 bytes; the block-by-block fold of the code equals
that one-shot CRC. The geometry is one with blocks of at least 4 bytes and
fewer than 2^31 blocks per segment (the range in which `int nblocks` holds the
32-bit count). -/
theorem log_is_valid_iff (G : Geometry) (dev : Device) (log_start : Nat)
    (ss : nilfs_segment_summary) (hbs : 4 ≤ G.blocksize)
    (hbps : G.blocks_per_segment < 2147483648) :
    log_is_valid G dev log_start ss = some true ↔
      (ss.ss_magic = NILFS_SEGSUM_MAGIC ∧ 1 ≤ ss.ss_nblocks ∧
        ss.ss_nblocks ≤ G.blocks_per_segment ∧
        ∃ P, log_blocks G dev ss.ss_nblocks log_start = some P ∧
          crc32_le G.crc_seed (P.drop 4) = ss.ss_datasum) := by
  unfold log_is_valid
  by_cases hm : ss.ss_magic = NILFS_SEGSUM_MAGIC
  swap
  · simp [hm]
  by_cases hn : ss.ss_nblocks = 0 ∨ ss.ss_nblocks > G.blocks_per_segment
  · simp only [hm, hn, ne_eq, not_true_eq_false, if_false, if_true]
    constructor
    · intro h; simp at h
    · rintro ⟨_, h1, h2, _⟩; omega
  have h1 : 1 ≤ ss.ss_nblocks := by omega
  have h2 : ss.ss_nblocks ≤ G.blocks_per_segment := by omega
  obtain ⟨m, hmn⟩ : ∃ m, ss.ss_nblocks = m + 1 := ⟨ss.ss_nblocks - 1, by omega⟩
  have hc : log_rest_count ss.ss_nblocks = m := by
    unfold log_rest_count; rw [if_pos (by omega)]; omega
  simp only [hm, hn, ne_eq, not_true_eq_false, if_false, hc, true_and, h1, h2]
  rw [hmn]
  simp only [log_blocks]
  cases hb : read_block G dev log_start G.blocksize with
  | none => simp
  | some b0 =>
    have hl := read_block_length hb
    simp only [log_is_valid_rest_eq]
    cases hr : log_blocks G dev m ((log_start + 1) % 18446744073709551616) with
    | none => simp
    | some r =>
      have : (b0 ++ r).drop 4 = b0.drop 4 ++ r := by
        rw [List.drop_append_of_le_length (by omega)]
      simp [this]

theorem le_bytes_length (n v : Nat) : (le_bytes n v).length = n := by
  induction n generalizing v with
  | zero => rfl
  | succ n ih => simp [le_bytes, ih]

theorem le_value_le_bytes (n v : Nat) : le_value (le_bytes n v) = v % 256 ^ n := by
  induction n generalizing v with
  | zero => simp [le_bytes, le_value, Nat.mod_one]
  | succ n ih =>
    simp only [le_bytes, le_value, ih, Nat.mod_mod]
    rw [pow_succ, Nat.mul_comm (256 ^ n) 256, Nat.mod_mul]

theorem le_bytes_lt (n v : Nat) : ∀ x ∈ le_bytes n v, x < 256 := by
  induction n generalizing v with
  | zero => simp [le_bytes]
  | succ n ih =>
    intro x hx
    simp only [le_bytes, List.mem_cons] at hx
    rcases hx with h | h
    · omega
    · exact ih _ x h

theorem put_le_outside (b : Buf) (off n v i : Nat) (h : i < off ∨ off + n ≤ i) :
    put_le b off n v i = b i := by
  unfold put_le
  rw [if_neg (by omega)]

theorem buf_bytes_congr {b c : Buf} {off n : Nat}
    (h : ∀ i, off ≤ i → i < off + n → b i % 256 = c i % 256) :
    buf_bytes b off n = buf_bytes c off n := by
  unfold buf_bytes
  apply List.map_congr_left
  intro i hi
  rw [List.mem_range] at hi
  exact h (off + i) (by omega) (by omega)

theorem buf_bytes_put_le_same (b : Buf) (off n v : Nat) :
    buf_bytes (put_le b off n v) off n = le_bytes n v := by
  apply List.ext_getElem
  · simp [buf_bytes, le_bytes_length]
  · intro i h1 h2
    simp only [buf_bytes, List.getElem_map, List.getElem_range, put_le]
    rw [if_pos (by simp [buf_bytes] at h1; omega)]
    simp only [Nat.add_sub_cancel_left]
    rw [List.getD_eq_getElem _ _ h2]
    exact Nat.mod_eq_of_lt (le_bytes_lt n v _ (List.getElem_mem _))

theorem get_le_put_le_same (b : Buf) (off n v : Nat) :
    get_le (put_le b off n v) off n = v % 256 ^ n := by
  rw [get_le, buf_bytes_put_le_same, le_value_le_bytes]

theorem get_le_put_le_disjoint (b : Buf) (off n v off2 n2 : Nat)
    (h : off2 + n2 ≤ off ∨ off + n ≤ off2) :
    get_le (put_le b off n v) off2 n2 = get_le b off2 n2 := by
  unfold get_le
  congr 1
  apply buf_bytes_congr
  intro i h1 h2
  rw [put_le_outside _ _ _ _ _ (by omega)]

theorem sb_get_sb_set_same (b : Buf) (f : SbField) (v : Nat) :
    sb_get (sb_set b f v) f = v % 256 ^ f.width := get_le_put_le_same _ _ _ _

theorem sb_get_sb_set_other (b : Buf) (f g : SbField) (v : Nat)
    (h : g.off + g.width ≤ f.off ∨ f.off + f.width ≤ g.off) :
    sb_get (sb_set b f v) g = sb_get b g := get_le_put_le_disjoint _ _ _ _ _ _ h

theorem sb_set_outside (b : Buf) (f : SbField) (v i : Nat) (h : i < f.off ∨ f.off + f.width ≤ i) :
    sb_set b f v i = b i := put_le_outside _ _ _ _ _ h

theorem le_value_lt (l : List Nat) : le_value l < 256 ^ l.length := by
  induction l with
  | nil => simp [le_value]
  | cons x l ih =>
    simp only [le_value, List.length_cons, pow_succ]
    have : x % 256 < 256 := Nat.mod_lt _ (by norm_num)
    omega

theorem sb_get_lt (b : Buf) (f : SbField) : sb_get b f < 256 ^ f.width := by
  have := le_value_lt (buf_bytes b f.off f.width)
  simpa [sb_get, get_le, buf_bytes] using this

theorem clear_valid_bit (x : Nat) (hx : x < 65536) :
    (x &&& (4294967295 - NILFS_VALID_FS)) = x - x % 2 := by
  apply Nat.eq_of_testBit_eq
  intro i
  have e : x - x % 2 = 2 * (x / 2) := by omega
  rw [e, Nat.testBit_land]
  cases i with
  | zero =>
    simp [NILFS_VALID_FS, Nat.testBit_zero]
  | succ i =>
    have hm : (4294967295 - NILFS_VALID_FS) = 2 * (2 ^ 31 - 1) := by simp [NILFS_VALID_FS]
    rw [hm, Nat.testBit_succ, Nat.testBit_succ, Nat.testBit_succ]
    simp only [Nat.mul_div_cancel_left _ (by norm_num : 0 < 2), Nat.testBit_two_pow_sub_one]
    by_cases hi : i < 31
    · simp [hi]
    · have : (x / 2).testBit i = false := by
        apply Nat.testBit_lt_two_pow
        have : 2 ^ 31 ≤ 2 ^ i := Nat.pow_le_pow_right (by norm_num) (by omega)
        omega
      simp [this]

/-- The superblock after the five field stores of commit_super_block and
before the checksum. -/
theorem commit_super_block_get (G : Geometry) (sbp : Buf) (log_ref : nilfs_log_ref) (now : Nat)
    (f : SbField)
    (h1 : f.off + f.width ≤ 16 ∨ 20 ≤ f.off) (h2 : f.off + f.width ≤ 56 ∨ 80 ≤ f.off)
    (h3 : f.off + f.width ≤ 104 ∨ 112 ≤ f.off) (h4 : f.off + f.width ≤ 116 ∨ 118 ≤ f.off) :
    sb_get (commit_super_block G sbp log_ref now) f = sb_get sbp f := by
  unfold commit_super_block
  simp only
  rw [sb_get_sb_set_other _ _ _ _ (by simp [F_sum]; omega),
    sb_get_sb_set_other _ _ _ _ (by simp [F_sum]; omega),
    sb_get_sb_set_other _ _ _ _ (by simp [F_state]; omega),
    sb_get_sb_set_other _ _ _ _ (by simp [F_wtime]; omega),
    sb_get_sb_set_other _ _ _ _ (by simp [F_last_cno]; omega),
    sb_get_sb_set_other _ _ _ _ (by simp [F_last_seq]; omega),
    sb_get_sb_set_other _ _ _ _ (by simp [F_last_pseg]; omega)]

/-- C8: commit_super_block stores the reference's blocknr, seqnum and cno in
s_last_pseg, s_last_seq and s_last_cno and the current time in s_wtime, clears
exactly the NILFS_VALID_FS bit of s_state (every other state bit is kept), and
leaves every byte outside these fields and s_sum as it was. -/
theorem commit_super_block_frame (G : Geometry) (sbp : Buf) (log_ref : nilfs_log_ref)
    (now : Nat) (hb : log_ref.blocknr < 18446744073709551616)
    (hs : log_ref.seqnum < 18446744073709551616) (hc : log_ref.cno < 18446744073709551616)
    (hn : now < 18446744073709551616) :
    sb_get (commit_super_block G sbp log_ref now) F_last_pseg = log_ref.blocknr ∧
    sb_get (commit_super_block G sbp log_ref now) F_last_seq = log_ref.seqnum ∧
    sb_get (commit_super_block G sbp log_ref now) F_last_cno = log_ref.cno ∧
    sb_get (commit_super_block G sbp log_ref now) F_wtime = now ∧
    sb_get (commit_super_block G sbp log_ref now) F_state
      = sb_get sbp F_state - sb_get sbp F_state % 2 ∧
    (∀ i, (i < 16 ∨ 20 ≤ i) → (i < 56 ∨ 80 ≤ i) → (i < 104 ∨ 112 ≤ i) →
      (i < 116 ∨ 118 ≤ i) → commit_super_block G sbp log_ref now i = sbp i) := by
  have e8 : (256 : Nat) ^ 8 = 18446744073709551616 := by norm_num
  refine ⟨?_, ?_, ?_, ?_, ?_, ?_⟩
  · unfold commit_super_block
    simp only
    rw [sb_get_sb_set_other _ _ _ _ (by decide), sb_get_sb_set_other _ _ _ _ (by decide),
      sb_get_sb_set_other _ _ _ _ (by decide), sb_get_sb_set_other _ _ _ _ (by decide),
      sb_get_sb_set_other _ _ _ _ (by decide), sb_get_sb_set_other _ _ _ _ (by decide),
      sb_get_sb_set_same]
    simp only [F_last_pseg, e8]
    exact Nat.mod_eq_of_lt hb
  · unfold commit_super_block
    simp only
    rw [sb_get_sb_set_other _ _ _ _ (by decide), sb_get_sb_set_other _ _ _ _ (by decide),
      sb_get_sb_set_other _ _ _ _ (by decide), sb_get_sb_set_other _ _ _ _ (by decide),
      sb_get_sb_set_other _ _ _ _ (by decide), sb_get_sb_set_same]
    simp only [F_last_seq, e8]
    exact Nat.mod_eq_of_lt hs
  · unfold commit_super_block
    simp only
    rw [sb_get_sb_set_other _ _ _ _ (by decide), sb_get_sb_set_other _ _ _ _ (by decide),
      sb_get_sb_set_other _ _ _ _ (by decide), sb_get_sb_set_other _ _ _ _ (by decide),
      sb_get_sb_set_same]
    simp only [F_last_cno, e8]
    exact Nat.mod_eq_of_lt hc
  · unfold commit_super_block
    simp only
    rw [sb_get_sb_set_other _ _ _ _ (by decide), sb_get_sb_set_other _ _ _ _ (by decide),
      sb_get_sb_set_other _ _ _ _ (by decide), sb_get_sb_set_same]
    simp only [F_wtime, e8]
    exact Nat.mod_eq_of_lt hn
  · unfold commit_super_block
    simp only
    rw [sb_get_sb_set_other _ _ _ _ (by decide), sb_get_sb_set_other _ _ _ _ (by decide),
      sb_get_sb_set_same,
      sb_get_sb_set_other _ _ _ _ (by decide), sb_get_sb_set_other _ _ _ _ (by decide),
      sb_get_sb_set_other _ _ _ _ (by decide), sb_get_sb_set_other _ _ _ _ (by decide)]
    have hlt : sb_get sbp F_state < 65536 := by
      have := sb_get_lt sbp F_state
      simpa [F_state] using this
    rw [clear_valid_bit _ hlt]
    have hw : (256 : Nat) ^ F_state.width = 65536 := by simp [F_state]
    rw [hw]
    apply Nat.mod_eq_of_lt
    omega
  · intro i h1 h2 h3 h4
    simp only [commit_super_block]
    rw [sb_set_outside _ _ _ _ (by simp [F_sum]; omega),
      sb_set_outside _ _ _ _ (by simp [F_sum]; omega),
      sb_set_outside _ _ _ _ (by simp [F_state]; omega),
      sb_set_outside _ _ _ _ (by simp [F_wtime]; omega),
      sb_set_outside _ _ _ _ (by simp [F_last_cno]; omega),
      sb_set_outside _ _ _ _ (by simp [F_last_seq]; omega),
      sb_set_outside _ _ _ _ (by simp [F_last_pseg]; omega)]

theorem sb_set_sb_set_same (b : Buf) (f : SbField) (v w : Nat) :
    sb_set (sb_set b f v) f w = sb_set b f w := by
  funext i
  simp only [sb_set, put_le]
  split <;> rfl

theorem read_sb_info_crc_seed {sbp : Buf} {G : Geometry} (h : read_sb_info sbp = some G) :
    G.crc_seed = sb_get sbp F_crc_seed ∧ G.sb_bytes = sb_get sbp F_bytes := by
  unfold read_sb_info at h
  simp only at h
  split at h
  · simp at h
  · split at h
    · simp at h
    · simp only [Option.some.injEq] at h
      subst h
      exact ⟨rfl, rfl⟩

/-- C9: for a superblock that the fsck reader accepts, with crc_seed and
sb_bytes as read_sb_info derives them from it, the superblock that
commit_super_block produces passes nilfs_sb_is_valid with the CRC check on. -/
theorem commit_super_block_valid (sbp : Buf) (G : Geometry) (log_ref : nilfs_log_ref)
    (now : Nat) (hacc : nilfs_sb_is_valid sbp false = true)
    (hG : read_sb_info sbp = some G) :
    nilfs_sb_is_valid (commit_super_block G sbp log_ref now) true = true := by
  obtain ⟨hseed, hbytes⟩ := read_sb_info_crc_seed hG
  unfold nilfs_sb_is_valid at hacc
  have hmagic : sb_get sbp F_magic = NILFS_SUPER_MAGIC := by
    by_contra hne
    simp [hne] at hacc
  have hlen : ¬ sb_get sbp F_bytes > NILFS_MAX_SB_SIZE := by
    intro hgt
    simp [hmagic, hgt] at hacc
  have g1 := commit_super_block_get G sbp log_ref now F_magic (by decide) (by decide)
    (by decide) (by decide)
  have g2 := commit_super_block_get G sbp log_ref now F_bytes (by decide) (by decide)
    (by decide) (by decide)
  have g3 := commit_super_block_get G sbp log_ref now F_crc_seed (by decide) (by decide)
    (by decide) (by decide)
  unfold nilfs_sb_is_valid
  rw [g1, g2, g3]
  simp only [hmagic, hlen, ne_eq, not_true_eq_false, if_false, Bool.not_true, Bool.false_eq_true,
    beq_iff_eq]
  unfold commit_super_block
  simp only
  rw [sb_set_sb_set_same, sb_set_sb_set_same, sb_get_sb_set_same, hseed, hbytes]
  have e4 : (256 : Nat) ^ F_sum.width = 4294967296 := by simp [F_sum]
  rw [e4, Nat.mod_eq_of_lt (crc32_le_lt _ _)]

theorem cache_entry_segnum {c : SegmentCache} {n : Nat} {s : nilfs_segment_info}
    (h : cache_entry c n = some s) : s.segnum = n := by
  unfold cache_entry at h
  have := List.find?_some h
  simpa using this

theorem cache_entry_mem {c : SegmentCache} {n : Nat} {s : nilfs_segment_info}
    (h : cache_entry c n = some s) : s ∈ c := List.mem_of_find?_eq_some h

theorem cache_entry_update (f : nilfs_segment_info → nilfs_segment_info)
    (hf : ∀ s, (f s).segnum = s.segnum) (n m : Nat) (c : SegmentCache) :
    cache_entry (cache_update f n c) m
      = if m = n then (cache_entry c m).map f else cache_entry c m := by
  induction c with
  | nil => simp [cache_update, cache_entry]
  | cons s rest ih =>
    unfold cache_entry at ih ⊢
    simp only [cache_update]
    by_cases hs : s.segnum = n
    · rw [if_pos hs]
      by_cases hm : m = n
      · subst hm
        rw [List.find?_cons_of_pos _ (by simp [hf, hs]), List.find?_cons_of_pos _ (by simp [hs])]
        simp
      · have hne : ¬ s.segnum = m := fun h => hm (h.symm.trans hs)
        rw [List.find?_cons_of_neg _ (by simp [hf, hne]), List.find?_cons_of_neg _ (by simp [hne])]
        simp [hm]
    · rw [if_neg hs]
      by_cases hsm : s.segnum = m
      · have : ¬ m = n := fun h => hs (hsm.trans h)
        rw [List.find?_cons_of_pos _ (by simp [hsm]), List.find?_cons_of_pos _ (by simp [hsm])]
        simp [this]
      · rw [List.find?_cons_of_neg _ (by simp [hsm]), List.find?_cons_of_neg _ (by simp [hsm])]
        exact ih

theorem refcnt_of_get (c : SegmentCache) (n m : Nat) :
    refcnt_of (get_segment_info c n) m
      = if m = n ∧ (cache_entry c n).isSome then refcnt_of c m + 1 else refcnt_of c m := by
  unfold refcnt_of get_segment_info
  rw [cache_entry_update (fun s => { s with refcnt := s.refcnt + 1 }) (fun _ => rfl)]
  by_cases hm : m = n
  · subst hm
    cases h : cache_entry c m <;> simp
  · simp [hm]

theorem put_segment_info_some {c c1 : SegmentCache} {n : Nat}
    (h : put_segment_info c n = some c1) :
    0 < refcnt_of c n ∧ ∀ m, refcnt_of c1 m = if m = n then refcnt_of c m - 1 else refcnt_of c m := by
  unfold put_segment_info at h
  cases he : cache_entry c n with
  | none => simp [he] at h
  | some s =>
    simp only [he] at h
    split at h
    · next hpos =>
      simp only [Option.some.injEq] at h
      subst h
      refine ⟨by simp [refcnt_of, he]; exact hpos, ?_⟩
      intro m
      unfold refcnt_of
      rw [cache_entry_update (fun s => { s with refcnt := s.refcnt - 1 }) (fun _ => rfl)]
      by_cases hm : m = n
      · subst hm; simp [he]
      · simp [hm]
    · simp at h

theorem put_segment_info_of_pos {c : SegmentCache} {n : Nat} (h : 0 < refcnt_of c n) :
    ∃ c1, put_segment_info c n = some c1 := by
  unfold refcnt_of at h
  unfold put_segment_info
  cases he : cache_entry c n with
  | none => simp [he] at h
  | some s =>
    simp only [he] at h
    simp [h]

theorem cache_entry_append (c : SegmentCache) (s : nilfs_segment_info) (m : Nat) :
    cache_entry (c ++ [s]) m
      = match cache_entry c m with
        | some e => some e
        | none => if s.segnum = m then some s else none := by
  unfold cache_entry
  rw [List.find?_append]
  cases h : List.find? (fun s => s.segnum == m) c with
  | some e => simp
  | none => by_cases hs : s.segnum = m <;> simp [hs]

theorem read_segment_segnum {G : Geometry} {dev : Device} {k : Nat} {s : nilfs_segment_info}
    {ok : Bool} (h : read_segment G dev k = some (s, ok)) :
    s.segnum = k ∧ s.refcnt = (if ok then 1 else 0) := by
  unfold read_segment at h
  simp only at h
  split at h
  · simp at h
  · split at h
    · simp at h
    · simp only [Option.some.injEq, Prod.mk.injEq] at h
      obtain ⟨h1, h2⟩ := h
      subst h1; subst h2; simp
    · split at h
      · simp at h
      · simp only [Option.some.injEq, Prod.mk.injEq] at h
        obtain ⟨h1, h2⟩ := h
        subst h1; subst h2; simp

/-- What load_segment does to the reference counts and which segment it returns. -/
theorem load_segment_refcnt {G : Geometry} {dev : Device} {c c1 : SegmentCache} {k : Nat}
    {r : Option nilfs_segment_info} (h : load_segment G dev c k = some (c1, r)) :
    (∀ s, r = some s → s.segnum = k) ∧
    (∀ m, refcnt_of c1 m = if m = k ∧ r.isSome then refcnt_of c m + 1 else refcnt_of c m) := by
  unfold load_segment at h
  cases hl : lookup_segment c k with
  | some p =>
    obtain ⟨c2, s⟩ := p
    simp only [hl, Option.some.injEq, Prod.mk.injEq] at h
    obtain ⟨h1, h2⟩ := h
    subst h1; subst h2
    unfold lookup_segment at hl
    cases he : cache_entry c k with
    | none => simp [he] at hl
    | some e =>
      simp only [he, Option.some.injEq, Prod.mk.injEq] at hl
      obtain ⟨h1, h2⟩ := hl
      subst h1; subst h2
      refine ⟨?_, ?_⟩
      · intro s hs
        simp only [Option.some.injEq] at hs
        subst hs
        exact cache_entry_segnum (s := e) he
      · intro m
        rw [refcnt_of_get]
        simp [he]
  | none =>
    simp only [hl] at h
    have hnone : cache_entry c k = none := by
      unfold lookup_segment at hl
      cases he : cache_entry c k with
      | none => rfl
      | some e => simp [he] at hl
    cases hr : read_segment G dev k with
    | none => simp [hr] at h
    | some p =>
      obtain ⟨s, ok⟩ := p
      obtain ⟨hs1, hs2⟩ := read_segment_segnum hr
      cases ok with
      | true =>
        simp only [hr, Option.some.injEq, Prod.mk.injEq] at h
        obtain ⟨h1, h2⟩ := h
        subst h1; subst h2
        refine ⟨?_, ?_⟩
        · intro s1 hs; simp only [Option.some.injEq] at hs; subst hs; exact hs1
        · intro m
          unfold refcnt_of
          rw [cache_entry_append]
          by_cases hm : m = k
          · subst hm
            simp [hnone, hs1, hs2]
          · have : ¬ s.segnum = m := by rw [hs1]; exact fun h => hm h.symm
            simp only [hm, false_and, if_false, this]
            cases cache_entry c m <;> simp
      | false =>
        simp only [hr, Option.some.injEq, Prod.mk.injEq] at h
        obtain ⟨h1, h2⟩ := h
        subst h1; subst h2
        refine ⟨by simp, ?_⟩
        intro m
        unfold refcnt_of
        rw [cache_entry_append]
        by_cases hm : m = k
        · subst hm
          simp [hnone, hs1, hs2]
        · have : ¬ s.segnum = m := by rw [hs1]; exact fun h => hm h.symm
          simp only [Option.isSome_none, Bool.false_eq_true, and_false, if_false, this]
          cases cache_entry c m <;> simp

theorem log_is_valid_true {G : Geometry} {dev : Device} {b : Nat} {ss : nilfs_segment_summary}
    (h : log_is_valid G dev b ss = some true) :
    ss.ss_magic = NILFS_SEGSUM_MAGIC ∧ 1 ≤ ss.ss_nblocks ∧ ss.ss_nblocks ≤ G.blocks_per_segment := by
  unfold log_is_valid at h
  split at h
  · simp at h
  · next hm =>
    split at h
    · simp at h
    · next hn =>
      refine ⟨by simpa using hm, by omega, by omega⟩

theorem load_logs_chain {G : Geometry} {dev : Device} {segseq endb : Nat} :
    ∀ (fuel b : Nat) (ss : nilfs_segment_summary) (logs : List nilfs_log_info),
      1 ≤ ss.ss_nblocks → ss.ss_nblocks ≤ G.blocks_per_segment →
      load_logs G dev segseq endb fuel b ss = some logs →
      log_chain G.blocks_per_segment b logs ∧ logs.length ≤ fuel := by
  intro fuel
  induction fuel with
  | zero => intro b ss logs _ _ h; simp [load_logs] at h
  | succ fuel ih =>
    intro b ss logs h1 h2 h
    simp only [load_logs] at h
    split at h
    · simp only [Option.some.injEq] at h
      subst h
      simp [log_chain, h1, h2]
    · split at h
      · simp at h
      · next bytes hb =>
        split at h
        · simp at h
        · next v hv =>
          split at h
          · next hcond =>
            simp only [Bool.and_eq_true, beq_iff_eq] at hcond
            obtain ⟨hvt, _⟩ := hcond
            subst hvt
            obtain ⟨_, k1, k2⟩ := log_is_valid_true hv
            cases hr : load_logs G dev segseq endb fuel
                ((b + ss.ss_nblocks) % 18446744073709551616) (decode_segsum bytes) with
            | none => simp [hr] at h
            | some r =>
              simp only [hr, Option.map_some', Option.some.injEq] at h
              subst h
              obtain ⟨c1, c2⟩ := ih _ _ _ k1 k2 hr
              refine ⟨?_, by simp; omega⟩
              simp only [log_chain, h1, h2, true_and]
              exact c1
          · simp only [Option.some.injEq] at h
            subst h
            simp [log_chain, h1, h2]

theorem log_chain_tail {bps : Nat} :
    ∀ (rest : List nilfs_log_info) (b : Nat) (l0 : nilfs_log_info),
      log_chain bps b (l0 :: rest) →
      ∀ l ∈ rest, ∃ o, 1 ≤ o ∧ o ≤ rest.length * bps ∧
        l.log_start = (b + o) % 18446744073709551616 := by
  intro rest
  induction rest with
  | nil => intro b l0 _ l hl; simp at hl
  | cons l1 rest ih =>
    intro b l0 hc l hl
    simp only [log_chain] at hc
    obtain ⟨_, h1, h2, h3, h4, h5, h6⟩ := hc
    simp only [List.mem_cons] at hl
    rcases hl with hl | hl
    · subst hl
      refine ⟨l0.nblocks, h1, ?_, h3⟩
      simp only [List.length_cons]
      have : l0.nblocks ≤ 1 * bps := by omega
      exact le_trans this (Nat.mul_le_mul_right _ (by omega))
    · have hc1 : log_chain bps ((b + l0.nblocks) % 18446744073709551616) (l1 :: rest) := by
        simp only [log_chain]; exact ⟨h3, h4, h5, h6⟩
      obtain ⟨o, o1, o2, o3⟩ := ih _ _ hc1 l hl
      refine ⟨l0.nblocks + o, by omega, ?_, ?_⟩
      · simp only [List.length_cons, Nat.add_mul, Nat.one_mul]; omega
      · rw [o3]; omega

theorem log_chain_pairwise {bps : Nat} :
    ∀ (logs : List nilfs_log_info) (b : Nat), log_chain bps b logs →
      logs.length * bps < 18446744073709551616 →
      logs.Pairwise (fun x y => x.log_start ≠ y.log_start) := by
  intro logs
  induction logs with
  | nil => intro _ _ _; exact List.Pairwise.nil
  | cons l0 rest ih =>
    intro b hc hlen
    have hrest : rest.length * bps < 18446744073709551616 := by
      simp only [List.length_cons, Nat.add_mul, Nat.one_mul] at hlen; omega
    refine List.Pairwise.cons ?_ ?_
    · intro l hl
      obtain ⟨o, o1, o2, o3⟩ := log_chain_tail rest b l0 hc l hl
      simp only [log_chain] at hc
      rw [hc.1, o3]
      omega
    · simp only [log_chain] at hc
      exact ih _ hc.2.2.2 hrest

theorem find_unique_log {logs : List nilfs_log_info} {x : nilfs_log_info} {b : Nat}
    (hp : logs.Pairwise (fun x y => x.log_start ≠ y.log_start)) (hx : x ∈ logs)
    (hb : x.log_start = b) : logs.find? (fun l => l.log_start == b) = some x := by
  induction logs with
  | nil => simp at hx
  | cons l rest ih =>
    rw [List.pairwise_cons] at hp
    simp only [List.mem_cons] at hx
    rcases hx with hx | hx
    · subst hx
      rw [List.find?_cons_of_pos _ (by simp [hb])]
    · have hne : l.log_start ≠ b := by rw [← hb]; exact hp.1 x hx
      rw [List.find?_cons_of_neg _ (by simp [hne])]
      exact ih hp.2 hx

/-- The logs of a segment that read_segment loads follow each other from
`seg_start` and there are at most `blocks_per_segment` of them. -/
theorem read_segment_chain {G : Geometry} {dev : Device} {k : Nat} {s : nilfs_segment_info}
    (h : read_segment G dev k = some (s, true)) :
    log_chain G.blocks_per_segment s.seg_start s.log_list ∧
      s.log_list.length ≤ G.blocks_per_segment := by
  unfold read_segment at h
  simp only at h
  split at h
  · simp at h
  · next bytes hb =>
    split at h
    · simp at h
    · simp at h
    · next hv =>
      split at h
      · simp at h
      · next logs hl =>
        simp only [Option.some.injEq, Prod.mk.injEq, and_true] at h
        subst h
        obtain ⟨_, k1, k2⟩ := log_is_valid_true hv
        exact load_logs_chain _ _ _ _ k1 k2 hl

theorem read_segment_distinct {G : Geometry} {dev : Device} {k : Nat} {s : nilfs_segment_info}
    (hbps : G.blocks_per_segment < 4294967296)
    (h : read_segment G dev k = some (s, true)) :
    s.log_list.Pairwise (fun x y => x.log_start ≠ y.log_start) := by
  obtain ⟨h1, h2⟩ := read_segment_chain h
  apply log_chain_pairwise _ _ h1
  calc s.log_list.length * G.blocks_per_segment
      ≤ G.blocks_per_segment * G.blocks_per_segment := Nat.mul_le_mul_right _ h2
    _ ≤ 4294967295 * 4294967295 := Nat.mul_le_mul (by omega) (by omega)
    _ < 18446744073709551616 := by norm_num

theorem load_segment_nil (G : Geometry) (dev : Device) (k : Nat) :
    load_segment G dev [] k
      = (read_segment G dev k).map (fun p => ([p.1], if p.2 then some p.1 else none)) := by
  unfold load_segment
  cases h : read_segment G dev k with
  | none => simp [lookup_segment, cache_entry]
  | some p =>
    obtain ⟨s, ok⟩ := p
    cases ok <;> simp [lookup_segment, cache_entry]

theorem read_segment_bps_pos {G : Geometry} {dev : Device} {k : Nat} {s : nilfs_segment_info}
    (h : read_segment G dev k = some (s, true)) : 0 < G.blocks_per_segment := by
  unfold read_segment at h
  simp only at h
  split at h
  · simp at h
  · split at h
    · simp at h
    · simp at h
    · next hv =>
      obtain ⟨_, k1, k2⟩ := log_is_valid_true hv
      omega

/-- C2: on the fresh cache with which nilfs_fsck calls it, test_latest_log
returns success exactly when load_segment(blocknr / blocks_per_segment) yields a
segment whose log list contains a log that starts at log_ref.blocknr, the
segment's segseq equals log_ref.seqnum and that log carries NILFS_SS_SR. -/
theorem test_latest_log_iff (G : Geometry) (dev : Device) (log_ref : nilfs_log_ref)
    (hbps : G.blocks_per_segment < 4294967296) :
    (∃ c lr, test_latest_log G dev [] log_ref = some (c, 0, lr)) ↔
      ∃ c seginfo loginfo,
        load_segment G dev [] (log_ref.blocknr / G.blocks_per_segment) = some (c, some seginfo) ∧
        loginfo ∈ seginfo.log_list ∧ loginfo.log_start = log_ref.blocknr ∧
        seginfo.segseq = log_ref.seqnum ∧ has_sr loginfo = true := by
  rw [load_segment_nil]
  unfold test_latest_log
  rw [load_segment_nil]
  cases hr : read_segment G dev (log_ref.blocknr / G.blocks_per_segment) with
  | none => simp
  | some p =>
    obtain ⟨s, ok⟩ := p
    cases ok with
    | false => simp
    | true =>
      simp only [Option.map_some', if_true]
      have hpos := read_segment_bps_pos hr
      have hd := read_segment_distinct hbps hr
      obtain ⟨hs1, hs2⟩ := read_segment_segnum hr
      have hput : put_segment_info [s] s.segnum
          = some [{ s with refcnt := s.refcnt - 1 }] := by
        simp [put_segment_info, cache_entry, cache_update, hs2]
      simp only [Nat.ne_of_gt hpos, if_false, hput, Option.map_some', Option.some.injEq,
        Prod.mk.injEq]
      constructor
      · rintro ⟨c, lr, _, h0, _⟩
        cases hl : lookup_log s log_ref.blocknr with
        | none => simp [hl] at h0
        | some loginfo =>
          simp only [hl] at h0
          split at h0
          · next hc =>
            simp only [Bool.and_eq_true, beq_iff_eq] at hc
            refine ⟨[s], s, loginfo, ⟨rfl, rfl⟩, List.mem_of_find?_eq_some hl, ?_, hc.1, hc.2⟩
            have := List.find?_some hl
            simpa using this
          · simp at h0
      · rintro ⟨c, seginfo, loginfo, ⟨_, hseg⟩, hmem, hstart, hseq, hsr⟩
        subst hseg
        have hl : lookup_log s log_ref.blocknr = some loginfo := find_unique_log hd hmem hstart
        refine ⟨_, _, rfl, ?_, rfl⟩
        simp [hl, hseq, hsr]

theorem cache_entry_isSome_update (f : nilfs_segment_info → nilfs_segment_info)
    (hf : ∀ s, (f s).segnum = s.segnum) (n m : Nat) (c : SegmentCache) :
    (cache_entry (cache_update f n c) m).isSome = (cache_entry c m).isSome := by
  rw [cache_entry_update f hf]
  split
  · cases cache_entry c m <;> rfl
  · rfl

theorem refcnt_of_dec (c : SegmentCache) (n m : Nat) :
    refcnt_of (cache_update (fun s => { s with refcnt := s.refcnt - 1 }) n c) m
      = if m = n then refcnt_of c m - 1 else refcnt_of c m := by
  unfold refcnt_of
  rw [cache_entry_update (fun s => { s with refcnt := s.refcnt - 1 }) (fun _ => rfl)]
  by_cases hm : m = n
  · subst hm; cases cache_entry c m <;> simp
  · simp [hm]

theorem put_segment_info_eq (c : SegmentCache) (n : Nat) :
    put_segment_info c n
      = if 0 < refcnt_of c n then
          some (cache_update (fun s => { s with refcnt := s.refcnt - 1 }) n c)
        else none := by
  unfold put_segment_info refcnt_of
  cases cache_entry c n with
  | none => simp
  | some s => simp

theorem cache_shape_update (f : nilfs_segment_info → nilfs_segment_info)
    (hf : ∀ s, { f s with refcnt := 0 } = { s with refcnt := 0 }) (n : Nat) (c : SegmentCache) :
    cache_shape (cache_update f n c) = cache_shape c := by
  induction c with
  | nil => rfl
  | cons s rest ih =>
    unfold cache_shape at ih ⊢
    simp only [cache_update]
    split
    · simp only [List.map_cons, hf]
    · simp only [List.map_cons, ih]

theorem cache_shape_get (c : SegmentCache) (n : Nat) :
    cache_shape (get_segment_info c n) = cache_shape c :=
  cache_shape_update (fun s => { s with refcnt := s.refcnt + 1 }) (fun _ => rfl) n c

/-- A put_segment_info on a segment with a positive count succeeds, lowers
that count by one and changes nothing else. -/
theorem put_ok {c : SegmentCache} {n : Nat} (h : 0 < refcnt_of c n) :
    ∃ c1, put_segment_info c n = some c1 ∧
      (∀ m, refcnt_of c1 m = if m = n then refcnt_of c m - 1 else refcnt_of c m) ∧
      cache_shape c1 = cache_shape c := by
  refine ⟨_, by rw [put_segment_info_eq, if_pos h], fun m => refcnt_of_dec c n m,
    cache_shape_update (fun s => { s with refcnt := s.refcnt - 1 }) (fun _ => rfl) n c⟩

theorem get_ok {c : SegmentCache} {n : Nat} (h : 0 < refcnt_of c n) :
    ∀ m, refcnt_of (get_segment_info c n) m
      = if m = n then refcnt_of c m + 1 else refcnt_of c m := by
  intro m
  rw [refcnt_of_get]
  have : (cache_entry c n).isSome = true := by
    unfold refcnt_of at h
    cases he : cache_entry c n with
    | none => simp [he] at h
    | some s => rfl
  simp [this]

theorem scan_step_spec_none {G : Geometry} {dev : Device} {st : ScanState} {c : SegmentCache}
    (hinv : RefInv st)
    (hl : load_segment G dev st.cache (prev_segnum G st.segnum) = some (c, none)) :
    ∃ out, scan_step G dev st = some out ∧
      out.forget = (scan_decide G st none).forget ∧
      cache_shape out.cache = cache_shape c ∧
      (∀ st1, out = ScanOutcome.running st1 → RefInv st1) := by
  obtain ⟨_, hrc⟩ := load_segment_refcnt hl
  obtain ⟨hI1, hI⟩ := hinv
  obtain ⟨cache, segnum, seginfo, seginfo_sr, log_sr, cont, invert⟩ := st
  simp only at hl hrc hI1 hI
  have hrc0 : ∀ m, refcnt_of c m = refcnt_of cache m := by intro m; simpa using hrc m
  by_cases hd : (log_sr.isSome && cont) = true
  · -- the candidate is dropped
    simp only [Bool.and_eq_true] at hd
    obtain ⟨l, rfl⟩ := Option.isSome_iff_exists.mp hd.1
    obtain ⟨S, rfl⟩ := Option.isSome_iff_exists.mp (hI1 rfl)
    have hc := hd.2
    subst hc
    cases seginfo with
    | none =>
      have hpos : 0 < refcnt_of c S.segnum := by
        have := hI S.segnum; simp [held] at this; rw [hrc0]; omega
      obtain ⟨c1, hc1, hrc1, hsc1⟩ := put_ok hpos
      refine ⟨_, by simp [scan_step, hl, put_ptr, put_if, hc1]; rfl, by
        simp [scan_decide, ScanOutcome.forget], by
        simp only [ScanOutcome.cache, cache_shape_get, *], ?_⟩
      intro st1 h1
      simp only [ScanOutcome.running.injEq] at h1
      subst h1
      exact ⟨by simp, fun n => by simp [held]⟩
    | some cur =>
      have hpos : 0 < refcnt_of c S.segnum := by
        have := hI S.segnum; simp [held] at this; rw [hrc0]; omega
      obtain ⟨c1, hc1, hrc1, hsc1⟩ := put_ok hpos
      have hpos2 : 0 < refcnt_of c1 cur.segnum := by
        have := hI cur.segnum; simp [held] at this
        rw [hrc1, hrc0]; split_ifs at this ⊢ <;> omega
      obtain ⟨c2, hc2, hrc2, hsc2⟩ := put_ok hpos2
      refine ⟨_, by simp [scan_step, hl, put_ptr, put_if, hc1, hc2]; rfl, by
        simp [scan_decide, ScanOutcome.forget], by
        simp only [ScanOutcome.cache, cache_shape_get, *], ?_⟩
      intro st1 h1
      simp only [ScanOutcome.running.injEq] at h1
      subst h1
      exact ⟨by simp, fun n => by simp [held]⟩
  · -- the candidate, if any, is kept
    have hd2 : (log_sr.isSome && cont) = false := by simpa using hd
    cases seginfo with
    | none =>
      refine ⟨_, by simp [scan_step, hl, put_if, hd2]; rfl, by
        simp [scan_decide, ScanOutcome.forget, hd2], by
        simp only [ScanOutcome.cache, cache_shape_get, *], ?_⟩
      intro st1 h1
      simp only [ScanOutcome.running.injEq] at h1
      subst h1
      refine ⟨hI1, fun n => ?_⟩
      have := hI n
      simp only [held] at this ⊢
      rw [hrc0]; exact this
    | some cur =>
      have hpos2 : 0 < refcnt_of c cur.segnum := by
        have := hI cur.segnum; simp [held] at this
        rw [hrc0]; omega
      obtain ⟨c2, hc2, hrc2, hsc2⟩ := put_ok hpos2
      refine ⟨_, by simp [scan_step, hl, put_if, hd2, hc2]; rfl, by
        simp [scan_decide, ScanOutcome.forget, hd2], by
        simp only [ScanOutcome.cache, cache_shape_get, *], ?_⟩
      intro st1 h1
      simp only [ScanOutcome.running.injEq] at h1
      subst h1
      refine ⟨hI1, fun n => ?_⟩
      have := hI n
      simp only [held] at this ⊢
      rw [hrc2, hrc0]
      split_ifs at this ⊢ <;> omega

theorem scan_step_spec_first {G : Geometry} {dev : Device} {st : ScanState} {c : SegmentCache}
    {seginfo2 : nilfs_segment_info} (hinv : RefInv st) (hcur : st.seginfo = none)
    (hl : load_segment G dev st.cache (prev_segnum G st.segnum) = some (c, some seginfo2)) :
    ∃ out, scan_step G dev st = some out ∧
      out.forget = (scan_decide G st (some seginfo2)).forget ∧
      cache_shape out.cache = cache_shape c ∧
      (∀ st1, out = ScanOutcome.running st1 → RefInv st1) := by
  obtain ⟨hsn, hrc⟩ := load_segment_refcnt hl
  obtain ⟨hI1, hI⟩ := hinv
  obtain ⟨cache, segnum, seginfo, seginfo_sr, log_sr, cont, invert⟩ := st
  simp only at hl hrc hI1 hI hcur hsn
  subst hcur
  have hk : seginfo2.segnum = prev_segnum G segnum := hsn _ rfl
  have hrc0 : ∀ m, refcnt_of c m
      = if m = seginfo2.segnum then refcnt_of cache m + 1 else refcnt_of cache m := by
    intro m; rw [hk]; simpa using hrc m
  cases log_sr with
  | none =>
    cases hlk : lookup_last_super_root seginfo2 with
    | none =>
      refine ⟨_, by simp [scan_step, hl, hlk]; rfl, by
        simp [scan_decide, ScanOutcome.forget, hlk], by
        simp only [ScanOutcome.cache, cache_shape_get, *], ?_⟩
      intro st1 h1
      simp only [ScanOutcome.running.injEq] at h1
      subst h1
      refine ⟨by simp, fun n => ?_⟩
      simp only [held]
      rw [hrc0]
      split_ifs <;> omega
    | some l =>
      have hg := get_ok (c := c) (n := seginfo2.segnum) (by rw [hrc0]; simp)
      refine ⟨_, by simp [scan_step, hl, hlk]; rfl, by
        simp [scan_decide, ScanOutcome.forget, hlk], by
        simp only [ScanOutcome.cache, cache_shape_get, *], ?_⟩
      intro st1 h1
      simp only [ScanOutcome.running.injEq] at h1
      subst h1
      refine ⟨by simp, fun n => ?_⟩
      simp only [held]
      rw [hg, hrc0]
      split_ifs <;> omega
  | some l0 =>
    obtain ⟨S, rfl⟩ := Option.isSome_iff_exists.mp (hI1 rfl)
    have hpos : 0 < refcnt_of c S.segnum := by
      have := hI S.segnum; simp [held] at this; rw [hrc0]; split_ifs <;> omega
    obtain ⟨c1, hc1, hrc1, hsc1⟩ := put_ok hpos
    cases hlk : lookup_last_super_root seginfo2 with
    | none =>
      refine ⟨_, by simp [scan_step, hl, hlk, put_ptr, hc1]; rfl, by
        simp [scan_decide, ScanOutcome.forget, hlk], by
        simp only [ScanOutcome.cache, cache_shape_get, *], ?_⟩
      intro st1 h1
      simp only [ScanOutcome.running.injEq] at h1
      subst h1
      refine ⟨by simp, fun n => ?_⟩
      have := hI n
      simp only [held] at this ⊢
      rw [hrc1, hrc0]
      split_ifs at this ⊢ <;> omega
    | some l =>
      have hpos1 : 0 < refcnt_of c1 seginfo2.segnum := by
        have := hI seginfo2.segnum; simp only [held] at this
        rw [hrc1, hrc0]; split_ifs at this ⊢ <;> omega
      have hg := get_ok hpos1
      refine ⟨_, by simp [scan_step, hl, hlk, put_ptr, hc1]; rfl, by
        simp [scan_decide, ScanOutcome.forget, hlk], by
        simp only [ScanOutcome.cache, cache_shape_get, *], ?_⟩
      intro st1 h1
      simp only [ScanOutcome.running.injEq] at h1
      subst h1
      refine ⟨by simp, fun n => ?_⟩
      have := hI n
      simp only [held] at this ⊢
      rw [hg, hrc1, hrc0]
      split_ifs at this ⊢ <;> omega

theorem scan_step_spec_next {G : Geometry} {dev : Device} {st : ScanState} {c : SegmentCache}
    {seginfo2 cur : nilfs_segment_info} (hinv : RefInv st) (hcur : st.seginfo = some cur)
    (hl : load_segment G dev st.cache (prev_segnum G st.segnum) = some (c, some seginfo2)) :
    ∃ out, scan_step G dev st = some out ∧
      out.forget = (scan_decide G st (some seginfo2)).forget ∧
      cache_shape out.cache = cache_shape c ∧
      (∀ st1, out = ScanOutcome.running st1 → RefInv st1) := by
  obtain ⟨hsn, hrc⟩ := load_segment_refcnt hl
  obtain ⟨hI1, hI⟩ := hinv
  obtain ⟨cache, segnum, seginfo, seginfo_sr, log_sr, cont, invert⟩ := st
  simp only at hl hrc hI1 hI hcur hsn
  subst hcur
  have hk : seginfo2.segnum = prev_segnum G segnum := hsn _ rfl
  have hrc0 : ∀ m, refcnt_of c m
      = if m = seginfo2.segnum then refcnt_of cache m + 1 else refcnt_of cache m := by
    intro m; rw [hk]; simpa using hrc m
  cases log_sr with
  | none =>
    have hposc : 0 < refcnt_of c cur.segnum := by
      have := hI cur.segnum; simp only [held] at this
      rw [hrc0]; split_ifs at this ⊢ <;> omega
    obtain ⟨c2, hc2, hrc2, hsc2⟩ := put_ok hposc
    cases hlk : lookup_last_super_root seginfo2 with
    | none =>
      refine ⟨_, by simp [scan_step, hl, hlk, hc2]; rfl, by
        simp [scan_decide, ScanOutcome.forget, hlk], by
        simp only [ScanOutcome.cache, cache_shape_get, *], ?_⟩
      intro st1 h1
      simp only [ScanOutcome.running.injEq] at h1
      subst h1
      refine ⟨by simp, fun n => ?_⟩
      have := hI n
      simp only [held] at this ⊢
      rw [hrc2, hrc0]
      split_ifs at this ⊢ <;> omega
    | some l =>
      by_cases hinvt : (if cur.segseq < seginfo2.segseq then invert + 1 else invert) = 0
      · by_cases hcont : cont = false ∨ ¬(seginfo2.segseq + 1) % 18446744073709551616 = cur.segseq
        · have hg := get_ok (c := c) (n := seginfo2.segnum) (by rw [hrc0]; simp)
          have hposc1 : 0 < refcnt_of (get_segment_info c seginfo2.segnum) cur.segnum := by
            rw [hg]; split_ifs <;> omega
          obtain ⟨c3, hc3, hrc3, hsc3⟩ := put_ok hposc1
          refine ⟨_, by simp [scan_step, hl, hlk, hc3, hinvt, hcont]; rfl, by
            simp [scan_decide, ScanOutcome.forget, hlk, hinvt, hcont], by
        simp only [ScanOutcome.cache, cache_shape_get, *], ?_⟩
          intro st1 h1
          simp only [ScanOutcome.running.injEq] at h1
          subst h1
          refine ⟨by simp, fun n => ?_⟩
          have := hI n
          simp only [held] at this ⊢
          rw [hrc3, hg, hrc0]
          split_ifs at this ⊢ <;> omega
        · refine ⟨_, by simp [scan_step, hl, hlk, hc2, hinvt, hcont]; rfl, by
            simp [scan_decide, ScanOutcome.forget, hlk, hinvt, hcont], by
        simp only [ScanOutcome.cache, cache_shape_get, *], ?_⟩
          intro st1 h1
          simp only [ScanOutcome.running.injEq] at h1
          subst h1
          refine ⟨by simp, fun n => ?_⟩
          have := hI n
          simp only [held] at this ⊢
          rw [hrc2, hrc0]
          split_ifs at this ⊢ <;> omega
      · refine ⟨_, by simp [scan_step, hl, hlk, hc2, hinvt]; rfl, by
          simp [scan_decide, ScanOutcome.forget, hlk, hinvt], by
        simp only [ScanOutcome.cache, cache_shape_get, *], ?_⟩
        intro st1 h1
        simp at h1
  | some l0 =>
    obtain ⟨S, rfl⟩ := Option.isSome_iff_exists.mp (hI1 rfl)
    by_cases hw : seginfo2.segseq > cur.segseq
    · have hpos : 0 < refcnt_of c S.segnum := by
        have := hI S.segnum; simp only [held] at this
        rw [hrc0]; split_ifs at this ⊢ <;> omega
      obtain ⟨c1, hc1, hrc1, hsc1⟩ := put_ok hpos
      have hposc : 0 < refcnt_of c1 cur.segnum := by
        have := hI cur.segnum; simp only [held] at this
        rw [hrc1, hrc0]; split_ifs at this ⊢ <;> omega
      obtain ⟨c2, hc2, hrc2, hsc2⟩ := put_ok hposc
      cases hlk : lookup_last_super_root seginfo2 with
      | none =>
        refine ⟨_, by simp [scan_step, hl, hlk, hc1, hc2, hw, put_ptr]; rfl, by
          simp [scan_decide, ScanOutcome.forget, hlk, hw], by
        simp only [ScanOutcome.cache, cache_shape_get, *], ?_⟩
        intro st1 h1
        simp only [ScanOutcome.running.injEq] at h1
        subst h1
        refine ⟨by simp, fun n => ?_⟩
        have := hI n
        simp only [held] at this ⊢
        rw [hrc2, hrc1, hrc0]
        split_ifs at this ⊢ <;> omega
      | some l =>
        refine ⟨_, by simp [scan_step, hl, hlk, hc1, hc2, hw, put_ptr]; rfl, by
          simp [scan_decide, ScanOutcome.forget, hlk, hw], by
        simp only [ScanOutcome.cache, cache_shape_get, *], ?_⟩
        intro st1 h1
        simp at h1
    · have hposc : 0 < refcnt_of c cur.segnum := by
        have := hI cur.segnum; simp only [held] at this
        rw [hrc0]; split_ifs at this ⊢ <;> omega
      obtain ⟨c2, hc2, hrc2, hsc2⟩ := put_ok hposc
      refine ⟨_, by simp [scan_step, hl, hc2, hw]; rfl, by
        simp [scan_decide, ScanOutcome.forget, hw], by
        simp only [ScanOutcome.cache, cache_shape_get, *], ?_⟩
      intro st1 h1
      simp only [ScanOutcome.running.injEq] at h1
      subst h1
      refine ⟨by simp, fun n => ?_⟩
      have := hI n
      simp only [held] at this ⊢
      rw [hrc2, hrc0]
      split_ifs at this ⊢ <;> omega

/-- One pass of the scan under the reference-count invariant: it comes back
when load_segment does, decides as scan_decide says, leaves the cache as
load_segment left it up to reference counts, and keeps the invariant. -/
theorem scan_step_spec {G : Geometry} {dev : Device} {st : ScanState} {c : SegmentCache}
    {r : Option nilfs_segment_info} (hinv : RefInv st)
    (hl : load_segment G dev st.cache (prev_segnum G st.segnum) = some (c, r)) :
    ∃ out, scan_step G dev st = some out ∧
      out.forget = (scan_decide G st r).forget ∧
      cache_shape out.cache = cache_shape c ∧
      (∀ st1, out = ScanOutcome.running st1 → RefInv st1) := by
  cases r with
  | none => exact scan_step_spec_none hinv hl
  | some seginfo2 =>
    cases hcur : st.seginfo with
    | none => exact scan_step_spec_first hinv hcur hl
    | some cur => exact scan_step_spec_next hinv hcur hl

theorem scan_step_none_of_load {G : Geometry} {dev : Device} {st : ScanState}
    (hl : load_segment G dev st.cache (prev_segnum G st.segnum) = none) :
    scan_step G dev st = none := by
  simp [scan_step, hl]

theorem forget_running_eq {st1 : ScanState} {out : ScanOutcome}
    (h : (ScanOutcome.running st1).forget = out.forget) :
    ∃ st2, out = ScanOutcome.running st2 ∧ st1.segnum = st2.segnum ∧
      st1.seginfo = st2.seginfo ∧ st1.seginfo_sr = st2.seginfo_sr ∧
      st1.log_sr = st2.log_sr ∧ st1.cont = st2.cont ∧ st1.invert = st2.invert := by
  cases out with
  | found c s l => simp [ScanOutcome.forget] at h
  | running st2 =>
    simp only [ScanOutcome.forget, ScanOutcome.running.injEq, ScanState.mk.injEq, true_and] at h
    exact ⟨st2, rfl, h⟩

theorem forget_found_eq {c : SegmentCache} {s : nilfs_segment_info} {l : nilfs_log_info}
    {out : ScanOutcome} (h : (ScanOutcome.found c s l).forget = out.forget) :
    ∃ c2, out = ScanOutcome.found c2 s l := by
  cases out with
  | running st2 => simp [ScanOutcome.forget] at h
  | found c2 s2 l2 =>
    simp only [ScanOutcome.forget, ScanOutcome.found.injEq, true_and] at h
    obtain ⟨h1, h2⟩ := h
    subst h1; subst h2
    exact ⟨c2, rfl⟩

theorem cand_ok_congr {st1 st2 : ScanState} {hist : List (Option nilfs_segment_info)}
    (h1 : st1.seginfo = st2.seginfo) (h2 : st1.seginfo_sr = st2.seginfo_sr)
    (h3 : st1.log_sr = st2.log_sr) (h : cand_ok st2 hist) : cand_ok st1 hist := by
  unfold cand_ok at h ⊢
  rw [h1, h2, h3]
  exact h

theorem cand_ok_fresh (st : ScanState) (hist : List (Option nilfs_segment_info))
    (s : nilfs_segment_info) (l : nilfs_log_info) (hl : lookup_last_super_root s = some l)
    (h1 : st.seginfo = some s) (h2 : st.seginfo_sr = some s) (h3 : st.log_sr = some l) :
    cand_ok st (hist ++ [some s]) := by
  intro l1 s1 e1 e2
  rw [h3] at e1; rw [h2] at e2
  simp only [Option.some.injEq] at e1 e2
  subst e1; subst e2
  refine ⟨hl, ?_, hist, [], by simp, by simp⟩
  intro cur hc
  rw [h1] at hc
  simp only [Option.some.injEq] at hc
  subst hc
  exact Nat.le_refl _

theorem cand_ok_none (st : ScanState) (hist : List (Option nilfs_segment_info))
    (h3 : st.log_sr = none) : cand_ok st hist := by
  intro l1 s1 e1 _
  rw [h3] at e1
  simp at e1

/-- What scan_decide does to the candidate. -/
theorem scan_decide_cand_ok {G : Geometry} {st st2 : ScanState}
    {r : Option nilfs_segment_info} {hist : List (Option nilfs_segment_info)}
    (h : scan_decide G st r = ScanOutcome.running st2) (hc : cand_ok st hist) :
    cand_ok st2 (hist ++ [r]) := by
  unfold scan_decide at h
  cases r with
  | none =>
    simp only [ScanOutcome.running.injEq] at h
    subst h
    intro l s e1 e2
    simp only at e1 e2
    by_cases hd : (st.log_sr.isSome && st.cont) = true
    · simp [hd] at e1
    · simp only [hd, if_false] at e1 e2
      obtain ⟨k1, _, pre, post, k3, k4⟩ := hc l s e1 e2
      refine ⟨k1, by simp, pre, post ++ [none], by simp [k3], ?_⟩
      intro t ht
      simp only [List.mem_append, List.mem_singleton] at ht
      rcases ht with ht | ht
      · exact k4 t ht
      · simp at ht
  | some seginfo2 =>
    simp only at h
    cases hcur : st.seginfo with
    | none =>
      simp only [hcur, ScanOutcome.running.injEq] at h
      subst h
      cases hlk : lookup_last_super_root seginfo2 with
      | none => exact cand_ok_none _ _ (by simp [hlk])
      | some l => exact cand_ok_fresh _ _ seginfo2 l hlk (by simp) (by simp [hlk]) (by simp [hlk])
    | some cur =>
      simp only [hcur] at h
      split at h
      · simp at h
      · next hnf =>
        simp only [ScanOutcome.running.injEq] at h
        subst h
        by_cases hw : seginfo2.segseq > cur.segseq
        · -- the candidate was dropped; a new one can only come from seginfo2
          cases hlk : lookup_last_super_root seginfo2 with
          | none => exact cand_ok_none _ _ (by simp [hw, hlk])
          | some l => simp [hw, hlk] at hnf
        · cases hlsr : st.log_sr with
          | none =>
            cases hlk : lookup_last_super_root seginfo2 with
            | none => exact cand_ok_none _ _ (by simp [hw, hlk, hlsr])
            | some l =>
              by_cases hcont : (st.cont && ((seginfo2.segseq + 1) % 18446744073709551616
                  == cur.segseq)) = true
              · exact cand_ok_none _ _ (by simp [hw, hlk, hlsr, hcont])
              · have hcontf : (st.cont && ((seginfo2.segseq + 1) % 18446744073709551616
                    == cur.segseq)) = false := by simpa using hcont
                exact cand_ok_fresh _ _ seginfo2 l hlk (by simp)
                  (by simp [hw, hlk, hlsr, hcontf]) (by simp [hw, hlk, hlsr, hcontf])
          | some l0 =>
            intro l s e1 e2
            simp only [hw, hlsr, decide_False, Bool.false_and, if_false, Option.isNone_some,
              Bool.and_false, Bool.false_eq_true] at e1 e2
            obtain ⟨k1, k2, pre, post, k3, k4⟩ := hc l s (by rw [hlsr]; exact e1) e2
            have hle : seginfo2.segseq ≤ s.segseq := le_trans (by omega) (k2 cur hcur)
            refine ⟨k1, ?_, pre, post ++ [some seginfo2], by simp [k3], ?_⟩
            · intro cur2 hc2
              simp only [Option.some.injEq] at hc2
              subst hc2
              exact hle
            · intro t ht
              simp only [List.mem_append, List.mem_singleton, Option.some.injEq] at ht
              rcases ht with ht | ht
              · exact k4 t ht
              · subst ht; exact hle

theorem scan_decide_found {G : Geometry} {st : ScanState} {r : Option nilfs_segment_info}
    {c : SegmentCache} {s : nilfs_segment_info} {l : nilfs_log_info}
    (h : scan_decide G st r = ScanOutcome.found c s l) :
    r = some s ∧ lookup_last_super_root s = some l := by
  unfold scan_decide at h
  cases r with
  | none => simp at h
  | some seginfo2 =>
    simp only at h
    cases hcur : st.seginfo with
    | none => simp [hcur] at h
    | some cur =>
      simp only [hcur] at h
      split at h
      · next l1 hl1 =>
        simp only [ScanOutcome.found.injEq] at h
        obtain ⟨_, h2, h3⟩ := h
        subst h2; subst h3
        refine ⟨rfl, ?_⟩
        split at hl1
        · exact hl1
        · simp at hl1
          try exact hl1.2
      · simp at h

theorem scan_decide_seginfo {G : Geometry} {st st2 : ScanState}
    {r : Option nilfs_segment_info}
    (h : scan_decide G st r = ScanOutcome.running st2) : st2.seginfo = r := by
  unfold scan_decide at h
  cases r with
  | none =>
    simp only [ScanOutcome.running.injEq] at h
    subst h; rfl
  | some seginfo2 =>
    simp only at h
    cases hcur : st.seginfo with
    | none =>
      simp only [hcur, ScanOutcome.running.injEq] at h
      subst h; rfl
    | some cur =>
      simp only [hcur] at h
      split at h
      · simp at h
      · simp only [ScanOutcome.running.injEq] at h
        subst h; rfl

/-- The state in which the loop of find_latest_super_root starts. -/
theorem scan_init_spec {G : Geometry} {dev : Device} {cache c0 : SegmentCache}
    {segnum : Nat} (blocknr : Nat) {r0 : Option nilfs_segment_info}
    (hl : load_segment G dev cache segnum = some (c0, r0)) :
    ∃ st0, scan_init G dev cache segnum blocknr = some st0 ∧
      st0.segnum = segnum ∧ st0.seginfo = r0 ∧ st0.invert = 0 ∧
      st0.log_sr = r0.bind lookup_last_super_root ∧
      (∀ l, st0.log_sr = some l → st0.seginfo_sr = r0) ∧
      (st0.log_sr = none → st0.seginfo_sr = none) ∧
      (st0.cont = true ↔ ∃ s, r0 = some s ∧
        blocknr < (s.seg_start + log_length s) % 18446744073709551616) ∧
      RefInv st0 ∧ cand_ok st0 [r0] ∧ cache_shape st0.cache = cache_shape c0 := by
  obtain ⟨hsn, hrc⟩ := load_segment_refcnt hl
  cases r0 with
  | none =>
    refine ⟨_, by simp [scan_init, hl]; rfl, rfl, rfl, rfl, rfl, by simp, by simp, by simp,
      ⟨by simp, fun n => by simp [held]⟩, cand_ok_none _ _ rfl, rfl⟩
  | some s =>
    have hk : s.segnum = segnum := hsn _ rfl
    have hrc0 : ∀ m, refcnt_of c0 m
        = if m = s.segnum then refcnt_of cache m + 1 else refcnt_of cache m := by
      intro m; rw [hk]; simpa using hrc m
    cases hlk : lookup_last_super_root s with
    | none =>
      refine ⟨_, by simp [scan_init, hl, hlk]; rfl, rfl, rfl, rfl, by simp [hlk], by simp,
        by simp, by simp, ⟨by simp, fun n => ?_⟩, cand_ok_none _ _ rfl, rfl⟩
      simp only [held]
      rw [hrc0]
      split_ifs <;> omega
    | some l =>
      have hg := get_ok (c := c0) (n := s.segnum) (by rw [hrc0]; simp)
      refine ⟨_, by simp [scan_init, hl, hlk]; rfl, rfl, rfl, rfl, by simp [hlk], by simp,
        by simp, by simp, ⟨by simp, fun n => ?_⟩, ?_, cache_shape_get _ _⟩
      · simp only [held]
        rw [hg, hrc0]
        split_ifs <;> omega
      · exact cand_ok_fresh _ [] s l hlk rfl rfl rfl

theorem scan_init_none {G : Geometry} {dev : Device} {cache : SegmentCache}
    {segnum blocknr : Nat} (hl : load_segment G dev cache segnum = none) :
    scan_init G dev cache segnum blocknr = none := by
  simp [scan_init, hl]

/-- The candidate invariant along the loop. -/
theorem scan_loop_cand_ok {G : Geometry} {dev : Device} :
    ∀ (n : Nat) (st : ScanState) (hist : List (Option nilfs_segment_info)),
      RefInv st → cand_ok st hist →
      (∀ st1, scan_loop G dev n st = some (ScanOutcome.running st1) →
        cand_ok st1 (hist ++ scan_loads G dev n st) ∧ RefInv st1) ∧
      (∀ c s l, scan_loop G dev n st = some (ScanOutcome.found c s l) →
        lookup_last_super_root s = some l ∧
        ∃ pre, hist ++ scan_loads G dev n st = pre ++ [some s]) := by
  intro n
  induction n with
  | zero =>
    intro st hist hinv hc
    refine ⟨?_, ?_⟩
    · intro st1 h
      simp only [scan_loop, Option.some.injEq, ScanOutcome.running.injEq] at h
      subst h
      simpa [scan_loads] using ⟨hc, hinv⟩
    · intro c s l h
      simp [scan_loop] at h
  | succ n ih =>
    intro st hist hinv hc
    cases hl : load_segment G dev st.cache (prev_segnum G st.segnum) with
    | none =>
      have := scan_step_none_of_load hl
      simp [scan_loop, this]
    | some p =>
      obtain ⟨c, r⟩ := p
      obtain ⟨out, ho, hf, _, hri⟩ := scan_step_spec hinv hl
      cases out with
      | running st1 =>
        obtain ⟨st2, hd, _, e2, e3, e4, _, _⟩ := forget_running_eq hf
        have hc1 : cand_ok st1 (hist ++ [r]) :=
          cand_ok_congr e2 e3 e4 (scan_decide_cand_ok hd hc)
        have hloads : scan_loads G dev (n + 1) st = r :: scan_loads G dev n st1 := by
          simp [scan_loads, hl, ho]
        have hloop : scan_loop G dev (n + 1) st = scan_loop G dev n st1 := by
          simp [scan_loop, ho]
        obtain ⟨i1, i2⟩ := ih st1 (hist ++ [r]) (hri st1 rfl) hc1
        rw [hloads, hloop]
        simp only [List.append_assoc, List.singleton_append] at i1 i2
        exact ⟨i1, i2⟩
      | found c1 s1 l1 =>
        obtain ⟨c2, hd⟩ := forget_found_eq hf
        obtain ⟨hr, hlk⟩ := scan_decide_found hd
        have hloads : scan_loads G dev (n + 1) st = [r] := by
          simp [scan_loads, hl, ho]
        have hloop : scan_loop G dev (n + 1) st = some (ScanOutcome.found c1 s1 l1) := by
          simp [scan_loop, ho]
        rw [hloads, hloop]
        refine ⟨by intro st1 h; simp at h, ?_⟩
        intro c s l h
        simp only [Option.some.injEq, ScanOutcome.found.injEq] at h
        obtain ⟨_, h2, h3⟩ := h
        subst h2; subst h3
        exact ⟨hlk, hist, by rw [hr]⟩

theorem scan_finish_some {st : ScanState} {c : SegmentCache} {s : nilfs_segment_info}
    {l : nilfs_log_info} (h : scan_finish st = some (c, some (s, l))) :
    st.log_sr = some l ∧ st.seginfo_sr = some s ∧ st.cont = false := by
  unfold scan_finish at h
  split at h
  · simp at h
  · split at h
    · next l1 hl1 =>
      split at h
      · next s1 hs1 =>
        simp only [Option.some.injEq, Prod.mk.injEq] at h
        obtain ⟨_, h2, h3⟩ := h
        subst h2; subst h3
        cases hcont : st.cont with
        | true => simp [hcont] at hl1
        | false =>
          simp only [hcont, Bool.false_eq_true, if_false] at hl1
          exact ⟨hl1, hs1, rfl⟩
      · simp at h
    · next c1 _ _ _ =>
      cases hp : put_if c1 st.seginfo_sr <;> simp [hp] at h

/-- What a returned segment and log are, in terms of the loads of the search:
the log is the last SR log of the segment, the segment was loaded, and nothing
loaded after it has a greater sequence number. -/
theorem search_result_spec {G : Geometry} {dev : Device} {cache : SegmentCache}
    {segnum blocknr : Nat} {seg : nilfs_segment_info} {log : nilfs_log_info}
    (h : find_latest_super_root_ret G dev cache segnum blocknr = some (some (seg, log))) :
    lookup_last_super_root seg = some log ∧
    ∃ pre post, search_loads G dev cache segnum blocknr = pre ++ some seg :: post ∧
      ∀ t, some t ∈ post → t.segseq ≤ seg.segseq := by
  unfold find_latest_super_root_ret find_latest_super_root at h
  cases hl : load_segment G dev cache segnum with
  | none => simp [scan_init_none hl] at h
  | some p =>
    obtain ⟨c0, r0⟩ := p
    obtain ⟨st0, hi, _, _, _, _, _, _, _, hinv, hc, _⟩ := scan_init_spec blocknr hl
    have hloads : search_loads G dev cache segnum blocknr
        = r0 :: scan_loads G dev MAX_SCAN_SEGMENT st0 := by
      simp [search_loads, hl, hi]
    rw [hloads]
    simp only [hi] at h
    obtain ⟨i1, i2⟩ := scan_loop_cand_ok MAX_SCAN_SEGMENT st0 [r0] hinv hc
    cases ho : scan_loop G dev MAX_SCAN_SEGMENT st0 with
    | none => simp [ho] at h
    | some out =>
      cases out with
      | found c s l =>
        simp only [ho, Option.map_some', Option.some.injEq, Prod.mk.injEq] at h
        obtain ⟨h2, h3⟩ := h
        subst h2; subst h3
        obtain ⟨k1, pre, k2⟩ := i2 c s l ho
        refine ⟨k1, pre, [], ?_, by simp⟩
        simpa using k2
      | running st =>
        simp only [ho] at h
        cases hfin : scan_finish st with
        | none => simp [hfin] at h
        | some q =>
          obtain ⟨c, res⟩ := q
          simp only [hfin, Option.map_some', Option.some.injEq] at h
          subst h
          obtain ⟨f1, f2, _⟩ := scan_finish_some hfin
          obtain ⟨hcand, _⟩ := i1 st ho
          obtain ⟨k1, _, pre, post, k3, k4⟩ := hcand log seg f1 f2
          refine ⟨k1, pre, post, ?_, k4⟩
          simpa using k3

/-- One pass of the loop, seen from the list of loads: the pass loads the head
of the list, and the rest of the list and of the loop belong to the state the
pass leaves, or are empty when the pass returns. -/
theorem scan_pass {G : Geometry} {dev : Device} {st : ScanState} {n : Nat}
    {r : Option nilfs_segment_info} {rest : List (Option nilfs_segment_info)}
    (hinv : RefInv st) (h : scan_loads G dev (n + 1) st = r :: rest) :
    ∃ out, out.forget = (scan_decide G st r).forget ∧
      (∀ st1, out = ScanOutcome.running st1 →
        RefInv st1 ∧ rest = scan_loads G dev n st1 ∧
        scan_loop G dev (n + 1) st = scan_loop G dev n st1) ∧
      (∀ c s l, out = ScanOutcome.found c s l →
        rest = [] ∧ scan_loop G dev (n + 1) st = some (ScanOutcome.found c s l)) := by
  cases hl : load_segment G dev st.cache (prev_segnum G st.segnum) with
  | none => simp [scan_loads, hl] at h
  | some p =>
    obtain ⟨c, r1⟩ := p
    obtain ⟨out, ho, hf, _, hri⟩ := scan_step_spec hinv hl
    simp only [scan_loads, hl, ho, List.cons.injEq] at h
    obtain ⟨h1, h2⟩ := h
    subst h1
    refine ⟨out, hf, ?_, ?_⟩
    · intro st1 e
      subst e
      exact ⟨hri _ rfl, by simpa using h2.symm, by simp [scan_loop, ho]⟩
    · intro c1 s l e
      subst e
      exact ⟨by simpa using h2.symm, by simp [scan_loop, ho]⟩

theorem scan_loads_zero (G : Geometry) (dev : Device) (st : ScanState) :
    scan_loads G dev 0 st = [] := rfl

theorem scan_decide_wrap {G : Geometry} {st : ScanState} {cur seg2 : nilfs_segment_info}
    {l : nilfs_log_info} (hcur : st.seginfo = some cur) (hw : cur.segseq < seg2.segseq)
    (hlk : lookup_last_super_root seg2 = some l) :
    scan_decide G st (some seg2) = ScanOutcome.found st.cache seg2 l := by
  simp [scan_decide, hcur, hw, hlk]

/-- The return inside the loop: a segment that loads right after a segment
with a smaller sequence number and holds an SR log ends the search. -/
theorem scan_loop_wrap {G : Geometry} {dev : Device} {cur seg2 : nilfs_segment_info}
    {l : nilfs_log_info} (hw : cur.segseq < seg2.segseq)
    (hlk : lookup_last_super_root seg2 = some l) :
    ∀ (n : Nat) (st : ScanState) (pre post : List (Option nilfs_segment_info)),
      RefInv st →
      st.seginfo :: scan_loads G dev n st = pre ++ some cur :: some seg2 :: post →
      post = [] ∧ ∃ c, scan_loop G dev n st = some (ScanOutcome.found c seg2 l) := by
  intro n
  induction n with
  | zero =>
    intro st pre post _ h
    have := congrArg List.length h
    simp [scan_loads_zero] at this
    omega
  | succ n ih =>
    intro st pre post hinv h
    cases hs : scan_loads G dev (n + 1) st with
    | nil =>
      have := congrArg List.length h
      simp [hs] at this
      omega
    | cons r rest =>
      obtain ⟨out, hf, hrun, hfound⟩ := scan_pass hinv hs
      rw [hs] at h
      cases pre with
      | nil =>
        simp only [List.nil_append, List.cons.injEq] at h
        obtain ⟨h1, h2, h3⟩ := h
        subst h2
        rw [scan_decide_wrap h1 hw hlk] at hf
        obtain ⟨c2, hc2⟩ := forget_found_eq hf.symm
        obtain ⟨k1, k2⟩ := hfound _ _ _ hc2
        exact ⟨by rw [← h3, k1], c2, k2⟩
      | cons p pre1 =>
        simp only [List.cons_append, List.cons.injEq] at h
        obtain ⟨_, h2⟩ := h
        cases out with
        | found c s l1 =>
          obtain ⟨k1, _⟩ := hfound _ _ _ rfl
          subst k1
          have := congrArg List.length h2
          simp at this
          omega
        | running st1 =>
          obtain ⟨k1, k2, k3⟩ := hrun _ rfl
          obtain ⟨st2, hd, _, e2, _⟩ := forget_running_eq hf
          have hseg : st1.seginfo = r := by rw [e2]; exact scan_decide_seginfo hd
          have h3 : st1.seginfo :: scan_loads G dev n st1
              = pre1 ++ some cur :: some seg2 :: post := by
            rw [hseg, ← k2]; exact h2
          obtain ⟨i1, c, i2⟩ := ih st1 pre1 post k1 h3
          exact ⟨i1, c, by rw [k3]; exact i2⟩

theorem search_loads_cons {G : Geometry} {dev : Device} {cache : SegmentCache}
    {segnum blocknr : Nat} {r0 : Option nilfs_segment_info}
    {rest : List (Option nilfs_segment_info)}
    (h : search_loads G dev cache segnum blocknr = r0 :: rest) :
    ∃ c0 st0, load_segment G dev cache segnum = some (c0, r0) ∧
      scan_init G dev cache segnum blocknr = some st0 ∧
      rest = scan_loads G dev MAX_SCAN_SEGMENT st0 := by
  cases hl : load_segment G dev cache segnum with
  | none => simp [search_loads, hl] at h
  | some p =>
    obtain ⟨c0, r⟩ := p
    obtain ⟨st0, hi, _⟩ := scan_init_spec blocknr hl
    simp only [search_loads, hl, hi, List.cons.injEq] at h
    obtain ⟨h1, h2⟩ := h
    subst h1
    exact ⟨c0, st0, rfl, hi, h2.symm⟩

theorem find_ret_of_found {G : Geometry} {dev : Device} {cache : SegmentCache}
    {segnum blocknr : Nat} {st0 : ScanState} {c : SegmentCache} {s : nilfs_segment_info}
    {l : nilfs_log_info} (hi : scan_init G dev cache segnum blocknr = some st0)
    (ho : scan_loop G dev MAX_SCAN_SEGMENT st0 = some (ScanOutcome.found c s l)) :
    find_latest_super_root_ret G dev cache segnum blocknr = some (some (s, l)) := by
  simp [find_latest_super_root_ret, find_latest_super_root, hi, ho]

/-- The ring-wrap return in terms of the loads of the whole search. -/
theorem search_wrap {G : Geometry} {dev : Device} {cache : SegmentCache}
    {segnum blocknr : Nat} {cur seg2 : nilfs_segment_info} {l : nilfs_log_info}
    (pre post : List (Option nilfs_segment_info))
    (h : search_loads G dev cache segnum blocknr = pre ++ some cur :: some seg2 :: post)
    (hw : cur.segseq < seg2.segseq) (hlk : lookup_last_super_root seg2 = some l) :
    post = [] ∧
      find_latest_super_root_ret G dev cache segnum blocknr = some (some (seg2, l)) := by
  cases hs : search_loads G dev cache segnum blocknr with
  | nil =>
    have := congrArg List.length h
    simp [hs] at this
    omega
  | cons r0 rest =>
    obtain ⟨c0, st0, hl, hi, hrest⟩ := search_loads_cons hs
    obtain ⟨st0b, hib, _, hseg, _, _, _, _, _, hinv, _, _⟩ :=
      scan_init_spec blocknr hl
    rw [hi] at hib
    simp only [Option.some.injEq] at hib
    subst hib
    have h3 : st0.seginfo :: scan_loads G dev MAX_SCAN_SEGMENT st0
        = pre ++ some cur :: some seg2 :: post := by
      rw [hseg, ← hrest, ← hs]; exact h
    obtain ⟨i1, c, i2⟩ := scan_loop_wrap hw hlk MAX_SCAN_SEGMENT st0 pre post hinv h3
    exact ⟨i1, find_ret_of_found hi i2⟩

/-- A candidate held with `cont` clear stays through a calm run of passes. -/
theorem scan_loop_calm {G : Geometry} {dev : Device} {P : nilfs_segment_info}
    {L : nilfs_log_info} :
    ∀ (n : Nat) (st : ScanState),
      RefInv st → st.log_sr = some L → st.seginfo_sr = some P → st.cont = false →
      (scan_loads G dev n st).length = n →
      calm_loads st.seginfo (scan_loads G dev n st) = true →
      ∃ st1, scan_loop G dev n st = some (ScanOutcome.running st1) ∧
        st1.log_sr = some L ∧ st1.seginfo_sr = some P ∧ st1.cont = false ∧ RefInv st1 := by
  intro n
  induction n with
  | zero =>
    intro st hinv h1 h2 h3 _ _
    exact ⟨st, rfl, h1, h2, h3, hinv⟩
  | succ n ih =>
    intro st hinv h1 h2 h3 hlen hcalm
    cases hs : scan_loads G dev (n + 1) st with
    | nil => simp [hs] at hlen
    | cons r rest =>
      obtain ⟨out, hf, hrun, hfound⟩ := scan_pass hinv hs
      rw [hs] at hlen hcalm
      have hdec : ∃ st2, scan_decide G st r = ScanOutcome.running st2 ∧
          st2.log_sr = some L ∧ st2.seginfo_sr = some P ∧ st2.cont = false ∧
          calm_loads st2.seginfo rest = true := by
        cases r with
        | none =>
          refine ⟨_, by simp [scan_decide, h1, h3]; rfl, by simp [h1], by simp [h2], rfl, ?_⟩
          simpa [calm_loads] using hcalm
        | some s2 =>
          cases hcur : st.seginfo with
          | none => simp [hcur, calm_loads] at hcalm
          | some cur =>
            simp only [hcur, calm_loads, Bool.and_eq_true, decide_eq_true_eq] at hcalm
            have hnw : ¬ cur.segseq < s2.segseq := by omega
            refine ⟨_, by simp [scan_decide, hcur, h1, h3, hnw]; rfl, by simp [h1],
              by simp [h2], by simp, ?_⟩
            exact hcalm.2
      obtain ⟨st2, hd, d1, d2, d3, d4⟩ := hdec
      rw [hd] at hf
      cases out with
      | found c s l => simp [ScanOutcome.forget] at hf
      | running st1 =>
        obtain ⟨k1, k2, k3⟩ := hrun _ rfl
        obtain ⟨st3, e0, _, e2, e3, e4, e5, _⟩ := forget_running_eq hf
        simp only [ScanOutcome.running.injEq] at e0
        subst e0
        have hl1 : (scan_loads G dev n st1).length = n := by
          rw [← k2]; simpa using hlen
        have hc1 : calm_loads st1.seginfo (scan_loads G dev n st1) = true := by
          rw [← k2, e2]; exact d4
        obtain ⟨st4, i1, i2⟩ := ih st1 k1 (by rw [e4]; exact d1) (by rw [e3]; exact d2)
          (by rw [e5]; exact d3) hl1 hc1
        exact ⟨st4, by rw [k3]; exact i1, i2⟩

theorem scan_finish_cand {st : ScanState} {P : nilfs_segment_info} {L : nilfs_log_info}
    (hinv : RefInv st) (h1 : st.log_sr = some L) (h2 : st.seginfo_sr = some P)
    (h3 : st.cont = false) : ∃ c, scan_finish st = some (c, some (P, L)) := by
  obtain ⟨_, hI⟩ := hinv
  cases hcur : st.seginfo with
  | none => exact ⟨_, by simp [scan_finish, put_if, hcur, h1, h2, h3]; rfl⟩
  | some cur =>
    have hpos : 0 < refcnt_of st.cache cur.segnum := by
      have := hI cur.segnum
      simp only [held, hcur, h1, h2] at this
      split_ifs at this <;> omega
    obtain ⟨c1, hc1, _⟩ := put_ok hpos
    exact ⟨_, by simp [scan_finish, put_if, hcur, h1, h2, h3, hc1]; rfl⟩

theorem find_ret_of_running {G : Geometry} {dev : Device} {cache : SegmentCache}
    {segnum blocknr : Nat} {st0 st : ScanState} {c : SegmentCache}
    {res : Option (nilfs_segment_info × nilfs_log_info)}
    (hi : scan_init G dev cache segnum blocknr = some st0)
    (ho : scan_loop G dev MAX_SCAN_SEGMENT st0 = some (ScanOutcome.running st))
    (hf : scan_finish st = some (c, res)) :
    find_latest_super_root_ret G dev cache segnum blocknr = some res := by
  simp [find_latest_super_root_ret, find_latest_super_root, hi, ho, hf]

/-- A search whose second load brings a candidate with `cont` clear and whose
later loads are calm returns that candidate: the general form behind the
torn-tail and the broken-chain rollback. -/
theorem search_calm {G : Geometry} {dev : Device} {cache : SegmentCache}
    {segnum blocknr : Nat} {r0 : Option nilfs_segment_info} {P C : nilfs_segment_info}
    {L : nilfs_log_info} {rest : List (Option nilfs_segment_info)}
    (h : search_loads G dev cache segnum blocknr = r0 :: some P :: rest)
    (hlen : rest.length + 1 = MAX_SCAN_SEGMENT) (hcalm : calm_loads (some P) rest = true)
    (hstep : ∀ st0 : ScanState, st0.seginfo = r0 → st0.invert = 0 →
      st0.log_sr = r0.bind lookup_last_super_root →
      (∀ l, st0.log_sr = some l → st0.seginfo_sr = r0) →
      (st0.cont = true ↔ ∃ s, r0 = some s ∧
        blocknr < (s.seg_start + log_length s) % 18446744073709551616) →
      ∃ st2, scan_decide G st0 (some P) = ScanOutcome.running st2 ∧
        st2.log_sr = some L ∧ st2.seginfo_sr = some C ∧ st2.cont = false) :
    find_latest_super_root_ret G dev cache segnum blocknr = some (some (C, L)) := by
  obtain ⟨c0, st0, hl, hi, hrest⟩ := search_loads_cons h
  obtain ⟨st0b, hib, _, hseg, hinv0, hlsr, hsr, _, hcont, hinv, _, _⟩ :=
    scan_init_spec blocknr hl
  rw [hi] at hib
  simp only [Option.some.injEq] at hib
  subst hib
  obtain ⟨n, hn⟩ : ∃ n, MAX_SCAN_SEGMENT = n + 1 := ⟨49, rfl⟩
  rw [hn] at hrest hlen
  obtain ⟨out, hf, hrun, _⟩ := scan_pass hinv hrest.symm
  obtain ⟨st2, hd, d1, d2, d3⟩ := hstep st0 hseg hinv0 hlsr hsr hcont
  rw [hd] at hf
  cases out with
  | found c s l => simp [ScanOutcome.forget] at hf
  | running st1 =>
    obtain ⟨k1, k2, k3⟩ := hrun _ rfl
    obtain ⟨st3, e0, _, e2, e3, e4, e5, _⟩ := forget_running_eq hf
    simp only [ScanOutcome.running.injEq] at e0
    subst e0
    have hseg1 : st1.seginfo = some P := by rw [e2]; exact scan_decide_seginfo hd
    have hl1 : (scan_loads G dev n st1).length = n := by rw [← k2]; omega
    have hc1 : calm_loads st1.seginfo (scan_loads G dev n st1) = true := by
      rw [← k2, hseg1]; exact hcalm
    obtain ⟨st4, i1, i2, i3, i4, i5⟩ := scan_loop_calm n st1 k1 (by rw [e4]; exact d1)
      (by rw [e3]; exact d2) (by rw [e5]; exact d3) hl1 hc1
    obtain ⟨c, hfin⟩ := scan_finish_cand i5 i2 i3 i4
    refine find_ret_of_running hi ?_ hfin
    rw [hn, k3]; exact i1

/-- C3 (as amended): when find_latest_super_root returns (seg, log), seg is one
of the segments the search loaded, and its segseq is the greatest among the
segments loaded from that load on: no segment loaded after it, with or without
an SR log, has a greater sequence number. (A segment loaded earlier in the
search may hold an SR log under a greater sequence number.) -/
theorem find_latest_super_root_latest_since (G : Geometry) (dev : Device)
    (cache : SegmentCache) (segnum blocknr : Nat) (seg : nilfs_segment_info)
    (log : nilfs_log_info)
    (h : find_latest_super_root_ret G dev cache segnum blocknr = some (some (seg, log))) :
    ∃ pre post, search_loads G dev cache segnum blocknr = pre ++ some seg :: post ∧
      ∀ t, some t ∈ post → t.segseq ≤ seg.segseq :=
  (search_result_spec h).2

/-- C4 (as amended): when the start segment does not load (its first block is
zeroed), the ring-wise preceding segment P loads and contains an SR log, and
the later loads of the search are calm (a segment that loads has a sequence
number not above that of the segment loaded before it, and after a load that
fails no segment loads), find_latest_super_root returns P together with its
last SR log. -/
theorem torn_tail_rollback (G : Geometry) (dev : Device) (cache : SegmentCache)
    (segnum blocknr : Nat) (P : nilfs_segment_info) (L : nilfs_log_info)
    (rest : List (Option nilfs_segment_info))
    (h : search_loads G dev cache segnum blocknr = none :: some P :: rest)
    (hL : lookup_last_super_root P = some L)
    (hlen : rest.length + 1 = MAX_SCAN_SEGMENT) (hcalm : calm_loads (some P) rest = true) :
    find_latest_super_root_ret G dev cache segnum blocknr = some (some (P, L)) := by
  refine search_calm h hlen hcalm ?_
  intro st0 hseg _ _ _ hcont
  have hc : st0.cont = false := by
    cases hb : st0.cont with
    | false => rfl
    | true =>
      obtain ⟨s, hs, _⟩ := hcont.mp hb
      simp at hs
  exact ⟨_, by simp [scan_decide, hseg, hL]; rfl, by simp, by simp, by simp [hc]⟩

/-- C5: whenever during the backward scan a newly loaded segment seg2 has a
sequence number strictly greater than that of the current segment (the segment
loaded just before it) and contains an SR log, find_latest_super_root returns
at that pass with seg2 and its last SR log, whatever candidate was held, and
loads no further segment. -/
theorem ring_wrap_return (G : Geometry) (dev : Device) (cache : SegmentCache)
    (segnum blocknr : Nat) (cur seg2 : nilfs_segment_info) (l : nilfs_log_info)
    (pre post : List (Option nilfs_segment_info))
    (h : search_loads G dev cache segnum blocknr = pre ++ some cur :: some seg2 :: post)
    (hw : cur.segseq < seg2.segseq) (hlk : lookup_last_super_root seg2 = some l) :
    find_latest_super_root_ret G dev cache segnum blocknr = some (some (seg2, l)) ∧
      post = [] :=
  ⟨(search_wrap pre post h hw hlk).2, (search_wrap pre post h hw hlk).1⟩

/-- C6 (as amended): when the declared block is the start of a log without SR
inside a segment S that loads, the ring-wise preceding segment P loads,
contains an SR log and breaks the sequence chain without a ring wrap
(P.segseq + 1 is not S.segseq and P.segseq is not above S.segseq), and the later
loads of the search are calm, find_latest_super_root returns an SR log: the
last SR log of S if S has one, else the last SR log of P. -/
theorem broken_chain_rollback (G : Geometry) (dev : Device) (cache : SegmentCache)
    (segnum blocknr : Nat) (S P : nilfs_segment_info) (l0 L : nilfs_log_info)
    (rest : List (Option nilfs_segment_info))
    (h : search_loads G dev cache segnum blocknr = some S :: some P :: rest)
    (_hlog : lookup_log S blocknr = some l0) (_hnosr : has_sr l0 = false)
    (hL : lookup_last_super_root P = some L)
    (hbrk : (P.segseq + 1) % 18446744073709551616 ≠ S.segseq) (hle : P.segseq ≤ S.segseq)
    (hlen : rest.length + 1 = MAX_SCAN_SEGMENT) (hcalm : calm_loads (some P) rest = true) :
    find_latest_super_root_ret G dev cache segnum blocknr
      = some (some (match lookup_last_super_root S with
                    | some l => (S, l)
                    | none => (P, L))) := by
  have hnw : ¬ S.segseq < P.segseq := by omega
  cases hS : lookup_last_super_root S with
  | some l =>
    refine search_calm h hlen hcalm ?_
    intro st0 hseg hinv hlsr hsr _
    have h1 : st0.log_sr = some l := by rw [hlsr]; simpa using hS
    have h2 : st0.seginfo_sr = some S := hsr l h1
    exact ⟨_, by simp [scan_decide, hseg, hnw, hinv, h1]; rfl, by simp [h1], by simp [h2],
      by simp [hbrk]⟩
  | none =>
    refine search_calm h hlen hcalm ?_
    intro st0 hseg hinv hlsr _ _
    have h1 : st0.log_sr = none := by rw [hlsr]; simpa using hS
    exact ⟨_, by simp [scan_decide, hseg, hnw, hinv, h1, hL, hbrk]; rfl, by simp [hbrk, hL],
      by simp [hbrk, hL], by simp [hbrk]⟩

theorem sr_on_disk_refcnt {G : Geometry} {dev : Device} {s t : nilfs_segment_info}
    (h : ({ s with refcnt := 0 } : nilfs_segment_info) = { t with refcnt := 0 })
    (hs : sr_on_disk G dev s) : sr_on_disk G dev t := by
  simp only [nilfs_segment_info.mk.injEq, and_true] at h
  obtain ⟨h1, h2, h3, h4, h5, h6⟩ := h
  unfold sr_on_disk disk_segment lookup_last_super_root at hs ⊢
  rw [← h1, ← h5]
  intro hsr
  rw [hs hsr]
  simp [h1, h2, h3, h4, h5, h6]

theorem cache_shape_mem {c c1 : SegmentCache} (h : cache_shape c1 = cache_shape c)
    {t : nilfs_segment_info} (ht : t ∈ c1) :
    ∃ s ∈ c, ({ s with refcnt := 0 } : nilfs_segment_info) = { t with refcnt := 0 } := by
  have : ({ t with refcnt := 0 } : nilfs_segment_info) ∈ cache_shape c := by
    rw [← h]
    exact List.mem_map_of_mem _ ht
  unfold cache_shape at this
  rw [List.mem_map] at this
  obtain ⟨s, hs, he⟩ := this
  exact ⟨s, hs, he⟩

theorem cache_on_disk_shape {G : Geometry} {dev : Device} {c c1 : SegmentCache}
    (h : cache_shape c1 = cache_shape c) (hc : ∀ e ∈ c, sr_on_disk G dev e) :
    ∀ e ∈ c1, sr_on_disk G dev e := by
  intro t ht
  obtain ⟨s, hs, he⟩ := cache_shape_mem h ht
  exact sr_on_disk_refcnt he (hc s hs)

theorem read_segment_failed {G : Geometry} {dev : Device} {k : Nat} {s : nilfs_segment_info}
    (h : read_segment G dev k = some (s, false)) : lookup_last_super_root s = none := by
  unfold read_segment at h
  simp only at h
  split at h
  · simp at h
  · split at h
    · simp at h
    · simp only [Option.some.injEq, Prod.mk.injEq, and_true] at h
      subst h
      simp [lookup_last_super_root, has_sr, NILFS_SS_SR]
    · split at h
      · simp at h
      · simp at h

/-- The load keeps every cached record that holds an SR log true to the
device, and what it returns is such a record. -/
theorem load_segment_on_disk {G : Geometry} {dev : Device} {c c1 : SegmentCache} {k : Nat}
    {r : Option nilfs_segment_info} (hc : ∀ e ∈ c, sr_on_disk G dev e)
    (h : load_segment G dev c k = some (c1, r)) :
    (∀ e ∈ c1, sr_on_disk G dev e) ∧ ∀ s, r = some s → sr_on_disk G dev s := by
  unfold load_segment at h
  cases hl : lookup_segment c k with
  | some p =>
    obtain ⟨c2, s⟩ := p
    simp only [hl, Option.some.injEq, Prod.mk.injEq] at h
    obtain ⟨h1, h2⟩ := h
    subst h1; subst h2
    unfold lookup_segment at hl
    cases he : cache_entry c k with
    | none => simp [he] at hl
    | some e =>
      simp only [he, Option.some.injEq, Prod.mk.injEq] at hl
      obtain ⟨h1, h2⟩ := hl
      subst h1; subst h2
      refine ⟨cache_on_disk_shape (cache_shape_get c k) hc, ?_⟩
      intro s hs
      simp only [Option.some.injEq] at hs
      subst hs
      exact sr_on_disk_refcnt rfl (hc e (cache_entry_mem he))
  | none =>
    simp only [hl] at h
    cases hr : read_segment G dev k with
    | none => simp [hr] at h
    | some p =>
      obtain ⟨s, ok⟩ := p
      obtain ⟨hs1, hs2⟩ := read_segment_segnum hr
      have hs : sr_on_disk G dev s := by
        cases ok with
        | false =>
          intro hsr
          rw [read_segment_failed hr] at hsr
          simp at hsr
        | true =>
          intro _
          unfold disk_segment
          rw [hs1, hr]
          simp only [if_true] at hs2
          cases s
          simp only at hs1 hs2
          subst hs1; subst hs2
          rfl
      have hmem : ∀ e ∈ c ++ [s], sr_on_disk G dev e := by
        intro e he
        simp only [List.mem_append, List.mem_singleton] at he
        rcases he with he | he
        · exact hc e he
        · subst he; exact hs
      cases ok with
      | true =>
        simp only [hr, Option.some.injEq, Prod.mk.injEq] at h
        obtain ⟨h1, h2⟩ := h
        subst h1; subst h2
        refine ⟨hmem, ?_⟩
        intro s1 e1
        simp only [Option.some.injEq] at e1
        subst e1; exact hs
      | false =>
        simp only [hr, Option.some.injEq, Prod.mk.injEq] at h
        obtain ⟨h1, h2⟩ := h
        subst h1; subst h2
        exact ⟨hmem, by simp⟩

theorem scan_loads_on_disk {G : Geometry} {dev : Device} :
    ∀ (n : Nat) (st : ScanState), RefInv st → (∀ e ∈ st.cache, sr_on_disk G dev e) →
      ∀ s, some s ∈ scan_loads G dev n st → sr_on_disk G dev s := by
  intro n
  induction n with
  | zero => intro st _ _ s hs; simp [scan_loads] at hs
  | succ n ih =>
    intro st hinv hc s hs
    cases hl : load_segment G dev st.cache (prev_segnum G st.segnum) with
    | none => simp [scan_loads, hl] at hs
    | some p =>
      obtain ⟨c, r⟩ := p
      obtain ⟨d1, d2⟩ := load_segment_on_disk hc hl
      obtain ⟨out, ho, _, hsh, hri⟩ := scan_step_spec hinv hl
      simp only [scan_loads, hl, ho, List.mem_cons] at hs
      rcases hs with hs | hs
      · exact d2 s hs.symm
      · cases out with
        | found c1 s1 l1 => simp at hs
        | running st1 =>
          simp only at hs
          exact ih st1 (hri _ rfl) (cache_on_disk_shape hsh d1) s hs

/-- Every segment with an SR log that a search from the empty cache loads is
what the device holds for its segnum. -/
theorem search_loads_on_disk {G : Geometry} {dev : Device} {segnum blocknr : Nat}
    {s : nilfs_segment_info} (hs : some s ∈ search_loads G dev [] segnum blocknr) :
    sr_on_disk G dev s := by
  cases hl : search_loads G dev [] segnum blocknr with
  | nil => simp [hl] at hs
  | cons r0 rest =>
    obtain ⟨c0, st0, hld, hi, hrest⟩ := search_loads_cons hl
    obtain ⟨st0b, hib, _, _, _, _, _, _, _, hinv, _, hsh⟩ :=
      scan_init_spec blocknr hld
    rw [hi] at hib
    simp only [Option.some.injEq] at hib
    subst hib
    obtain ⟨d1, d2⟩ := load_segment_on_disk (c := []) (by simp) hld
    rw [hl] at hs
    simp only [List.mem_cons] at hs
    rcases hs with hs | hs
    · exact d2 s hs.symm
    · rw [hrest] at hs
      exact scan_loads_on_disk _ st0 hinv (cache_on_disk_shape hsh d1) s hs

theorem lookup_last_super_root_mem {s : nilfs_segment_info} {l : nilfs_log_info}
    (h : lookup_last_super_root s = some l) : l ∈ s.log_list ∧ has_sr l = true := by
  unfold lookup_last_super_root at h
  refine ⟨?_, List.find?_some h⟩
  have := List.mem_of_find?_eq_some h
  simpa using this

/-- Rollback idempotence away from the long first segment (a lemma that goes
with C7): when find_latest_super_root, from an empty cache, returns (seg, log)
with log.log_start / blocks_per_segment = seg.segnum, then on an image that
holds the same segment (the commit rewrites the superblock slots only) a second
run, given the committed reference (log.log_start, seg.segseq, cno), has
test_latest_log succeed and keep that triple. -/
theorem rollback_idempotent (G : Geometry) (dev dev2 : Device) (segnum blocknr cno : Nat)
    (seg : nilfs_segment_info) (log : nilfs_log_info)
    (hbps : G.blocks_per_segment < 4294967296)
    (h : find_latest_super_root_ret G dev [] segnum blocknr = some (some (seg, log)))
    (hk : log.log_start / G.blocks_per_segment = seg.segnum)
    (hdev : read_segment G dev2 seg.segnum = read_segment G dev seg.segnum) :
    test_latest_log_ret G dev2 []
        { blocknr := log.log_start, seqnum := seg.segseq, cno := cno, ctime := 0 }
      = some (0, { blocknr := log.log_start, seqnum := seg.segseq, cno := cno,
                   ctime := log.segsum.ss_create }) := by
  obtain ⟨hlk, pre, post, hloads, _⟩ := search_result_spec h
  obtain ⟨hmem, hsr⟩ := lookup_last_super_root_mem hlk
  have hd : disk_segment G dev seg :=
    search_loads_on_disk (s := seg) (by rw [hloads]; simp) (by simp [hlk])
  unfold disk_segment at hd
  have hpos := read_segment_bps_pos hd
  have hdist := read_segment_distinct hbps hd
  have hl : lookup_log { seg with refcnt := 1 } log.log_start = some log :=
    find_unique_log hdist hmem rfl
  unfold test_latest_log_ret test_latest_log
  simp only [Nat.ne_of_gt hpos, if_false, hk, load_segment_nil, hdev, hd, Option.map_some',
    if_true, hl]
  simp [put_segment_info, cache_entry, cache_update, hsr]

/-! ## The engine on the sample images -/

theorem image_wrap_loads :
    search_loads sample_geometry image_wrap [] 3 12
      = [some (sample_segment 3 12 10 [sample_log 12 3274782164 3 10 1]),
         some (sample_segment 2 8 9 [sample_log 8 1903012778 3 9 1]),
         some (sample_segment 1 4 8 [sample_log 4 2844337087 3 8 1]),
         some (sample_segment 0 1 1000000 [sample_log 1 1262077798 7 1000000 1])] := by
  decide!

theorem image_jump_loads :
    search_loads sample_geometry image_jump [] 3 12
      = [some (sample_segment 3 12 100 [sample_log 12 3482190225 7 100 1]),
         some (sample_segment 2 8 5 [sample_log 8 3582777489 3 5 1]),
         some (sample_segment 1 4 50 [sample_log 4 2836166428 7 50 1])] := by
  decide!

theorem image_jump_ret :
    find_latest_super_root_ret sample_geometry image_jump [] 3 12
      = some (some (sample_segment 1 4 50 [sample_log 4 2836166428 7 50 1],
                    sample_log 4 2836166428 7 50 1)) :=
  (search_wrap [some (sample_segment 3 12 100 [sample_log 12 3482190225 7 100 1])] []
    image_jump_loads (by decide) (by decide)).2

theorem image_torn_loads :
    search_loads sample_geometry image_torn [] 60 240
      = none :: some (sample_segment 59 236 9 [sample_log 236 2497147040 7 9 1])
          :: List.replicate 49 none := by
  decide!

theorem image_torn_ret :
    find_latest_super_root_ret sample_geometry image_torn [] 60 240
      = some (some (sample_segment 59 236 9 [sample_log 236 2497147040 7 9 1],
                    sample_log 236 2497147040 7 9 1)) := by
  refine search_calm image_torn_loads (by decide) (by decide) ?_
  intro st0 hseg _ _ _ hcont
  have hc : st0.cont = false := by
    cases hb : st0.cont with
    | false => rfl
    | true =>
      obtain ⟨s, hs, _⟩ := hcont.mp hb
      simp at hs
  have hL : lookup_last_super_root (sample_segment 59 236 9 [sample_log 236 2497147040 7 9 1])
      = some (sample_log 236 2497147040 7 9 1) := by decide
  exact ⟨_, by simp [scan_decide, hseg, hL]; rfl, by simp, by simp, by simp [hc]⟩

theorem image_torn_gap_loads :
    search_loads sample_geometry image_torn_gap [] 60 240
      = none :: some (sample_segment 59 236 9 [sample_log 236 2497147040 7 9 1])
          :: none :: some (sample_segment 57 228 5 [sample_log 228 808846235 7 5 1])
          :: List.replicate 47 none := by
  decide!

theorem image_torn_gap_ret :
    find_latest_super_root_ret sample_geometry image_torn_gap [] 60 240
      = some (some (sample_segment 57 228 5 [sample_log 228 808846235 7 5 1],
                    sample_log 228 808846235 7 5 1)) := by
  decide!

theorem image_chain_loads :
    search_loads sample_geometry image_chain [] 60 240
      = some (sample_segment 60 240 10 [sample_log 240 3274782164 3 10 1])
          :: some (sample_segment 59 236 9 [sample_log 236 2497147040 7 9 1])
          :: List.replicate 49 none := by
  decide!

theorem image_chain_ret :
    find_latest_super_root_ret sample_geometry image_chain [] 60 240 = some none := by
  decide!

theorem image_broken_loads :
    search_loads sample_geometry image_broken [] 60 240
      = some (sample_segment 60 240 10 [sample_log 240 3274782164 3 10 1])
          :: some (sample_segment 59 236 7 [sample_log 236 1519261168 7 7 1])
          :: List.replicate 49 none := by
  decide!

theorem image_long0_ret :
    find_latest_super_root_ret sample_geometry_fdb2 image_long0 [] 2 8
      = some (some (sample_segment 0 2 20
                      [sample_log 2 2630275991 3 20 3, sample_log 5 200291412 7 20 1],
                    sample_log 5 200291412 7 20 1)) := by
  decide!

theorem image_long0_second_run :
    test_latest_log_ret sample_geometry_fdb2
        (committed sample_geometry_fdb2 sample_sb_fdb2 image_long0
          { blocknr := 5, seqnum := 20, cno := 3, ctime := 0 } 1700000000) []
        { blocknr := 5, seqnum := 20, cno := 3, ctime := 0 }
      = some (-1, { blocknr := 5, seqnum := 20, cno := 3, ctime := 0 }) := by
  decide!

theorem image_torn_committed_same :
    read_segment sample_geometry
        (committed sample_geometry sample_sb image_torn
          { blocknr := 236, seqnum := 9, cno := 3, ctime := 0 } 1700000000) 59
      = read_segment sample_geometry image_torn 59 := by
  decide!

/-- Witness of C1: the sample geometry meets the hypotheses, and the
equivalence holds for the SR log of image_torn at block 236. -/
theorem log_is_valid_iff_witness :
    4 ≤ sample_geometry.blocksize ∧ sample_geometry.blocks_per_segment < 2147483648 ∧
    (log_is_valid sample_geometry image_torn 236
        (decode_segsum (sample_summary 2497147040 7 9 1)) = some true ↔
      ((decode_segsum (sample_summary 2497147040 7 9 1)).ss_magic = NILFS_SEGSUM_MAGIC ∧
        1 ≤ (decode_segsum (sample_summary 2497147040 7 9 1)).ss_nblocks ∧
        (decode_segsum (sample_summary 2497147040 7 9 1)).ss_nblocks
          ≤ sample_geometry.blocks_per_segment ∧
        ∃ P, log_blocks sample_geometry image_torn
              (decode_segsum (sample_summary 2497147040 7 9 1)).ss_nblocks 236 = some P ∧
          crc32_le sample_geometry.crc_seed (P.drop 4)
            = (decode_segsum (sample_summary 2497147040 7 9 1)).ss_datasum)) :=
  ⟨by decide, by decide,
    log_is_valid_iff sample_geometry image_torn 236 _ (by decide) (by decide)⟩

/-- Witness of C2: the sample geometry meets the hypothesis, and the
equivalence holds for the reference to block 236 under sequence number 9. -/
theorem test_latest_log_iff_witness :
    sample_geometry.blocks_per_segment < 4294967296 ∧
    ((∃ c lr, test_latest_log sample_geometry image_torn []
        { blocknr := 236, seqnum := 9, cno := 3, ctime := 0 } = some (c, 0, lr)) ↔
      ∃ c seginfo loginfo,
        load_segment sample_geometry image_torn [] (236 / sample_geometry.blocks_per_segment)
          = some (c, some seginfo) ∧
        loginfo ∈ seginfo.log_list ∧ loginfo.log_start = 236 ∧
        seginfo.segseq = 9 ∧ has_sr loginfo = true) :=
  ⟨by decide, test_latest_log_iff sample_geometry image_torn
    { blocknr := 236, seqnum := 9, cno := 3, ctime := 0 } (by decide)⟩

/-- Counterexample to C3: on image_jump the search from segment 3 loads
segment 3 (sequence number 100, with an SR log), segment 2 and segment 1, and
returns the SR log of segment 1, whose sequence number 50 is not the greatest
among the loaded segments that hold an SR log. -/
theorem find_latest_super_root_not_greatest :
    search_loads sample_geometry image_jump [] 3 12
      = [some (sample_segment 3 12 100 [sample_log 12 3482190225 7 100 1]),
         some (sample_segment 2 8 5 [sample_log 8 3582777489 3 5 1]),
         some (sample_segment 1 4 50 [sample_log 4 2836166428 7 50 1])] ∧
    find_latest_super_root_ret sample_geometry image_jump [] 3 12
      = some (some (sample_segment 1 4 50 [sample_log 4 2836166428 7 50 1],
                    sample_log 4 2836166428 7 50 1)) ∧
    lookup_last_super_root (sample_segment 3 12 100 [sample_log 12 3482190225 7 100 1])
      = some (sample_log 12 3482190225 7 100 1) ∧
    ¬ (sample_segment 3 12 100 [sample_log 12 3482190225 7 100 1]).segseq
        ≤ (sample_segment 1 4 50 [sample_log 4 2836166428 7 50 1]).segseq :=
  ⟨image_jump_loads, image_jump_ret, by decide, by decide⟩

/-- Witness of C3 (as amended): on image_jump the search returns the SR log of
segment 1, and segment 1 is loaded last. -/
theorem find_latest_super_root_latest_since_witness :
    ∃ pre post, search_loads sample_geometry image_jump [] 3 12
        = pre ++ some (sample_segment 1 4 50 [sample_log 4 2836166428 7 50 1]) :: post ∧
      ∀ t, some t ∈ post →
        t.segseq ≤ (sample_segment 1 4 50 [sample_log 4 2836166428 7 50 1]).segseq :=
  find_latest_super_root_latest_since sample_geometry image_jump [] 3 12 _ _ image_jump_ret

/-- Counterexample to C4: on image_torn_gap the pointed block 240 is zeroed and
the preceding segment 59 loads with an SR log, yet the search returns the SR
log of segment 57: segment 58 does not load, and the segment loaded after it
replaces the candidate. -/
theorem torn_tail_gap_counterexample :
    read_block sample_geometry image_torn_gap 240 1024 = some (List.replicate 1024 0) ∧
    (search_loads sample_geometry image_torn_gap [] 60 240).take 2
      = [none, some (sample_segment 59 236 9 [sample_log 236 2497147040 7 9 1])] ∧
    lookup_last_super_root (sample_segment 59 236 9 [sample_log 236 2497147040 7 9 1])
      = some (sample_log 236 2497147040 7 9 1) ∧
    find_latest_super_root_ret sample_geometry image_torn_gap [] 60 240
      = some (some (sample_segment 57 228 5 [sample_log 228 808846235 7 5 1],
                    sample_log 228 808846235 7 5 1)) ∧
    (sample_segment 57 228 5 [sample_log 228 808846235 7 5 1]).segnum ≠
      (sample_segment 59 236 9 [sample_log 236 2497147040 7 9 1]).segnum :=
  ⟨by decide!, by rw [image_torn_gap_loads]; rfl, by decide, image_torn_gap_ret, by decide⟩

/-- Witness of C4 (as amended): on image_torn segment 60 does not load,
segment 59 loads with an SR log, the 49 later loads all fail, and the search
returns segment 59 with its SR log. -/
theorem torn_tail_rollback_witness :
    find_latest_super_root_ret sample_geometry image_torn [] 60 240
      = some (some (sample_segment 59 236 9 [sample_log 236 2497147040 7 9 1],
                    sample_log 236 2497147040 7 9 1)) :=
  torn_tail_rollback sample_geometry image_torn [] 60 240 _ _ _ image_torn_loads
    (by decide) (by decide) (by decide)

/-- Witness of C5, the example of the claim: the search starts at segment 3,
segments 3, 2 and 1 hold the sequence numbers 10, 9 and 8, segment 0 holds
1,000,000 with an SR log, and the result is the SR log of segment 0. -/
theorem ring_wrap_return_witness :
    find_latest_super_root_ret sample_geometry image_wrap [] 3 12
      = some (some (sample_segment 0 1 1000000 [sample_log 1 1262077798 7 1000000 1],
                    sample_log 1 1262077798 7 1000000 1)) ∧
      ([] : List (Option nilfs_segment_info)) = [] :=
  ring_wrap_return sample_geometry image_wrap [] 3 12
    (sample_segment 1 4 8 [sample_log 4 2844337087 3 8 1])
    (sample_segment 0 1 1000000 [sample_log 1 1262077798 7 1000000 1])
    (sample_log 1 1262077798 7 1000000 1)
    [some (sample_segment 3 12 10 [sample_log 12 3274782164 3 10 1]),
     some (sample_segment 2 8 9 [sample_log 8 1903012778 3 9 1])] []
    image_wrap_loads (by decide) (by decide)

/-- Counterexample to C6: on image_chain the declared block 240 starts a log
without SR in segment 60, which loads, the preceding segment 59 loads and
contains an SR log, and the search returns NULL: segment 59 continues the
sequence chain, so `cont` stays set while it is scanned, and no later segment
loads. -/
theorem unbroken_chain_counterexample :
    search_loads sample_geometry image_chain [] 60 240
      = some (sample_segment 60 240 10 [sample_log 240 3274782164 3 10 1])
          :: some (sample_segment 59 236 9 [sample_log 236 2497147040 7 9 1])
          :: List.replicate 49 none ∧
    lookup_log (sample_segment 60 240 10 [sample_log 240 3274782164 3 10 1]) 240
      = some (sample_log 240 3274782164 3 10 1) ∧
    has_sr (sample_log 240 3274782164 3 10 1) = false ∧
    lookup_last_super_root (sample_segment 59 236 9 [sample_log 236 2497147040 7 9 1])
      = some (sample_log 236 2497147040 7 9 1) ∧
    find_latest_super_root_ret sample_geometry image_chain [] 60 240 = some none :=
  ⟨image_chain_loads, by decide, by decide, by decide, image_chain_ret⟩

/-- Witness of C6 (as amended): on image_broken segment 59 holds sequence
number 7 below segment 60 with 10, and the search returns its SR log. -/
theorem broken_chain_rollback_witness :
    find_latest_super_root_ret sample_geometry image_broken [] 60 240
      = some (some (match lookup_last_super_root
                        (sample_segment 60 240 10 [sample_log 240 3274782164 3 10 1]) with
                    | some l => (sample_segment 60 240 10 [sample_log 240 3274782164 3 10 1], l)
                    | none => (sample_segment 59 236 7 [sample_log 236 1519261168 7 7 1],
                               sample_log 236 1519261168 7 7 1))) :=
  broken_chain_rollback sample_geometry image_broken [] 60 240 _ _
    (sample_log 240 3274782164 3 10 1) _ _ image_broken_loads (by decide) (by decide)
    (by decide) (by decide) (by decide) (by decide) (by decide)

/-- C7 (the code at the failing input): with first data block 2 the search on
image_long0, from an empty cache, selects the SR log at block 5 of segment 0:
load_segment walks segment 0 up to first_data_block + blocks_per_segment.
Block 5 lies in segment 1 by division, so on the committed image the second
run loads segment 1, which does not load, and test_latest_log fails on the
committed reference: the second run does not choose the same log. -/
theorem rollback_not_idempotent :
    find_latest_super_root_ret sample_geometry_fdb2 image_long0 [] 2 8
      = some (some (sample_segment 0 2 20
                      [sample_log 2 2630275991 3 20 3, sample_log 5 200291412 7 20 1],
                    sample_log 5 200291412 7 20 1)) ∧
    test_latest_log_ret sample_geometry_fdb2
        (committed sample_geometry_fdb2 sample_sb_fdb2 image_long0
          { blocknr := 5, seqnum := 20, cno := 3, ctime := 0 } 1700000000) []
        { blocknr := 5, seqnum := 20, cno := 3, ctime := 0 }
      = some (-1, { blocknr := 5, seqnum := 20, cno := 3, ctime := 0 }) :=
  ⟨image_long0_ret, image_long0_second_run⟩

/-- The lemma rollback_idempotent on image_torn: the rollback selects block 236
of segment 59, and on the committed image test_latest_log accepts that
reference. -/
theorem rollback_idempotent_witness :
    test_latest_log_ret sample_geometry
        (committed sample_geometry sample_sb image_torn
          { blocknr := 236, seqnum := 9, cno := 3, ctime := 0 } 1700000000) []
        { blocknr := (sample_log 236 2497147040 7 9 1).log_start,
          seqnum := (sample_segment 59 236 9 [sample_log 236 2497147040 7 9 1]).segseq,
          cno := 3, ctime := 0 }
      = some (0, { blocknr := (sample_log 236 2497147040 7 9 1).log_start,
                   seqnum := (sample_segment 59 236 9 [sample_log 236 2497147040 7 9 1]).segseq,
                   cno := 3, ctime := (sample_log 236 2497147040 7 9 1).segsum.ss_create }) :=
  rollback_idempotent sample_geometry image_torn _ 60 240 3 _ _ (by decide) image_torn_ret
    (by decide) image_torn_committed_same

/-- Witness of C8, the example of the claim: a rollback to block 8,386,560
under sequence number 41 and checkpoint 7 commits that triple and clears the
valid bit of the sample superblock (state 1 becomes 0). -/
theorem commit_super_block_frame_witness :
    sb_get (commit_super_block sample_geometry sample_sb
      { blocknr := 8386560, seqnum := 41, cno := 7, ctime := 0 } 1700000000) F_last_pseg
      = 8386560 ∧
    sb_get (commit_super_block sample_geometry sample_sb
      { blocknr := 8386560, seqnum := 41, cno := 7, ctime := 0 } 1700000000) F_last_seq = 41 ∧
    sb_get (commit_super_block sample_geometry sample_sb
      { blocknr := 8386560, seqnum := 41, cno := 7, ctime := 0 } 1700000000) F_last_cno = 7 ∧
    sb_get (commit_super_block sample_geometry sample_sb
      { blocknr := 8386560, seqnum := 41, cno := 7, ctime := 0 } 1700000000) F_wtime
      = 1700000000 ∧
    sb_get (commit_super_block sample_geometry sample_sb
      { blocknr := 8386560, seqnum := 41, cno := 7, ctime := 0 } 1700000000) F_state
      = sb_get sample_sb F_state - sb_get sample_sb F_state % 2 ∧
    (∀ i, (i < 16 ∨ 20 ≤ i) → (i < 56 ∨ 80 ≤ i) → (i < 104 ∨ 112 ≤ i) →
      (i < 116 ∨ 118 ≤ i) →
      commit_super_block sample_geometry sample_sb
        { blocknr := 8386560, seqnum := 41, cno := 7, ctime := 0 } 1700000000 i
        = sample_sb i) :=
  commit_super_block_frame sample_geometry sample_sb
    { blocknr := 8386560, seqnum := 41, cno := 7, ctime := 0 } 1700000000
    (by decide) (by decide) (by decide) (by decide)

/-- Witness of C9: the sample superblock is accepted, read_sb_info derives the
sample geometry from it, and the committed superblock passes the CRC check. -/
theorem commit_super_block_valid_witness :
    nilfs_sb_is_valid sample_sb false = true ∧
    read_sb_info sample_sb = some sample_geometry ∧
    nilfs_sb_is_valid (commit_super_block sample_geometry sample_sb
      { blocknr := 236, seqnum := 9, cno := 3, ctime := 0 } 1700000000) true = true :=
  ⟨by decide, by decide,
    commit_super_block_valid sample_sb sample_geometry
      { blocknr := 236, seqnum := 9, cno := 3, ctime := 0 } 1700000000 (by decide) (by decide)⟩

/-- C10 (code at the failing input): the first copy is written, the `write` of
the second copy fails, and nilfs_write_super_block returns 0. -/
theorem nilfs_write_super_block_partial :
    ¬ (NILFS_SB2_OFFSET_BYTES image_torn.size
        < (sample_geometry.nsegments * sample_geometry.blocks_per_segment
            * sample_geometry.blocksize) % 18446744073709551616) ∧
    (write_copy sample_geometry image_torn NILFS_SB_OFFSET_BYTES sample_sb
        calls_second_fails.primary).2 = true ∧
    (write_copy sample_geometry image_torn (NILFS_SB2_OFFSET_BYTES image_torn.size) sample_sb
        calls_second_fails.secondary).2 = false ∧
    (nilfs_write_super_block sample_geometry calls_second_fails image_torn sample_sb).1 = 0 := by
  decide

theorem read_sb_info_range {sbp : Buf} {G : Geometry} (h : read_sb_info sbp = some G) :
    (∃ k, k ≤ 30 ∧ G.blocksize = 2 ^ k) ∧ G.blocks_per_segment < 4294967296 ∧
      G.first_data_block < 18446744073709551616 := by
  unfold read_sb_info at h
  simp only at h
  split at h
  · simp at h
  · next hs =>
    split at h
    · simp at h
    · simp only [Option.some.injEq] at h
      subst h
      refine ⟨⟨_, by omega, rfl⟩, ?_, ?_⟩
      · have := sb_get_lt sbp F_blocks_per_segment
        simpa [F_blocks_per_segment] using this
      · have := sb_get_lt sbp F_first_data_block
        simpa [F_first_data_block] using this

/-- A block that read_block delivers is not among the last `2^32` block
numbers: its byte offset would be negative as a signed 64-bit value. -/
theorem read_block_no_wrap {G : Geometry} {dev : Device} {b size n k : Nat} {bytes : List Nat}
    (hk : k ≤ 30) (hbs : G.blocksize = 2 ^ k) (hb : b < 18446744073709551616)
    (hn : n < 4294967296) (h : read_block G dev b size = some bytes) :
    b + n < 18446744073709551616 := by
  unfold read_block at h
  simp only at h
  split at h
  · simp at h
  · next hoff =>
    by_contra hge
    apply hoff
    rw [hbs]
    have hX1 : 1 ≤ 2 ^ k := Nat.one_le_two_pow
    have hX2 : 2 ^ k ≤ 2 ^ 30 := Nat.pow_le_pow_right (by norm_num) hk
    generalize 2 ^ k = X at hX1 hX2
    have hm : 18446744073709551616 - b ≤ 4294967296 := by omega
    have hP : (18446744073709551616 - b) * X ≤ 4294967296 * 2 ^ 30 := Nat.mul_le_mul hm hX2
    have hP1 : 1 ≤ (18446744073709551616 - b) * X := Nat.mul_pos (by omega) hX1
    have e : b * X + (18446744073709551616 - b) * X = 18446744073709551616 * X := by
      rw [← Nat.add_mul]
      congr 1
      omega
    generalize (18446744073709551616 - b) * X = P at hP hP1 e
    generalize b * X = Q at e
    norm_num at hP
    omega

theorem load_logs_ascending {G : Geometry} {dev : Device} {segseq endb k : Nat}
    (hk : k ≤ 30) (hbs : G.blocksize = 2 ^ k) (hbps : G.blocks_per_segment < 4294967296) :
    ∀ (fuel b : Nat) (ss : nilfs_segment_summary) (logs : List nilfs_log_info) (bytes : List Nat),
      b < 18446744073709551616 → read_block G dev b SEGSUM_SIZE = some bytes →
      1 ≤ ss.ss_nblocks → ss.ss_nblocks ≤ G.blocks_per_segment →
      load_logs G dev segseq endb fuel b ss = some logs →
      ∃ l0 rest, logs = l0 :: rest ∧ l0.log_start = b ∧ List.Chain log_follows l0 rest := by
  intro fuel
  induction fuel with
  | zero => intro b ss logs _ _ _ _ _ h; simp [load_logs] at h
  | succ fuel ih =>
    intro b ss logs bytes0 hb hrd h1 h2 h
    have hnw := read_block_no_wrap (n := ss.ss_nblocks) hk hbs hb (by omega) hrd
    simp only [load_logs] at h
    split at h
    · simp only [Option.some.injEq] at h
      subst h
      exact ⟨_, [], rfl, rfl, List.Chain.nil⟩
    · split at h
      · simp at h
      · next bytes hb2 =>
        split at h
        · simp at h
        · next v hv =>
          split at h
          · next hcond =>
            simp only [Bool.and_eq_true, beq_iff_eq] at hcond
            obtain ⟨hvt, _⟩ := hcond
            subst hvt
            obtain ⟨_, k1, k2⟩ := log_is_valid_true hv
            cases hr : load_logs G dev segseq endb fuel
                ((b + ss.ss_nblocks) % 18446744073709551616) (decode_segsum bytes) with
            | none => simp [hr] at h
            | some r =>
              simp only [hr, Option.map_some', Option.some.injEq] at h
              subst h
              obtain ⟨l1, rest, e1, e2, e3⟩ :=
                ih _ _ _ _ (Nat.mod_lt _ (by norm_num)) hb2 k1 k2 hr
              subst e1
              refine ⟨_, _, rfl, rfl, List.Chain.cons ?_ e3⟩
              refine ⟨h1, ?_⟩
              rw [e2]
              exact Nat.mod_eq_of_lt hnw
          · simp only [Option.some.injEq] at h
            subst h
            exact ⟨_, [], rfl, rfl, List.Chain.nil⟩

theorem segment_start_blocknr_lt {G : Geometry} (k : Nat)
    (h : G.first_data_block < 18446744073709551616) :
    segment_start_blocknr G k < 18446744073709551616 := by
  unfold segment_start_blocknr
  split
  · exact Nat.mod_lt _ (by norm_num)
  · exact h

/-- The logs of a record that read_segment builds, loaded or not, start at
`seg_start` and follow each other without a wrap of the block number. -/
theorem read_segment_ascending {G : Geometry} {dev : Device} {k n : Nat}
    {s : nilfs_segment_info} {ok : Bool}
    (hk : k ≤ 30) (hbs : G.blocksize = 2 ^ k) (hbps : G.blocks_per_segment < 4294967296)
    (hfdb : G.first_data_block < 18446744073709551616)
    (h : read_segment G dev n = some (s, ok)) :
    ∃ l0 rest, s.log_list = l0 :: rest ∧ l0.log_start = s.seg_start ∧
      List.Chain log_follows l0 rest := by
  unfold read_segment at h
  simp only at h
  split at h
  · simp at h
  · next bytes hb =>
    split at h
    · simp at h
    · simp only [Option.some.injEq, Prod.mk.injEq] at h
      obtain ⟨h, _⟩ := h
      subst h
      exact ⟨_, [], rfl, rfl, List.Chain.nil⟩
    · next hv =>
      split at h
      · simp at h
      · next logs hl =>
        simp only [Option.some.injEq, Prod.mk.injEq] at h
        obtain ⟨h, _⟩ := h
        subst h
        obtain ⟨_, k1, k2⟩ := log_is_valid_true hv
        exact load_logs_ascending hk hbs hbps _ _ _ _ _ (segment_start_blocknr_lt _ hfdb) hb k1 k2 hl

theorem chain_log_follows_lt :
    ∀ (rest : List nilfs_log_info) (l0 : nilfs_log_info), List.Chain log_follows l0 rest →
      ∀ l ∈ rest, l0.log_start < l.log_start := by
  intro rest
  induction rest with
  | nil => intro _ _ l hl; simp at hl
  | cons l1 rest ih =>
    intro l0 hc l hl
    rw [List.chain_cons] at hc
    obtain ⟨⟨h1, h2⟩, hc2⟩ := hc
    simp only [List.mem_cons] at hl
    rcases hl with hl | hl
    · subst hl; omega
    · have := ih l1 hc2 l hl
      omega

theorem chain_log_follows_pairwise :
    ∀ (rest : List nilfs_log_info) (l0 : nilfs_log_info), List.Chain log_follows l0 rest →
      (l0 :: rest).Pairwise (fun a b => a.log_start < b.log_start) := by
  intro rest
  induction rest with
  | nil => intro _ _; simp
  | cons l1 rest ih =>
    intro l0 hc
    refine List.Pairwise.cons (chain_log_follows_lt _ _ hc) ?_
    rw [List.chain_cons] at hc
    exact ih l1 hc.2

theorem from_disk_refcnt {G : Geometry} {dev : Device} {s t : nilfs_segment_info}
    (h : ({ s with refcnt := 0 } : nilfs_segment_info) = { t with refcnt := 0 })
    (hs : from_disk G dev s) : from_disk G dev t := by
  simp only [nilfs_segment_info.mk.injEq, and_true] at h
  obtain ⟨h1, h2, h3, h4, h5, h6⟩ := h
  obtain ⟨ok, hs⟩ := hs
  refine ⟨ok, ?_⟩
  rw [← h5, hs]
  simp [h1, h2, h3, h4, h5, h6]

theorem read_segment_from_disk {G : Geometry} {dev : Device} {k : Nat} {s : nilfs_segment_info}
    {ok : Bool} (h : read_segment G dev k = some (s, ok)) : from_disk G dev s := by
  obtain ⟨hs1, hs2⟩ := read_segment_segnum h
  refine ⟨ok, ?_⟩
  rw [hs1, h]
  cases s
  simp only at hs1 hs2
  subst hs1; subst hs2
  rfl

/-- The cache invariant holds for the empty cache and load_segment keeps it;
the segment returned is such a record too. -/
theorem load_segment_cache_loaded {G : Geometry} {dev : Device} {c c1 : SegmentCache} {k : Nat}
    {r : Option nilfs_segment_info} (hc : cache_loaded G dev c)
    (h : load_segment G dev c k = some (c1, r)) :
    cache_loaded G dev c1 ∧ ∀ s, r = some s → from_disk G dev s := by
  unfold load_segment at h
  cases hl : lookup_segment c k with
  | some p =>
    obtain ⟨c2, s⟩ := p
    simp only [hl, Option.some.injEq, Prod.mk.injEq] at h
    obtain ⟨h1, h2⟩ := h
    subst h1; subst h2
    unfold lookup_segment at hl
    cases he : cache_entry c k with
    | none => simp [he] at hl
    | some e =>
      simp only [he, Option.some.injEq, Prod.mk.injEq] at hl
      obtain ⟨h1, h2⟩ := hl
      subst h1; subst h2
      refine ⟨?_, ?_⟩
      · intro t ht
        obtain ⟨s, hs, hes⟩ := cache_shape_mem (cache_shape_get c k) ht
        exact from_disk_refcnt hes (hc s hs)
      · intro s hs
        simp only [Option.some.injEq] at hs
        subst hs
        exact from_disk_refcnt rfl (hc e (cache_entry_mem he))
  | none =>
    simp only [hl] at h
    cases hr : read_segment G dev k with
    | none => simp [hr] at h
    | some p =>
      obtain ⟨s, ok⟩ := p
      have hs : from_disk G dev s := read_segment_from_disk hr
      have hmem : cache_loaded G dev (c ++ [s]) := by
        intro e he
        simp only [List.mem_append, List.mem_singleton] at he
        rcases he with he | he
        · exact hc e he
        · subst he; exact hs
      cases ok with
      | true =>
        simp only [hr, Option.some.injEq, Prod.mk.injEq] at h
        obtain ⟨h1, h2⟩ := h
        subst h1; subst h2
        refine ⟨hmem, ?_⟩
        intro s1 e1
        simp only [Option.some.injEq] at e1
        subst e1; exact hs
      | false =>
        simp only [hr, Option.some.injEq, Prod.mk.injEq] at h
        obtain ⟨h1, h2⟩ := h
        subst h1; subst h2
        exact ⟨hmem, by simp⟩

theorem put_segment_info_cache_loaded {G : Geometry} {dev : Device} {c c1 : SegmentCache}
    {k : Nat} (hc : cache_loaded G dev c) (h : put_segment_info c k = some c1) :
    cache_loaded G dev c1 := by
  intro t ht
  have hsh : cache_shape c1 = cache_shape c := by
    rw [put_segment_info_eq] at h
    split at h
    · simp only [Option.some.injEq] at h
      rw [← h]
      exact cache_shape_update (fun s => { s with refcnt := s.refcnt - 1 }) (fun _ => rfl) k c
    · simp at h
  obtain ⟨s, hs, hes⟩ := cache_shape_mem hsh ht
  exact from_disk_refcnt hes (hc s hs)

/-- C20: every segment that load_segment returns, freshly loaded or taken from
a cache whose entries were built by load_segment on this device, has a
non-empty log list whose first log starts at seg_start and in which each
following log starts at its predecessor's log_start plus its predecessor's
nblocks, that count being at least 1; so the logs are in strictly ascending
log_start order. The geometry is one that read_sb_info derives. -/
theorem load_segment_ascending (sbp : Buf) (G : Geometry) (dev : Device) (c c1 : SegmentCache)
    (k : Nat) (s : nilfs_segment_info) (hG : read_sb_info sbp = some G)
    (hc : cache_loaded G dev c) (h : load_segment G dev c k = some (c1, some s)) :
    (s.log_list.head?).map (fun l => l.log_start) = some s.seg_start ∧
      s.log_list.Chain' log_follows ∧
      s.log_list.Pairwise (fun a b => a.log_start < b.log_start) := by
  obtain ⟨⟨kk, hk, hbs⟩, hbps, hfdb⟩ := read_sb_info_range hG
  obtain ⟨ok, hs⟩ := (load_segment_cache_loaded hc h).2 s rfl
  obtain ⟨l0, rest, e1, e2, e3⟩ := read_segment_ascending hk hbs hbps hfdb hs
  simp only at e1 e2
  rw [e1]
  exact ⟨by simp [e2], e3, chain_log_follows_pairwise _ _ e3⟩

theorem load_logs_seq {G : Geometry} {dev : Device} {segseq endb : Nat} :
    ∀ (fuel b : Nat) (ss : nilfs_segment_summary) (logs : List nilfs_log_info),
      load_logs G dev segseq endb fuel b ss = some logs →
      ∃ l0 rest, logs = l0 :: rest ∧ l0.segsum = ss ∧ ∀ l ∈ rest, l.segsum.ss_seq = segseq := by
  intro fuel
  induction fuel with
  | zero => intro b ss logs h; simp [load_logs] at h
  | succ fuel ih =>
    intro b ss logs h
    simp only [load_logs] at h
    split at h
    · simp only [Option.some.injEq] at h
      subst h
      exact ⟨_, [], rfl, rfl, by simp⟩
    · split at h
      · simp at h
      · next bytes hb2 =>
        split at h
        · simp at h
        · next v hv =>
          split at h
          · next hcond =>
            simp only [Bool.and_eq_true, beq_iff_eq] at hcond
            obtain ⟨_, hseq⟩ := hcond
            cases hr : load_logs G dev segseq endb fuel
                ((b + ss.ss_nblocks) % 18446744073709551616) (decode_segsum bytes) with
            | none => simp [hr] at h
            | some r =>
              simp only [hr, Option.map_some', Option.some.injEq] at h
              subst h
              obtain ⟨l1, rest, e1, e2, e3⟩ := ih _ _ _ hr
              subst e1
              refine ⟨_, _, rfl, rfl, ?_⟩
              intro l hl
              simp only [List.mem_cons] at hl
              rcases hl with hl | hl
              · subst hl; rw [e2]; exact hseq
              · exact e3 l hl
          · simp only [Option.some.injEq] at h
            subst h
            exact ⟨_, [], rfl, rfl, by simp⟩

/-- In a segment that read_segment loads every log carries the sequence
number of the segment, which is that of the first log. -/
theorem read_segment_seq {G : Geometry} {dev : Device} {k : Nat} {s : nilfs_segment_info}
    (h : read_segment G dev k = some (s, true)) :
    (∀ l ∈ s.log_list, l.segsum.ss_seq = s.segseq) ∧
      (first_log s).map (fun l => l.segsum.ss_seq) = some s.segseq := by
  unfold read_segment at h
  simp only at h
  split at h
  · simp at h
  · next bytes hb =>
    split at h
    · simp at h
    · simp at h
    · next hv =>
      split at h
      · simp at h
      · next logs hl =>
        simp only [Option.some.injEq, Prod.mk.injEq, and_true] at h
        subst h
        obtain ⟨l0, rest, e1, e2, e3⟩ := load_logs_seq _ _ _ _ hl
        subst e1
        simp only [first_log, List.head?_cons, Option.map_some', e2, and_true]
        intro l hl2
        simp only [List.mem_cons] at hl2
        rcases hl2 with hl2 | hl2
        · subst hl2; rw [e2]
        · exact e3 l hl2

/-- Away from the record of a failed load the sequence numbers agree: a segment
that load_segment returns and that loads from the device has every log under
the sequence number of the segment, that of its first log. -/
theorem load_segment_seq {G : Geometry} {dev : Device} {c c1 : SegmentCache} {k : Nat}
    {s t : nilfs_segment_info} (hc : cache_loaded G dev c)
    (h : load_segment G dev c k = some (c1, some s))
    (hk : read_segment G dev k = some (t, true)) :
    (∀ l ∈ s.log_list, l.segsum.ss_seq = s.segseq) ∧
      (first_log s).map (fun l => l.segsum.ss_seq) = some s.segseq := by
  obtain ⟨ok, hs⟩ := (load_segment_cache_loaded hc h).2 s rfl
  rw [(load_segment_refcnt h).1 s rfl, hk] at hs
  simp only [Option.some.injEq, Prod.mk.injEq] at hs
  obtain ⟨hs1, hs2⟩ := hs
  subst hs2
  have := read_segment_seq hk
  rw [hs1] at this
  exact this

/-- Witness of C20: segment 0 of the long-first-segment image, loaded into the
empty cache, holds the logs at blocks 2 and 5 in this order. -/
theorem load_segment_ascending_witness :
    ([sample_log 2 2630275991 3 20 3, sample_log 5 200291412 7 20 1].head?).map
        (fun l => l.log_start) = some 2 ∧
      [sample_log 2 2630275991 3 20 3, sample_log 5 200291412 7 20 1].Chain' log_follows ∧
      [sample_log 2 2630275991 3 20 3, sample_log 5 200291412 7 20 1].Pairwise
        (fun a b => a.log_start < b.log_start) :=
  load_segment_ascending sample_sb_fdb2 sample_geometry_fdb2 image_long0 []
    [sample_segment 0 2 20 [sample_log 2 2630275991 3 20 3, sample_log 5 200291412 7 20 1]] 0
    (sample_segment 0 2 20 [sample_log 2 2630275991 3 20 3, sample_log 5 200291412 7 20 1])
    (by decide!) (by intro e he; simp at he) (by decide!)

/-- C19 (does not hold on a repeated call): on the bad-checksum image the first
load_segment for segment 2 returns NULL and leaves its record in the cache; the
second call returns that record, whose only log carries the summary sequence
number 9 while segseq is 0. -/
theorem load_segment_repeated_seq :
    ∃ c1 c2 s l, load_segment sample_geometry image_badsum [] 2 = some (c1, none) ∧
      load_segment sample_geometry image_badsum c1 2 = some (c2, some s) ∧
      first_log s = some l ∧ l ∈ s.log_list ∧ l.segsum.ss_seq = 9 ∧ s.segseq = 0 :=
  ⟨[{ log_list := [{ log_start := 8, nblocks := 0,
                     segsum := decode_segsum (sample_summary 0 3 9 1), flags := 0 }],
      seg_start := 8, next := 0, segseq := 0, segnum := 2, nlogs := 0, refcnt := 0 }],
   [{ log_list := [{ log_start := 8, nblocks := 0,
                     segsum := decode_segsum (sample_summary 0 3 9 1), flags := 0 }],
      seg_start := 8, next := 0, segseq := 0, segnum := 2, nlogs := 0, refcnt := 1 }],
   { log_list := [{ log_start := 8, nblocks := 0,
                    segsum := decode_segsum (sample_summary 0 3 9 1), flags := 0 }],
     seg_start := 8, next := 0, segseq := 0, segnum := 2, nlogs := 0, refcnt := 1 },
   { log_start := 8, nblocks := 0, segsum := decode_segsum (sample_summary 0 3 9 1), flags := 0 },
   by decide!, by decide!, by decide!, by decide!, by decide!, by decide!⟩

theorem sb_get_congr {b c : Buf} {f : SbField}
    (h : ∀ i, f.off ≤ i → i < f.off + f.width → b i % 256 = c i % 256) :
    sb_get b f = sb_get c f := by
  unfold sb_get get_le
  rw [buf_bytes_congr h]

theorem lib_sb_is_valid_eq (sbp : Buf) (check_crc : Bool) :
    Lib.nilfs_sb_is_valid sbp check_crc = nilfs_sb_is_valid sbp check_crc := by
  unfold Lib.nilfs_sb_is_valid nilfs_sb_is_valid Lib.nilfs_sb_check_sum
  rfl

theorem sb_is_valid_false_iff (sbp : Buf) :
    nilfs_sb_is_valid sbp false = true ↔
      sb_get sbp F_magic = NILFS_SUPER_MAGIC ∧ sb_get sbp F_bytes ≤ NILFS_MAX_SB_SIZE := by
  unfold nilfs_sb_is_valid
  by_cases h1 : sb_get sbp F_magic = NILFS_SUPER_MAGIC
  · by_cases h2 : sb_get sbp F_bytes > NILFS_MAX_SB_SIZE
    · simp [h1, h2]
    · simp [h1, h2]
      omega
  · simp [h1]

/-- The validity test without the checksum looks at s_magic and s_bytes only. -/
theorem sb_is_valid_congr {b c : Buf}
    (h : ∀ i, 6 ≤ i → i < 10 → b i % 256 = c i % 256) :
    nilfs_sb_is_valid b false = nilfs_sb_is_valid c false := by
  have e1 : sb_get b F_magic = sb_get c F_magic :=
    sb_get_congr (fun i h1 h2 => h i (by simp [F_magic] at h1; omega) (by simp [F_magic] at h2; omega))
  have e2 : sb_get b F_bytes = sb_get c F_bytes :=
    sb_get_congr (fun i h1 h2 => h i (by simp [F_bytes] at h1; omega) (by simp [F_bytes] at h2; omega))
  unfold nilfs_sb_is_valid
  rw [e1, e2]
  simp

/-- The offset test looks at s_log_block_size, s_nsegments and
s_blocks_per_segment only. -/
theorem sb2_too_small_congr {b c : Buf} (off : Nat)
    (h : ∀ i, 20 ≤ i → i < 52 → b i % 256 = c i % 256) :
    Lib.nilfs_sb2_offset_is_too_small b off = Lib.nilfs_sb2_offset_is_too_small c off := by
  have e1 : sb_get b F_nsegments = sb_get c F_nsegments :=
    sb_get_congr (fun i h1 h2 =>
      h i (by simp [F_nsegments] at h1; omega) (by simp [F_nsegments] at h2; omega))
  have e2 : sb_get b F_blocks_per_segment = sb_get c F_blocks_per_segment :=
    sb_get_congr (fun i h1 h2 =>
      h i (by simp [F_blocks_per_segment] at h1; omega)
        (by simp [F_blocks_per_segment] at h2; omega))
  have e3 : sb_get b F_log_block_size = sb_get c F_log_block_size :=
    sb_get_congr (fun i h1 h2 =>
      h i (by simp [F_log_block_size] at h1; omega) (by simp [F_log_block_size] at h2; omega))
  unfold Lib.nilfs_sb2_offset_is_too_small
  rw [e1, e2, e3]

/-- A `pread` of a range that lies inside the device delivers all of it. -/
theorem pread_full {dev : Device} (buf : Buf) {count off : Nat}
    (h1 : off < 9223372036854775808) (h2 : off + count ≤ dev.size) :
    pread dev buf count off
      = ((count : Int), fun i => if i < count then dev.data (off + i) % 256 else buf i) := by
  unfold pread
  have : min count (dev.size - off) = count := by omega
  rw [if_neg (by omega), this]

/-- The value `pread` returns is the whole count only when the range lies
inside the device. -/
theorem pread_count {dev : Device} {buf : Buf} {count off : Nat}
    (h : (pread dev buf count off).1 = (count : Int)) (hc : 0 < count) :
    off < 9223372036854775808 ∧ off + count ≤ dev.size := by
  unfold pread at h
  split at h
  · simp only at h
    omega
  · simp only [Nat.cast_inj] at h
    omega

/-- The second offset is a multiple of 4096. -/
theorem sb2_offset_mod (devsize : Nat) : NILFS_SB2_OFFSET_BYTES devsize % 4096 = 0 := by
  unfold NILFS_SB2_OFFSET_BYTES
  omega

/-- Where the product and the shifted product fit in 64 bits and the shift
count is below 64, the test compares with the product over the naturals. -/
theorem sb2_offset_is_too_small_exact (sbp : Buf) (sb2_offset : Nat)
    (hs : sb_get sbp F_log_block_size + 10 < 64)
    (hp : sb_get sbp F_nsegments * sb_get sbp F_blocks_per_segment
        * 2 ^ (sb_get sbp F_log_block_size + 10) < 18446744073709551616) :
    Lib.nilfs_sb2_offset_is_too_small sbp sb2_offset
      = some (decide (sb2_offset < sb_get sbp F_nsegments * sb_get sbp F_blocks_per_segment
          * 2 ^ (sb_get sbp F_log_block_size + 10))) := by
  unfold Lib.nilfs_sb2_offset_is_too_small shl64
  have h1 : (sb_get sbp F_log_block_size + 10) % 4294967296 = sb_get sbp F_log_block_size + 10 :=
    Nat.mod_eq_of_lt (by omega)
  have h2 : sb_get sbp F_nsegments * sb_get sbp F_blocks_per_segment < 18446744073709551616 := by
    have : 1 ≤ 2 ^ (sb_get sbp F_log_block_size + 10) := Nat.one_le_two_pow
    calc sb_get sbp F_nsegments * sb_get sbp F_blocks_per_segment
        = sb_get sbp F_nsegments * sb_get sbp F_blocks_per_segment * 1 := (Nat.mul_one _).symm
      _ ≤ sb_get sbp F_nsegments * sb_get sbp F_blocks_per_segment
            * 2 ^ (sb_get sbp F_log_block_size + 10) := Nat.mul_le_mul_left _ this
      _ < 18446744073709551616 := hp
  rw [h1, if_pos hs, Nat.mod_eq_of_lt h2, Option.map_some', Nat.mod_eq_of_lt hp]

/-- C13 (does not hold): for a superblock that declares `2^63` segments of 2
blocks of 1 KiB the 64-bit product wraps to 0, so nilfs_sb2_offset_is_too_small
accepts the offset 266240 although the product over the naturals, `2^74`, is
greater; the fsck reader accepts the same second copy. -/
theorem sb2_offset_product_wraps :
    Lib.nilfs_sb2_offset_is_too_small sample_sb_huge 266240 = some false ∧
      266240 < sb_get sample_sb_huge F_nsegments * sb_get sample_sb_huge F_blocks_per_segment
        * 2 ^ (sb_get sample_sb_huge F_log_block_size + 10) ∧
      (read_sb_second sample_sb_calls (sb_image sample_sb sample_sb_huge)).map
        (fun p => p.isSome) = some true := by
  refine ⟨by decide!, by decide!, by decide!⟩

theorem pread_slot {dev : Device} (buf : Buf) {off : Nat}
    (h1 : off < 9223372036854775808) (h2 : off + NILFS_MAX_SB_SIZE ≤ dev.size) :
    (pread dev buf NILFS_MAX_SB_SIZE off).1 = (NILFS_MAX_SB_SIZE : Int) ∧
      ∀ i, i < 1024 → (pread dev buf NILFS_MAX_SB_SIZE off).2 i = dev_slot dev off i := by
  rw [pread_full buf h1 h2]
  refine ⟨rfl, ?_⟩
  intro i hi
  simp only [dev_slot, NILFS_MAX_SB_SIZE]
  rw [if_pos hi]

/-- What __nilfs_sb_read delivers when the size of the file is obtained and
both slots are read in full, in terms of the bytes of the two slots. -/
theorem sb_read_full (calls : SbCalls) (dev : Device) (hstat : calls.fstat_ok = true)
    (hkind : calls.kind = FileKind.reg ∨ (calls.kind = FileKind.blk ∧ calls.ioctl_ok = true))
    (hsize : dev.size < 9223372036854775808)
    (h1 : NILFS_SB_OFFSET_BYTES + NILFS_MAX_SB_SIZE ≤ dev.size)
    (h2 : NILFS_SB2_OFFSET_BYTES dev.size + NILFS_MAX_SB_SIZE ≤ dev.size)
    (hs : (sb_get (dev_slot dev (NILFS_SB2_OFFSET_BYTES dev.size)) F_log_block_size + 10)
        % 4294967296 < 64) :
    Lib.__nilfs_sb_read calls dev = some (Lib.sb_read_finish
      (if nilfs_sb_is_valid (dev_slot dev NILFS_SB_OFFSET_BYTES) false = true then
        some (pread dev calls.heap0 NILFS_MAX_SB_SIZE NILFS_SB_OFFSET_BYTES).2 else none)
      (if nilfs_sb_is_valid (dev_slot dev (NILFS_SB2_OFFSET_BYTES dev.size)) false = true ∧
          Lib.nilfs_sb2_offset_is_too_small (dev_slot dev (NILFS_SB2_OFFSET_BYTES dev.size))
            (NILFS_SB2_OFFSET_BYTES dev.size) = some false then
        some (pread dev calls.heap1 NILFS_MAX_SB_SIZE (NILFS_SB2_OFFSET_BYTES dev.size)).2
        else none)
      (NILFS_SB2_OFFSET_BYTES dev.size)) := by
  obtain ⟨a1, a2⟩ := pread_slot calls.heap0 (by simp [NILFS_SB_OFFSET_BYTES] : NILFS_SB_OFFSET_BYTES < 9223372036854775808) h1
  obtain ⟨b1, b2⟩ := pread_slot calls.heap1
    (by simp only [NILFS_MAX_SB_SIZE] at h2; omega :
      NILFS_SB2_OFFSET_BYTES dev.size < 9223372036854775808) h2
  have v0 : nilfs_sb_is_valid (pread dev calls.heap0 NILFS_MAX_SB_SIZE NILFS_SB_OFFSET_BYTES).2 false
      = nilfs_sb_is_valid (dev_slot dev NILFS_SB_OFFSET_BYTES) false :=
    sb_is_valid_congr (fun i _ hi => by rw [a2 i (by omega)])
  have v1 : nilfs_sb_is_valid
      (pread dev calls.heap1 NILFS_MAX_SB_SIZE (NILFS_SB2_OFFSET_BYTES dev.size)).2 false
      = nilfs_sb_is_valid (dev_slot dev (NILFS_SB2_OFFSET_BYTES dev.size)) false :=
    sb_is_valid_congr (fun i _ hi => by rw [b2 i (by omega)])
  have t1 : Lib.nilfs_sb2_offset_is_too_small
      (pread dev calls.heap1 NILFS_MAX_SB_SIZE (NILFS_SB2_OFFSET_BYTES dev.size)).2
        (NILFS_SB2_OFFSET_BYTES dev.size)
      = Lib.nilfs_sb2_offset_is_too_small (dev_slot dev (NILFS_SB2_OFFSET_BYTES dev.size))
        (NILFS_SB2_OFFSET_BYTES dev.size) :=
    sb2_too_small_congr _ (fun i _ hi => by rw [b2 i (by omega)])
  have hk1 : ¬ (calls.kind = FileKind.blk ∧ calls.ioctl_ok = false) := by
    rcases hkind with h | h
    · simp [h]
    · simp [h.2]
  have hk2 : ¬ calls.kind = FileKind.other := by
    rcases hkind with h | h
    · simp [h]
    · simp [h.1]
  unfold Lib.__nilfs_sb_read
  simp only [hstat, Bool.not_true, Bool.false_eq_true, if_false, if_neg hk1, if_neg hk2, a1, b1,
    lib_sb_is_valid_eq, v0, v1, t1, true_and]
  obtain ⟨ts, hts⟩ : ∃ ts, Lib.nilfs_sb2_offset_is_too_small
      (dev_slot dev (NILFS_SB2_OFFSET_BYTES dev.size)) (NILFS_SB2_OFFSET_BYTES dev.size)
        = some ts := by
    unfold Lib.nilfs_sb2_offset_is_too_small shl64
    rw [if_pos hs]
    exact ⟨_, rfl⟩
  rw [hts]
  by_cases hv : nilfs_sb_is_valid (dev_slot dev (NILFS_SB2_OFFSET_BYTES dev.size)) false = true
  · cases ts <;> simp [hv]
  · simp [hv]

theorem sb_read_finish_eq (p0 p1 : Option Buf) (off : Nat) :
    (Lib.sb_read_finish p0 p1 off).sbp0 = p0 ∧ (Lib.sb_read_finish p0 p1 off).sbp1 = p1 ∧
      (Lib.sb_read_finish p0 p1 off).ret = (if p0.isNone && p1.isNone then -1 else 0) ∧
      (Lib.sb_read_finish p0 p1 off).offset0 = NILFS_SB_OFFSET_BYTES ∧
      (Lib.sb_read_finish p0 p1 off).offset1 = off := by
  unfold Lib.sb_read_finish
  cases p0 <;> cases p1 <;> simp

/-- C12: when the size of the file is obtained, both 1024-byte slots are read
in full and the shift of the offset test has a value, __nilfs_sb_read keeps the
first copy exactly if its magic is NILFS_SUPER_MAGIC and its s_bytes is at most
1024, keeps the second copy exactly if the same holds for it and the second
offset is not too small, and fails exactly if it keeps neither; on a device
that differs only in the stored checksums (s_sum) of the two slots it keeps the
same copies and returns the same value. -/
theorem sb_read_keeps (calls : SbCalls) (dev : Device) (hstat : calls.fstat_ok = true)
    (hkind : calls.kind = FileKind.reg ∨ (calls.kind = FileKind.blk ∧ calls.ioctl_ok = true))
    (hsize : dev.size < 9223372036854775808)
    (h1 : NILFS_SB_OFFSET_BYTES + NILFS_MAX_SB_SIZE ≤ dev.size)
    (h2 : NILFS_SB2_OFFSET_BYTES dev.size + NILFS_MAX_SB_SIZE ≤ dev.size)
    (hs : (sb_get (dev_slot dev (NILFS_SB2_OFFSET_BYTES dev.size)) F_log_block_size + 10)
        % 4294967296 < 64) :
    ∃ r, Lib.__nilfs_sb_read calls dev = some r ∧
      (r.sbp0.isSome = true ↔
        sb_get (dev_slot dev NILFS_SB_OFFSET_BYTES) F_magic = NILFS_SUPER_MAGIC ∧
          sb_get (dev_slot dev NILFS_SB_OFFSET_BYTES) F_bytes ≤ 1024) ∧
      (r.sbp1.isSome = true ↔
        sb_get (dev_slot dev (NILFS_SB2_OFFSET_BYTES dev.size)) F_magic = NILFS_SUPER_MAGIC ∧
          sb_get (dev_slot dev (NILFS_SB2_OFFSET_BYTES dev.size)) F_bytes ≤ 1024 ∧
          Lib.nilfs_sb2_offset_is_too_small (dev_slot dev (NILFS_SB2_OFFSET_BYTES dev.size))
            (NILFS_SB2_OFFSET_BYTES dev.size) = some false) ∧
      (r.ret = -1 ↔ r.sbp0 = none ∧ r.sbp1 = none) ∧
      (r.ret = 0 ↔ ¬ (r.sbp0 = none ∧ r.sbp1 = none)) ∧
      ∀ dev2 : Device, dev2.size = dev.size →
        (∀ j, ¬ (NILFS_SB_OFFSET_BYTES + 16 ≤ j ∧ j < NILFS_SB_OFFSET_BYTES + 20) →
          ¬ (NILFS_SB2_OFFSET_BYTES dev.size + 16 ≤ j ∧ j < NILFS_SB2_OFFSET_BYTES dev.size + 20) →
          dev2.data j = dev.data j) →
        ∃ r2, Lib.__nilfs_sb_read calls dev2 = some r2 ∧ r2.sbp0.isSome = r.sbp0.isSome ∧
          r2.sbp1.isSome = r.sbp1.isSome ∧ r2.ret = r.ret := by
  have hv : ∀ b : Buf, nilfs_sb_is_valid b false = true ↔
      sb_get b F_magic = NILFS_SUPER_MAGIC ∧ sb_get b F_bytes ≤ 1024 := sb_is_valid_false_iff
  refine ⟨_, sb_read_full calls dev hstat hkind hsize h1 h2 hs, ?_, ?_, ?_, ?_, ?_⟩
  · rw [(sb_read_finish_eq _ _ _).1, ← hv]
    split <;> simp_all
  · rw [(sb_read_finish_eq _ _ _).2.1, ← and_assoc, ← hv]
    split <;> simp_all
  · rw [(sb_read_finish_eq _ _ _).1, (sb_read_finish_eq _ _ _).2.1, (sb_read_finish_eq _ _ _).2.2.1]
    split <;> split <;> simp_all
  · rw [(sb_read_finish_eq _ _ _).1, (sb_read_finish_eq _ _ _).2.1, (sb_read_finish_eq _ _ _).2.2.1]
    split <;> split <;> simp_all
  · intro dev2 hsz hd
    have s0 : ∀ i, ¬ (16 ≤ i ∧ i < 20) → i < 1024 →
        dev_slot dev2 NILFS_SB_OFFSET_BYTES i = dev_slot dev NILFS_SB_OFFSET_BYTES i := by
      intro i hi hi2
      have hm := sb2_offset_mod dev.size
      unfold dev_slot
      rw [hd _ (by omega) (by simp only [NILFS_SB_OFFSET_BYTES]; omega)]
    have s1 : ∀ i, ¬ (16 ≤ i ∧ i < 20) → i < 1024 →
        dev_slot dev2 (NILFS_SB2_OFFSET_BYTES dev.size) i
          = dev_slot dev (NILFS_SB2_OFFSET_BYTES dev.size) i := by
      intro i hi hi2
      have hm := sb2_offset_mod dev.size
      unfold dev_slot
      rw [hd _ (by simp only [NILFS_SB_OFFSET_BYTES]; omega) (by omega)]
    have e0 : nilfs_sb_is_valid (dev_slot dev2 NILFS_SB_OFFSET_BYTES) false
        = nilfs_sb_is_valid (dev_slot dev NILFS_SB_OFFSET_BYTES) false :=
      sb_is_valid_congr (fun i _ _ => by rw [s0 i (by omega) (by omega)])
    have e1 : nilfs_sb_is_valid (dev_slot dev2 (NILFS_SB2_OFFSET_BYTES dev.size)) false
        = nilfs_sb_is_valid (dev_slot dev (NILFS_SB2_OFFSET_BYTES dev.size)) false :=
      sb_is_valid_congr (fun i _ _ => by rw [s1 i (by omega) (by omega)])
    have e2 : Lib.nilfs_sb2_offset_is_too_small (dev_slot dev2 (NILFS_SB2_OFFSET_BYTES dev.size))
          (NILFS_SB2_OFFSET_BYTES dev.size)
        = Lib.nilfs_sb2_offset_is_too_small (dev_slot dev (NILFS_SB2_OFFSET_BYTES dev.size))
          (NILFS_SB2_OFFSET_BYTES dev.size) :=
      sb2_too_small_congr _ (fun i _ _ => by rw [s1 i (by omega) (by omega)])
    have e3 : sb_get (dev_slot dev2 (NILFS_SB2_OFFSET_BYTES dev.size)) F_log_block_size
        = sb_get (dev_slot dev (NILFS_SB2_OFFSET_BYTES dev.size)) F_log_block_size :=
      sb_get_congr (fun i h3 h4 => by
        simp only [F_log_block_size] at h3 h4
        rw [s1 i (by omega) (by omega)])
    refine ⟨_, sb_read_full calls dev2 hstat hkind (by rw [hsz]; exact hsize)
      (by rw [hsz]; exact h1) (by rw [hsz]; exact h2) (by rw [hsz, e3]; exact hs), ?_, ?_, ?_⟩
    · rw [(sb_read_finish_eq _ _ _).1, (sb_read_finish_eq _ _ _).1, e0]
      split <;> simp
    · rw [(sb_read_finish_eq _ _ _).2.1, (sb_read_finish_eq _ _ _).2.1, hsz, e1, e2]
      split <;> simp
    · rw [(sb_read_finish_eq _ _ _).2.2.1, (sb_read_finish_eq _ _ _).2.2.1, hsz, e0, e1, e2]
      by_cases c0 : nilfs_sb_is_valid (dev_slot dev NILFS_SB_OFFSET_BYTES) false = true
      · simp [c0]
      · by_cases c1 : nilfs_sb_is_valid (dev_slot dev (NILFS_SB2_OFFSET_BYTES dev.size)) false
            = true ∧ Lib.nilfs_sb2_offset_is_too_small
              (dev_slot dev (NILFS_SB2_OFFSET_BYTES dev.size))
              (NILFS_SB2_OFFSET_BYTES dev.size) = some false
        · simp [c0, c1]
        · simp [c0, c1]

/-- Witness of C12: on a device that holds the sample superblock, whose stored
checksum is wrong, in both slots, the two copies are kept and the call
succeeds. -/
theorem sb_read_keeps_witness :
    nilfs_sb_is_valid sample_sb true = false ∧
      ∃ r, Lib.__nilfs_sb_read sample_sb_calls (sb_image sample_sb sample_sb) = some r ∧
        r.sbp0.isSome = true ∧ r.sbp1.isSome = true ∧ r.ret = 0 := by
  obtain ⟨r, hr, a, b, _, d, _⟩ :=
    sb_read_keeps sample_sb_calls (sb_image sample_sb sample_sb) (by decide) (by decide)
      (by decide) (by decide) (by decide) (by decide!)
  have ha := a.mpr (by decide!)
  have hb := b.mpr (by decide!)
  refine ⟨by decide!, r, hr, ha, hb, d.mpr ?_⟩
  intro hn
  rw [hn.1] at ha
  simp at ha

/-- The library reader returns the first buffer whenever the first copy is
kept. -/
theorem nilfs_sb_read_first {calls : SbCalls} {dev : Device} {r : SbPair} {b : Buf}
    (h : Lib.__nilfs_sb_read calls dev = some r) (hret : r.ret = 0) (h0 : r.sbp0 = some b) :
    Lib.nilfs_sb_read calls dev = some (some (0, b)) := by
  unfold Lib.nilfs_sb_read
  rw [h]
  simp [hret, h0]

/-- C15 (does not hold): on a device whose first copy has s_last_cno 100 and
whose second copy has s_last_cno 110, both kept by __nilfs_sb_read, the library
reader nilfs_sb_read returns the first copy (last_cno 100), while the fsck
reader returns the second (last_cno 110). -/
theorem nilfs_sb_read_prefers_first :
    ∃ r b0 b1,
      Lib.__nilfs_sb_read sample_sb_calls (sb_image (sample_sb_cno 100) (sample_sb_cno 110))
        = some r ∧
      r.sbp0 = some b0 ∧ r.sbp1 = some b1 ∧
      sb_get b0 F_last_cno = 100 ∧ sb_get b1 F_last_cno = 110 ∧
      Lib.nilfs_sb_read sample_sb_calls (sb_image (sample_sb_cno 100) (sample_sb_cno 110))
        = some (some (0, b0)) ∧
      (nilfs_read_super_block sample_sb_calls
          (sb_image (sample_sb_cno 100) (sample_sb_cno 110))).map
        (fun q => q.map (fun p => (p.1, sb_get p.2 F_last_cno))) = some (some (1, 110)) := by
  have h := sb_read_full sample_sb_calls (sb_image (sample_sb_cno 100) (sample_sb_cno 110))
    (by decide) (by decide) (by decide) (by decide) (by decide) (by decide!)
  rw [if_pos (by decide!), if_pos (by decide!)] at h
  refine ⟨_, _, _, h, (sb_read_finish_eq _ _ _).1, (sb_read_finish_eq _ _ _).2.1, by decide!,
    by decide!, ?_, by decide!⟩
  exact nilfs_sb_read_first h (by rw [(sb_read_finish_eq _ _ _).2.2.1]; rfl)
    (sb_read_finish_eq _ _ _).1

theorem select_none_none : select_super_block none none = none := rfl

theorem select_some_none (b0 : Buf) : select_super_block (some b0) none = some (0, b0) := rfl

theorem select_none_some (b1 : Buf) : select_super_block none (some b1) = some (1, b1) := rfl

theorem select_some_some (b0 b1 : Buf) :
    select_super_block (some b0) (some b1)
      = if sb_get b1 F_last_cno > sb_get b0 F_last_cno then some (1, b1) else some (0, b0) := rfl

theorem read_super_block_eq (calls : SbCalls) (dev : Device) (hio : calls.ioctl_ok = true) :
    nilfs_read_super_block calls dev
      = (read_sb_second calls dev).map (fun p1 => select_super_block (read_sb_first calls dev) p1) := by
  unfold nilfs_read_super_block
  rw [hio]
  cases read_sb_second calls dev <;> rfl

/-- C14: when the device size is obtained, nilfs_read_super_block returns the
second copy exactly if that copy is accepted and either the first is not
accepted or the second has the strictly greater s_last_cno; it returns the
first copy exactly if that copy is accepted and the second is not accepted with
a strictly greater s_last_cno (so equal numbers select the first); and it
returns NULL exactly if neither copy is accepted. -/
theorem nilfs_read_super_block_select (calls : SbCalls) (dev : Device)
    (hio : calls.ioctl_ok = true) :
    (∀ b, nilfs_read_super_block calls dev = some (some (1, b)) ↔
      read_sb_second calls dev = some (some b) ∧
        (read_sb_first calls dev = none ∨
          ∃ b0, read_sb_first calls dev = some b0 ∧ sb_get b0 F_last_cno < sb_get b F_last_cno)) ∧
    (∀ b, nilfs_read_super_block calls dev = some (some (0, b)) ↔
      read_sb_first calls dev = some b ∧
        (read_sb_second calls dev = some none ∨
          ∃ b1, read_sb_second calls dev = some (some b1) ∧
            sb_get b1 F_last_cno ≤ sb_get b F_last_cno)) ∧
    (nilfs_read_super_block calls dev = some none ↔
      read_sb_first calls dev = none ∧ read_sb_second calls dev = some none) ∧
    (∀ i b, nilfs_read_super_block calls dev = some (some (i, b)) → i = 0 ∨ i = 1) := by
  rw [read_super_block_eq calls dev hio]
  cases h2 : read_sb_second calls dev with
  | none =>
    simp only [Option.map_none']
    refine ⟨fun b => ⟨(fun h => nomatch h), (fun h => nomatch h.1)⟩,
      fun b => ⟨(fun h => nomatch h), fun h => ?_⟩, ⟨(fun h => nomatch h), (fun h => nomatch h.2)⟩,
      (fun i b h => nomatch h)⟩
    rcases h.2 with h3 | ⟨_, h3, _⟩
    · exact nomatch h3
    · exact nomatch h3
  | some p1 =>
    simp only [Option.map_some', Option.some.injEq]
    cases p1 with
    | none =>
      cases h1 : read_sb_first calls dev with
      | none =>
        rw [select_none_none]
        refine ⟨fun b => ⟨(fun h => nomatch h), (fun h => nomatch h.1)⟩,
          fun b => ⟨(fun h => nomatch h), (fun h => nomatch h.1)⟩, ⟨fun _ => ⟨rfl, rfl⟩, fun _ => rfl⟩,
          (fun i b h => nomatch h)⟩
      | some b0 =>
        rw [select_some_none]
        refine ⟨fun b => ⟨fun h => ?_, (fun h => nomatch h.1)⟩,
          fun b => ⟨fun h => ?_, fun h => ?_⟩, ⟨(fun h => nomatch h), (fun h => nomatch h.1)⟩,
          fun i b h => ?_⟩
        · simp only [Option.some.injEq, Prod.mk.injEq] at h
          omega
        · simp only [Option.some.injEq, Prod.mk.injEq, true_and] at h
          subst h
          exact ⟨rfl, Or.inl rfl⟩
        · obtain ⟨h, _⟩ := h
          simp only [Option.some.injEq] at h
          subst h
          rfl
        · simp only [Option.some.injEq, Prod.mk.injEq] at h
          exact Or.inl h.1.symm
    | some b1 =>
      cases h1 : read_sb_first calls dev with
      | none =>
        rw [select_none_some]
        refine ⟨fun b => ⟨fun h => ?_, fun h => ?_⟩,
          fun b => ⟨fun h => ?_, (fun h => nomatch h.1)⟩, ⟨(fun h => nomatch h), (fun h => nomatch h.2)⟩,
          fun i b h => ?_⟩
        · simp only [Option.some.injEq, Prod.mk.injEq, true_and] at h
          subst h
          exact ⟨rfl, Or.inl rfl⟩
        · obtain ⟨h, _⟩ := h
          simp only [Option.some.injEq] at h
          subst h
          rfl
        · simp only [Option.some.injEq, Prod.mk.injEq] at h
          omega
        · simp only [Option.some.injEq, Prod.mk.injEq] at h
          exact Or.inr h.1.symm
      | some b0 =>
        rw [select_some_some]
        by_cases hc : sb_get b1 F_last_cno > sb_get b0 F_last_cno
        · rw [if_pos hc]
          refine ⟨fun b => ⟨fun h => ?_, fun h => ?_⟩,
            fun b => ⟨fun h => ?_, fun h => ?_⟩, ⟨(fun h => nomatch h), (fun h => nomatch h.1)⟩,
            fun i b h => ?_⟩
          · simp only [Option.some.injEq, Prod.mk.injEq, true_and] at h
            subst h
            exact ⟨rfl, Or.inr ⟨b0, rfl, hc⟩⟩
          · obtain ⟨h, _⟩ := h
            simp only [Option.some.injEq] at h
            subst h
            rfl
          · simp only [Option.some.injEq, Prod.mk.injEq] at h
            omega
          · obtain ⟨h, h3⟩ := h
            simp only [Option.some.injEq] at h
            subst h
            rcases h3 with h3 | ⟨b2, h3, h4⟩
            · exact nomatch h3
            · simp only [Option.some.injEq] at h3
              subst h3
              omega
          · simp only [Option.some.injEq, Prod.mk.injEq] at h
            exact Or.inr h.1.symm
        · rw [if_neg hc]
          refine ⟨fun b => ⟨fun h => ?_, fun h => ?_⟩,
            fun b => ⟨fun h => ?_, fun h => ?_⟩, ⟨(fun h => nomatch h), (fun h => nomatch h.1)⟩,
            fun i b h => ?_⟩
          · simp only [Option.some.injEq, Prod.mk.injEq] at h
            omega
          · obtain ⟨h, h3⟩ := h
            simp only [Option.some.injEq] at h
            subst h
            rcases h3 with h3 | ⟨b2, h3, h4⟩
            · exact nomatch h3
            · simp only [Option.some.injEq] at h3
              subst h3
              omega
          · simp only [Option.some.injEq, Prod.mk.injEq, true_and] at h
            subst h
            exact ⟨rfl, Or.inr ⟨b1, rfl, by omega⟩⟩
          · obtain ⟨h, _⟩ := h
            simp only [Option.some.injEq] at h
            subst h
            rfl
          · simp only [Option.some.injEq, Prod.mk.injEq] at h
            exact Or.inl h.1.symm

/-- Witness of C14, the example of the claim: the first copy has s_last_cno 100
and the second 110, both are accepted, and the second is returned. -/
theorem nilfs_read_super_block_select_witness :
    (read_sb_first sample_sb_calls (sb_image (sample_sb_cno 100) (sample_sb_cno 110))).map
        (fun b => sb_get b F_last_cno) = some 100 ∧
      (nilfs_read_super_block sample_sb_calls
          (sb_image (sample_sb_cno 100) (sample_sb_cno 110))).map
        (fun q => q.map (fun p => (p.1, sb_get p.2 F_last_cno))) = some (some (1, 110)) ∧
      (nilfs_read_super_block sample_sb_calls (sb_image (sample_sb_cno 100) (sample_sb_cno 110))
          = some none ↔
        read_sb_first sample_sb_calls (sb_image (sample_sb_cno 100) (sample_sb_cno 110)) = none ∧
          read_sb_second sample_sb_calls (sb_image (sample_sb_cno 100) (sample_sb_cno 110))
            = some none) :=
  ⟨by decide!, by decide!,
    (nilfs_read_super_block_select sample_sb_calls
      (sb_image (sample_sb_cno 100) (sample_sb_cno 110)) (by decide)).2.2.1⟩

theorem sb_read_eq_fail (calls : SbCalls) (dev : Device) (h : sb_calls_fail calls) :
    Lib.__nilfs_sb_read calls dev
      = some { ret := -1, sbp0 := none, sbp1 := none, offset0 := 0, offset1 := 0 } := by
  unfold Lib.__nilfs_sb_read
  rcases h with h | h | h
  · simp [h]
  · by_cases h1 : calls.fstat_ok = true
    · simp [h1, h]
    · simp [h1]
  · by_cases h1 : calls.fstat_ok = true
    · simp [h1, h]
    · simp [h1]

theorem sb_read_eq (calls : SbCalls) (dev : Device) (h : ¬ sb_calls_fail calls) :
    Lib.__nilfs_sb_read calls dev
      = (keep_second (pread dev calls.heap1 NILFS_MAX_SB_SIZE (NILFS_SB2_OFFSET_BYTES dev.size))
          (NILFS_SB2_OFFSET_BYTES dev.size)).map
        (fun p1 => Lib.sb_read_finish
          (keep_first (pread dev calls.heap0 NILFS_MAX_SB_SIZE NILFS_SB_OFFSET_BYTES)) p1
          (NILFS_SB2_OFFSET_BYTES dev.size)) := by
  unfold sb_calls_fail at h
  simp only [not_or] at h
  obtain ⟨h1, h2, h3⟩ := h
  have h1 : calls.fstat_ok = true := by simpa using h1
  unfold Lib.__nilfs_sb_read keep_second keep_first
  simp only [h1, Bool.not_true, Bool.false_eq_true, if_false, if_neg h2, if_neg h3]
  split
  · split <;> simp_all
  · simp

theorem keep_first_some {rd : Int × Buf} {b : Buf} (h : keep_first rd = some b) :
    b = rd.2 ∧ rd.1 = (NILFS_MAX_SB_SIZE : Int) ∧ nilfs_sb_is_valid b false = true := by
  unfold keep_first at h
  split at h
  · next hc =>
    simp only [Option.some.injEq] at h
    subst h
    rw [lib_sb_is_valid_eq] at hc
    exact ⟨rfl, hc.1, hc.2⟩
  · simp at h

theorem keep_second_some {rd : Int × Buf} {off : Nat} {b : Buf}
    (h : keep_second rd off = some (some b)) :
    b = rd.2 ∧ rd.1 = (NILFS_MAX_SB_SIZE : Int) ∧ nilfs_sb_is_valid b false = true ∧
      Lib.nilfs_sb2_offset_is_too_small b off = some false := by
  unfold keep_second at h
  split at h
  · next hc =>
    rw [lib_sb_is_valid_eq] at hc
    split at h
    · simp at h
    · simp at h
    · next ht =>
      simp only [Option.some.injEq] at h
      subst h
      exact ⟨rfl, hc.1, hc.2, ht⟩
  · simp at h

theorem keep_first_of {rd : Int × Buf} (h1 : rd.1 = (NILFS_MAX_SB_SIZE : Int))
    (h2 : nilfs_sb_is_valid rd.2 false = true) : keep_first rd = some rd.2 := by
  unfold keep_first
  rw [lib_sb_is_valid_eq, if_pos ⟨h1, h2⟩]

theorem keep_second_of {rd : Int × Buf} {off : Nat} (h1 : rd.1 = (NILFS_MAX_SB_SIZE : Int))
    (h2 : nilfs_sb_is_valid rd.2 false = true)
    (h3 : Lib.nilfs_sb2_offset_is_too_small rd.2 off = some false) :
    keep_second rd off = some (some rd.2) := by
  unfold keep_second
  rw [lib_sb_is_valid_eq, if_pos ⟨h1, h2⟩, h3]

/-- What a successful __nilfs_sb_read hands back, in terms of the two reads. -/
theorem sb_read_ret0 {calls : SbCalls} {dev : Device} {r : SbPair}
    (hr : Lib.__nilfs_sb_read calls dev = some r) (hret : ¬ r.ret < 0) :
    ¬ sb_calls_fail calls ∧
      keep_second (pread dev calls.heap1 NILFS_MAX_SB_SIZE (NILFS_SB2_OFFSET_BYTES dev.size))
        (NILFS_SB2_OFFSET_BYTES dev.size) = some r.sbp1 ∧
      keep_first (pread dev calls.heap0 NILFS_MAX_SB_SIZE NILFS_SB_OFFSET_BYTES) = r.sbp0 ∧
      r.offset0 = NILFS_SB_OFFSET_BYTES ∧ r.offset1 = NILFS_SB2_OFFSET_BYTES dev.size ∧
      ¬ (r.sbp0 = none ∧ r.sbp1 = none) := by
  by_cases hf : sb_calls_fail calls
  · rw [sb_read_eq_fail calls dev hf] at hr
    simp only [Option.some.injEq] at hr
    subst hr
    simp at hret
  · rw [sb_read_eq calls dev hf] at hr
    cases hk : keep_second (pread dev calls.heap1 NILFS_MAX_SB_SIZE
        (NILFS_SB2_OFFSET_BYTES dev.size)) (NILFS_SB2_OFFSET_BYTES dev.size) with
    | none => simp [hk] at hr
    | some p1 =>
      simp only [hk, Option.map_some', Option.some.injEq] at hr
      subst hr
      obtain ⟨e0, e1, e2, e3, e4⟩ := sb_read_finish_eq
        (keep_first (pread dev calls.heap0 NILFS_MAX_SB_SIZE NILFS_SB_OFFSET_BYTES)) p1
        (NILFS_SB2_OFFSET_BYTES dev.size)
      refine ⟨hf, by rw [e1], by rw [e0], e3, e4, ?_⟩
      rw [e0, e1]
      intro hn
      apply hret
      rw [e2, hn.1, hn.2]
      decide

/-- A read that keeps a copy succeeds. -/
theorem sb_read_of_keep {calls : SbCalls} {dev : Device} {p1 : Option Buf}
    (hf : ¬ sb_calls_fail calls)
    (hk : keep_second (pread dev calls.heap1 NILFS_MAX_SB_SIZE (NILFS_SB2_OFFSET_BYTES dev.size))
        (NILFS_SB2_OFFSET_BYTES dev.size) = some p1)
    (hn : ¬ (keep_first (pread dev calls.heap0 NILFS_MAX_SB_SIZE NILFS_SB_OFFSET_BYTES) = none ∧
        p1 = none)) :
    ∃ r, Lib.__nilfs_sb_read calls dev = some r ∧ r.ret = 0 ∧
      r.sbp0 = keep_first (pread dev calls.heap0 NILFS_MAX_SB_SIZE NILFS_SB_OFFSET_BYTES) ∧
      r.sbp1 = p1 := by
  rw [sb_read_eq calls dev hf, hk]
  obtain ⟨e0, e1, e2, _, _⟩ := sb_read_finish_eq
    (keep_first (pread dev calls.heap0 NILFS_MAX_SB_SIZE NILFS_SB_OFFSET_BYTES)) p1
    (NILFS_SB2_OFFSET_BYTES dev.size)
  refine ⟨_, rfl, ?_, e0, e1⟩
  rw [e2]
  cases h0 : keep_first (pread dev calls.heap0 NILFS_MAX_SB_SIZE NILFS_SB_OFFSET_BYTES) with
  | some b => simp
  | none =>
    cases p1 with
    | some b => simp
    | none => exact absurd ⟨h0, rfl⟩ hn

theorem dev_write_size (dev : Device) (off n : Nat) (buf : Buf) :
    (dev_write dev off n buf).size = dev.size := rfl

theorem dev_write_outside (dev : Device) (off n : Nat) (buf : Buf) (j : Nat)
    (h : j < off ∨ off + n ≤ j) : (dev_write dev off n buf).data j = dev.data j := by
  unfold dev_write
  simp only
  rw [if_neg (by omega)]

theorem dev_write_inside (dev : Device) (off n : Nat) (buf : Buf) (i : Nat) (h : i < n) :
    (dev_write dev off n buf).data (off + i) = buf i % 256 := by
  unfold dev_write
  simp only
  rw [if_pos (by omega), Nat.add_sub_cancel_left]

/-- A `pread` sees only the size of the device and the bytes of its range. -/
theorem pread_congr {d1 d2 : Device} (buf : Buf) (count off : Nat) (hs : d1.size = d2.size)
    (h : ∀ j, off ≤ j → j < off + count → d1.data j = d2.data j) :
    pread d1 buf count off = pread d2 buf count off := by
  unfold pread
  split
  · rfl
  · rw [hs]
    congr 1
    funext i
    split
    · next hi => rw [h (off + i) (by omega) (by omega)]
    · rfl

theorem sb_write_fill_eq (K : SbMaskBits) (sbp : Buf) (mask : Nat) (dst : Buf) :
    Lib.sb_write_fill K sbp mask dst
      = sb_set (sb_overlay K sbp mask dst) F_sum
          (Lib.nilfs_sb_check_sum (sb_overlay K sbp mask dst)) := rfl

theorem sb_copy_other (dst src : Buf) (f : SbField) (j : Nat) (h : ¬ in_field f j) :
    sb_copy dst src f j = dst j := by
  unfold sb_copy
  exact if_neg h

theorem sb_copy_selected (dst src : Buf) (f : SbField) (j : Nat) (h : in_field f j) :
    sb_copy dst src f j = src j := by
  unfold sb_copy
  exact if_pos h

theorem layer_other (c : Prop) [Decidable c] (dst src : Buf) (f : SbField) (j : Nat)
    (h : ¬ (c ∧ in_field f j)) : (if c then sb_copy dst src f else dst) j = dst j := by
  by_cases hc : c
  · rw [if_pos hc, sb_copy_other _ _ _ _ (fun hi => h ⟨hc, hi⟩)]
  · rw [if_neg hc]

theorem layer_selected (c : Prop) [Decidable c] (dst src : Buf) (f : SbField) (j : Nat)
    (hc : c) (h : in_field f j) : (if c then sb_copy dst src f else dst) j = src j := by
  rw [if_pos hc, sb_copy_selected _ _ _ _ h]

theorem sb_overlay_other (K : SbMaskBits) (sbp : Buf) (mask : Nat) (dst : Buf) (j : Nat)
    (h : ¬ mask_selects K mask j) : sb_overlay K sbp mask dst j = dst j := by
  unfold mask_selects at h
  simp only [not_or] at h
  obtain ⟨h1, h2, h3, h4, h5⟩ := h
  unfold sb_overlay
  by_cases m5 : mask &&& K.NILFS_SB_FEATURES ≠ 0
  · rw [if_pos m5, sb_copy_other _ _ _ _ (fun hi => h5 ⟨m5, Or.inr (Or.inr hi)⟩),
      sb_copy_other _ _ _ _ (fun hi => h5 ⟨m5, Or.inr (Or.inl hi)⟩),
      sb_copy_other _ _ _ _ (fun hi => h5 ⟨m5, Or.inl hi⟩),
      layer_other _ _ _ _ _ h4, layer_other _ _ _ _ _ h3, layer_other _ _ _ _ _ h2,
      layer_other _ _ _ _ _ h1]
  · rw [if_neg m5, layer_other _ _ _ _ _ h4, layer_other _ _ _ _ _ h3, layer_other _ _ _ _ _ h2,
      layer_other _ _ _ _ _ h1]

theorem in_field_disjoint {f g : SbField} {j : Nat} (h : in_field f j)
    (hd : f.off + f.width ≤ g.off ∨ g.off + g.width ≤ f.off) : ¬ in_field g j := by
  unfold in_field at h ⊢
  omega

theorem sb_overlay_selected (K : SbMaskBits) (sbp : Buf) (mask : Nat) (dst : Buf) (j : Nat)
    (h : mask_selects K mask j) : sb_overlay K sbp mask dst j = sbp j := by
  unfold sb_overlay
  rcases h with ⟨c, hj⟩ | ⟨c, hj⟩ | ⟨c, hj⟩ | ⟨c, hj⟩ | ⟨c, hj⟩
  · have d2 := in_field_disjoint (g := F_c_interval) hj (by decide)
    have d3 := in_field_disjoint (g := F_c_block_max) hj (by decide)
    have d4 := in_field_disjoint (g := F_uuid) hj (by decide)
    have d5 := in_field_disjoint (g := F_feature_compat) hj (by decide)
    have d6 := in_field_disjoint (g := F_feature_compat_ro) hj (by decide)
    have d7 := in_field_disjoint (g := F_feature_incompat) hj (by decide)
    by_cases m5 : mask &&& K.NILFS_SB_FEATURES ≠ 0
    · rw [if_pos m5, sb_copy_other _ _ _ _ d7, sb_copy_other _ _ _ _ d6,
        sb_copy_other _ _ _ _ d5, layer_other _ _ _ _ _ (fun hh => d4 hh.2),
        layer_other _ _ _ _ _ (fun hh => d3 hh.2), layer_other _ _ _ _ _ (fun hh => d2 hh.2),
        layer_selected _ _ _ _ _ c hj]
    · rw [if_neg m5, layer_other _ _ _ _ _ (fun hh => d4 hh.2),
        layer_other _ _ _ _ _ (fun hh => d3 hh.2), layer_other _ _ _ _ _ (fun hh => d2 hh.2),
        layer_selected _ _ _ _ _ c hj]
  · have d3 := in_field_disjoint (g := F_c_block_max) hj (by decide)
    have d4 := in_field_disjoint (g := F_uuid) hj (by decide)
    have d5 := in_field_disjoint (g := F_feature_compat) hj (by decide)
    have d6 := in_field_disjoint (g := F_feature_compat_ro) hj (by decide)
    have d7 := in_field_disjoint (g := F_feature_incompat) hj (by decide)
    by_cases m5 : mask &&& K.NILFS_SB_FEATURES ≠ 0
    · rw [if_pos m5, sb_copy_other _ _ _ _ d7, sb_copy_other _ _ _ _ d6,
        sb_copy_other _ _ _ _ d5, layer_other _ _ _ _ _ (fun hh => d4 hh.2),
        layer_other _ _ _ _ _ (fun hh => d3 hh.2), layer_selected _ _ _ _ _ c hj]
    · rw [if_neg m5, layer_other _ _ _ _ _ (fun hh => d4 hh.2),
        layer_other _ _ _ _ _ (fun hh => d3 hh.2), layer_selected _ _ _ _ _ c hj]
  · have d4 := in_field_disjoint (g := F_uuid) hj (by decide)
    have d5 := in_field_disjoint (g := F_feature_compat) hj (by decide)
    have d6 := in_field_disjoint (g := F_feature_compat_ro) hj (by decide)
    have d7 := in_field_disjoint (g := F_feature_incompat) hj (by decide)
    by_cases m5 : mask &&& K.NILFS_SB_FEATURES ≠ 0
    · rw [if_pos m5, sb_copy_other _ _ _ _ d7, sb_copy_other _ _ _ _ d6,
        sb_copy_other _ _ _ _ d5, layer_other _ _ _ _ _ (fun hh => d4 hh.2),
        layer_selected _ _ _ _ _ c hj]
    · rw [if_neg m5, layer_other _ _ _ _ _ (fun hh => d4 hh.2), layer_selected _ _ _ _ _ c hj]
  · have d5 := in_field_disjoint (g := F_feature_compat) hj (by decide)
    have d6 := in_field_disjoint (g := F_feature_compat_ro) hj (by decide)
    have d7 := in_field_disjoint (g := F_feature_incompat) hj (by decide)
    by_cases m5 : mask &&& K.NILFS_SB_FEATURES ≠ 0
    · rw [if_pos m5, sb_copy_other _ _ _ _ d7, sb_copy_other _ _ _ _ d6,
        sb_copy_other _ _ _ _ d5, layer_selected _ _ _ _ _ c hj]
    · rw [if_neg m5, layer_selected _ _ _ _ _ c hj]
  · rw [if_pos c]
    rcases hj with hj | hj | hj
    · have d6 := in_field_disjoint (g := F_feature_compat_ro) hj (by decide)
      have d7 := in_field_disjoint (g := F_feature_incompat) hj (by decide)
      rw [sb_copy_other _ _ _ _ d7, sb_copy_other _ _ _ _ d6, sb_copy_selected _ _ _ _ hj]
    · have d7 := in_field_disjoint (g := F_feature_incompat) hj (by decide)
      rw [sb_copy_other _ _ _ _ d7, sb_copy_selected _ _ _ _ hj]
    · rw [sb_copy_selected _ _ _ _ hj]

/-- The overlay leaves every byte below the UUID alone. -/
theorem sb_overlay_low (K : SbMaskBits) (sbp : Buf) (mask : Nat) (dst : Buf) (j : Nat)
    (h : j < 152) : sb_overlay K sbp mask dst j = dst j := by
  apply sb_overlay_other
  unfold mask_selects in_field
  simp only [F_volume_name, F_c_interval, F_c_block_max, F_uuid, F_feature_compat,
    F_feature_compat_ro, F_feature_incompat]
  omega

theorem sb_write_fill_low (K : SbMaskBits) (sbp : Buf) (mask : Nat) (dst : Buf) (j : Nat)
    (h : j < 152) (hs : j < 16 ∨ 20 ≤ j) : Lib.sb_write_fill K sbp mask dst j = dst j := by
  rw [sb_write_fill_eq, sb_set_outside _ _ _ _ (by simp only [F_sum]; omega),
    sb_overlay_low _ _ _ _ _ h]

theorem sb_write_fill_selected (K : SbMaskBits) (sbp : Buf) (mask : Nat) (dst : Buf) (j : Nat)
    (h : mask_selects K mask j) : Lib.sb_write_fill K sbp mask dst j = sbp j := by
  have hj : 152 ≤ j := by
    unfold mask_selects in_field at h
    simp only [F_volume_name, F_c_interval, F_c_block_max, F_uuid, F_feature_compat,
      F_feature_compat_ro, F_feature_incompat] at h
    omega
  rw [sb_write_fill_eq, sb_set_outside _ _ _ _ (by simp only [F_sum]; omega),
    sb_overlay_selected _ _ _ _ _ h]

theorem sb_write_fill_other (K : SbMaskBits) (sbp : Buf) (mask : Nat) (dst : Buf) (j : Nat)
    (h : ¬ mask_selects K mask j) (hs : ¬ in_field F_sum j) :
    Lib.sb_write_fill K sbp mask dst j = dst j := by
  rw [sb_write_fill_eq, sb_set_outside _ _ _ _ (by unfold in_field at hs; omega),
    sb_overlay_other _ _ _ _ _ h]

/-- A field below the UUID and apart from s_sum is the same in the buffer
that nilfs_sb_write hands to `pwrite` as in the copy that was read. -/
theorem sb_write_fill_get (K : SbMaskBits) (sbp : Buf) (mask : Nat) (dst : Buf) (f : SbField)
    (h : f.off + f.width ≤ 152) (hs : f.off + f.width ≤ 16 ∨ 20 ≤ f.off) :
    sb_get (Lib.sb_write_fill K sbp mask dst) f = sb_get dst f :=
  sb_get_congr (fun i h1 h2 => by rw [sb_write_fill_low _ _ _ _ _ (by omega) (by omega)])

/-- The buffer that nilfs_sb_write hands to `pwrite` carries the checksum that
nilfs_sb_is_valid recomputes. -/
theorem sb_write_fill_valid (K : SbMaskBits) (sbp : Buf) (mask : Nat) (dst : Buf)
    (h : nilfs_sb_is_valid dst false = true) :
    nilfs_sb_is_valid (Lib.sb_write_fill K sbp mask dst) true = true := by
  rw [sb_is_valid_false_iff] at h
  obtain ⟨hm, hb⟩ := h
  have g1 := sb_write_fill_get K sbp mask dst F_magic (by decide) (by decide)
  have g2 := sb_write_fill_get K sbp mask dst F_bytes (by decide) (by decide)
  unfold nilfs_sb_is_valid
  rw [g1, g2]
  simp only [hm, ne_eq, not_true_eq_false, if_false, gt_iff_lt, Nat.not_lt.mpr hb,
    Bool.not_true, Bool.false_eq_true, beq_iff_eq]
  rw [← g2, sb_write_fill_eq, sb_set_sb_set_same, sb_get_sb_set_same,
    sb_get_sb_set_other _ _ _ _ (by decide), sb_get_sb_set_other _ _ _ _ (by decide)]
  unfold Lib.nilfs_sb_check_sum
  have e4 : (256 : Nat) ^ F_sum.width = 4294967296 := by simp [F_sum]
  rw [e4, Nat.mod_eq_of_lt (crc32_le_lt _ _)]

/-- The validity test with the checksum looks at the first 1024 bytes only. -/
theorem sb_is_valid_true_congr {g f : Buf} (h : ∀ i, i < 1024 → g i % 256 = f i % 256) :
    nilfs_sb_is_valid g true = nilfs_sb_is_valid f true := by
  have e1 : sb_get g F_magic = sb_get f F_magic :=
    sb_get_congr (fun i _ h2 => h i (by simp only [F_magic] at h2; omega))
  have e2 : sb_get g F_bytes = sb_get f F_bytes :=
    sb_get_congr (fun i _ h2 => h i (by simp only [F_bytes] at h2; omega))
  have e3 : sb_get g F_crc_seed = sb_get f F_crc_seed :=
    sb_get_congr (fun i _ h2 => h i (by simp only [F_crc_seed] at h2; omega))
  have e4 : sb_get g F_sum = sb_get f F_sum :=
    sb_get_congr (fun i _ h2 => h i (by simp only [F_sum] at h2; omega))
  unfold nilfs_sb_is_valid
  rw [e1, e2, e3, e4]
  by_cases hb : sb_get f F_bytes > NILFS_MAX_SB_SIZE
  · simp [hb]
  · have hb2 : sb_get f F_bytes ≤ 1024 := by simp only [NILFS_MAX_SB_SIZE] at hb; omega
    have : buf_bytes (sb_set g F_sum 0) 0 (sb_get f F_bytes)
        = buf_bytes (sb_set f F_sum 0) 0 (sb_get f F_bytes) := by
      apply buf_bytes_congr
      intro i _ hi
      by_cases hin : i < 16 ∨ 20 ≤ i
      · rw [sb_set_outside _ _ _ _ (by simp only [F_sum]; omega),
          sb_set_outside _ _ _ _ (by simp only [F_sum]; omega)]
        exact h i (by omega)
      · simp only [sb_set, put_le, F_sum]
        rw [if_pos (by omega), if_pos (by omega)]
    rw [this]

/-- Reading back the first slot after `fill` has been stored there. -/
theorem keep_first_written {K : SbMaskBits} {sbp : Buf} {mask : Nat} {dev d1 : Device}
    {heap b : Buf} (hs : d1.size = dev.size)
    (hk : keep_first (pread dev heap NILFS_MAX_SB_SIZE NILFS_SB_OFFSET_BYTES) = some b)
    (hd : ∀ i, i < 1024 →
      d1.data (NILFS_SB_OFFSET_BYTES + i) = Lib.sb_write_fill K sbp mask b i % 256) :
    ∃ g, keep_first (pread d1 heap NILFS_MAX_SB_SIZE NILFS_SB_OFFSET_BYTES) = some g ∧
      ∀ j, j < 1024 → g j = Lib.sb_write_fill K sbp mask b j % 256 := by
  obtain ⟨_, hc, hv⟩ := keep_first_some hk
  obtain ⟨c1, c2⟩ := pread_count hc (by decide)
  have hp := @pread_full d1 heap _ _ c1 (by rw [hs]; exact c2)
  have hg : ∀ j, j < 1024 → (pread d1 heap NILFS_MAX_SB_SIZE NILFS_SB_OFFSET_BYTES).2 j
      = Lib.sb_write_fill K sbp mask b j % 256 := by
    intro j hj
    rw [hp]
    simp only [NILFS_MAX_SB_SIZE]
    rw [if_pos hj, hd j hj, Nat.mod_mod]
  refine ⟨_, keep_first_of (by rw [hp]) ?_, hg⟩
  rw [sb_is_valid_congr (c := b) (fun i _ h2 => by
    rw [hg i (by omega), Nat.mod_mod, sb_write_fill_low _ _ _ _ _ (by omega) (by omega)])]
  exact hv

/-- Reading back the second slot after `fill` has been stored there. -/
theorem keep_second_written {K : SbMaskBits} {sbp : Buf} {mask : Nat} {dev d1 : Device}
    {heap b : Buf} (hs : d1.size = dev.size)
    (hk : keep_second (pread dev heap NILFS_MAX_SB_SIZE (NILFS_SB2_OFFSET_BYTES dev.size))
      (NILFS_SB2_OFFSET_BYTES dev.size) = some (some b))
    (hd : ∀ i, i < 1024 →
      d1.data (NILFS_SB2_OFFSET_BYTES dev.size + i) = Lib.sb_write_fill K sbp mask b i % 256) :
    ∃ g, keep_second (pread d1 heap NILFS_MAX_SB_SIZE (NILFS_SB2_OFFSET_BYTES d1.size))
        (NILFS_SB2_OFFSET_BYTES d1.size) = some (some g) ∧
      ∀ j, j < 1024 → g j = Lib.sb_write_fill K sbp mask b j % 256 := by
  obtain ⟨_, hc, hv, ht⟩ := keep_second_some hk
  obtain ⟨c1, c2⟩ := pread_count hc (by decide)
  rw [hs]
  have hp := @pread_full d1 heap _ _ c1 (by rw [hs]; exact c2)
  have hg : ∀ j, j < 1024 →
      (pread d1 heap NILFS_MAX_SB_SIZE (NILFS_SB2_OFFSET_BYTES dev.size)).2 j
        = Lib.sb_write_fill K sbp mask b j % 256 := by
    intro j hj
    rw [hp]
    simp only [NILFS_MAX_SB_SIZE]
    rw [if_pos hj, hd j hj, Nat.mod_mod]
  refine ⟨_, keep_second_of (by rw [hp]) ?_ ?_, hg⟩
  · rw [sb_is_valid_congr (c := b) (fun i _ h2 => by
      rw [hg i (by omega), Nat.mod_mod, sb_write_fill_low _ _ _ _ _ (by omega) (by omega)])]
    exact hv
  · rw [sb2_too_small_congr (c := b) _ (fun i _ h2 => by
      rw [hg i (by omega), Nat.mod_mod, sb_write_fill_low _ _ _ _ _ (by omega) (by omega)])]
    exact ht

/-- The two slots do not meet: the second offset is a multiple of 4096. -/
theorem sb_slots_apart (devsize j : Nat)
    (h : NILFS_SB_OFFSET_BYTES ≤ j ∧ j < NILFS_SB_OFFSET_BYTES + 1024) :
    j < NILFS_SB2_OFFSET_BYTES devsize ∨ NILFS_SB2_OFFSET_BYTES devsize + 1024 ≤ j := by
  have := sb2_offset_mod devsize
  simp only [NILFS_SB_OFFSET_BYTES] at h
  omega

theorem sb_pwrite_ok {dev : Device} {off : Nat} {buf : Buf} {count : Int}
    (h : (Lib.sb_pwrite dev off buf count).2 = true) :
    (Lib.sb_pwrite dev off buf count).1 = dev_write dev off 1024 buf := by
  unfold Lib.sb_pwrite at h ⊢
  simp only [decide_eq_true_eq, NILFS_MAX_SB_SIZE] at h ⊢
  have : min count.toNat 1024 = 1024 := by omega
  rw [this]

/-- A `pwrite` of nilfs_sb_write, whatever it returns, changes bytes of its own
slot only and keeps the size. -/
theorem sb_pwrite_frame (dev : Device) (off : Nat) (buf : Buf) (count : Int) :
    (Lib.sb_pwrite dev off buf count).1.size = dev.size ∧
      ∀ j, j < off ∨ off + 1024 ≤ j → (Lib.sb_pwrite dev off buf count).1.data j = dev.data j := by
  unfold Lib.sb_pwrite
  refine ⟨rfl, ?_⟩
  intro j hj
  simp only [NILFS_MAX_SB_SIZE]
  exact dev_write_outside _ _ _ _ _ (by omega)

/-- The device that a successful nilfs_sb_write leaves: the size is kept, the
slot of every copy that was read holds the buffer handed to `pwrite`, and the
slot of a copy that was dropped is as before. -/
theorem sb_write_device {K : SbMaskBits} {calls : SbCalls} {count0 count1 : Int}
    {dev dev1 : Device} {sbp : Buf} {mask : Nat} {r : SbPair}
    (hr : Lib.__nilfs_sb_read calls dev = some r)
    (hw : Lib.nilfs_sb_write K calls count0 count1 dev (some sbp) mask = some (0, dev1)) :
    ¬ r.ret < 0 ∧ dev1.size = dev.size ∧
      (∀ b, r.sbp0 = some b → ∀ i, i < 1024 →
        dev1.data (NILFS_SB_OFFSET_BYTES + i) = Lib.sb_write_fill K sbp mask b i % 256) ∧
      (∀ b, r.sbp1 = some b → ∀ i, i < 1024 →
        dev1.data (NILFS_SB2_OFFSET_BYTES dev.size + i)
          = Lib.sb_write_fill K sbp mask b i % 256) ∧
      (r.sbp0 = none → ∀ j, NILFS_SB_OFFSET_BYTES ≤ j → j < NILFS_SB_OFFSET_BYTES + 1024 →
        dev1.data j = dev.data j) ∧
      (r.sbp1 = none → ∀ j, NILFS_SB2_OFFSET_BYTES dev.size ≤ j →
        j < NILFS_SB2_OFFSET_BYTES dev.size + 1024 → dev1.data j = dev.data j) := by
  unfold Lib.nilfs_sb_write at hw
  simp only [hr] at hw
  by_cases hret : r.ret < 0
  · simp [hret] at hw
  · obtain ⟨_, _, _, o0, o1, _⟩ := sb_read_ret0 hr hret
    simp only [hret, if_false, o0, o1] at hw
    refine ⟨hret, ?_⟩
    cases h0 : r.sbp0 with
    | none =>
      simp only [h0, if_false, Bool.true_eq_false] at hw
      cases h1 : r.sbp1 with
      | none =>
        simp only [h1, Option.some.injEq, Prod.mk.injEq, true_and] at hw
        subst hw
        exact ⟨rfl, (fun b hb => nomatch hb), (fun b hb => nomatch hb), fun _ j _ _ => rfl,
          fun _ j _ _ => rfl⟩
      | some b1 =>
        simp only [h1, Option.some.injEq, Prod.mk.injEq] at hw
        obtain ⟨hw1, hw2⟩ := hw
        have hok : (Lib.sb_pwrite dev (NILFS_SB2_OFFSET_BYTES dev.size)
            (Lib.sb_write_fill K sbp mask b1) count1).2 = true := by
          by_contra hne
          simp [hne] at hw1
        rw [sb_pwrite_ok hok] at hw2
        subst hw2
        refine ⟨dev_write_size _ _ _ _, (fun b hb => nomatch hb), ?_, ?_, (fun hb => nomatch hb)⟩
        · intro b hb i hi
          simp only [Option.some.injEq] at hb
          subst hb
          exact dev_write_inside _ _ _ _ _ hi
        · intro _ j hj1 hj2
          exact dev_write_outside _ _ _ _ _ (sb_slots_apart dev.size j ⟨hj1, hj2⟩)
    | some b0 =>
      simp only [h0] at hw
      by_cases hok0 : (Lib.sb_pwrite dev NILFS_SB_OFFSET_BYTES
          (Lib.sb_write_fill K sbp mask b0) count0).2 = true
      · simp only [hok0, Bool.true_eq_false, if_false] at hw
        rw [sb_pwrite_ok hok0] at hw
        cases h1 : r.sbp1 with
        | none =>
          simp only [h1, Option.some.injEq, Prod.mk.injEq, true_and] at hw
          subst hw
          refine ⟨dev_write_size _ _ _ _, ?_, (fun b hb => nomatch hb), (fun hb => nomatch hb), ?_⟩
          · intro b hb i hi
            simp only [Option.some.injEq] at hb
            subst hb
            exact dev_write_inside _ _ _ _ _ hi
          · intro _ j hj1 hj2
            have := sb2_offset_mod dev.size
            exact dev_write_outside _ _ _ _ _ (by simp only [NILFS_SB_OFFSET_BYTES]; omega)
        | some b1 =>
          simp only [h1, Option.some.injEq, Prod.mk.injEq] at hw
          obtain ⟨hw1, hw2⟩ := hw
          have hok : (Lib.sb_pwrite (dev_write dev NILFS_SB_OFFSET_BYTES 1024
              (Lib.sb_write_fill K sbp mask b0)) (NILFS_SB2_OFFSET_BYTES dev.size)
              (Lib.sb_write_fill K sbp mask b1) count1).2 = true := by
            by_contra hne
            simp [hne] at hw1
          rw [sb_pwrite_ok hok] at hw2
          subst hw2
          refine ⟨dev_write_size _ _ _ _, ?_, ?_, (fun hb => nomatch hb), (fun hb => nomatch hb)⟩
          · intro b hb i hi
            simp only [Option.some.injEq] at hb
            subst hb
            rw [dev_write_outside _ _ _ _ _
              (sb_slots_apart dev.size _ ⟨by omega, by omega⟩)]
            exact dev_write_inside _ _ _ _ _ hi
          · intro b hb i hi
            simp only [Option.some.injEq] at hb
            subst hb
            exact dev_write_inside _ _ _ _ _ hi
      · simp [hok0] at hw

/-- Reading back after a successful nilfs_sb_write: the read succeeds, and
every copy that was kept before is kept again and holds, in its first 1024
bytes, the buffer that was handed to `pwrite`. -/
theorem sb_write_read_back {K : SbMaskBits} {calls : SbCalls} {count0 count1 : Int}
    {dev dev1 : Device} {sbp : Buf} {mask : Nat} {r : SbPair}
    (hr : Lib.__nilfs_sb_read calls dev = some r)
    (hw : Lib.nilfs_sb_write K calls count0 count1 dev (some sbp) mask = some (0, dev1)) :
    ∃ r1, Lib.__nilfs_sb_read calls dev1 = some r1 ∧ r1.ret = 0 ∧
      (∀ b, r.sbp0 = some b → ∃ g, r1.sbp0 = some g ∧
        ∀ j, j < 1024 → g j = Lib.sb_write_fill K sbp mask b j % 256) ∧
      (∀ b, r.sbp1 = some b → ∃ g, r1.sbp1 = some g ∧
        ∀ j, j < 1024 → g j = Lib.sb_write_fill K sbp mask b j % 256) := by
  obtain ⟨hret, hs, d0, d1, u0, u1⟩ := sb_write_device hr hw
  obtain ⟨hf, k1, k0, _, _, hnn⟩ := sb_read_ret0 hr hret
  -- the second copy on the new device
  have hsec : ∃ p1, keep_second (pread dev1 calls.heap1 NILFS_MAX_SB_SIZE
        (NILFS_SB2_OFFSET_BYTES dev1.size)) (NILFS_SB2_OFFSET_BYTES dev1.size) = some p1 ∧
      (r.sbp1 = none → p1 = none) ∧
      (∀ b, r.sbp1 = some b → ∃ g, p1 = some g ∧
        ∀ j, j < 1024 → g j = Lib.sb_write_fill K sbp mask b j % 256) := by
    cases h1 : r.sbp1 with
    | none =>
      refine ⟨none, ?_, fun _ => rfl, (fun b hb => nomatch hb)⟩
      rw [hs, pread_congr calls.heap1 NILFS_MAX_SB_SIZE _ hs (fun j hj1 hj2 => u1 h1 j hj1 hj2), k1, h1]
    | some b1 =>
      rw [h1] at k1
      obtain ⟨g, hg1, hg2⟩ := keep_second_written hs k1 (d1 b1 h1)
      refine ⟨some g, hg1, (fun hb => nomatch hb), ?_⟩
      intro b hb
      simp only [Option.some.injEq] at hb
      subst hb
      exact ⟨g, rfl, hg2⟩
  obtain ⟨p1, hp1, hp1n, hp1s⟩ := hsec
  -- the first copy on the new device
  have hfst : (r.sbp0 = none →
        keep_first (pread dev1 calls.heap0 NILFS_MAX_SB_SIZE NILFS_SB_OFFSET_BYTES) = none) ∧
      (∀ b, r.sbp0 = some b → ∃ g,
        keep_first (pread dev1 calls.heap0 NILFS_MAX_SB_SIZE NILFS_SB_OFFSET_BYTES) = some g ∧
        ∀ j, j < 1024 → g j = Lib.sb_write_fill K sbp mask b j % 256) := by
    cases h0 : r.sbp0 with
    | none =>
      refine ⟨fun _ => ?_, (fun b hb => nomatch hb)⟩
      rw [pread_congr calls.heap0 NILFS_MAX_SB_SIZE _ hs (fun j hj1 hj2 => u0 h0 j hj1 hj2), k0, h0]
    | some b0 =>
      rw [h0] at k0
      obtain ⟨g, hg1, hg2⟩ := keep_first_written hs k0 (d0 b0 h0)
      refine ⟨(fun hb => nomatch hb), ?_⟩
      intro b hb
      simp only [Option.some.injEq] at hb
      subst hb
      exact ⟨g, hg1, hg2⟩
  obtain ⟨hf0n, hf0s⟩ := hfst
  have hkeep : ¬ (keep_first (pread dev1 calls.heap0 NILFS_MAX_SB_SIZE NILFS_SB_OFFSET_BYTES)
      = none ∧ p1 = none) := by
    rintro ⟨a1, a2⟩
    apply hnn
    constructor
    · cases h0 : r.sbp0 with
      | none => rfl
      | some b0 =>
        obtain ⟨g, hg, _⟩ := hf0s b0 h0
        rw [hg] at a1
        exact nomatch a1
    · cases h1 : r.sbp1 with
      | none => rfl
      | some b1 =>
        obtain ⟨g, hg, _⟩ := hp1s b1 h1
        rw [hg] at a2
        exact nomatch a2
  obtain ⟨r1, e1, e2, e3, e4⟩ := sb_read_of_keep hf hp1 hkeep
  refine ⟨r1, e1, e2, ?_, ?_⟩
  · intro b hb
    obtain ⟨g, hg1, hg2⟩ := hf0s b hb
    exact ⟨g, by rw [e3, hg1], hg2⟩
  · intro b hb
    obtain ⟨g, hg1, hg2⟩ := hp1s b hb
    exact ⟨g, by rw [e4, hg1], hg2⟩

theorem sb_is_valid_true_iff (g : Buf) :
    nilfs_sb_is_valid g true = true ↔
      sb_get g F_magic = NILFS_SUPER_MAGIC ∧ sb_get g F_bytes ≤ NILFS_MAX_SB_SIZE ∧
        sb_get g F_sum
          = crc32_le (sb_get g F_crc_seed) (buf_bytes (sb_set g F_sum 0) 0 (sb_get g F_bytes)) := by
  unfold nilfs_sb_is_valid
  by_cases h1 : sb_get g F_magic = NILFS_SUPER_MAGIC
  · by_cases h2 : sb_get g F_bytes > NILFS_MAX_SB_SIZE
    · simp [h1, h2]
    · simp only [h1, ne_eq, not_true_eq_false, if_false, h2, Bool.not_true, Bool.false_eq_true,
        beq_iff_eq, true_and]
      constructor
      · intro h; exact ⟨by omega, h.symm⟩
      · intro h; exact h.2.symm
  · simp [h1]

/-- The bytes of a copy that was kept are bytes. -/
theorem pread_byte_lt {dev : Device} {buf : Buf} {off : Nat}
    (h : (pread dev buf NILFS_MAX_SB_SIZE off).1 = (NILFS_MAX_SB_SIZE : Int)) (j : Nat)
    (hj : j < 1024) : (pread dev buf NILFS_MAX_SB_SIZE off).2 j % 256
      = (pread dev buf NILFS_MAX_SB_SIZE off).2 j := by
  obtain ⟨c1, c2⟩ := pread_count h (by decide)
  rw [pread_full buf c1 c2]
  simp only [NILFS_MAX_SB_SIZE]
  rw [if_pos hj, Nat.mod_mod]

/-- With both `pwrite` calls delivering 1024 bytes, nilfs_sb_write succeeds
whenever the read before it does. -/
theorem sb_write_success (K : SbMaskBits) {calls : SbCalls} {dev : Device} {r : SbPair}
    (sbp : Buf) (mask : Nat) (hr : Lib.__nilfs_sb_read calls dev = some r)
    (hret : ¬ r.ret < 0) :
    ∃ dev1, Lib.nilfs_sb_write K calls 1024 1024 dev (some sbp) mask = some (0, dev1) := by
  unfold Lib.nilfs_sb_write
  simp only [hr, hret, if_false]
  have hp : ∀ (d : Device) (off : Nat) (b : Buf), (Lib.sb_pwrite d off b 1024).2 = true := by
    intro d off b
    unfold Lib.sb_pwrite
    simp [NILFS_MAX_SB_SIZE]
  cases h0 : r.sbp0 with
  | none =>
    cases h1 : r.sbp1 with
    | none => exact ⟨_, by simp; rfl⟩
    | some b1 => exact ⟨_, by simp [hp]; rfl⟩
  | some b0 =>
    cases h1 : r.sbp1 with
    | none => exact ⟨_, by simp [hp]; rfl⟩
    | some b1 => exact ⟨_, by simp [hp]; rfl⟩

/-- C16: after a successful nilfs_sb_write the read succeeds again, and each
copy that was kept before the write is kept and reads back, in its 1024-byte
slot, with the bytes of the fields that the mask selects equal to those of the
source superblock and with every other byte outside s_sum equal to the byte
read before the write. -/
theorem nilfs_sb_write_round_trip (K : SbMaskBits) (calls : SbCalls) (count0 count1 : Int)
    (dev dev1 : Device) (sbp : Buf) (mask : Nat) (r : SbPair)
    (hr : Lib.__nilfs_sb_read calls dev = some r)
    (hw : Lib.nilfs_sb_write K calls count0 count1 dev (some sbp) mask = some (0, dev1)) :
    ∃ r1, Lib.__nilfs_sb_read calls dev1 = some r1 ∧ r1.ret = 0 ∧
      (∀ b, r.sbp0 = some b → ∃ g, r1.sbp0 = some g ∧ ∀ j, j < 1024 →
        (mask_selects K mask j → g j = sbp j % 256) ∧
        (¬ mask_selects K mask j → ¬ in_field F_sum j → g j = b j)) ∧
      (∀ b, r.sbp1 = some b → ∃ g, r1.sbp1 = some g ∧ ∀ j, j < 1024 →
        (mask_selects K mask j → g j = sbp j % 256) ∧
        (¬ mask_selects K mask j → ¬ in_field F_sum j → g j = b j)) := by
  obtain ⟨r1, e1, e2, e3, e4⟩ := sb_write_read_back hr hw
  obtain ⟨hret, _⟩ := sb_write_device hr hw
  obtain ⟨_, k1, k0, _, _, _⟩ := sb_read_ret0 hr hret
  refine ⟨r1, e1, e2, ?_, ?_⟩
  · intro b hb
    obtain ⟨g, hg1, hg2⟩ := e3 b hb
    rw [hb] at k0
    obtain ⟨kb, kc, _⟩ := keep_first_some k0
    refine ⟨g, hg1, fun j hj => ⟨fun hm => ?_, fun hm hsum => ?_⟩⟩
    · rw [hg2 j hj, sb_write_fill_selected _ _ _ _ _ hm]
    · rw [hg2 j hj, sb_write_fill_other _ _ _ _ _ hm hsum, kb]
      exact pread_byte_lt kc j hj
  · intro b hb
    obtain ⟨g, hg1, hg2⟩ := e4 b hb
    rw [hb] at k1
    obtain ⟨kb, kc, _⟩ := keep_second_some k1
    refine ⟨g, hg1, fun j hj => ⟨fun hm => ?_, fun hm hsum => ?_⟩⟩
    · rw [hg2 j hj, sb_write_fill_selected _ _ _ _ _ hm]
    · rw [hg2 j hj, sb_write_fill_other _ _ _ _ _ hm hsum, kb]
      exact pread_byte_lt kc j hj

/-- C17: after a successful nilfs_sb_write, with any mask and whatever the
stored checksums were, the read succeeds again and every copy that was kept
before the write is kept and passes nilfs_sb_is_valid with the checksum test
on: its s_sum is crc32_le of its s_crc_seed over its first s_bytes bytes with
s_sum zeroed. -/
theorem nilfs_sb_write_valid (K : SbMaskBits) (calls : SbCalls) (count0 count1 : Int)
    (dev dev1 : Device) (sbp : Buf) (mask : Nat) (r : SbPair)
    (hr : Lib.__nilfs_sb_read calls dev = some r)
    (hw : Lib.nilfs_sb_write K calls count0 count1 dev (some sbp) mask = some (0, dev1)) :
    ∃ r1, Lib.__nilfs_sb_read calls dev1 = some r1 ∧ r1.ret = 0 ∧
      (∀ b, r.sbp0 = some b → ∃ g, r1.sbp0 = some g ∧
        Lib.nilfs_sb_is_valid g true = true ∧
        sb_get g F_sum
          = crc32_le (sb_get g F_crc_seed) (buf_bytes (sb_set g F_sum 0) 0 (sb_get g F_bytes))) ∧
      (∀ b, r.sbp1 = some b → ∃ g, r1.sbp1 = some g ∧
        Lib.nilfs_sb_is_valid g true = true ∧
        sb_get g F_sum
          = crc32_le (sb_get g F_crc_seed) (buf_bytes (sb_set g F_sum 0) 0 (sb_get g F_bytes))) := by
  obtain ⟨r1, e1, e2, e3, e4⟩ := sb_write_read_back hr hw
  obtain ⟨hret, _⟩ := sb_write_device hr hw
  obtain ⟨_, k1, k0, _, _, _⟩ := sb_read_ret0 hr hret
  refine ⟨r1, e1, e2, ?_, ?_⟩
  · intro b hb
    obtain ⟨g, hg1, hg2⟩ := e3 b hb
    rw [hb] at k0
    obtain ⟨_, _, kv⟩ := keep_first_some k0
    have hv : nilfs_sb_is_valid g true = true := by
      rw [sb_is_valid_true_congr (f := Lib.sb_write_fill K sbp mask b)
        (fun i hi => by rw [hg2 i hi, Nat.mod_mod])]
      exact sb_write_fill_valid K sbp mask b kv
    exact ⟨g, hg1, by rw [lib_sb_is_valid_eq]; exact hv, ((sb_is_valid_true_iff g).mp hv).2.2⟩
  · intro b hb
    obtain ⟨g, hg1, hg2⟩ := e4 b hb
    rw [hb] at k1
    obtain ⟨_, _, kv, _⟩ := keep_second_some k1
    have hv : nilfs_sb_is_valid g true = true := by
      rw [sb_is_valid_true_congr (f := Lib.sb_write_fill K sbp mask b)
        (fun i hi => by rw [hg2 i hi, Nat.mod_mod])]
      exact sb_write_fill_valid K sbp mask b kv
    exact ⟨g, hg1, by rw [lib_sb_is_valid_eq]; exact hv, ((sb_is_valid_true_iff g).mp hv).2.2⟩

/-- C18: whatever nilfs_sb_write returns and whatever its `pwrite` calls
deliver, the device keeps its size and the 1024-byte slot of a copy that
__nilfs_sb_read dropped holds the same bytes after the call as before it. -/
theorem nilfs_sb_write_frame (K : SbMaskBits) (calls : SbCalls) (count0 count1 : Int)
    (dev dev1 : Device) (sbp : Option Buf) (mask : Nat) (r : SbPair) (ret : Int)
    (hr : Lib.__nilfs_sb_read calls dev = some r)
    (hw : Lib.nilfs_sb_write K calls count0 count1 dev sbp mask = some (ret, dev1)) :
    dev1.size = dev.size ∧
      (r.sbp0 = none → ∀ j, NILFS_SB_OFFSET_BYTES ≤ j → j < NILFS_SB_OFFSET_BYTES + 1024 →
        dev1.data j = dev.data j) ∧
      (r.sbp1 = none → ∀ j, NILFS_SB2_OFFSET_BYTES dev.size ≤ j →
        j < NILFS_SB2_OFFSET_BYTES dev.size + 1024 → dev1.data j = dev.data j) := by
  unfold Lib.nilfs_sb_write at hw
  cases sbp with
  | none =>
    simp only [Option.some.injEq, Prod.mk.injEq] at hw
    rw [← hw.2]
    exact ⟨rfl, fun _ _ _ _ => rfl, fun _ _ _ _ => rfl⟩
  | some src =>
    simp only [hr] at hw
    by_cases hret : r.ret < 0
    · simp only [hret, if_true, Option.some.injEq, Prod.mk.injEq] at hw
      rw [← hw.2]
      exact ⟨rfl, fun _ _ _ _ => rfl, fun _ _ _ _ => rfl⟩
    · obtain ⟨_, _, _, o0, o1, _⟩ := sb_read_ret0 hr hret
      simp only [hret, if_false, o0, o1] at hw
      cases h0 : r.sbp0 with
      | none =>
        simp only [h0, Bool.true_eq_false, if_false] at hw
        cases h1 : r.sbp1 with
        | none =>
          simp only [h1, Option.some.injEq, Prod.mk.injEq] at hw
          rw [← hw.2]
          exact ⟨rfl, fun _ _ _ _ => rfl, fun _ _ _ _ => rfl⟩
        | some b1 =>
          simp only [h1, Option.some.injEq, Prod.mk.injEq] at hw
          rw [← hw.2]
          obtain ⟨f1, f2⟩ := sb_pwrite_frame dev (NILFS_SB2_OFFSET_BYTES dev.size)
            (Lib.sb_write_fill K src mask b1) count1
          exact ⟨f1, fun _ j hj1 hj2 => f2 j (sb_slots_apart dev.size j ⟨hj1, hj2⟩),
            (fun hb => nomatch hb)⟩
      | some b0 =>
        simp only [h0] at hw
        obtain ⟨f1, f2⟩ := sb_pwrite_frame dev NILFS_SB_OFFSET_BYTES
          (Lib.sb_write_fill K src mask b0) count0
        have hm := sb2_offset_mod dev.size
        by_cases hok0 : (Lib.sb_pwrite dev NILFS_SB_OFFSET_BYTES
            (Lib.sb_write_fill K src mask b0) count0).2 = true
        · simp only [hok0, Bool.true_eq_false, if_false] at hw
          cases h1 : r.sbp1 with
          | none =>
            simp only [h1, Option.some.injEq, Prod.mk.injEq] at hw
            rw [← hw.2]
            exact ⟨f1, (fun hb => nomatch hb),
              fun _ j hj1 hj2 => f2 j (by simp only [NILFS_SB_OFFSET_BYTES]; omega)⟩
          | some b1 =>
            simp only [h1, Option.some.injEq, Prod.mk.injEq] at hw
            rw [← hw.2]
            obtain ⟨g1, _⟩ := sb_pwrite_frame (Lib.sb_pwrite dev NILFS_SB_OFFSET_BYTES
              (Lib.sb_write_fill K src mask b0) count0).1 (NILFS_SB2_OFFSET_BYTES dev.size)
              (Lib.sb_write_fill K src mask b1) count1
            exact ⟨by rw [g1, f1], (fun hb => nomatch hb), (fun hb => nomatch hb)⟩
        · simp only [hok0, if_true, Option.some.injEq, Prod.mk.injEq] at hw
          rw [← hw.2]
          refine ⟨f1, (fun hb => nomatch hb), fun _ j hj1 hj2 => f2 j ?_⟩
          simp only [NILFS_SB_OFFSET_BYTES]
          omega

/-- Witness of C16: the sample superblock in both slots, the volume name
written from a source whose bytes are all 65; both copies are kept, the write
succeeds, and the first copy reads back with byte 168 (the first of the volume
name) from the source and byte 6 (the magic) as before. -/
theorem nilfs_sb_write_round_trip_witness :
    ∃ r dev1 r1 g,
      Lib.__nilfs_sb_read sample_sb_calls (sb_image sample_sb sample_sb) = some r ∧
      Lib.nilfs_sb_write sample_mask_bits sample_sb_calls 1024 1024 (sb_image sample_sb sample_sb)
        (some sample_source) 1 = some (0, dev1) ∧
      Lib.__nilfs_sb_read sample_sb_calls dev1 = some r1 ∧ r1.sbp0 = some g ∧
      g 168 = 65 ∧ g 6 = 52 := by
  have hrf := sb_read_full sample_sb_calls (sb_image sample_sb sample_sb)
    (by decide) (by decide) (by decide) (by decide) (by decide) (by decide!)
  rw [if_pos (by decide!), if_pos (by decide!)] at hrf
  obtain ⟨dev1, hw⟩ := sb_write_success sample_mask_bits sample_source 1 hrf
    (by rw [(sb_read_finish_eq _ _ _).2.2.1]; decide)
  obtain ⟨r1, e1, _, e3, _⟩ := nilfs_sb_write_round_trip sample_mask_bits sample_sb_calls 1024
    1024 (sb_image sample_sb sample_sb) dev1 sample_source 1 _ hrf hw
  obtain ⟨g, hg1, hg2⟩ := e3 _ (sb_read_finish_eq _ _ _).1
  refine ⟨_, dev1, r1, g, hrf, hw, e1, hg1, ?_, ?_⟩
  · rw [(hg2 168 (by decide)).1 (Or.inl ⟨by decide, by unfold in_field; decide⟩)]
    rfl
  · rw [(hg2 6 (by decide)).2 (by unfold mask_selects in_field; decide)
      (by unfold in_field; decide)]
    decide!

/-- Witness of C17: the sample superblock, whose stored checksum is wrong, in
both slots and a mask of 0; after the write the first copy is kept and passes
the checksum test. -/
theorem nilfs_sb_write_valid_witness :
    nilfs_sb_is_valid sample_sb true = false ∧
    ∃ r dev1 r1 g,
      Lib.__nilfs_sb_read sample_sb_calls (sb_image sample_sb sample_sb) = some r ∧
      Lib.nilfs_sb_write sample_mask_bits sample_sb_calls 1024 1024 (sb_image sample_sb sample_sb)
        (some sample_source) 0 = some (0, dev1) ∧
      Lib.__nilfs_sb_read sample_sb_calls dev1 = some r1 ∧ r1.sbp0 = some g ∧
      Lib.nilfs_sb_is_valid g true = true := by
  have hrf := sb_read_full sample_sb_calls (sb_image sample_sb sample_sb)
    (by decide) (by decide) (by decide) (by decide) (by decide) (by decide!)
  rw [if_pos (by decide!), if_pos (by decide!)] at hrf
  obtain ⟨dev1, hw⟩ := sb_write_success sample_mask_bits sample_source 0 hrf
    (by rw [(sb_read_finish_eq _ _ _).2.2.1]; decide)
  obtain ⟨r1, e1, _, e3, _⟩ := nilfs_sb_write_valid sample_mask_bits sample_sb_calls 1024
    1024 (sb_image sample_sb sample_sb) dev1 sample_source 0 _ hrf hw
  obtain ⟨g, hg1, hg2, _⟩ := e3 _ (sb_read_finish_eq _ _ _).1
  exact ⟨by decide!, _, dev1, r1, g, hrf, hw, e1, hg1, hg2⟩

/-- Witness of C18: the sample superblock in the first slot and zeros in the
second; the second copy is dropped, the write of the first succeeds, and the
second slot is as before. -/
theorem nilfs_sb_write_frame_witness :
    ∃ r dev1,
      Lib.__nilfs_sb_read sample_sb_calls (sb_image sample_sb (fun _ => 0)) = some r ∧
      r.sbp0.isSome = true ∧ r.sbp1 = none ∧
      Lib.nilfs_sb_write sample_mask_bits sample_sb_calls 1024 1024
        (sb_image sample_sb (fun _ => 0)) (some sample_source) 1 = some (0, dev1) ∧
      ∀ j, NILFS_SB2_OFFSET_BYTES (sb_image sample_sb (fun _ => 0)).size ≤ j →
        j < NILFS_SB2_OFFSET_BYTES (sb_image sample_sb (fun _ => 0)).size + 1024 →
        dev1.data j = (sb_image sample_sb (fun _ => 0)).data j := by
  have hrf := sb_read_full sample_sb_calls (sb_image sample_sb (fun _ => 0))
    (by decide) (by decide) (by decide) (by decide) (by decide) (by decide!)
  rw [if_pos (by decide!), if_neg (by decide!)] at hrf
  obtain ⟨dev1, hw⟩ := sb_write_success sample_mask_bits sample_source 1 hrf
    (by rw [(sb_read_finish_eq _ _ _).2.2.1]; decide)
  obtain ⟨_, _, f2⟩ := nilfs_sb_write_frame sample_mask_bits sample_sb_calls 1024 1024
    (sb_image sample_sb (fun _ => 0)) dev1 (some sample_source) 1 _ 0 hrf hw
  refine ⟨_, dev1, hrf, ?_, (sb_read_finish_eq _ _ _).2.1, hw, f2 (sb_read_finish_eq _ _ _).2.1⟩
  rw [(sb_read_finish_eq _ _ _).1]
  rfl

theorem write_copy_frame (G : Geometry) (dev : Device) (off : Nat) (sbp : Buf) (o : WriteOutcome)
    (j : Nat) (h : j < off ∨ off + G.sb_bytes ≤ j) :
    (write_copy G dev off sbp o).1.data j = dev.data j := by
  unfold write_copy
  split
  · rfl
  · split
    · exact dev_write_outside _ _ _ _ _ (by omega)
    · exact dev_write_outside _ _ _ _ _ (by omega)

/-- Whatever its calls deliver, nilfs_write_super_block changes bytes of the
two superblock slots only, `sb_bytes` from each offset. -/
theorem nilfs_write_super_block_frame (G : Geometry) (calls : CommitCalls) (dev : Device)
    (sbp : Buf) (j : Nat)
    (h : (nilfs_write_super_block G calls dev sbp).2.data j ≠ dev.data j) :
    (NILFS_SB_OFFSET_BYTES ≤ j ∧ j < NILFS_SB_OFFSET_BYTES + G.sb_bytes) ∨
      (NILFS_SB2_OFFSET_BYTES dev.size ≤ j ∧ j < NILFS_SB2_OFFSET_BYTES dev.size + G.sb_bytes) := by
  by_contra hn
  simp only [not_or, not_and, Nat.not_lt] at hn
  obtain ⟨h1, h2⟩ := hn
  apply h
  unfold nilfs_write_super_block
  split
  · rfl
  · simp only
    split
    · exact write_copy_frame _ _ _ _ _ _ (by by_cases hj : NILFS_SB_OFFSET_BYTES ≤ j
                                             · exact Or.inr (h1 hj)
                                             · exact Or.inl (by omega))
    · rw [write_copy_frame _ _ _ _ _ _ (by by_cases hj : NILFS_SB2_OFFSET_BYTES dev.size ≤ j
                                           · exact Or.inr (h2 hj)
                                           · exact Or.inl (by omega))]
      exact write_copy_frame _ _ _ _ _ _ (by by_cases hj : NILFS_SB_OFFSET_BYTES ≤ j
                                             · exact Or.inr (h1 hj)
                                             · exact Or.inl (by omega))

/-- A rollback that returns has found a super root. -/
theorem nilfs_do_rollback_some {G : Geometry} {dev : Device} {c c2 : SegmentCache}
    {cno_search : SegmentCache → nilfs_segment_info → nilfs_log_info →
      Option (SegmentCache × Nat)}
    {lr lr2 : nilfs_log_ref} (h : nilfs_do_rollback G dev c cno_search lr = some (c2, lr2)) :
    ∃ c3 seg log,
      find_latest_super_root G dev c (lr.blocknr / G.blocks_per_segment) lr.blocknr
        = some (c3, some (seg, log)) ∧
      lr2.blocknr = log.log_start ∧ lr2.seqnum = seg.segseq := by
  unfold nilfs_do_rollback at h
  split at h
  · simp at h
  · split at h
    · simp at h
    · simp at h
    · next c3 seg log hf =>
      refine ⟨c3, seg, log, hf, ?_⟩
      simp only at h
      split at h
      · simp only [Option.some.injEq, Prod.mk.injEq] at h
        rw [← h.2]
        exact ⟨rfl, rfl⟩
      · split at h
        · simp at h
        · split at h
          · simp at h
          · simp only [Option.some.injEq, Prod.mk.injEq] at h
            rw [← h.2]
            exact ⟨rfl, rfl⟩

/-- C11: if a run of nilfs_fsck leaves a byte of the device changed, then the
superblock was read, test_latest_log failed on the log it points to, the
rollback search found a super root, the user answered `y` or `Y`, and the byte
lies in one of the two superblock slots (offset 1024 or the second offset, less
than sb_bytes from it). So a run in which test_latest_log succeeds or the
answer is anything else leaves every byte as it was. -/
theorem nilfs_fsck_frame (calls : FsckCalls)
    (cno_search : Geometry → Device → SegmentCache → nilfs_segment_info → nilfs_log_info →
      Option (SegmentCache × Nat))
    (dev : Device) (j : Nat) (h : (nilfs_fsck calls cno_search dev).1.data j ≠ dev.data j) :
    ∃ k sbp G c ret lr c2 seg log,
      nilfs_read_super_block calls.sb dev = some (some (k, sbp)) ∧
      read_sb_info sbp = some G ∧
      test_latest_log G dev []
        { blocknr := sb_get sbp F_last_pseg, seqnum := sb_get sbp F_last_seq,
          cno := sb_get sbp F_last_cno, ctime := 0 } = some (c, ret, lr) ∧
      ret < 0 ∧
      find_latest_super_root G dev c (lr.blocknr / G.blocks_per_segment) lr.blocknr
        = some (c2, some (seg, log)) ∧
      (calls.answer = 121 ∨ calls.answer = 89) ∧
      ((NILFS_SB_OFFSET_BYTES ≤ j ∧ j < NILFS_SB_OFFSET_BYTES + G.sb_bytes) ∨
        (NILFS_SB2_OFFSET_BYTES dev.size ≤ j ∧
          j < NILFS_SB2_OFFSET_BYTES dev.size + G.sb_bytes)) := by
  unfold nilfs_fsck at h
  split at h
  · exact absurd rfl h
  · split at h
    · exact absurd rfl h
    · split at h
      · exact absurd rfl h
      · exact absurd rfl h
      · next k sbp hsb =>
        split at h
        · exact absurd rfl h
        · next G hG =>
          simp only at h
          split at h
          · exact absurd rfl h
          · next c ret lr ht =>
            split at h
            · next hret =>
              split at h
              · exact absurd rfl h
              · next c4 lr2 hrb =>
                split at h
                · exact absurd rfl h
                · split at h
                  · next hans =>
                    obtain ⟨c2, seg, log, hf, _⟩ := nilfs_do_rollback_some hrb
                    exact ⟨k, sbp, G, c, ret, lr, c2, seg, log, hsb, hG, ht, hret, hf, hans,
                      nilfs_write_super_block_frame _ _ _ _ _ h⟩
                  · exact absurd rfl h
            · exact absurd rfl h

/-- Witness of C11: on the torn-tail image with the sample superblock in both
slots and the answer `y`, the run rewrites the superblock: byte 1088, the low
byte of s_last_pseg in the first slot, goes from 240 to 236. -/
theorem nilfs_fsck_frame_witness :
    image_fsck.data 1088 = 240 ∧
    (nilfs_fsck sample_fsck_calls no_cno_search image_fsck).1.data 1088 = 236 ∧
    ∃ k sbp G c ret lr c2 seg log,
      nilfs_read_super_block sample_fsck_calls.sb image_fsck = some (some (k, sbp)) ∧
      read_sb_info sbp = some G ∧
      test_latest_log G image_fsck []
        { blocknr := sb_get sbp F_last_pseg, seqnum := sb_get sbp F_last_seq,
          cno := sb_get sbp F_last_cno, ctime := 0 } = some (c, ret, lr) ∧
      ret < 0 ∧
      find_latest_super_root G image_fsck c (lr.blocknr / G.blocks_per_segment) lr.blocknr
        = some (c2, some (seg, log)) ∧
      (sample_fsck_calls.answer = 121 ∨ sample_fsck_calls.answer = 89) ∧
      ((NILFS_SB_OFFSET_BYTES ≤ 1088 ∧ 1088 < NILFS_SB_OFFSET_BYTES + G.sb_bytes) ∨
        (NILFS_SB2_OFFSET_BYTES image_fsck.size ≤ 1088 ∧
          1088 < NILFS_SB2_OFFSET_BYTES image_fsck.size + G.sb_bytes)) :=
  ⟨by decide!, by decide!,
    nilfs_fsck_frame sample_fsck_calls no_cno_search image_fsck 1088 (by decide!)⟩

/-- A load that fails leaves its record in the cache, and the next load for
the same segment number returns that record. -/
theorem load_segment_failed_twice {G : Geometry} {dev : Device} {c : SegmentCache} {k : Nat}
    {s : nilfs_segment_info} (hc : cache_entry c k = none)
    (h : read_segment G dev k = some (s, false)) :
    load_segment G dev c k = some (c ++ [s], none) ∧
      cache_entry (c ++ [s]) k = some s ∧
      load_segment G dev (c ++ [s]) k
        = some (get_segment_info (c ++ [s]) k, some { s with refcnt := s.refcnt + 1 }) := by
  have hk := (read_segment_segnum h).1
  have he : cache_entry (c ++ [s]) k = some s := by
    unfold cache_entry at hc ⊢
    rw [List.find?_append, hc]
    simp [hk]
  refine ⟨?_, he, ?_⟩
  · unfold load_segment lookup_segment
    rw [hc]
    simp only [h]
  · unfold load_segment lookup_segment
    rw [he]

/-- C21 (does not hold): on the image with an overrunning log load_segment
returns segment 2 with the logs at blocks 8 and 11, the second of 4 blocks, and
log_length is (11 - 8) + 4 = 7 while blocks_per_segment is 4. -/
theorem load_segment_log_length_overrun :
    ∃ c s, load_segment sample_geometry image_overrun [] 2 = some (c, some s) ∧
      s.seg_start = 8 ∧ s.log_list.map (fun l => (l.log_start, l.nblocks)) = [(8, 3), (11, 4)] ∧
      log_length s = 7 ∧ sample_geometry.blocks_per_segment = 4 ∧
      ¬ log_length s ≤ sample_geometry.blocks_per_segment :=
  ⟨[sample_segment 2 8 20 [sample_log 8 2630275991 3 20 3, sample_log 11 2151957522 3 20 4]],
   sample_segment 2 8 20 [sample_log 8 2630275991 3 20 3, sample_log 11 2151957522 3 20 4],
   by decide!, by decide!, by decide!, by decide!, by decide!, by decide!⟩

/-- C22 (does not hold): for a first log with a bad magic (image_zero), a block
count out of range (image_badcount) and a checksum mismatch (image_badsum) the
first load_segment for segment 2 returns NULL and the cache then holds an entry
for segment 2 with one log record; the second call returns that entry instead
of NULL. -/
theorem load_segment_failed_cached :
    failed_load_stays sample_geometry image_zero 2 ∧
      failed_load_stays sample_geometry image_badcount 2 ∧
      failed_load_stays sample_geometry image_badsum 2 := by
  have key : ∀ dev, (read_segment sample_geometry dev 2).map
        (fun p => (p.2, p.1.log_list.length)) = some (false, 1) →
      failed_load_stays sample_geometry dev 2 := by
    intro dev hr
    match hs : read_segment sample_geometry dev 2, hr with
    | some (s, ok), hr =>
      simp only [Option.map_some', Option.some.injEq, Prod.mk.injEq] at hr
      obtain ⟨hok, hl⟩ := hr
      subst hok
      obtain ⟨h1, h2, h3⟩ := load_segment_failed_twice (c := []) (by rfl) hs
      exact ⟨_, _, s, _, h1, h2, hl, h3, (read_segment_segnum hs).1⟩
  exact ⟨key _ (by decide!), key _ (by decide!), key _ (by decide!)⟩

/-- With a read that does not fail read_block returns exactly when the seek
succeeded and all `size` bytes were read; with a read that fails it returns
whenever the seek succeeded. -/
theorem read_block_calls_isSome (buf src : Buf) (seek_ret read_ret : Int) (size : Nat)
    (hsize : size < 9223372036854775808)
    (hlo : -9223372036854775808 ≤ read_ret) (hhi : read_ret < 9223372036854775808) :
    (read_block_calls buf seek_ret read_ret src size).isSome = true ↔
      0 ≤ seek_ret ∧ (read_ret < 0 ∨ (size : Int) ≤ read_ret) := by
  unfold read_block_calls
  have hs : size % 18446744073709551616 = size := Nat.mod_eq_of_lt (by omega)
  rw [hs]
  by_cases h1 : seek_ret < 0
  · simp only [h1, if_true, Option.isSome_none, Bool.false_eq_true, false_iff, not_and]
    intro h
    omega
  · simp only [h1, if_false]
    have h0 : 0 ≤ seek_ret := by omega
    by_cases h2 : (read_ret % 18446744073709551616).toNat < size
    · simp only [h2, if_true, Option.isSome_none, Bool.false_eq_true, false_iff, not_and]
      intro _ h
      rcases h with h | h
      · have : read_ret % 18446744073709551616 = read_ret + 18446744073709551616 := by omega
        rw [this] at h2
        omega
      · have : read_ret % 18446744073709551616 = read_ret := by omega
        rw [this] at h2
        omega
    · simp only [h2, if_false, Option.isSome_some, true_iff]
      refine ⟨h0, ?_⟩
      by_cases h3 : read_ret < 0
      · exact Or.inl h3
      · right
        have : read_ret % 18446744073709551616 = read_ret := by omega
        rw [this] at h2
        omega

/-- C25 (does not hold for a failed read): with a seek that succeeds and a read
that fails and returns -1, read_block for 1024 bytes returns, and the buffer
holds what it held before the call; -1 is compared as the unsigned value
`2^64 - 1`. A read that comes 1 byte short makes it die. -/
theorem read_block_failed_read_returns :
    (read_block_calls (fun _ => 7) 0 (-1) (fun _ => 9) 1024).map (fun b => (b 0, b 1023))
        = some (7, 7) ∧
      ((-1 : Int) % 18446744073709551616).toNat = 18446744073709551615 ∧
      (read_block_calls (fun _ => 7) 0 1023 (fun _ => 9) 1024).isSome = false ∧
      (read_block_calls (fun _ => 7) 0 1024 (fun _ => 9) 1024).map (fun b => (b 0, b 1023))
        = some (9, 9) := by
  decide

/-- What read_sb_info derives when it returns, and when it does not return. -/
theorem read_sb_info_geometry (sbp : Buf) :
    (∀ G, read_sb_info sbp = some G →
      G.blocksize = 2 ^ ((sb_get sbp F_log_block_size + 10) % 4294967296) ∧
      G.checkpoint_size = sb_get sbp F_checkpoint_size ∧
      G.ncheckpoints_per_block = G.blocksize / G.checkpoint_size ∧
      G.first_checkpoint_offset
        = (CPFILE_HEADER_SIZE + G.checkpoint_size - 1) / G.checkpoint_size ∧
      0 < G.checkpoint_size ∧ G.blocksize < 2147483648) ∧
    (read_sb_info sbp = none ↔
      31 ≤ (sb_get sbp F_log_block_size + 10) % 4294967296 ∨
        sb_get sbp F_checkpoint_size = 0) := by
  unfold read_sb_info
  by_cases h1 : 31 ≤ (sb_get sbp F_log_block_size + 10) % 4294967296
  · simp [h1]
  · by_cases h2 : sb_get sbp F_checkpoint_size = 0
    · simp [h1, h2]
    · simp only [h1, h2, if_false, Option.some.injEq, false_or, iff_false, not_false_eq_true,
        and_true, reduceCtorEq]
      intro G hG
      subst hG
      refine ⟨rfl, rfl, rfl, rfl, by simpa using Nat.pos_of_ne_zero h2, ?_⟩
      have : (sb_get sbp F_log_block_size + 10) % 4294967296 ≤ 30 := by omega
      calc 2 ^ ((sb_get sbp F_log_block_size + 10) % 4294967296) ≤ 2 ^ 30 :=
            Nat.pow_le_pow_right (by norm_num) this
        _ < 2147483648 := by norm_num

/-- C26 (does not hold): the reader accepts the sample superblock with
s_checkpoint_size 0, and read_sb_info has no value for it (it divides by the
checkpoint size); it accepts the sample superblock with s_log_block_size 21 as
well, for which the shift `1 << 31` overflows the `int`. -/
theorem read_sb_info_divides_by_zero :
    (nilfs_read_super_block sample_sb_calls (sb_image sample_sb_cs0 sample_sb_cs0)).map
        (fun q => q.map (fun p => (sb_get p.2 F_checkpoint_size, read_sb_info p.2)))
      = some (some (0, none)) ∧
    (nilfs_read_super_block sample_sb_calls (sb_image sample_sb_shift31 sample_sb_shift31)).map
        (fun q => q.map (fun p => (sb_get p.2 F_log_block_size, read_sb_info p.2)))
      = some (some (21, none)) := by
  constructor <;> decide!

/-- C29 (does not hold): on the image with a dangling candidate, started at
segment 60 and block 241 with an empty cache, the 50 passes of the loop end
with `seginfo` and `log_sr` NULL while `seginfo_sr` still points to segment 60,
whose reference count is 0; the last statement `if (seginfo_sr)
put_segment_info(seginfo_sr)` then fails the assertion and the function does
not return. -/
theorem find_latest_super_root_put_fails :
    ∃ st0 st s,
      scan_init sample_geometry image_dangling [] 60 241 = some st0 ∧
      scan_loop sample_geometry image_dangling MAX_SCAN_SEGMENT st0
        = some (ScanOutcome.running st) ∧
      st.seginfo = none ∧ st.log_sr = none ∧ st.seginfo_sr = some s ∧ s.segnum = 60 ∧
      refcnt_of st.cache 60 = 0 ∧ put_segment_info st.cache s.segnum = none ∧
      scan_finish st = none ∧
      find_latest_super_root sample_geometry image_dangling [] 60 241 = none := by
  have h : (match scan_init sample_geometry image_dangling [] 60 241 with
      | some st0 =>
        decide (st0.cache.all (fun e => e.refcnt ≤ 2)) &&
        (match scan_loop sample_geometry image_dangling MAX_SCAN_SEGMENT st0 with
         | some (ScanOutcome.running st) =>
           (match st.seginfo_sr with
            | some s =>
              decide (st.seginfo = none ∧ st.log_sr = none ∧ s.segnum = 60 ∧
                refcnt_of st.cache 60 = 0 ∧ put_segment_info st.cache s.segnum = none ∧
                scan_finish st = none)
            | none => false)
         | _ => false)
      | none => false) = true := by decide!
  cases h0 : scan_init sample_geometry image_dangling [] 60 241 with
  | none => rw [h0] at h; exact absurd h (by simp)
  | some st0 =>
    rw [h0] at h
    simp only [Bool.and_eq_true] at h
    have h2 := h.2
    cases h1 : scan_loop sample_geometry image_dangling MAX_SCAN_SEGMENT st0 with
    | none => rw [h1] at h2; exact absurd h2 (by simp)
    | some out =>
      cases out with
      | found c s l => rw [h1] at h2; exact absurd h2 (by simp)
      | running st =>
        rw [h1] at h2
        simp only at h2
        cases h3 : st.seginfo_sr with
        | none => rw [h3] at h2; exact absurd h2 (by simp)
        | some s =>
          rw [h3] at h2
          have h5 := of_decide_eq_true h2
          have hf : find_latest_super_root sample_geometry image_dangling [] 60 241 = none := by
            unfold find_latest_super_root
            rw [h0]
            simp only [h1]
            exact h5.2.2.2.2.2
          exact ⟨st0, st, s, rfl, h1, h5.1, h5.2.1, h3, h5.2.2.1, h5.2.2.2.1, h5.2.2.2.2.1,
            h5.2.2.2.2.2, hf⟩

theorem scan_step_segnum {G : Geometry} {dev : Device} {st st1 : ScanState}
    (h : scan_step G dev st = some (ScanOutcome.running st1)) :
    st1.segnum = prev_segnum G st.segnum := by
  unfold scan_step at h
  simp only at h
  split at h
  · simp at h
  · split at h
    · simp at h
    · simp only [Option.map_eq_some'] at h
      obtain ⟨_, _, h⟩ := h
      simp only [ScanOutcome.running.injEq] at h
      rw [← h]
  · split at h
    · split at h
      · simp at h
      · split at h
        · simp only [Option.some.injEq, ScanOutcome.running.injEq] at h
          rw [← h]
        · simp only [Option.some.injEq, ScanOutcome.running.injEq] at h
          rw [← h]
    · split at h
      · simp at h
      · split at h
        · simp only [Option.map_eq_some'] at h
          obtain ⟨_, _, h⟩ := h
          simp at h
        · split at h <;>
            (simp only [Option.map_eq_some'] at h
             obtain ⟨_, _, h⟩ := h
             simp only [ScanOutcome.running.injEq] at h
             rw [← h])

theorem scan_init_segnum {G : Geometry} {dev : Device} {cache : SegmentCache}
    {segnum blocknr : Nat} {st0 : ScanState}
    (h : scan_init G dev cache segnum blocknr = some st0) : st0.segnum = segnum := by
  unfold scan_init at h
  split at h
  · simp at h
  · simp only [Option.some.injEq] at h
    rw [← h]
  · simp only at h
    split at h <;> (simp only [Option.some.injEq] at h; rw [← h])

theorem prev_segnum_lt {G : Geometry} {v : Nat} (hn : G.nsegments < 18446744073709551616)
    (hv : v < G.nsegments) :
    prev_segnum G v < G.nsegments ∧
      ((prev_segnum G v : Nat) : Int) = ((v : Int) - 1) % (G.nsegments : Int) := by
  unfold prev_segnum
  split
  · next h0 =>
    subst h0
    have e : (G.nsegments + 18446744073709551616 - 1) % 18446744073709551616
        = G.nsegments - 1 := by omega
    rw [e]
    refine ⟨by omega, ?_⟩
    have : ((0 : Nat) : Int) - 1 = ((G.nsegments - 1 : Nat) : Int) + (G.nsegments : Int) * (-1) := by
      omega
    rw [this, Int.add_mul_emod_self_left]
    exact (Int.emod_eq_of_lt (by omega) (by omega)).symm
  · next h0 =>
    refine ⟨by omega, ?_⟩
    have : ((v - 1 : Nat) : Int) = (v : Int) - 1 := by omega
    rw [this]
    exact (Int.emod_eq_of_lt (by omega) (by omega)).symm

theorem emod_step (x n : Int) : (x % n - 1) % n = (x - 1) % n := by
  rw [Int.sub_emod, Int.emod_emod, ← Int.sub_emod]

theorem scan_segnums_spec {G : Geometry} {dev : Device}
    (hn : G.nsegments < 18446744073709551616) :
    ∀ (n : Nat) (st : ScanState), st.segnum < G.nsegments →
      (scan_segnums G dev n st).length ≤ n ∧
      ∀ (k v : Nat), (scan_segnums G dev n st)[k]? = some v →
        v < G.nsegments ∧
        (v : Int) = ((st.segnum : Int) - ((k : Int) + 1)) % (G.nsegments : Int) := by
  intro n
  induction n with
  | zero => intro st _; simp [scan_segnums]
  | succ n ih =>
    intro st hv
    obtain ⟨p1, p2⟩ := prev_segnum_lt hn hv
    simp only [scan_segnums]
    cases hs : scan_step G dev st with
    | none =>
      simp only [List.length_singleton]
      refine ⟨by omega, ?_⟩
      intro k v hk
      cases k with
      | zero =>
        simp only [List.getElem?_cons_zero, Option.some.injEq] at hk
        subst hk
        exact ⟨p1, by simpa using p2⟩
      | succ k => simp at hk
    | some out =>
      cases out with
      | found c s l =>
        simp only [List.length_singleton]
        refine ⟨by omega, ?_⟩
        intro k v hk
        cases k with
        | zero =>
          simp only [List.getElem?_cons_zero, Option.some.injEq] at hk
          subst hk
          exact ⟨p1, by simpa using p2⟩
        | succ k => simp at hk
      | running st1 =>
        have e := scan_step_segnum hs
        obtain ⟨i1, i2⟩ := ih st1 (by rw [e]; exact p1)
        simp only [List.length_cons]
        refine ⟨by omega, ?_⟩
        intro k v hk
        cases k with
        | zero =>
          simp only [List.getElem?_cons_zero, Option.some.injEq] at hk
          subst hk
          exact ⟨p1, by simpa using p2⟩
        | succ k =>
          simp only [List.getElem?_cons_succ] at hk
          obtain ⟨j1, j2⟩ := i2 k v hk
          refine ⟨j1, ?_⟩
          rw [j2, e, p2]
          have := emod_step ((st.segnum : Int) - 1 - (k : Int)) (G.nsegments : Int)
          push_cast
          rw [Int.sub_emod, Int.emod_emod, ← Int.sub_emod]
          congr 1
          ring

/-- C28: the search passes at most 1 + MAX_SCAN_SEGMENT segment numbers to
load_segment, the start segment and one per pass of the loop, so the loop takes
at most 50 backward steps; the number passed at step k (step 0 is the start
segment) is (start_segnum - k) mod nsegments, and a step that follows segment
number 0 takes nsegments - 1. -/
theorem find_latest_super_root_steps (G : Geometry) (dev : Device) (cache : SegmentCache)
    (segnum blocknr : Nat) (hn : G.nsegments < 18446744073709551616)
    (hseg : segnum < G.nsegments) :
    (search_segnums G dev cache segnum blocknr).length ≤ MAX_SCAN_SEGMENT + 1 ∧
    (∀ (k v : Nat), (search_segnums G dev cache segnum blocknr)[k]? = some v →
      (v : Int) = ((segnum : Int) - (k : Int)) % (G.nsegments : Int)) ∧
    (∀ (k w : Nat), (search_segnums G dev cache segnum blocknr)[k]? = some 0 →
      (search_segnums G dev cache segnum blocknr)[k + 1]? = some w → w = G.nsegments - 1) := by
  have main : (search_segnums G dev cache segnum blocknr).length ≤ MAX_SCAN_SEGMENT + 1 ∧
      (∀ (k v : Nat), (search_segnums G dev cache segnum blocknr)[k]? = some v →
        v < G.nsegments ∧ (v : Int) = ((segnum : Int) - (k : Int)) % (G.nsegments : Int)) := by
    have h0 : (segnum : Int) = ((segnum : Int) - ((0 : Nat) : Int)) % (G.nsegments : Int) := by
      simp only [Nat.cast_zero, sub_zero]
      exact (Int.emod_eq_of_lt (by omega) (by omega)).symm
    unfold search_segnums
    cases hi : scan_init G dev cache segnum blocknr with
    | none =>
      simp only [List.length_singleton]
      refine ⟨by omega, ?_⟩
      intro k v hk
      cases k with
      | zero =>
        simp only [List.getElem?_cons_zero, Option.some.injEq] at hk
        subst hk
        exact ⟨hseg, h0⟩
      | succ k => simp at hk
    | some st0 =>
      have e := scan_init_segnum hi
      obtain ⟨i1, i2⟩ := @scan_segnums_spec G dev hn MAX_SCAN_SEGMENT st0
        (by rw [e]; exact hseg)
      simp only [List.length_cons]
      refine ⟨by omega, ?_⟩
      intro k v hk
      cases k with
      | zero =>
        simp only [List.getElem?_cons_zero, Option.some.injEq] at hk
        subst hk
        exact ⟨hseg, h0⟩
      | succ k =>
        simp only [List.getElem?_cons_succ] at hk
        obtain ⟨j1, j2⟩ := i2 k v hk
        refine ⟨j1, ?_⟩
        rw [j2, e]
        push_cast
        rfl
  refine ⟨main.1, fun k v hk => (main.2 k v hk).2, ?_⟩
  intro k w hk hk1
  obtain ⟨_, a2⟩ := main.2 k 0 hk
  obtain ⟨b1, b2⟩ := main.2 (k + 1) w hk1
  have : (w : Int) = ((0 : Int) - 1) % (G.nsegments : Int) := by
    rw [b2]
    push_cast
    have := emod_step ((segnum : Int) - (k : Int)) (G.nsegments : Int)
    rw [← a2] at this
    rw [← sub_sub, ← this]
    simp
  have h2 : ((0 : Int) - 1) % (G.nsegments : Int) = (G.nsegments : Int) - 1 := by
    have : (0 : Int) - 1 = ((G.nsegments : Int) - 1) + (G.nsegments : Int) * (-1) := by ring
    rw [this, Int.add_mul_emod_self_left]
    exact Int.emod_eq_of_lt (by omega) (by omega)
  omega

/-- Witness of C28: on the zeroed image the search from segment 1 asks for
segments 1, 0, 63, 62, ... 15, the start segment and 50 backward steps. -/
theorem find_latest_super_root_steps_witness :
    sample_geometry.nsegments < 18446744073709551616 ∧ 1 < sample_geometry.nsegments ∧
    search_segnums sample_geometry image_zero [] 1 4
      = 1 :: 0 :: (List.range 49).map (fun i => 63 - i) ∧
    (search_segnums sample_geometry image_zero [] 1 4).length ≤ MAX_SCAN_SEGMENT + 1 ∧
    (∀ (k v : Nat), (search_segnums sample_geometry image_zero [] 1 4)[k]? = some v →
      (v : Int) = (((1 : Nat) : Int) - (k : Int)) % (sample_geometry.nsegments : Int)) ∧
    (∀ (k w : Nat), (search_segnums sample_geometry image_zero [] 1 4)[k]? = some 0 →
      (search_segnums sample_geometry image_zero [] 1 4)[k + 1]? = some w →
      w = sample_geometry.nsegments - 1) :=
  ⟨by decide, by decide, by decide!,
    find_latest_super_root_steps sample_geometry image_zero [] 1 4 (by decide) (by decide)⟩

/-- The walk of load_segment ends within the passes it is given: from a block
below `endb` that read_block delivers, with `endb` at most `fuel` blocks ahead,
further passes change nothing, so a walk that does not return has met `die`. -/
theorem load_logs_fuel {G : Geometry} {dev : Device} {segseq endb k : Nat}
    (hk : k ≤ 30) (hbs : G.blocksize = 2 ^ k) (hbps : G.blocks_per_segment < 4294967296) :
    ∀ (fuel b : Nat) (ss : nilfs_segment_summary) (bytes : List Nat) (extra : Nat),
      b < 18446744073709551616 → read_block G dev b SEGSUM_SIZE = some bytes →
      1 ≤ ss.ss_nblocks → ss.ss_nblocks ≤ G.blocks_per_segment →
      b < endb → endb ≤ b + fuel →
      load_logs G dev segseq endb (fuel + extra) b ss = load_logs G dev segseq endb fuel b ss := by
  intro fuel
  induction fuel with
  | zero => intro b ss _ _ _ _ _ _ h1 h2; omega
  | succ fuel ih =>
    intro b ss bytes0 extra hb hrd h1 h2 h3 h4
    have hnw := read_block_no_wrap (n := ss.ss_nblocks) hk hbs hb (by omega) hrd
    have e : fuel + 1 + extra = (fuel + extra) + 1 := by omega
    rw [e]
    simp only [load_logs]
    rw [Nat.mod_eq_of_lt hnw]
    split
    · rfl
    · next hlt =>
      split
      · rfl
      · next bytes hb2 =>
        split
        · rfl
        · next v hv =>
          split
          · next hcond =>
            simp only [Bool.and_eq_true, beq_iff_eq] at hcond
            obtain ⟨hvt, _⟩ := hcond
            subst hvt
            obtain ⟨_, k1, k2⟩ := log_is_valid_true hv
            rw [ih _ _ bytes extra (by omega) hb2 k1 k2 (by omega) (by omega)]
          · rfl

/-- The walk that read_segment starts has passes enough. -/
theorem read_segment_walk_fuel {G : Geometry} {dev : Device} {n k : Nat} {bytes : List Nat}
    (hk : k ≤ 30) (hbs : G.blocksize = 2 ^ k) (hbps : G.blocks_per_segment < 4294967296)
    (hfdb : G.first_data_block < 18446744073709551616)
    (hrd : read_block G dev (segment_start_blocknr G n) SEGSUM_SIZE = some bytes)
    (hv : log_is_valid G dev (segment_start_blocknr G n) (decode_segsum bytes) = some true)
    (extra : Nat) :
    load_logs G dev (decode_segsum bytes).ss_seq
        ((segment_start_blocknr G n + G.blocks_per_segment) % 18446744073709551616)
        (G.blocks_per_segment + extra) (segment_start_blocknr G n) (decode_segsum bytes)
      = load_logs G dev (decode_segsum bytes).ss_seq
        ((segment_start_blocknr G n + G.blocks_per_segment) % 18446744073709551616)
        G.blocks_per_segment (segment_start_blocknr G n) (decode_segsum bytes) := by
  obtain ⟨_, k1, k2⟩ := log_is_valid_true hv
  have hb := segment_start_blocknr_lt (G := G) n hfdb
  have hnw := read_block_no_wrap (n := G.blocks_per_segment) hk hbs hb hbps hrd
  rw [Nat.mod_eq_of_lt hnw]
  exact load_logs_fuel hk hbs hbps _ _ _ bytes extra hb hrd k1 k2 (by omega) (by omega)



theorem cp_scan_spec {G : Geometry} {b : List Nat} :
    ∀ (n i0 cno0 : Nat),
      (∀ i, i0 ≤ i → i < i0 + n → i * G.checkpoint_size + 32 ≤ b.length) →
      ∃ cno, cp_scan G b n (i0 * G.checkpoint_size) cno0 = some cno ∧ cno0 ≤ cno ∧
        (∀ i, i0 ≤ i → i < i0 + n → cp_invalid G b i = false → cp_cno G b i ≤ cno) ∧
        (cno = cno0 ∨
          ∃ i, i0 ≤ i ∧ i < i0 + n ∧ cp_invalid G b i = false ∧ cp_cno G b i = cno) := by
  intro n
  induction n with
  | zero =>
    intro i0 cno0 _
    exact ⟨cno0, rfl, le_refl _, fun i h1 h2 => by omega, Or.inl rfl⟩
  | succ n ih =>
    intro i0 cno0 hfit
    have h0 := hfit i0 (le_refl _) (by omega)
    have e : i0 * G.checkpoint_size + G.checkpoint_size = (i0 + 1) * G.checkpoint_size := by
      rw [Nat.add_mul, Nat.one_mul]
    have hrest : ∀ i, i0 + 1 ≤ i → i < i0 + 1 + n → i * G.checkpoint_size + 32 ≤ b.length :=
      fun i h1 h2 => hfit i (by omega) (by omega)
    simp only [cp_scan, buf_field]
    rw [if_pos (by omega), e]
    simp only
    by_cases hinv : le_value ((b.drop (i0 * G.checkpoint_size)).take 4) &&& CP_INVALID_BIT ≠ 0
    · rw [if_pos hinv]
      obtain ⟨cno, k1, k2, k3, k4⟩ := ih (i0 + 1) cno0 hrest
      refine ⟨cno, k1, k2, ?_, ?_⟩
      · intro i h1 h2 hv
        by_cases hi : i = i0
        · subst hi
          simp [cp_invalid, hinv] at hv
        · exact k3 i (by omega) (by omega) hv
      · rcases k4 with k4 | ⟨i, a1, a2, a3, a4⟩
        · exact Or.inl k4
        · exact Or.inr ⟨i, by omega, by omega, a3, a4⟩
    · rw [if_neg hinv]
      have hbound : i0 * G.checkpoint_size + CP_CNO_OFFSET + 8 ≤ b.length := by
        simp only [CP_CNO_OFFSET]; omega
      rw [if_pos hbound]
      simp only
      have hval : cp_invalid G b i0 = false := by
        simp only [cp_invalid, bne_eq_false_iff_eq]
        exact not_not.mp hinv
      obtain ⟨cno, k1, k2, k3, k4⟩ := ih (i0 + 1)
        (if cp_cno G b i0 > cno0 then cp_cno G b i0 else cno0) hrest
      refine ⟨cno, k1, ?_, ?_, ?_⟩
      · split_ifs at k2 <;> omega
      · intro i h1 h2 hv
        by_cases hi : i = i0
        · subst hi
          split_ifs at k2 <;> omega
        · exact k3 i (by omega) (by omega) hv
      · rcases k4 with k4 | ⟨i, a1, a2, a3, a4⟩
        · by_cases hc : cp_cno G b i0 > cno0
          · rw [if_pos hc] at k4
            exact Or.inr ⟨i0, le_refl _, by omega, hval, k4.symm⟩
          · rw [if_neg hc] at k4
            exact Or.inl k4
        · exact Or.inr ⟨i, by omega, by omega, a3, a4⟩

/-- C24: when read_block delivers the checkpoint block and every entry of a
block lies inside the block (32 bytes from its start, up to the end of cp_cno),
find_latest_checkpoint returns, and the value is the greatest cp_cno among the
entries of the window whose invalid bit is clear, or 0 when there is none: no
such entry has a greater cp_cno, and the value is 0 or the cp_cno of such an
entry. The window is entries first_checkpoint_offset up to
ncheckpoints_per_block for blkoff = 0 and all ncheckpoints_per_block entries
for any other blkoff. -/
theorem find_latest_checkpoint_max (G : Geometry) (dev : Device) (cpblocknr blkoff : Nat)
    (b : List Nat) (hb : read_block G dev cpblocknr G.blocksize = some b)
    (hfit : ∀ i, i < G.ncheckpoints_per_block → i * G.checkpoint_size + 32 ≤ G.blocksize) :
    ∃ cno, find_latest_checkpoint G dev cpblocknr blkoff = some (b, cno) ∧
      (∀ i, cp_in_window G blkoff i → cp_invalid G b i = false → cp_cno G b i ≤ cno) ∧
      (cno = 0 ∨ ∃ i, cp_in_window G blkoff i ∧ cp_invalid G b i = false ∧ cp_cno G b i = cno) ∧
      (blkoff ≠ 0 → ∀ i, cp_in_window G blkoff i ↔ i < G.ncheckpoints_per_block) := by
  have hlen : b.length = G.blocksize := read_block_length hb
  unfold find_latest_checkpoint
  rw [hb]
  simp only
  by_cases h0 : blkoff = 0
  · rw [if_pos h0]
    obtain ⟨cno, k1, _, k3, k4⟩ := cp_scan_spec (G := G) (b := b)
      (G.ncheckpoints_per_block - G.first_checkpoint_offset) G.first_checkpoint_offset 0
      (fun i h1 h2 => by rw [hlen]; exact hfit i (by omega))
    refine ⟨cno, by rw [k1]; rfl, ?_, ?_, fun h => absurd h0 h⟩
    · intro i hw hv
      exact k3 i (hw.1 h0) (by have := hw.2; omega) hv
    · rcases k4 with k4 | ⟨i, a1, a2, a3, a4⟩
      · exact Or.inl k4
      · exact Or.inr ⟨i, ⟨fun _ => a1, by omega⟩, a3, a4⟩
  · rw [if_neg h0]
    obtain ⟨cno, k1, _, k3, k4⟩ := cp_scan_spec (G := G) (b := b)
      G.ncheckpoints_per_block 0 0
      (fun i h1 h2 => by rw [hlen]; exact hfit i (by omega))
    rw [Nat.zero_mul] at k1
    refine ⟨cno, by rw [k1]; rfl, ?_, ?_, ?_⟩
    · intro i hw hv
      exact k3 i (Nat.zero_le _) (by have := hw.2; omega) hv
    · rcases k4 with k4 | ⟨i, a1, a2, a3, a4⟩
      · exact Or.inl k4
      · exact Or.inr ⟨i, ⟨fun h => absurd h h0, by omega⟩, a3, a4⟩
    · intro _ i
      exact ⟨fun hw => hw.2, fun h => ⟨fun h1 => absurd h1 h0, h⟩⟩

theorem ss_skip_spec {G : Geometry} {dev : Device} {size : Nat} :
    ∀ (n : Nat) (cur : SsCursor) (fb : Nat) (p0 : Option Nat) (cur1 : SsCursor) (fb1 : Nat)
      (p1 : Option Nat),
      ss_skip G dev size n cur fb p0 = some (cur1, fb1, p1) →
      fb1 % 18446744073709551616 = (fb + n) % 18446744073709551616 ∧
      ∃ es, ss_entries G dev size n cur = some es ∧ es.length = n ∧
        (n = 0 → p1 = p0 ∧ cur1 = cur) ∧
        (0 < n → ∃ q, p1 = some q ∧ es.getLast? = some ((cur1.buf.drop q).take size)) := by
  intro n
  induction n with
  | zero =>
    intro cur fb p0 cur1 fb1 p1 h
    simp only [ss_skip, Option.some.injEq, Prod.mk.injEq] at h
    obtain ⟨h1, h2, h3⟩ := h
    subst h1; subst h2; subst h3
    exact ⟨rfl, [], rfl, rfl, fun _ => ⟨rfl, rfl⟩, fun h => absurd h (by omega)⟩
  | succ n ih =>
    intro cur fb p0 cur1 fb1 p1 h
    simp only [ss_skip] at h
    cases hn : next_ss_entry G dev cur size with
    | none => rw [hn] at h; simp at h
    | some r =>
      obtain ⟨c2, q2⟩ := r
      rw [hn] at h
      simp only at h
      obtain ⟨k1, es, k2, k3, k4, k5⟩ := ih _ _ _ _ _ _ h
      refine ⟨by omega, (c2.buf.drop q2).take size :: es, ?_, by simp [k3], fun h0 => by omega,
        fun _ => ?_⟩
      · simp only [ss_entries, hn, k2, Option.map_some']
      · cases n with
        | zero =>
          obtain ⟨a1, a2⟩ := k4 rfl
          have : es = [] := List.length_eq_zero.mp k3
          subst this
          exact ⟨q2, a1, by rw [a2]; rfl⟩
        | succ m =>
          obtain ⟨q, a1, a2⟩ := k5 (by omega)
          refine ⟨q, a1, ?_⟩
          cases es with
          | nil => simp at k3
          | cons e rest =>
            rw [List.getLast?_cons_cons]
            exact a2

theorem binfo_v_blkoff_eq (b : List Nat) (q : Nat) :
    binfo_v_blkoff ((b.drop q).take BINFO_V_SIZE) = le_value ((b.drop (q + 8)).take 8) := by
  unfold binfo_v_blkoff BINFO_V_SIZE
  rw [List.drop_take, List.take_take, List.drop_drop]
  congr 2

/-- The run of get_latest_cno on the log of image_nocno. -/
theorem image_nocno_run :
    (get_latest_cno_run sample_geometry image_nocno 240).map (fun st => (st.latest_cno, st.calls, st.fblocknr, st.cur.offset))
      = some (41, [(242, 7)], 243, 112) := by decide!

/-- C30 (as amended): in a pass of get_latest_cno over a finfo record of the
checkpoint file with ndatablk = n >= 1 that comes back, find_latest_checkpoint
is called once; the block offset passed is the bi_blkoff of the last of the n
data block-info entries of that finfo, and the block read is fblocknr + n - 1,
the block of that last data block (fblocknr counts the blocks of the log, and
the data block of entry j of the finfo is fblocknr + j). -/
theorem get_latest_cno_last_data_block (G : Geometry) (dev : Device) (st st1 : FinfoState)
    (c1 : SsCursor) (p n : Nat)
    (hnext : next_ss_entry G dev st.cur FINFO_SIZE = some (c1, p))
    (hino : buf_field c1.buf p 8 = some NILFS_CPFILE_INO)
    (hnd : buf_field c1.buf (p + 20) 4 = some n) (hpos : 0 < n)
    (hstep : finfo_step G dev st = some st1) :
    ∃ es last, ss_entries G dev BINFO_V_SIZE n c1 = some es ∧ es.length = n ∧
      es.getLast? = some last ∧
      st1.calls = st.calls ++
        [((st.fblocknr + n - 1) % 18446744073709551616, binfo_v_blkoff last)] := by
  unfold finfo_step at hstep
  rw [hnext] at hstep
  simp only [hino, hnd] at hstep
  cases hnb : buf_field c1.buf (p + 16) 4 with
  | none => rw [hnb] at hstep; simp at hstep
  | some nblocks =>
    rw [hnb] at hstep
    simp only at hstep
    rw [if_neg (by decide)] at hstep
    cases hsk : ss_skip G dev BINFO_V_SIZE n c1 st.fblocknr none with
    | none => rw [hsk] at hstep; simp at hstep
    | some r =>
      obtain ⟨c2, fb2, bv⟩ := r
      rw [hsk] at hstep
      simp only at hstep
      rw [if_pos ⟨trivial, hpos⟩] at hstep
      obtain ⟨k1, es, k2, k3, _, k5⟩ := ss_skip_spec _ _ _ _ _ _ _ hsk
      obtain ⟨q, hq, hlast⟩ := k5 hpos
      subst hq
      refine ⟨es, _, k2, k3, hlast, ?_⟩
      cases hcl : cp_lookup G dev st c2 fb2 (some q) with
      | none => rw [hcl] at hstep; simp at hstep
      | some t =>
        obtain ⟨buf3, latest3, calls3⟩ := t
        rw [hcl] at hstep
        simp only [Option.map_eq_some'] at hstep
        obtain ⟨r2, _, hst1⟩ := hstep
        rw [← hst1]
        simp only
        unfold cp_lookup at hcl
        simp only [buf_field] at hcl
        split at hcl
        · simp at hcl
        · next blk hblk =>
          simp only [Option.map_eq_some'] at hcl
          obtain ⟨r3, _, hr3⟩ := hcl
          simp only [Prod.mk.injEq] at hr3
          rw [← hr3.2.2, binfo_v_blkoff_eq]
          split at hblk
          · simp only [Option.some.injEq] at hblk
            rw [← hblk]
            have e : (fb2 + 18446744073709551616 - 1) % 18446744073709551616
                = (st.fblocknr + n - 1) % 18446744073709551616 := by omega
            rw [e]
          · simp at hblk

/-- Counterexample to C30: the finfo record of image_nocno belongs to the
checkpoint file and has two data blocks, blocks 241 and 242 of the log, with
bi_blkoff 3 and 7. The first data block is block 241 with offset 3, and
find_latest_checkpoint is called for block 242 with offset 7. -/
theorem get_latest_cno_not_first_data_block :
    (first_finfo sample_geometry image_nocno 240).map (fun t =>
        (t.1.fblocknr, buf_field t.2.1.buf t.2.2 8, buf_field t.2.1.buf (t.2.2 + 20) 4))
      = some (241, some NILFS_CPFILE_INO, some 2) ∧
    (first_finfo sample_geometry image_nocno 240).bind (fun t =>
        (ss_entries sample_geometry image_nocno BINFO_V_SIZE 2 t.2.1).map
          (fun es => es.map binfo_v_blkoff))
      = some [3, 7] ∧
    (first_finfo sample_geometry image_nocno 240).bind (fun t =>
        (finfo_step sample_geometry image_nocno t.1).map (fun st1 => st1.calls))
      = some [(242, 7)] := by
  refine ⟨by decide!, by decide!, by decide!⟩

/-- Witness of C30 (as amended): the pass over the finfo record of image_nocno
(n = 2, fblocknr = 241) calls find_latest_checkpoint for block 242 with the
offset 7 of its second, last block-info entry. -/
theorem get_latest_cno_last_data_block_witness :
    finfo_init sample_geometry image_nocno 240 = some (1, nocno_state) ∧
    nocno_state_after.calls = [(242, 7)] ∧
    ∃ es last, ss_entries sample_geometry image_nocno BINFO_V_SIZE 2 nocno_cursor = some es ∧
      es.length = 2 ∧ es.getLast? = some last ∧
      nocno_state_after.calls = nocno_state.calls ++
        [((nocno_state.fblocknr + 2 - 1) % 18446744073709551616, binfo_v_blkoff last)] :=
  ⟨by decide!, by decide,
    get_latest_cno_last_data_block sample_geometry image_nocno nocno_state nocno_state_after
      nocno_cursor 56 2 (by decide!) (by decide!) (by decide!) (by decide) (by decide!)⟩

/-- Witness of C24: block 242 of image_nocno holds the entries 40, 42 (invalid)
and 41 and two zero entries; for blkoff 7 all five entries are scanned and the
value is 41. For blkoff 0 the first entry is left out: on block 241, whose
first entry holds 30, the value is 0. -/
theorem find_latest_checkpoint_max_witness :
    (find_latest_checkpoint sample_geometry image_nocno 242 7).map (fun r => r.2) = some 41 ∧
    (find_latest_checkpoint sample_geometry image_nocno 241 0).map (fun r => r.2) = some 0 ∧
    ∃ cno, find_latest_checkpoint sample_geometry image_nocno 242 7
        = some (dev_bytes image_nocno 247808 1024, cno) ∧
      (∀ i, cp_in_window sample_geometry 7 i →
        cp_invalid sample_geometry (dev_bytes image_nocno 247808 1024) i = false →
        cp_cno sample_geometry (dev_bytes image_nocno 247808 1024) i ≤ cno) ∧
      (cno = 0 ∨ ∃ i, cp_in_window sample_geometry 7 i ∧
        cp_invalid sample_geometry (dev_bytes image_nocno 247808 1024) i = false ∧
        cp_cno sample_geometry (dev_bytes image_nocno 247808 1024) i = cno) ∧
      ((7 : Nat) ≠ 0 → ∀ i, cp_in_window sample_geometry 7 i ↔
        i < sample_geometry.ncheckpoints_per_block) :=
  ⟨by decide!, by decide!,
    find_latest_checkpoint_max sample_geometry image_nocno 242 7
      (dev_bytes image_nocno 247808 1024) (by decide!) (by decide)⟩

/-- What nilfs_do_rollback returns once the search has found a super root,
for any function in the place of find_latest_cno_in_logical_segment. -/
theorem nilfs_do_rollback_eq {G : Geometry} {dev : Device} {cache c : SegmentCache}
    {search : SegmentCache → nilfs_segment_info → nilfs_log_info → Option (SegmentCache × Nat)}
    {log_ref : nilfs_log_ref} {seg : nilfs_segment_info} {log : nilfs_log_info}
    (hbps : G.blocks_per_segment ≠ 0)
    (hf : find_latest_super_root G dev cache (log_ref.blocknr / G.blocks_per_segment)
      log_ref.blocknr = some (c, some (seg, log))) :
    nilfs_do_rollback G dev cache search log_ref =
      if log.segsum.ss_bytes ≥ 64 then
        some (c, { blocknr := log.log_start, seqnum := seg.segseq, cno := log.segsum.ss_cno,
                   ctime := log.segsum.ss_create })
      else
        match search c seg log with
        | none => none
        | some (c2, cno) =>
          if cno = 0 then none
          else some (c2, { blocknr := log.log_start, seqnum := seg.segseq, cno := cno,
                           ctime := log.segsum.ss_create }) := by
  unfold nilfs_do_rollback
  rw [if_neg hbps, hf]

/-- C23: once find_latest_super_root has returned a segment and a log,
nilfs_do_rollback takes the checkpoint number from the ss_cno of that log when
the declared ss_bytes is at least 64, without a search, and only then: with
ss_bytes below 64 (63 included) it takes what
find_latest_cno_in_logical_segment returns for that segment and log, whatever
ss_cno holds, and it dies exactly when that value is 0 (or the search itself
does not return). -/
theorem nilfs_do_rollback_cno (G : Geometry) (dev : Device) (cache c : SegmentCache)
    (log_ref : nilfs_log_ref) (seg : nilfs_segment_info) (log : nilfs_log_info)
    (hbps : G.blocks_per_segment ≠ 0)
    (hf : find_latest_super_root G dev cache (log_ref.blocknr / G.blocks_per_segment)
      log_ref.blocknr = some (c, some (seg, log))) :
    (64 ≤ log.segsum.ss_bytes →
      nilfs_do_rollback G dev cache
          (fun c1 s l => find_latest_cno_in_logical_segment G dev c1 s (some l)) log_ref
        = some (c, { blocknr := log.log_start, seqnum := seg.segseq,
                     cno := log.segsum.ss_cno, ctime := log.segsum.ss_create })) ∧
    (log.segsum.ss_bytes ≤ 63 →
      (∀ c2 cno, find_latest_cno_in_logical_segment G dev c seg (some log) = some (c2, cno) →
        (cno ≠ 0 →
          nilfs_do_rollback G dev cache
              (fun c1 s l => find_latest_cno_in_logical_segment G dev c1 s (some l)) log_ref
            = some (c2, { blocknr := log.log_start, seqnum := seg.segseq, cno := cno,
                          ctime := log.segsum.ss_create })) ∧
        (cno = 0 ↔
          nilfs_do_rollback G dev cache
              (fun c1 s l => find_latest_cno_in_logical_segment G dev c1 s (some l)) log_ref
            = none)) ∧
      (find_latest_cno_in_logical_segment G dev c seg (some log) = none →
        nilfs_do_rollback G dev cache
            (fun c1 s l => find_latest_cno_in_logical_segment G dev c1 s (some l)) log_ref
          = none)) := by
  rw [nilfs_do_rollback_eq hbps hf]
  refine ⟨fun h => by rw [if_pos h], fun h => ?_⟩
  rw [if_neg (by omega)]
  refine ⟨fun c2 cno hs => ?_, fun hs => by simp only [hs]⟩
  simp only [hs]
  by_cases h0 : cno = 0
  · simp [h0]
  · simp [h0]

/-- The rollback search on image_nocno from block 244: segment 61 does not
load, segment 60 loads with its SR log, no segment before it loads. -/
theorem image_nocno_search :
    find_latest_super_root sample_geometry image_nocno []
        (({ blocknr := 244, seqnum := 10, cno := 0, ctime := 0 } : nilfs_log_ref).blocknr
          / sample_geometry.blocks_per_segment)
        ({ blocknr := 244, seqnum := 10, cno := 0, ctime := 0 } : nilfs_log_ref).blocknr
      = some (nocno_cache, some (nocno_segment, nocno_log)) := by
  decide!

/-- The checkpoint search on image_nocno returns 41 and leaves the cache as it
found it. -/
theorem image_nocno_cno :
    find_latest_cno_in_logical_segment sample_geometry image_nocno nocno_cache nocno_segment
      (some nocno_log) = some (nocno_cache, 41) := by
  decide!

/-- Witness of C23: on image_nocno the rollback from block 244 selects the log
at block 240, whose ss_bytes is 56; the 8 bytes where ss_cno would be hold 4,
the search returns 41, and the checkpoint number taken is 41. -/
theorem nilfs_do_rollback_cno_witness :
    nocno_log.segsum.ss_bytes = 56 ∧ nocno_log.segsum.ss_cno = 4 ∧
    find_latest_cno_in_logical_segment sample_geometry image_nocno nocno_cache nocno_segment
      (some nocno_log) = some (nocno_cache, 41) ∧
    nilfs_do_rollback sample_geometry image_nocno []
        (fun c1 s l => find_latest_cno_in_logical_segment sample_geometry image_nocno c1 s
          (some l))
        { blocknr := 244, seqnum := 10, cno := 0, ctime := 0 }
      = some (nocno_cache, { blocknr := 240, seqnum := 9, cno := 41, ctime := 0 }) :=
  ⟨by decide, by decide, image_nocno_cno,
    (((nilfs_do_rollback_cno sample_geometry image_nocno [] nocno_cache
      { blocknr := 244, seqnum := 10, cno := 0, ctime := 0 } nocno_segment nocno_log
      (by decide) image_nocno_search).2 (by decide)).1 nocno_cache 41 image_nocno_cno).1
      (by decide)⟩

/-- While the library calls succeed the loop handles every argument: one that
strtoull does not convert to its end is reported and skipped, every other one
is dumped, and the exit status is failure when an argument was rejected. -/
theorem dump_loop_ok (calls : DumpCalls) (hget : ∀ n, 0 ≤ calls.get_ret n)
    (hput : ∀ n, 0 ≤ calls.put_ret n) :
    ∀ (args : List String) (status : Int),
      (dump_loop calls args status).1 = args.map (fun a =>
          if (strtoull a.data).2 ≠ [] then DumpEvent.invalid a
          else DumpEvent.dumped (strtoull a.data).1) ∧
      (dump_loop calls args status).2 =
        if args.any (fun a => decide ((strtoull a.data).2 ≠ [])) then 1 else status := by
  intro args
  induction args with
  | nil => intro status; simp [dump_loop]
  | cons a rest ih =>
    intro status
    simp only [dump_loop]
    have key : (a :: rest).any (fun a => decide ((strtoull a.data).2 ≠ []))
        = (decide ((strtoull a.data).2 ≠ []) ||
            rest.any (fun a => decide ((strtoull a.data).2 ≠ []))) := rfl
    rw [key, List.map_cons]
    by_cases h : (strtoull a.data).2 ≠ []
    · rw [if_pos h, if_pos h]
      refine ⟨by rw [(ih 1).1], ?_⟩
      rw [decide_eq_true h, Bool.true_or, if_pos rfl]
      show (dump_loop calls rest 1).2 = 1
      rw [(ih 1).2]
      split <;> rfl
    · have h1 : ¬ calls.get_ret (strtoull a.data).1 < 0 := by
        have := hget (strtoull a.data).1
        omega
      have h2 : ¬ calls.put_ret (strtoull a.data).1 < 0 := by
        have := hput (strtoull a.data).1
        omega
      rw [if_neg h, if_neg h, if_neg h1, if_neg h2]
      refine ⟨by rw [(ih status).1], ?_⟩
      rw [decide_eq_false h, Bool.false_or]
      exact (ih status).2

/-- A segment that cannot be read ends the run (`goto out`): with segment 5
unreadable the arguments `7x 5 9` leave segment 9 undumped. -/
theorem dumpseg_read_failure_ends_run :
    dumpseg_main dump_calls_fail5 ["/dev/sdb1", "7x", "5", "9"]
      = ([DumpEvent.invalid "7x", DumpEvent.read_failed 5], 1) := by
  decide

/-- C27 (does not hold for the empty argument): the empty string is no number,
yet strtoull leaves no rest for it (it converts nothing and returns 0), so the
loop does not reject it: segment 0 is dumped for it, without a warning, and the
exit status is success. An argument with a rest behind its digits, as `7x`, is
reported and skipped, the later argument `9` is dumped and the exit status is
failure. -/
theorem dumpseg_empty_argument :
    strtoull "".data = (0, []) ∧
    dumpseg_main dump_calls_ok ["/dev/sdb1", "", "9"]
      = ([DumpEvent.dumped 0, DumpEvent.dumped 9], 0) ∧
    dumpseg_main dump_calls_ok ["/dev/sdb1", "7x", "9"]
      = ([DumpEvent.invalid "7x", DumpEvent.dumped 9], 1) := by
  decide

theorem load_logs_starts {G : Geometry} {dev : Device} {segseq endb k : Nat}
    (hk : k ≤ 30) (hbs : G.blocksize = 2 ^ k) (hbps : G.blocks_per_segment < 4294967296) :
    ∀ (fuel b : Nat) (ss : nilfs_segment_summary) (logs : List nilfs_log_info) (bytes : List Nat),
      b < 18446744073709551616 → read_block G dev b SEGSUM_SIZE = some bytes →
      1 ≤ ss.ss_nblocks → ss.ss_nblocks ≤ G.blocks_per_segment → b < endb →
      load_logs G dev segseq endb fuel b ss = some logs →
      ∀ l ∈ logs, b ≤ l.log_start ∧ l.log_start < endb ∧ l.nblocks ≤ G.blocks_per_segment := by
  intro fuel
  induction fuel with
  | zero => intro b ss logs _ _ _ _ _ _ h; simp [load_logs] at h
  | succ fuel ih =>
    intro b ss logs bytes0 hb hrd h1 h2 h3 h
    have hnw := read_block_no_wrap (n := ss.ss_nblocks) hk hbs hb (by omega) hrd
    simp only [load_logs] at h
    rw [Nat.mod_eq_of_lt hnw] at h
    split at h
    · simp only [Option.some.injEq] at h
      subst h
      intro l hl
      simp only [List.mem_singleton] at hl
      subst hl
      exact ⟨le_refl _, h3, h2⟩
    · next hlt =>
      split at h
      · simp at h
      · next bytes hb2 =>
        split at h
        · simp at h
        · next v hv =>
          split at h
          · next hcond =>
            simp only [Bool.and_eq_true, beq_iff_eq] at hcond
            obtain ⟨hvt, _⟩ := hcond
            subst hvt
            obtain ⟨_, k1, k2⟩ := log_is_valid_true hv
            cases hr : load_logs G dev segseq endb fuel (b + ss.ss_nblocks)
                (decode_segsum bytes) with
            | none => simp [hr] at h
            | some r =>
              simp only [hr, Option.map_some', Option.some.injEq] at h
              subst h
              intro l hl
              simp only [List.mem_cons] at hl
              rcases hl with hl | hl
              · subst hl
                exact ⟨le_refl _, h3, h2⟩
              · obtain ⟨a1, a2, a3⟩ := ih _ _ _ _ hnw hb2 k1 k2 (by omega) hr l hl
                exact ⟨by omega, a2, a3⟩
          · simp only [Option.some.injEq] at h
            subst h
            intro l hl
            simp only [List.mem_singleton] at hl
            subst hl
            exact ⟨le_refl _, h3, h2⟩

/-- What holds of log_length: every log of a segment that read_segment loads
starts inside the segment and holds at most blocks_per_segment blocks, so
log_length stays below twice blocks_per_segment; only the start of a log is
checked against the end of the segment. -/
theorem read_segment_log_length {G : Geometry} {dev : Device} {k n : Nat}
    {s : nilfs_segment_info}
    (hk : k ≤ 30) (hbs : G.blocksize = 2 ^ k) (hbps : G.blocks_per_segment < 4294967296)
    (hfdb : G.first_data_block < 18446744073709551616)
    (h : read_segment G dev n = some (s, true)) :
    log_length s + 1 ≤ 2 * G.blocks_per_segment := by
  unfold read_segment at h
  simp only at h
  split at h
  · simp at h
  · next bytes hb =>
    split at h
    · simp at h
    · simp at h
    · next hv =>
      split at h
      · simp at h
      · next logs hl =>
        simp only [Option.some.injEq, Prod.mk.injEq, and_true] at h
        subst h
        obtain ⟨_, k1, k2⟩ := log_is_valid_true hv
        have hs := segment_start_blocknr_lt (G := G) n hfdb
        have hnw := read_block_no_wrap (n := G.blocks_per_segment) hk hbs hs hbps hb
        rw [Nat.mod_eq_of_lt hnw] at hl
        have key := load_logs_starts hk hbs hbps _ _ _ _ _ hs hb k1 k2 (by omega) hl
        unfold log_length
        simp only
        cases hlast : logs.getLast? with
        | none => simp only; omega
        | some l =>
          simp only
          obtain ⟨a1, a2, a3⟩ := key l (List.mem_of_mem_getLast? hlast)
          omega

/-- The last element of a list that satisfies `p`, found by a search from the
end: its position, and nothing behind it satisfies `p`. -/
theorem reverse_find_last {α : Type} (p : α → Bool) :
    ∀ (xs : List α),
      (xs.reverse.find? p = none ↔ ∀ x ∈ xs, p x = false) ∧
      ∀ a, xs.reverse.find? p = some a →
        ∃ i : Nat, xs[i]? = some a ∧ p a = true ∧
          ∀ (j : Nat) (b : α), i < j → xs[j]? = some b → p b = false := by
  intro xs
  induction xs with
  | nil => simp
  | cons x xs ih =>
    obtain ⟨ih1, ih2⟩ := ih
    rw [List.reverse_cons, List.find?_append]
    cases hr : xs.reverse.find? p with
    | some a =>
      obtain ⟨i, e1, e2, e3⟩ := ih2 a hr
      refine ⟨?_, ?_⟩
      · simp only [Option.or_some, List.mem_cons, forall_eq_or_imp, false_iff, not_and,
          reduceCtorEq]
        intro _ hall
        have hm : a ∈ xs := by
          have := List.mem_of_find?_eq_some hr
          simpa using this
        rw [hall a hm] at e2
        exact absurd e2 (by simp)
      · intro a1 ha1
        simp only [Option.or_some, Option.some.injEq] at ha1
        subst ha1
        refine ⟨i + 1, by simpa using e1, e2, ?_⟩
        intro j b hj hb
        cases j with
        | zero => omega
        | succ j =>
          simp only [List.getElem?_cons_succ] at hb
          exact e3 j b (by omega) hb
    | none =>
      have hall := ih1.mp hr
      simp only [Option.none_or]
      by_cases hx : p x = true
      · simp only [List.find?_cons_of_pos _ hx, reduceCtorEq, List.mem_cons, forall_eq_or_imp,
          false_iff, not_and, Option.some.injEq]
        refine ⟨fun h => by rw [h] at hx; exact absurd hx (by simp), ?_⟩
        intro a ha
        subst ha
        refine ⟨0, List.getElem?_cons_zero, hx, ?_⟩
        intro j b hj hb
        cases j with
        | zero => omega
        | succ j =>
          simp only [List.getElem?_cons_succ] at hb
          exact hall b (List.getElem?_mem hb)
      · have hx1 : p x = false := by simpa using hx
        simp only [List.find?_cons_of_neg _ hx, List.find?_nil, List.mem_cons, forall_eq_or_imp,
          true_iff, reduceCtorEq, false_implies, implies_true, and_true]
        exact ⟨hx1, hall⟩

/-- C33: lookup_last_super_root returns NULL exactly when no log of the list
carries NILFS_SS_SR; a log it returns carries the flag and stands at a position
of the list behind which no log carries it, the greatest position of a log
with the flag. -/
theorem lookup_last_super_root_last (seginfo : nilfs_segment_info) :
    (lookup_last_super_root seginfo = none ↔
      ∀ l ∈ seginfo.log_list, l.flags &&& NILFS_SS_SR = 0) ∧
    ∀ log, lookup_last_super_root seginfo = some log →
      ∃ i : Nat, seginfo.log_list[i]? = some log ∧ log.flags &&& NILFS_SS_SR ≠ 0 ∧
        ∀ (j : Nat) (l : nilfs_log_info), i < j → seginfo.log_list[j]? = some l → l.flags &&& NILFS_SS_SR = 0 := by
  obtain ⟨h1, h2⟩ := reverse_find_last has_sr seginfo.log_list
  have e : ∀ l : nilfs_log_info, has_sr l = false ↔ l.flags &&& NILFS_SS_SR = 0 := by
    intro l
    simp [has_sr]
  have e2 : ∀ l : nilfs_log_info, has_sr l = true ↔ l.flags &&& NILFS_SS_SR ≠ 0 := by
    intro l
    simp [has_sr]
  unfold lookup_last_super_root
  refine ⟨?_, ?_⟩
  · rw [h1]
    exact ⟨fun h l hl => (e l).mp (h l hl), fun h l hl => (e l).mpr (h l hl)⟩
  · intro log hlog
    obtain ⟨i, a1, a2, a3⟩ := h2 log hlog
    exact ⟨i, a1, (e2 log).mp a2, fun j l hj hl => (e l).mp (a3 j l hj hl)⟩

/-- Witness of C33: in a list of a plain log, an SR log and a plain log the SR
log at position 1 is returned. -/
theorem lookup_last_super_root_last_witness :
    lookup_last_super_root (sample_segment 2 8 9
        [sample_log 8 0 3 9 1, sample_log 9 0 7 9 1, sample_log 10 0 3 9 1])
      = some (sample_log 9 0 7 9 1) ∧
    ∃ i : Nat, (sample_segment 2 8 9
        [sample_log 8 0 3 9 1, sample_log 9 0 7 9 1, sample_log 10 0 3 9 1]).log_list[i]?
          = some (sample_log 9 0 7 9 1) ∧
      (sample_log 9 0 7 9 1).flags &&& NILFS_SS_SR ≠ 0 ∧
      ∀ (j : Nat) (l : nilfs_log_info), i < j → (sample_segment 2 8 9
        [sample_log 8 0 3 9 1, sample_log 9 0 7 9 1, sample_log 10 0 3 9 1]).log_list[j]?
          = some l → l.flags &&& NILFS_SS_SR = 0 :=
  ⟨by decide, (lookup_last_super_root_last _).2 _ (by decide)⟩

/-- C36: a segment and a log that find_latest_super_root returns belong
together: the log carries NILFS_SS_SR, it is an element of the log list of the
segment, and it is the last log of that list with the flag, the one
lookup_last_super_root returns for the segment. -/
theorem find_latest_super_root_pair (G : Geometry) (dev : Device) (cache : SegmentCache)
    (segnum blocknr : Nat) (seg : nilfs_segment_info) (log : nilfs_log_info)
    (h : find_latest_super_root_ret G dev cache segnum blocknr = some (some (seg, log))) :
    log.flags &&& NILFS_SS_SR ≠ 0 ∧ log ∈ seg.log_list ∧
      lookup_last_super_root seg = some log ∧
      ∃ i : Nat, seg.log_list[i]? = some log ∧
        ∀ (j : Nat) (l : nilfs_log_info), i < j → seg.log_list[j]? = some l → l.flags &&& NILFS_SS_SR = 0 := by
  obtain ⟨hl, _⟩ := search_result_spec h
  obtain ⟨i, a1, a2, a3⟩ := (reverse_find_last has_sr seg.log_list).2 log hl
  have e : ∀ l : nilfs_log_info, has_sr l = false ↔ l.flags &&& NILFS_SS_SR = 0 := by
    intro l
    simp [has_sr]
  refine ⟨?_, List.getElem?_mem a1, hl, i, a1, fun j l hj hb => (e l).mp (a3 j l hj hb)⟩
  simpa [has_sr] using a2

/-- Witness of C36: on image_torn the search returns segment 59 with its SR log
at block 236. -/
theorem find_latest_super_root_pair_witness :
    (sample_log 236 2497147040 7 9 1).flags &&& NILFS_SS_SR ≠ 0 ∧
      sample_log 236 2497147040 7 9 1
        ∈ (sample_segment 59 236 9 [sample_log 236 2497147040 7 9 1]).log_list ∧
      lookup_last_super_root (sample_segment 59 236 9 [sample_log 236 2497147040 7 9 1])
        = some (sample_log 236 2497147040 7 9 1) ∧
      ∃ i : Nat, (sample_segment 59 236 9 [sample_log 236 2497147040 7 9 1]).log_list[i]?
          = some (sample_log 236 2497147040 7 9 1) ∧
        ∀ (j : Nat) (l : nilfs_log_info), i < j →
          (sample_segment 59 236 9 [sample_log 236 2497147040 7 9 1]).log_list[j]? = some l →
          l.flags &&& NILFS_SS_SR = 0 :=
  find_latest_super_root_pair sample_geometry image_torn [] 60 240 _ _ image_torn_ret

theorem cache_shape_segnums (c : SegmentCache) :
    (cache_shape c).map (fun s => s.segnum) = c.map (fun s => s.segnum) := by
  unfold cache_shape
  rw [List.map_map]
  rfl

theorem segnums_of_shape {c c1 : SegmentCache} (h : cache_shape c1 = cache_shape c) :
    c1.map (fun s => s.segnum) = c.map (fun s => s.segnum) := by
  rw [← cache_shape_segnums c1, h, cache_shape_segnums]

theorem cache_entry_none_iff (c : SegmentCache) (k : Nat) :
    cache_entry c k = none ↔ k ∉ c.map (fun s => s.segnum) := by
  unfold cache_entry
  rw [List.find?_eq_none]
  simp only [beq_iff_eq, List.mem_map, not_exists, not_and]

/-- Every call keeps the segment numbers of the cache distinct. -/
theorem cache_call_nodup {G : Geometry} {dev : Device} {c c1 : SegmentCache} (a : CacheCall)
    (hc : (c.map (fun s => s.segnum)).Nodup) (h : cache_call G dev c a = some c1) :
    (c1.map (fun s => s.segnum)).Nodup := by
  cases a with
  | load k =>
    simp only [cache_call, Option.map_eq_some'] at h
    obtain ⟨r, hr, e⟩ := h
    subst e
    unfold load_segment lookup_segment at hr
    cases he : cache_entry c k with
    | some s =>
      simp only [he, Option.some.injEq] at hr
      subst hr
      simp only
      rw [segnums_of_shape (cache_shape_get c k)]
      exact hc
    | none =>
      simp only [he] at hr
      cases hrs : read_segment G dev k with
      | none => simp [hrs] at hr
      | some p =>
        obtain ⟨s, ok⟩ := p
        have hk := (read_segment_segnum hrs).1
        have hn := (cache_entry_none_iff c k).mp he
        have key : ((c ++ [s]).map (fun s => s.segnum)).Nodup := by
          rw [List.map_append, List.map_singleton, hk]
          exact List.Nodup.append hc (List.nodup_singleton k)
            (by simpa [List.Disjoint] using hn)
        cases ok <;> simp only [hrs, Option.some.injEq] at hr <;> subst hr <;> exact key
  | lookup k =>
    simp only [cache_call] at h
    unfold lookup_segment at h
    cases he : cache_entry c k with
    | some s =>
      simp only [he, Option.some.injEq] at h
      subst h
      rw [segnums_of_shape (cache_shape_get c k)]
      exact hc
    | none =>
      simp only [he, Option.some.injEq] at h
      subst h
      exact hc
  | put k =>
    simp only [cache_call] at h
    rw [put_segment_info_eq] at h
    split at h
    · simp only [Option.some.injEq] at h
      subst h
      rw [segnums_of_shape (cache_shape_update (fun s => { s with refcnt := s.refcnt - 1 })
        (fun _ => rfl) k c)]
      exact hc
    · simp at h
  | shrink =>
    simp only [cache_call, Option.some.injEq] at h
    subst h
    unfold shrink_segment_cache
    exact (List.filter_sublist _).map _ |>.nodup hc

/-- C38: after any sequence of load_segment, lookup_segment, put_segment_info
and shrink_segment_cache calls from the empty cache that comes back, the cache
holds at most one entry for a segment number; and shrink_segment_cache then
keeps exactly the entries whose reference count is not 0, each as it was, log
list included, and in their order. -/
theorem cache_calls_one_entry (G : Geometry) (dev : Device) (calls : List CacheCall)
    (c : SegmentCache) (h : cache_calls G dev calls [] = some c) :
    (c.map (fun s => s.segnum)).Nodup ∧
      (∀ e, e ∈ shrink_segment_cache c ↔ e ∈ c ∧ e.refcnt ≠ 0) ∧
      (shrink_segment_cache c).Sublist c ∧
      ((shrink_segment_cache c).map (fun s => s.segnum)).Nodup := by
  have main : ∀ (calls : List CacheCall) (c0 c : SegmentCache),
      (c0.map (fun s => s.segnum)).Nodup → cache_calls G dev calls c0 = some c →
      (c.map (fun s => s.segnum)).Nodup := by
    intro calls
    induction calls with
    | nil =>
      intro c0 c h0 h
      simp only [cache_calls, Option.some.injEq] at h
      subst h
      exact h0
    | cons a rest ih =>
      intro c0 c h0 h
      simp only [cache_calls] at h
      cases ha : cache_call G dev c0 a with
      | none => simp [ha] at h
      | some c1 =>
        simp only [ha] at h
        exact ih c1 c (cache_call_nodup a h0 ha) h
  have hn := main calls [] c (by simp) h
  refine ⟨hn, ?_, List.filter_sublist _, (List.filter_sublist _).map _ |>.nodup hn⟩
  intro e
  unfold shrink_segment_cache
  simp [List.mem_filter]

/-- Witness of C38: on image_torn segment 59 is loaded and released, segment 60
does not load, segment 59 is looked up; the cache holds segments 59 (held) and
60 (the record of the failed load, count 0), and shrinking leaves segment 59. -/
theorem cache_calls_one_entry_witness :
    (cache_calls sample_geometry image_torn
        [CacheCall.load 59, CacheCall.put 59, CacheCall.load 60, CacheCall.lookup 59] []).map
        (fun c => c.map (fun s => (s.segnum, s.refcnt))) = some [(59, 1), (60, 0)] ∧
    (shrink_segment_cache
        [sample_segment 59 236 9 [sample_log 236 2497147040 7 9 1], failed_record 60]).map
        (fun s => s.segnum) = [59] ∧
    ((([sample_segment 59 236 9 [sample_log 236 2497147040 7 9 1], failed_record 60] :
        SegmentCache).map (fun s => s.segnum)).Nodup ∧
      (∀ e, e ∈ shrink_segment_cache
          [sample_segment 59 236 9 [sample_log 236 2497147040 7 9 1], failed_record 60] ↔
        e ∈ ([sample_segment 59 236 9 [sample_log 236 2497147040 7 9 1], failed_record 60] :
          SegmentCache) ∧ e.refcnt ≠ 0) ∧
      (shrink_segment_cache
          [sample_segment 59 236 9 [sample_log 236 2497147040 7 9 1], failed_record 60]).Sublist
        [sample_segment 59 236 9 [sample_log 236 2497147040 7 9 1], failed_record 60] ∧
      ((shrink_segment_cache
          [sample_segment 59 236 9 [sample_log 236 2497147040 7 9 1], failed_record 60]).map
        (fun s => s.segnum)).Nodup) :=
  ⟨by decide!, by decide,
    cache_calls_one_entry sample_geometry image_torn
      [CacheCall.load 59, CacheCall.put 59, CacheCall.load 60, CacheCall.lookup 59] _
      (by decide!)⟩

/-- C37 (does not hold for segment 0): with first data block 2 and 4 blocks per
segment, load_segment for segment 0 of image_long0 returns the logs at blocks 2
and 5, and 5 / 4 = 1 is not the segment number 0 the log is cached under. -/
theorem load_segment_segnum_mismatch :
    ∃ c s l, load_segment sample_geometry_fdb2 image_long0 [] 0 = some (c, some s) ∧
      0 < sample_geometry_fdb2.nsegments ∧ s.segnum = 0 ∧ l ∈ s.log_list ∧ l.log_start = 5 ∧
      l.log_start / sample_geometry_fdb2.blocks_per_segment = 1 := by
  obtain ⟨hl, pre, post, hloads, _⟩ := search_result_spec image_long0_ret
  have hmem : some (sample_segment 0 2 20
      [sample_log 2 2630275991 3 20 3, sample_log 5 200291412 7 20 1])
      ∈ search_loads sample_geometry_fdb2 image_long0 [] 2 8 := by
    rw [hloads]
    simp
  have hd : disk_segment sample_geometry_fdb2 image_long0 (sample_segment 0 2 20
      [sample_log 2 2630275991 3 20 3, sample_log 5 200291412 7 20 1]) :=
    search_loads_on_disk hmem (by rw [hl]; rfl)
  unfold disk_segment at hd
  have e : (sample_segment 0 2 20
      [sample_log 2 2630275991 3 20 3, sample_log 5 200291412 7 20 1]).segnum = 0 := rfl
  rw [e] at hd
  rw [load_segment_nil, hd]
  exact ⟨_, _, sample_log 5 200291412 7 20 1, rfl, by decide, rfl, by decide, by decide,
    by decide⟩

/-- What holds of the segment numbers: for a segment number above 0 whose start
block is a 64-bit value, every log of the segment that read_segment loads
starts inside the segment, so its block number divided by blocks_per_segment
gives the segment number back. -/
theorem read_segment_segnum_match {G : Geometry} {dev : Device} {k n : Nat}
    {s : nilfs_segment_info}
    (hk : k ≤ 30) (hbs : G.blocksize = 2 ^ k) (hbps : G.blocks_per_segment < 4294967296)
    (hfdb : G.first_data_block < 18446744073709551616)
    (hn : 0 < n) (hmul : G.blocks_per_segment * n < 18446744073709551616)
    (h : read_segment G dev n = some (s, true)) :
    ∀ l ∈ s.log_list, l.log_start / G.blocks_per_segment = n := by
  unfold read_segment at h
  simp only at h
  split at h
  · simp at h
  · next bytes hb =>
    split at h
    · simp at h
    · simp at h
    · next hv =>
      split at h
      · simp at h
      · next logs hl =>
        simp only [Option.some.injEq, Prod.mk.injEq, and_true] at h
        subst h
        obtain ⟨_, k1, k2⟩ := log_is_valid_true hv
        have hs := segment_start_blocknr_lt (G := G) n hfdb
        have hnw := read_block_no_wrap (n := G.blocks_per_segment) hk hbs hs hbps hb
        rw [Nat.mod_eq_of_lt hnw] at hl
        have key := load_logs_starts hk hbs hbps _ _ _ _ _ hs hb k1 k2 (by omega) hl
        have hstart : segment_start_blocknr G n = G.blocks_per_segment * n := by
          unfold segment_start_blocknr
          rw [if_pos hn, Nat.mod_eq_of_lt hmul]
        intro l hl1
        obtain ⟨a1, a2, _⟩ := key l hl1
        rw [hstart] at a1 a2
        apply Nat.div_eq_of_lt_le
        · rw [Nat.mul_comm]; exact a1
        · rw [Nat.succ_mul, Nat.mul_comm]; exact a2

/-- C35: for a cursor whose offset plus the entry size is a 32-bit value (every
cursor of get_latest_cno: the offset starts as the 16-bit ss_bytes and then
stays within the block) and an entry size that does not exceed the block size:
when offset + entry_size does not exceed the block size next_ss_entry returns
the entry at the current offset, otherwise it reads the next block and returns
the entry at offset 0 (it comes back when read_block delivers that block); in
both cases the entry ends inside the block, the offset afterwards is the start
of the entry plus entry_size, and that is at most the block size. -/
theorem next_ss_entry_inside (G : Geometry) (dev : Device) (cur : SsCursor) (entry_size : Nat)
    (hsize : entry_size ≤ G.blocksize) (hoff : cur.offset + entry_size < 4294967296) :
    (cur.offset + entry_size ≤ G.blocksize →
      next_ss_entry G dev cur entry_size
        = some ({ cur with offset := cur.offset + entry_size }, cur.offset)) ∧
    (G.blocksize < cur.offset + entry_size →
      ∀ b, read_block G dev ((cur.blocknr + 1) % 18446744073709551616) G.blocksize = some b →
        next_ss_entry G dev cur entry_size
          = some ({ buf := b, blocknr := (cur.blocknr + 1) % 18446744073709551616,
                    offset := entry_size }, 0)) ∧
    (∀ cur1 p, next_ss_entry G dev cur entry_size = some (cur1, p) →
      p + entry_size ≤ G.blocksize ∧ cur1.offset = p + entry_size ∧
      cur1.offset ≤ G.blocksize ∧
      ((p = cur.offset ∧ cur1.blocknr = cur.blocknr ∧ cur1.buf = cur.buf) ∨
        (p = 0 ∧ cur1.blocknr = (cur.blocknr + 1) % 18446744073709551616 ∧
          cur1.buf.length = G.blocksize))) := by
  have e1 : (cur.offset + entry_size) % 4294967296 = cur.offset + entry_size :=
    Nat.mod_eq_of_lt hoff
  have e2 : entry_size % 4294967296 = entry_size := Nat.mod_eq_of_lt (by omega)
  unfold next_ss_entry
  rw [e1, e2]
  refine ⟨?_, ?_, ?_⟩
  · intro h
    rw [if_neg (by omega)]
  · intro h b hb
    rw [if_pos (by omega), hb]
  · intro cur1 p h
    by_cases hc : cur.offset + entry_size > G.blocksize
    · rw [if_pos hc] at h
      cases hb : read_block G dev ((cur.blocknr + 1) % 18446744073709551616) G.blocksize with
      | none => rw [hb] at h; simp at h
      | some b =>
        rw [hb] at h
        simp only [Option.some.injEq, Prod.mk.injEq] at h
        obtain ⟨h1, h2⟩ := h
        subst h1; subst h2
        exact ⟨by omega, by simp, hsize, Or.inr ⟨rfl, rfl, read_block_length hb⟩⟩
    · rw [if_neg hc] at h
      simp only [Option.some.injEq, Prod.mk.injEq] at h
      obtain ⟨h1, h2⟩ := h
      subst h1; subst h2
      exact ⟨by omega, rfl, by simp only; omega, Or.inl ⟨rfl, rfl, rfl⟩⟩

/-- Witness of C35: at offset 56 of a 1024-byte block an entry of 24 bytes is
returned at offset 56 and leaves the offset 80; at offset 1016 it does not fit,
block 241 is read and the entry is returned at offset 0. -/
theorem next_ss_entry_inside_witness :
    (next_ss_entry sample_geometry image_nocno nocno_state.cur FINFO_SIZE).map
        (fun r => (r.1.blocknr, r.1.offset, r.2)) = some (240, 80, 56) ∧
    (next_ss_entry sample_geometry image_nocno { nocno_state.cur with offset := 1016 }
        FINFO_SIZE).map (fun r => (r.1.blocknr, r.1.offset, r.2)) = some (241, 24, 0) ∧
    (nocno_state.cur.offset + FINFO_SIZE ≤ sample_geometry.blocksize →
      next_ss_entry sample_geometry image_nocno nocno_state.cur FINFO_SIZE
        = some ({ nocno_state.cur with offset := nocno_state.cur.offset + FINFO_SIZE },
            nocno_state.cur.offset)) :=
  ⟨by decide!, by decide!,
    (next_ss_entry_inside sample_geometry image_nocno nocno_state.cur FINFO_SIZE
      (by decide) (by decide)).1⟩

/-- On a chain that fills up to `endb` the loop of load_segment returns the
chain, and reads as summaries the starts of its logs behind the first. -/
theorem load_logs_exact_fill {G : Geometry} {dev : Device} {seq endb : Nat}
    (hend : endb < 18446744073709551616) :
    ∀ (logs : List nilfs_log_info) (b fuel : Nat) (bytes : List Nat),
      endb ≤ b + fuel → exact_fill G dev seq endb b logs →
      read_block G dev b SEGSUM_SIZE = some bytes →
      load_logs G dev seq endb fuel b (decode_segsum bytes) = some logs ∧
      load_logs_reads G dev seq endb fuel b (decode_segsum bytes)
        = (logs.drop 1).map (fun l => l.log_start) ∧
      ∀ l ∈ logs, b ≤ l.log_start ∧ l.log_start < endb := by
  intro logs
  induction logs with
  | nil => intro b fuel bytes _ hf; exact absurd hf (by simp [exact_fill])
  | cons l rest ih =>
    intro b fuel bytes hfuel hf hb
    unfold exact_fill at hf
    obtain ⟨bytes1, hb1, hv, hseq, hl, hrest⟩ := hf
    rw [hb] at hb1
    simp only [Option.some.injEq] at hb1
    subst hb1
    obtain ⟨_, hn1, _⟩ := log_is_valid_true hv
    cases rest with
    | nil =>
      simp only at hrest
      have hpos : 0 < fuel := by omega
      obtain ⟨f, rfl⟩ := Nat.exists_eq_succ_of_ne_zero (Nat.pos_iff_ne_zero.mp hpos)
      have hnext : (b + (decode_segsum bytes).ss_nblocks) % 18446744073709551616 = endb := by
        rw [hrest]; exact Nat.mod_eq_of_lt hend
      refine ⟨?_, ?_, ?_⟩
      · simp only [load_logs, hnext, ge_iff_le, le_refl, if_true]
        rw [hl]
      · simp only [load_logs_reads, hnext, ge_iff_le, le_refl, if_true]
        rfl
      · intro x hx
        simp only [List.mem_singleton] at hx
        subst hx
        rw [hl]
        simp only
        omega
    | cons l2 rest2 =>
      simp only at hrest
      obtain ⟨hlt, hrest⟩ := hrest
      have hpos : 0 < fuel := by omega
      obtain ⟨f, rfl⟩ := Nat.exists_eq_succ_of_ne_zero (Nat.pos_iff_ne_zero.mp hpos)
      have hnext : (b + (decode_segsum bytes).ss_nblocks) % 18446744073709551616
          = b + (decode_segsum bytes).ss_nblocks := Nat.mod_eq_of_lt (by omega)
      have hrest0 := hrest
      unfold exact_fill at hrest0
      obtain ⟨bytes2, hb2, hv2, hseq2, hl2, _⟩ := hrest0
      obtain ⟨i1, i2, i3⟩ := ih (b + (decode_segsum bytes).ss_nblocks) f bytes2 (by omega)
        hrest hb2
      refine ⟨?_, ?_, ?_⟩
      · simp only [load_logs, hnext, ge_iff_le, if_neg (Nat.not_le.mpr hlt), hb2, hv2, hseq2,
          Bool.true_and, beq_self_eq_true, if_true, i1, Option.map_some']
        rw [hl]
      · simp only [load_logs_reads, hnext, ge_iff_le, if_neg (Nat.not_le.mpr hlt), hb2, hv2,
          hseq2, Bool.true_and, beq_self_eq_true, if_true, i2]
        rw [hl2]
        rfl
      · intro x hx
        rcases List.mem_cons.mp hx with hx | hx
        · subst hx
          rw [hl]
          simp only
          omega
        · have := i3 x hx
          omega

/-- C34: when the valid logs of segment `segnum` under one sequence number fill
the segment exactly (the last ends at seg_start + blocks_per_segment, a 64-bit
value), load_segment, on a cache whose entries were built from this device,
returns the segment with exactly those logs and nlogs equal to their number;
the blocks it reads as summaries when it loads the segment are the starts of
these logs, so none lies at or beyond the segment end. -/
theorem load_segment_exact_fill (G : Geometry) (dev : Device) (c : SegmentCache)
    (segnum seq : Nat) (logs : List nilfs_log_info)
    (hend : segment_start_blocknr G segnum + G.blocks_per_segment < 18446744073709551616)
    (hc : cache_loaded G dev c)
    (hfill : exact_fill G dev seq (segment_start_blocknr G segnum + G.blocks_per_segment)
      (segment_start_blocknr G segnum) logs) :
    (∃ c1 s, load_segment G dev c segnum = some (c1, some s) ∧ s.segnum = segnum ∧
      s.log_list = logs ∧ s.nlogs = logs.length ∧ s.segseq = seq) ∧
    load_segment_reads G dev segnum = logs.map (fun l => l.log_start) ∧
    ∀ b ∈ load_segment_reads G dev segnum,
      b < segment_start_blocknr G segnum + G.blocks_per_segment := by
  have hmod : (segment_start_blocknr G segnum + G.blocks_per_segment) % 18446744073709551616
      = segment_start_blocknr G segnum + G.blocks_per_segment := Nat.mod_eq_of_lt hend
  cases logs with
  | nil => exact absurd hfill (by simp [exact_fill])
  | cons l rest =>
    have hfill0 := hfill
    unfold exact_fill at hfill0
    obtain ⟨bytes, hb, hv, hseq, hl, _⟩ := hfill0
    obtain ⟨k1, k2, k3⟩ := load_logs_exact_fill hend (l :: rest) (segment_start_blocknr G segnum)
      G.blocks_per_segment bytes (le_refl _) hfill hb
    have hread : read_segment G dev segnum
        = some ({ log_list := l :: rest, seg_start := segment_start_blocknr G segnum,
                  next := (decode_segsum bytes).ss_next, segseq := seq, segnum := segnum,
                  nlogs := (l :: rest).length, refcnt := 1 }, true) := by
      unfold read_segment
      simp only [hb, hv, hmod, hseq] at k1 ⊢
      rw [k1]
    have hreads : load_segment_reads G dev segnum = (l :: rest).map (fun l => l.log_start) := by
      unfold load_segment_reads
      simp only [hb, hv, hmod, hseq] at k2 ⊢
      rw [k2, hl]
      rfl
    refine ⟨?_, hreads, ?_⟩
    · unfold load_segment lookup_segment
      cases he : cache_entry c segnum with
      | none =>
        simp only [hread]
        exact ⟨_, _, rfl, rfl, rfl, rfl, rfl⟩
      | some e =>
        simp only
        have hmem : e ∈ c := List.mem_of_find?_eq_some he
        have hsn : e.segnum = segnum := by
          have := List.find?_some he
          simpa using this
        obtain ⟨ok, hok⟩ := hc e hmem
        rw [hsn, hread] at hok
        simp only [Option.some.injEq, Prod.mk.injEq] at hok
        obtain ⟨h1, _⟩ := hok
        have a1 := congrArg nilfs_segment_info.log_list h1
        have a2 := congrArg nilfs_segment_info.nlogs h1
        have a3 := congrArg nilfs_segment_info.segseq h1
        simp only at a1 a2 a3
        exact ⟨_, _, rfl, hsn, a1.symm, a2.symm, a3.symm⟩
    · intro b hbm
      rw [hreads] at hbm
      obtain ⟨x, hx, rfl⟩ := List.mem_map.mp hbm
      exact (k3 x hx).2

/-- On image_fill the summaries of blocks 8 and 11 are read as written. -/
theorem image_fill_reads :
    read_block sample_geometry image_fill 8 SEGSUM_SIZE
        = some (sample_summary 2630275991 3 20 3) ∧
      read_block sample_geometry image_fill 11 SEGSUM_SIZE
        = some (sample_summary 200291412 7 20 1) := by
  decide!

/-- On image_fill the logs at blocks 8 and 11 pass log_is_valid. -/
theorem image_fill_valid :
    log_is_valid sample_geometry image_fill 8
        (decode_segsum (sample_summary 2630275991 3 20 3)) = some true ∧
      log_is_valid sample_geometry image_fill 11
        (decode_segsum (sample_summary 200291412 7 20 1)) = some true := by
  decide!

/-- The two logs of image_fill fill segment 2 exactly. -/
theorem image_fill_exact :
    exact_fill sample_geometry image_fill 20
      (segment_start_blocknr sample_geometry 2 + sample_geometry.blocks_per_segment)
      (segment_start_blocknr sample_geometry 2)
      [sample_log 8 2630275991 3 20 3, sample_log 11 200291412 7 20 1] := by
  unfold exact_fill
  refine ⟨sample_summary 2630275991 3 20 3, image_fill_reads.1, image_fill_valid.1,
    by decide, by decide, by decide, ?_⟩
  unfold exact_fill
  exact ⟨sample_summary 200291412 7 20 1, image_fill_reads.2, image_fill_valid.2,
    by decide, by decide, by decide⟩

/-- Witness of C34: segment 2 of image_fill (blocks 8 to 11) holds a 3-block
log at block 8 and a 1-block log at block 11; load_segment returns these two
logs and reads blocks 8 and 11 as summaries, not block 12. -/
theorem load_segment_exact_fill_witness :
    segment_start_blocknr sample_geometry 2 + sample_geometry.blocks_per_segment = 12 ∧
    ((∃ c1 s, load_segment sample_geometry image_fill [] 2 = some (c1, some s) ∧ s.segnum = 2 ∧
        s.log_list = [sample_log 8 2630275991 3 20 3, sample_log 11 200291412 7 20 1] ∧
        s.nlogs = 2 ∧ s.segseq = 20) ∧
      load_segment_reads sample_geometry image_fill 2 = [8, 11] ∧
      ∀ b ∈ load_segment_reads sample_geometry image_fill 2, b < 12) :=
  ⟨by decide,
    load_segment_exact_fill sample_geometry image_fill [] 2 20
      [sample_log 8 2630275991 3 20 3, sample_log 11 200291412 7 20 1] (by decide)
      (fun e he => absurd he (List.not_mem_nil e)) image_fill_exact⟩

/-- The log of image_twocp passes log_is_valid. -/
theorem image_twocp_valid :
    log_is_valid sample_geometry image_twocp 240
      (decode_segsum (dev_bytes image_twocp 245760 64)) = some true := by
  decide!

/-- The second finfo record of image_twocp as the summary block holds it, at
offset 96 of block 240: inode 4 with one block, a data block. -/
theorem image_twocp_second_record :
    [buf_field (dev_bytes image_twocp 245760 1024) 96 8,
     buf_field (dev_bytes image_twocp 245760 1024) 112 4,
     buf_field (dev_bytes image_twocp 245760 1024) 116 4] = [some 4, some 1, some 1] := by
  decide!

/-- The pass of get_latest_cno over the first record of image_twocp leaves the
cursor at offset 96 of block 240 while the block buffer holds block 241; the
record decoded there has inode 0 and no blocks. -/
theorem image_twocp_first_pass :
    ((finfo_init sample_geometry image_twocp 240).bind (fun r =>
        finfo_step sample_geometry image_twocp r.2)).map (fun st =>
      [st.cur.blocknr, st.cur.offset, st.latest_cno,
       if st.cur.buf = dev_bytes image_twocp 246784 1024 then 1 else 0,
       (buf_field st.cur.buf 96 8).getD 1, (buf_field st.cur.buf 112 4).getD 1,
       (buf_field st.cur.buf 116 4).getD 1])
      = some [240, 96, 41, 1, 0, 0, 0] := by
  decide!

/-- The run of get_latest_cno on image_twocp: one call of
find_latest_checkpoint, for block 241, and the result 41. -/
theorem image_twocp_run :
    (get_latest_cno_run sample_geometry image_twocp 240).map (fun st =>
      (st.latest_cno, st.calls)) = some (41, [(241, 3)]) := by
  decide!

/-- The records of image_twocp decoded from the summary: two scans, blocks 241
and 242, and the maximum 50. -/
theorem image_twocp_summary :
    (summary_latest_cno sample_geometry image_twocp 240).map (fun st =>
      (st.latest_cno, st.calls)) = some (50, [(241, 3), (242, 7)]) := by
  decide!

/-- C31 (does not hold behind a checkpoint-file record): on image_twocp the
summary of the log at block 240 holds two finfo records of the checkpoint file,
each with one data block, whose checkpoint blocks have the maxima 41 and 50.
find_latest_checkpoint leaves block 241 in the block buffer, so get_latest_cno
decodes the second record at offset 96 of block 241 instead of block 240, finds
inode 0 there, scans block 241 only and returns 41; the maximum over the
records of the summary is 50. -/
theorem get_latest_cno_after_checkpoint_record :
    log_is_valid sample_geometry image_twocp 240
        (decode_segsum (dev_bytes image_twocp 245760 64)) = some true ∧
      get_latest_cno sample_geometry image_twocp 240 = some 41 ∧
      (get_latest_cno_run sample_geometry image_twocp 240).map (fun st => st.calls)
        = some [(241, 3)] ∧
      (summary_latest_cno sample_geometry image_twocp 240).map (fun st =>
        (st.latest_cno, st.calls)) = some (50, [(241, 3), (242, 7)]) ∧
      [buf_field (dev_bytes image_twocp 245760 1024) 96 8,
       buf_field (dev_bytes image_twocp 245760 1024) 112 4,
       buf_field (dev_bytes image_twocp 245760 1024) 116 4] = [some 4, some 1, some 1] ∧
      ((finfo_init sample_geometry image_twocp 240).bind (fun r =>
          finfo_step sample_geometry image_twocp r.2)).map (fun st =>
        [st.cur.blocknr, st.cur.offset, st.latest_cno,
         if st.cur.buf = dev_bytes image_twocp 246784 1024 then 1 else 0,
         (buf_field st.cur.buf 96 8).getD 1, (buf_field st.cur.buf 112 4).getD 1,
         (buf_field st.cur.buf 116 4).getD 1])
        = some [240, 96, 41, 1, 0, 0, 0] := by
  refine ⟨image_twocp_valid, ?_, ?_, image_twocp_summary, image_twocp_second_record,
    image_twocp_first_pass⟩
  · have h := image_twocp_run
    unfold get_latest_cno
    cases hr : get_latest_cno_run sample_geometry image_twocp 240 with
    | none => rw [hr] at h; simp at h
    | some st =>
      rw [hr] at h
      simp only [Option.map_some', Option.some.injEq, Prod.mk.injEq] at h ⊢
      exact h.1
  · have h := image_twocp_run
    cases hr : get_latest_cno_run sample_geometry image_twocp 240 with
    | none => rw [hr] at h; simp at h
    | some st =>
      rw [hr] at h
      simp only [Option.map_some', Option.some.injEq, Prod.mk.injEq] at h ⊢
      exact h.2

theorem ite_gt_max (c m : Nat) : (if c > m then c else m) = max m c := by
  rw [Nat.max_def]
  split <;> split <;> omega

theorem walk_cnos_append (G : Geometry) (dev : Device) :
    ∀ (a b : List nilfs_log_info),
      walk_cnos G dev (a ++ b)
        = (walk_cnos G dev a).bind (fun x => (walk_cnos G dev b).map (fun y => x ++ y)) := by
  intro a
  induction a with
  | nil => intro b; simp [walk_cnos]
  | cons l rest ih =>
    intro b
    simp only [List.cons_append, walk_cnos]
    cases get_latest_cno G dev l.log_start with
    | none => rfl
    | some c =>
      simp only
      have e : rest.append b = rest ++ b := rfl
      rw [e, ih b]
      cases walk_cnos G dev rest with
      | none => rfl
      | some x =>
        simp only [Option.some_bind, Option.map_some']
        cases walk_cnos G dev b with
        | none => rfl
        | some y => rfl

/-- Inside one segment the loop walks the logs of walk_logs and returns the
maximum of their checkpoint numbers and of `latest`. -/
theorem cno_walk_logs_eq (G : Geometry) (dev : Device) :
    ∀ (logs : List nilfs_log_info) (latest : Nat),
      cno_walk_logs G dev logs latest
        = (walk_cnos G dev (walk_logs true logs).1).map (fun cs =>
            (cs.foldl max latest, (walk_logs true logs).2)) := by
  intro logs
  induction logs with
  | nil => intro latest; rfl
  | cons l rest ih =>
    intro latest
    unfold cno_walk_logs walk_logs
    cases hc : get_latest_cno G dev l.log_start with
    | none =>
      by_cases h1 : l.flags &&& NILFS_SS_LOGBGN ≠ 0
      · simp only [if_pos h1, walk_cnos, hc, Option.map_none']
      · cases rest with
        | nil => simp only [if_neg h1, walk_cnos, hc, Option.map_none']
        | cons l2 r2 =>
          simp only [if_neg h1, Bool.true_and, bne_iff_ne, ne_eq]
          by_cases h2 : l2.flags &&& NILFS_SS_LOGEND = 0
          · simp only [h2, not_true_eq_false, if_false, walk_cnos, hc, Option.map_none']
          · simp only [h2, not_false_eq_true, if_true, walk_cnos, hc, Option.map_none']
    | some c =>
      simp only [ite_gt_max]
      by_cases h1 : l.flags &&& NILFS_SS_LOGBGN ≠ 0
      · simp only [if_pos h1, walk_cnos, hc, Option.map_some', List.foldl_cons, List.foldl_nil]
      · cases rest with
        | nil =>
          simp only [if_neg h1, walk_cnos, hc, Option.map_some', List.foldl_cons, List.foldl_nil]
        | cons l2 r2 =>
          simp only [if_neg h1, Bool.true_and, bne_iff_ne, ne_eq]
          by_cases h2 : l2.flags &&& NILFS_SS_LOGEND = 0
          · simp only [h2, not_true_eq_false, if_false]
            rw [ih (max latest c)]
            simp only [walk_cnos, hc]
            cases walk_cnos G dev (walk_logs true (l2 :: r2)).1 with
            | none => rfl
            | some cs => rfl
          · simp only [h2, not_false_eq_true, if_true, walk_cnos, hc, Option.map_some',
              List.foldl_cons, List.foldl_nil]

/-- From segment to segment the loop walks the logs of walk_segments and
returns the maximum of their checkpoint numbers and of `latest`. -/
theorem cno_walk_eq (G : Geometry) (dev : Device) :
    ∀ (n : Nat) (cache : SegmentCache) (seginfo : nilfs_segment_info)
      (logs : List nilfs_log_info) (latest : Nat),
      cno_walk G dev n cache seginfo logs latest
        = (walk_segments G dev true n cache seginfo logs).bind (fun r =>
            (walk_cnos G dev r.2.flatten).map (fun cs => (r.1, cs.foldl max latest))) := by
  intro n
  induction n with
  | zero =>
    intro cache seginfo logs latest
    unfold cno_walk walk_segments
    rw [cno_walk_logs_eq]
    cases hw : walk_logs true logs with
    | mk w b =>
      cases hc : walk_cnos G dev w with
      | none =>
        cases b <;> cases put_segment_info cache seginfo.segnum <;> simp [hc]
      | some cs =>
        cases b <;> cases put_segment_info cache seginfo.segnum <;> simp [hc]
  | succ m ih =>
    intro cache seginfo logs latest
    unfold cno_walk walk_segments
    rw [cno_walk_logs_eq]
    cases hw : walk_logs true logs with
    | mk w b =>
      cases hc : walk_cnos G dev w with
      | none =>
        cases b with
        | false => cases put_segment_info cache seginfo.segnum <;> simp [hc]
        | true =>
          simp only [Option.map_none']
          cases put_segment_info cache seginfo.segnum with
          | none => rfl
          | some c1 =>
            simp only
            cases load_segment G dev c1 (prev_segnum G seginfo.segnum) with
            | none => rfl
            | some q =>
              obtain ⟨c2, o⟩ := q
              cases o with
              | none => simp [hc]
              | some seginfo2 =>
                simp only
                split
                · cases put_segment_info c2 seginfo2.segnum <;> simp [hc]
                · cases hrev : seginfo2.log_list.reverse with
                  | nil => cases put_segment_info c2 seginfo2.segnum <;> simp [hc]
                  | cons l rest =>
                    simp only
                    split
                    · cases put_segment_info c2 seginfo2.segnum <;> simp [hc]
                    · cases walk_segments G dev true m c2 seginfo2 (l :: rest) with
                      | none => rfl
                      | some r =>
                        simp [walk_cnos_append, hc]
      | some cs =>
        cases b with
        | false => cases put_segment_info cache seginfo.segnum <;> simp [hc]
        | true =>
          simp only [Option.map_some']
          cases put_segment_info cache seginfo.segnum with
          | none => rfl
          | some c1 =>
            simp only
            cases load_segment G dev c1 (prev_segnum G seginfo.segnum) with
            | none => rfl
            | some q =>
              obtain ⟨c2, o⟩ := q
              cases o with
              | none => simp [hc]
              | some seginfo2 =>
                simp only
                split
                · cases put_segment_info c2 seginfo2.segnum <;> simp [hc]
                · cases hrev : seginfo2.log_list.reverse with
                  | nil => cases put_segment_info c2 seginfo2.segnum <;> simp [hc]
                  | cons l rest =>
                    simp only [Bool.true_and, bne_iff_ne, ne_eq, ite_not]
                    split
                    · rw [ih]
                      cases walk_segments G dev true m c2 seginfo2 (l :: rest) with
                      | none => rfl
                      | some r =>
                        simp only [Option.some_bind, Option.map_some', List.flatten_cons,
                          walk_cnos_append, hc]
                        cases walk_cnos G dev r.2.flatten with
                        | none => rfl
                        | some ds => simp [List.foldl_append]
                    · cases put_segment_info c2 seginfo2.segnum <;> simp [hc]

/-- The walk inside a segment starts with the log it is given first, its logs
are joined by walk_joins, and when it leaves the segment none of them carries
LOGBGN. -/
theorem walk_logs_spec :
    ∀ (logs : List nilfs_log_info),
      (walk_logs true logs).1.head? = logs.head? ∧
      (walk_logs true logs).1.Chain' walk_joins ∧
      ((walk_logs true logs).2 = true →
        ∀ x ∈ (walk_logs true logs).1, x.flags &&& NILFS_SS_LOGBGN = 0) := by
  intro logs
  induction logs with
  | nil => simp [walk_logs]
  | cons l rest ih =>
    unfold walk_logs
    by_cases h1 : l.flags &&& NILFS_SS_LOGBGN ≠ 0
    · simp [if_pos h1]
    · rw [if_neg h1]
      have h1a : l.flags &&& NILFS_SS_LOGBGN = 0 := not_not.mp h1
      cases rest with
      | nil => simp [h1a]
      | cons l2 r2 =>
        simp only [Bool.true_and, bne_iff_ne, ne_eq, ite_not]
        by_cases h2 : l2.flags &&& NILFS_SS_LOGEND = 0
        · rw [if_pos h2]
          obtain ⟨i1, i2, i3⟩ := ih
          refine ⟨rfl, ?_, ?_⟩
          · simp only
            rw [List.chain'_cons']
            refine ⟨?_, i2⟩
            intro y hy
            rw [i1] at hy
            simp only [List.head?_cons, Option.mem_def, Option.some.injEq] at hy
            subst hy
            exact ⟨h1a, h2⟩
          · intro hb x hx
            simp only at hb hx
            rcases List.mem_cons.mp hx with hx | hx
            · subst hx; exact h1a
            · exact i3 hb x hx
        · rw [if_neg h2]
          simp [h1a]

/-- The walk from segment to segment, started on a non-empty list with `n`
steps allowed, covers at most `n + 1` segments; its logs, in the order walked,
start with the first log given and are joined by walk_joins. -/
theorem walk_segments_spec (G : Geometry) (dev : Device) :
    ∀ (n : Nat) (cache : SegmentCache) (seginfo : nilfs_segment_info) (l : nilfs_log_info)
      (rest : List nilfs_log_info) (r : SegmentCache × List (List nilfs_log_info)),
      walk_segments G dev true n cache seginfo (l :: rest) = some r →
      r.2.length ≤ n + 1 ∧ r.2.flatten.head? = some l ∧ r.2.flatten.Chain' walk_joins := by
  intro n
  induction n with
  | zero =>
    intro cache seginfo l rest r h
    obtain ⟨k1, k2, _⟩ := walk_logs_spec (l :: rest)
    unfold walk_segments at h
    cases hw : walk_logs true (l :: rest) with
    | mk w b =>
      rw [hw] at h k1 k2
      simp only [List.head?_cons] at k1
      have hr : ∃ c, r = (c, [w]) := by
        cases b <;> cases hp : put_segment_info cache seginfo.segnum <;>
          simp [hp] at h <;> exact ⟨_, h.symm⟩
      obtain ⟨c, rfl⟩ := hr
      simp [k1, k2]
  | succ m ih =>
    intro cache seginfo l rest r h
    obtain ⟨k1, k2, k3⟩ := walk_logs_spec (l :: rest)
    unfold walk_segments at h
    cases hw : walk_logs true (l :: rest) with
    | mk w b =>
      rw [hw] at h k1 k2 k3
      simp only [List.head?_cons] at k1
      have single : ∀ c, r = (c, [w]) →
          r.2.length ≤ m + 1 + 1 ∧ r.2.flatten.head? = some l ∧
            r.2.flatten.Chain' walk_joins := by
        intro c hc
        subst hc
        simp [k1, k2]
      cases b with
      | false =>
        cases hp : put_segment_info cache seginfo.segnum with
        | none => simp [hp] at h
        | some c => simp [hp] at h; exact single c h.symm
      | true =>
        simp only at h
        cases hp : put_segment_info cache seginfo.segnum with
        | none => simp [hp] at h
        | some c1 =>
          rw [hp] at h
          simp only at h
          cases hl : load_segment G dev c1 (prev_segnum G seginfo.segnum) with
          | none => simp [hl] at h
          | some q =>
            obtain ⟨c2, o⟩ := q
            rw [hl] at h
            cases o with
            | none => simp at h; exact single c2 h.symm
            | some seginfo2 =>
              simp only at h
              split at h
              · cases hp2 : put_segment_info c2 seginfo2.segnum with
                | none => simp [hp2] at h
                | some c => simp [hp2] at h; exact single c h.symm
              · cases hrev : seginfo2.log_list.reverse with
                | nil =>
                  rw [hrev] at h
                  cases hp2 : put_segment_info c2 seginfo2.segnum with
                  | none => simp [hp2] at h
                  | some c => simp [hp2] at h; exact single c h.symm
                | cons l2 rest2 =>
                  rw [hrev] at h
                  simp only [Bool.true_and, bne_iff_ne, ne_eq, ite_not] at h
                  by_cases h2 : l2.flags &&& NILFS_SS_LOGEND = 0
                  · rw [if_pos h2] at h
                    cases hws : walk_segments G dev true m c2 seginfo2 (l2 :: rest2) with
                    | none => simp [hws] at h
                    | some r2 =>
                      rw [hws] at h
                      simp only [Option.map_some', Option.some.injEq] at h
                      subst h
                      obtain ⟨j1, j2, j3⟩ := ih c2 seginfo2 l2 rest2 r2 hws
                      refine ⟨?_, ?_, ?_⟩
                      · simp only [List.length_cons]; omega
                      · simp only [List.flatten_cons, List.head?_append, k1]
                        rfl
                      · simp only [List.flatten_cons]
                        rw [List.chain'_append]
                        refine ⟨k2, j3, ?_⟩
                        intro x hx y hy
                        rw [j2] at hy
                        simp only [Option.mem_def, Option.some.injEq] at hy
                        subst hy
                        exact ⟨k3 rfl x (List.mem_of_mem_getLast? hx), h2⟩
                  · rw [if_neg h2] at h
                    cases hp2 : put_segment_info c2 seginfo2.segnum with
                    | none => simp [hp2] at h
                    | some c => simp [hp2] at h; exact single c h.symm

/-- C32 (with the test for LOGEND): find_latest_cno_in_logical_segment returns
exactly when its walk returns and get_latest_cno returns for every log walked,
and the value is then the maximum of get_latest_cno over the logs walked (0 for
none). The walk is that of logical_segment_walk with the LOGEND test: from the
start log to its predecessors, ending behind the first log with LOGBGN and in
front of a predecessor with LOGEND, with a step into the ring-wise previous
segment only when that segment loads with segseq one less. It covers at most
MAX_SCAN_SEGMENT + 1 segments, and of two logs walked one after the other the
first is without LOGBGN and the second without LOGEND. -/
theorem find_latest_cno_walked_max (G : Geometry) (dev : Device) (cache : SegmentCache)
    (seginfo : nilfs_segment_info) (start : Option nilfs_log_info) :
    find_latest_cno_in_logical_segment G dev cache seginfo start
      = (logical_segment_walk G dev true cache seginfo start).bind (fun r =>
          (walk_cnos G dev r.2.flatten).map (fun cs => (r.1, cs.foldl max 0))) ∧
    (logical_segment_walk G dev true cache seginfo start).all (fun r =>
      decide (r.2.length ≤ MAX_SCAN_SEGMENT + 1)) = true ∧
    (logical_segment_walk G dev true cache seginfo start).elim True (fun r =>
      r.2.flatten.Chain' walk_joins) := by
  have key : ∀ logs : List nilfs_log_info,
      (match logs with
        | [] => some (cache, 0)
        | l :: rest =>
          cno_walk G dev MAX_SCAN_SEGMENT (get_segment_info cache seginfo.segnum) seginfo
            (l :: rest) 0 : Option (SegmentCache × Nat))
        = (match logs with
            | [] => some (cache, [])
            | l :: rest =>
              walk_segments G dev true MAX_SCAN_SEGMENT (get_segment_info cache seginfo.segnum)
                seginfo (l :: rest) :
              Option (SegmentCache × List (List nilfs_log_info))).bind (fun r =>
            (walk_cnos G dev r.2.flatten).map (fun (cs : List Nat) => (r.1, cs.foldl max 0))) ∧
      (match logs with
        | [] => some (cache, [])
        | l :: rest =>
          walk_segments G dev true MAX_SCAN_SEGMENT (get_segment_info cache seginfo.segnum)
            seginfo (l :: rest) :
            Option (SegmentCache × List (List nilfs_log_info))).all (fun r =>
        decide (r.2.length ≤ MAX_SCAN_SEGMENT + 1)) = true ∧
      (match logs with
        | [] => some (cache, [])
        | l :: rest =>
          walk_segments G dev true MAX_SCAN_SEGMENT (get_segment_info cache seginfo.segnum)
            seginfo (l :: rest) :
            Option (SegmentCache × List (List nilfs_log_info))).elim True (fun r => r.2.flatten.Chain' walk_joins) := by
    intro logs
    cases logs with
    | nil => simp [walk_cnos]
    | cons l rest =>
      simp only
      refine ⟨cno_walk_eq G dev _ _ _ _ _, ?_, ?_⟩
      · cases hw : walk_segments G dev true MAX_SCAN_SEGMENT
            (get_segment_info cache seginfo.segnum) seginfo (l :: rest) with
        | none => rfl
        | some r =>
          simp only [Option.all_some, decide_eq_true_eq]
          exact (walk_segments_spec G dev _ _ _ _ _ _ hw).1
      · cases hw : walk_segments G dev true MAX_SCAN_SEGMENT
            (get_segment_info cache seginfo.segnum) seginfo (l :: rest) with
        | none => trivial
        | some r => exact (walk_segments_spec G dev _ _ _ _ _ _ hw).2.2
  unfold find_latest_cno_in_logical_segment logical_segment_walk
  cases start with
  | none => exact key _
  | some l0 => exact key _

/-- On image_logend load_segment builds logend_segment for segment 60. -/
theorem image_logend_load :
    load_segment sample_geometry image_logend [] 60
      = some ([logend_segment], some logend_segment) := by
  decide!

/-- On image_logend get_latest_cno gives 0 for the log at block 242 and 41 for
the log at block 240. -/
theorem image_logend_cnos :
    walk_cnos sample_geometry image_logend [logend_second, logend_first] = some [0, 41] := by
  decide!

/-- On image_logend the walk from the log at block 242 returns 0. -/
theorem image_logend_result :
    find_latest_cno_in_logical_segment sample_geometry image_logend [logend_segment]
      logend_segment (some logend_second) = some ([logend_segment], 0) := by
  decide!

/-- C32 (as worded, without the test for LOGEND): on image_logend segment 60
loads with the logs at blocks 240 (LOGBGN and LOGEND, checkpoint number 41) and
242 (no LOGBGN, checkpoint number 0). The walk of the claim from the log at
block 242 goes on to its predecessor at block 240 and ends there, so the
maximum over it is 41; find_latest_cno_in_logical_segment ends in front of that
predecessor, which carries LOGEND, and returns 0. -/
theorem find_latest_cno_stops_at_logend :
    load_segment sample_geometry image_logend [] 60
        = some ([logend_segment], some logend_segment) ∧
      logend_second.flags &&& NILFS_SS_LOGBGN = 0 ∧
      logend_first.flags &&& NILFS_SS_LOGBGN ≠ 0 ∧
      logend_first.flags &&& NILFS_SS_LOGEND ≠ 0 ∧
      (logical_segment_walk sample_geometry image_logend false [logend_segment] logend_segment
        (some logend_second)).map (fun r => r.2) = some [[logend_second, logend_first]] ∧
      walk_cnos sample_geometry image_logend [logend_second, logend_first] = some [0, 41] ∧
      [0, 41].foldl max 0 = 41 ∧
      find_latest_cno_in_logical_segment sample_geometry image_logend [logend_segment]
        logend_segment (some logend_second) = some ([logend_segment], 0) :=
  ⟨image_logend_load, by decide, by decide, by decide, by decide!, image_logend_cnos, by decide,
    image_logend_result⟩

/-- The comparison of check_mount holds exactly when the device path is a
prefix of the token. -/
theorem strncmp_eq_iff_starts :
    ∀ (device tok : List Char), strncmp_eq device.length tok device = true ↔ device <+: tok := by
  intro device
  induction device with
  | nil => intro tok; simp [strncmp_eq]
  | cons d rest ih =>
    intro tok
    cases tok with
    | nil => simp [strncmp_eq]
    | cons t tr =>
      simp only [List.length_cons, strncmp_eq, Bool.and_eq_true, beq_iff_eq, ih tr,
        List.cons_prefix_cons]
      constructor
      · rintro ⟨h1, h2⟩; exact ⟨h1.symm, h2⟩
      · rintro ⟨h1, h2⟩; exact ⟨h1.symm, h2⟩

/-- C39 (does not hold for a proper prefix): with a mount table whose only line
names /dev/sda10, check_mount for the device path /dev/sda1 ends in die
although no line has /dev/sda1 as its first field: strncmp compares only the
strlen(device) first characters of the field. For /dev/sdb1 it returns. -/
theorem check_mount_longer_name_aborts :
    check_mount (some "/dev/sda10 /mnt nilfs2 rw 0 0\n".data) "/dev/sda1".data
        = some MountCheck.mounted ∧
      mount_fields "/dev/sda10 /mnt nilfs2 rw 0 0\n".data = ["/dev/sda10".data, []] ∧
      "/dev/sda1".data ∉ mount_fields "/dev/sda10 /mnt nilfs2 rw 0 0\n".data ∧
      "/dev/sda1".data <+: "/dev/sda10".data ∧
      check_mount (some "/dev/sda10 /mnt nilfs2 rw 0 0\n".data) "/dev/sdb1".data
        = some MountCheck.returns := by
  refine ⟨by decide, by decide, by decide, by decide, by decide⟩

theorem split_slash_ne_nil : ∀ (p : List Char), split_slash p ≠ [] := by
  intro p
  cases p with
  | nil => simp [split_slash]
  | cons c p =>
    unfold split_slash
    split
    · simp
    · split <;> simp

theorem join_split_slash : ∀ (p : List Char), join_slash (split_slash p) = p := by
  intro p
  induction p with
  | nil => rfl
  | cons c p ih =>
    unfold split_slash
    by_cases hc : c = '/'
    · rw [if_pos hc]
      cases hs : split_slash p with
      | nil => exact absurd hs (split_slash_ne_nil p)
      | cons h t =>
        rw [hs] at ih
        simp only [join_slash, List.nil_append]
        rw [hc]
        congr 1
    · rw [if_neg hc]
      cases hs : split_slash p with
      | nil => exact absurd hs (split_slash_ne_nil p)
      | cons h t =>
        rw [hs] at ih
        simp only
        rw [← ih]
        simp only [join_slash, List.cons_append]

theorem split_slash_no_slash : ∀ (p : List Char), ∀ c ∈ split_slash p, '/' ∉ c := by
  intro p
  induction p with
  | nil => intro c hc; simp [split_slash] at hc; subst hc; simp
  | cons x p ih =>
    intro c hc
    unfold split_slash at hc
    by_cases hx : x = '/'
    · rw [if_pos hx] at hc
      rcases List.mem_cons.mp hc with h | h
      · subst h; simp
      · exact ih c h
    · rw [if_neg hx] at hc
      cases hs : split_slash p with
      | nil => exact absurd hs (split_slash_ne_nil p)
      | cons h t =>
        rw [hs] at hc ih
        simp only at hc
        rcases List.mem_cons.mp hc with h1 | h1
        · subst h1
          intro hm
          rcases List.mem_cons.mp hm with h2 | h2
          · exact hx h2.symm
          · exact ih h (List.mem_cons_self _ _) h2
        · exact ih c (List.mem_cons_of_mem _ h1)

theorem backup_name : ∀ (s : List Char) (a : Char) (R : List Char),
    (∀ x ∈ s, x ≠ '/') → backup (a :: (s ++ '/' :: R)) = '/' :: R := by
  intro s
  induction s with
  | nil => intro a R _; simp [backup]
  | cons x s ih =>
    intro a R h
    have hx : x ≠ '/' := h x (List.mem_cons_self _ _)
    simp only [List.cons_append, backup, ne_eq, hx, not_false_eq_true, if_true]
    exact ih x R (fun y hy => h y (List.mem_cons_of_mem _ hy))

theorem names_path_cons (c : List Char) (names : List (List Char)) :
    names_path (c :: names) = names_path names ++ '/' :: c := by
  simp [names_path]

theorem names_path_eq_nil {names : List (List Char)} (h : names_path names = []) :
    names = [] := by
  cases names with
  | nil => rfl
  | cons c ns => rw [names_path_cons] at h; simp at h

theorem render_eq (names : List (List Char)) :
    render names = if names = [] then ['/'] else names_path names := rfl

theorem render_cons (c : List Char) (names : List (List Char)) :
    render (c :: names) = names_path names ++ '/' :: c := by
  rw [render_eq, if_neg (by simp), names_path_cons]

theorem backup_names (names : List (List Char)) (hn : ∀ n ∈ names, '/' ∉ n) :
    backup ('/' :: (names_path names).reverse) = '/' :: (names_path names.tail).reverse := by
  cases names with
  | nil => rfl
  | cons c ns =>
    rw [names_path_cons]
    simp only [List.reverse_append, List.reverse_cons, List.tail_cons, List.append_assoc,
      List.singleton_append]
    apply backup_name
    intro x hx
    have := hn c (List.mem_cons_self _ _)
    intro hx2
    rw [hx2] at hx
    exact this (List.mem_reverse.mp hx)

theorem forms_fit_head {m : Int} {names : List (List Char)} {comps : List (List Char)}
    (h : forms_fit m names comps = true) : ((render names).length : Int) < m := by
  cases comps with
  | nil => exact of_decide_eq_true h
  | cons c cs =>
    simp only [forms_fit, Bool.and_eq_true, decide_eq_true_eq] at h
    exact h.1

theorem forms_fit_tail {m : Int} {names : List (List Char)} {c : List Char}
    {cs : List (List Char)} (h : forms_fit m names (c :: cs) = true) :
    forms_fit m (norm_step names c) cs = true := by
  simp only [forms_fit, Bool.and_eq_true, decide_eq_true_eq] at h
  exact h.2

theorem skip_dots_cons (c : Char) (p np : List Char) :
    skip_dots (c :: p) np
      = if c = '/' then skip_dots p np
        else if c = '.' then
          match p with
          | [] => (np, [])
          | c2 :: q =>
            if c2 = '/' then skip_dots q np
            else if c2 = '.' then
              match q with
              | [] => (backup np, [])
              | c3 :: r => if c3 = '/' then skip_dots r (backup np) else (np, c :: c2 :: c3 :: r)
            else (np, c :: c2 :: q)
        else (np, c :: p) := by
  rw [skip_dots.eq_def]

theorem copy_component_cons (m : Int) (c : Char) (p np : List Char) (w : Nat) :
    copy_component m (c :: p) np w
      = if c = '/' then (true, np, c :: p, w)
        else if (np.length : Int) > m - 2 then (false, np, c :: p, w)
        else copy_component m p (c :: np) (max w (np.length + 1)) := by
  rw [copy_component.eq_def]

theorem resolve_congr (readlink : List Char → ReadlinkRet) (m : Int) (b : Nat)
    (p p1 np np1 : List Char) (w : Nat) (h : skip_dots p np = skip_dots p1 np1) :
    resolve readlink m b p np w = resolve readlink m b p1 np1 w := by
  rw [resolve.eq_1 readlink m b p np w, resolve.eq_1 readlink m b p1 np1 w, h]

theorem skip_dots_rest (cs : List (List Char)) (np : List Char) :
    skip_dots (join_rest cs) np = skip_dots (join_slash cs) np := by
  cases cs with
  | nil => rfl
  | cons c cs =>
    simp only [join_rest]
    rw [skip_dots_cons, if_pos rfl]

theorem join_slash_cons (c : List Char) (cs : List (List Char)) :
    join_slash (c :: cs) = c ++ join_rest cs := by
  cases cs <;> rfl

theorem join_rest_cases (cs : List (List Char)) :
    join_rest cs = [] ∨ ∃ x, join_rest cs = '/' :: x := by
  cases cs with
  | nil => exact Or.inl rfl
  | cons c cs => exact Or.inr ⟨_, rfl⟩

theorem skip_dots_name (c tl np : List Char) (hname : is_name c = true) (hs : '/' ∉ c) :
    skip_dots (c ++ tl) np = (np, c ++ tl) ∧ c ++ tl ≠ [] := by
  simp only [is_name, Bool.and_eq_true, bne_iff_ne, ne_eq] at hname
  obtain ⟨⟨h0, h1⟩, h2⟩ := hname
  cases c with
  | nil => exact absurd rfl h0
  | cons x c1 =>
    have hx : x ≠ '/' := fun e => hs (by rw [e]; exact List.mem_cons_self _ _)
    refine ⟨?_, by simp⟩
    rw [List.cons_append, skip_dots_cons, if_neg hx]
    by_cases hd : x = '.'
    · subst hd
      cases c1 with
      | nil => exact absurd rfl h1
      | cons y c2 =>
        have hy : y ≠ '/' := fun e => hs (by rw [e]; simp)
        simp only [if_true, List.cons_append, if_neg hy]
        by_cases hd2 : y = '.'
        · subst hd2
          cases c2 with
          | nil => exact absurd rfl h2
          | cons z c3 =>
            have hz : z ≠ '/' := fun e => hs (by rw [e]; simp)
            simp only [if_true, List.cons_append, if_neg hz]
        · simp only [if_neg hd2]
    · simp only [if_neg hd]

theorem copy_component_name (m : Int) : ∀ (c tl np : List Char) (w : Nat),
    '/' ∉ c → (tl = [] ∨ ∃ x, tl = '/' :: x) →
    (np.length : Int) + c.length + 1 ≤ m → (w : Int) ≤ m →
    ∃ w2, copy_component m (c ++ tl) np w = (true, c.reverse ++ np, tl, w2) ∧ (w2 : Int) ≤ m := by
  intro c
  induction c with
  | nil =>
    intro tl np w _ htl _ hw
    rcases htl with h | ⟨x, h⟩
    · subst h; exact ⟨w, rfl, hw⟩
    · subst h; exact ⟨w, by rw [List.nil_append, copy_component_cons, if_pos rfl]; rfl, hw⟩
  | cons x c ih =>
    intro tl np w hs htl hlen hw
    have hx : x ≠ '/' := fun e => hs (by rw [e]; exact List.mem_cons_self _ _)
    have hc : '/' ∉ c := fun e => hs (List.mem_cons_of_mem _ e)
    simp only [List.length_cons, Nat.cast_add, Nat.cast_one] at hlen
    have hchk : ¬ ((np.length : Int) > m - 2) := by
      have : (0 : Int) ≤ c.length := Int.natCast_nonneg _
      omega
    obtain ⟨w2, e, hw2⟩ := ih tl (x :: np) (max w (np.length + 1)) hc htl
      (by simp only [List.length_cons, Nat.cast_add, Nat.cast_one]; omega)
      (by
        have : (0 : Int) ≤ c.length := Int.natCast_nonneg _
        rcases Nat.le_total w (np.length + 1) with h | h
        · rw [Nat.max_eq_right h]; push_cast; omega
        · rw [Nat.max_eq_left h]; exact hw)
    refine ⟨w2, ?_, hw2⟩
    rw [List.cons_append, copy_component_cons, if_neg hx, if_neg hchk, e]
    simp only [List.reverse_cons, List.append_assoc, List.singleton_append]

/-- The main loop on a path given by its components, when no file met is a
symbolic link: it ends with the names that the normalisation keeps. -/
theorem resolve_names (readlink : List Char → ReadlinkRet) (m : Int)
    (hlink : ∀ s, readlink s = ReadlinkRet.einval) :
    ∀ (comps names : List (List Char)) (budget w : Nat),
      (∀ c ∈ comps, '/' ∉ c) → (∀ n ∈ names, '/' ∉ n) →
      (comps.filter is_name).length ≤ budget →
      forms_fit m names comps = true → (w : Int) ≤ m →
      ∃ ret, resolve readlink m budget (join_slash comps) ('/' :: (names_path names).reverse) w
          = some ret ∧
        ret.out = RealpathOut.resolved (render (comps.foldl norm_step names)) ∧
        (ret.written : Int) ≤ m := by
  intro comps
  induction comps with
  | nil =>
    intro names budget w _ _ _ hfit hw
    have hfit1 : ((render names).length : Int) < m := forms_fit_head hfit
    rw [resolve.eq_1]
    simp only [join_slash, skip_dots, List.foldl_nil]
    by_cases hn : names = []
    · subst hn
      refine ⟨_, rfl, rfl, ?_⟩
      simp only [render_eq, if_true, List.length_singleton, Nat.cast_one] at hfit1
      simp only [names_path, List.reverse_nil, List.map_nil, List.flatten_nil, List.length_cons,
        List.length_nil, ne_eq, not_true_eq_false, false_and, if_false]
      rcases Nat.le_total w 2 with h | h
      · rw [Nat.max_eq_right h]; push_cast; omega
      · rw [Nat.max_eq_left h]; exact hw
    · have hne : (names_path names).reverse ≠ [] := by
        intro e
        exact hn (names_path_eq_nil (List.reverse_eq_nil_iff.mp e))
      have hlen : ('/' :: (names_path names).reverse).length ≠ 1 := by
        simp only [List.length_cons, ne_eq, Nat.add_eq_right]
        exact fun e => hne (List.length_eq_zero.mp e)
      rw [render_eq, if_neg hn] at hfit1 ⊢
      refine ⟨_, rfl, ?_, ?_⟩
      · simp only [hlen, ne_eq, not_false_eq_true, and_self, if_true, List.reverse_reverse]
      · simp only [hlen, ne_eq, not_false_eq_true, and_self, if_true, List.length_reverse]
        rcases Nat.le_total w ((names_path names).length + 1) with h | h
        · rw [Nat.max_eq_right h]; push_cast; omega
        · rw [Nat.max_eq_left h]; exact hw
  | cons c cs ih =>
    intro names budget w hcs hnames hcount hfit hw
    have hc : '/' ∉ c := hcs c (List.mem_cons_self _ _)
    have hcs1 : ∀ x ∈ cs, '/' ∉ x := fun x hx => hcs x (List.mem_cons_of_mem _ hx)
    have hfit2 : forms_fit m (norm_step names c) cs = true := forms_fit_tail hfit
    rw [join_slash_cons, List.foldl_cons]
    by_cases hname : is_name c = true
    · -- a name is copied
      have hstep : norm_step names c = c :: names := by
        simp only [is_name, Bool.and_eq_true, bne_iff_ne, ne_eq] at hname
        unfold norm_step
        rw [if_neg (by tauto), if_neg (by tauto)]
      rw [hstep] at hfit2 ⊢
      have hfit3 := forms_fit_head hfit2
      rw [render_cons] at hfit3
      simp only [List.length_append, List.length_cons, Nat.cast_add, Nat.cast_one] at hfit3
      obtain ⟨hskip, hne⟩ := skip_dots_name c (join_rest cs) ('/' :: (names_path names).reverse)
        hname hc
      obtain ⟨w2, hcopy, hw2⟩ := copy_component_name m c (join_rest cs)
        ('/' :: (names_path names).reverse) w hc (join_rest_cases cs)
        (by simp only [List.length_cons, List.length_reverse, Nat.cast_add, Nat.cast_one]; omega)
        hw
      have hb : 0 < budget := by
        simp only [List.filter_cons, hname, if_true, List.length_cons] at hcount
        omega
      obtain ⟨b, rfl⟩ := Nat.exists_eq_succ_of_ne_zero (Nat.pos_iff_ne_zero.mp hb)
      have hnp : '/' :: (c.reverse ++ '/' :: (names_path names).reverse)
          = '/' :: (names_path (c :: names)).reverse := by
        rw [names_path_cons]
        simp
      have hw3 : ((max w2 ((c.reverse ++ '/' :: (names_path names).reverse).length + 1) : Nat)
          : Int) ≤ m := by
        rcases Nat.le_total w2 ((c.reverse ++ '/' :: (names_path names).reverse).length + 1)
          with h | h
        · rw [Nat.max_eq_right h]
          simp only [List.length_append, List.length_reverse, List.length_cons, Nat.cast_add,
            Nat.cast_one]
          omega
        · rw [Nat.max_eq_left h]; exact hw2
      obtain ⟨ret, e, r1, r2⟩ := ih (c :: names) b _ hcs1
        (by
          intro n hn
          rcases List.mem_cons.mp hn with h | h
          · subst h; exact hc
          · exact hnames n h)
        (by
          simp only [List.filter_cons, hname, if_true, List.length_cons] at hcount
          omega)
        hfit2 hw3
      refine ⟨ret, ?_, r1, r2⟩
      rw [resolve.eq_1, hskip]
      cases hp : c ++ join_rest cs with
      | nil => exact absurd hp hne
      | cons x p =>
        simp only
        rw [← hp, hcopy]
        simp only [hlink]
        rw [resolve_congr readlink m b (join_rest cs) (join_slash cs) _ _ _ (skip_dots_rest cs _),
          hnp]
        exact e
    · -- an empty component, "." or ".."
      have hcount1 : (cs.filter is_name).length ≤ budget := by
        simp only [List.filter_cons, hname, Bool.false_eq_true, if_false] at hcount
        exact hcount
      simp only [is_name, Bool.and_eq_true, bne_iff_ne, ne_eq, not_and, not_not] at hname
      by_cases h0 : c = []
      · subst h0
        have hstep : norm_step names [] = names := by simp [norm_step]
        rw [hstep] at hfit2 ⊢
        obtain ⟨ret, e, r1, r2⟩ := ih names budget w hcs1 hnames hcount1 hfit2 hw
        refine ⟨ret, ?_, r1, r2⟩
        rw [List.nil_append, resolve_congr readlink m budget (join_rest cs) (join_slash cs) _ _ _
          (skip_dots_rest cs _)]
        exact e
      · by_cases h1 : c = ['.']
        · subst h1
          have hstep : norm_step names ['.'] = names := by simp [norm_step]
          rw [hstep] at hfit2 ⊢
          obtain ⟨ret, e, r1, r2⟩ := ih names budget w hcs1 hnames hcount1 hfit2 hw
          refine ⟨ret, ?_, r1, r2⟩
          have hsk : skip_dots (['.'] ++ join_rest cs) ('/' :: (names_path names).reverse)
              = skip_dots (join_slash cs) ('/' :: (names_path names).reverse) := by
            cases cs with
            | nil => rfl
            | cons d ds =>
              simp only [join_rest, List.singleton_append]
              rw [skip_dots_cons, if_neg (by decide), if_pos rfl]
              simp only [if_true]
          rw [resolve_congr readlink m budget _ _ _ _ _ hsk]
          exact e
        · have h2 : c = ['.', '.'] := hname ⟨h0, h1⟩
          subst h2
          have hstep : norm_step names ['.', '.'] = names.tail := by simp [norm_step]
          rw [hstep] at hfit2 ⊢
          obtain ⟨ret, e, r1, r2⟩ := ih names.tail budget w hcs1
            (fun n hn => hnames n (List.mem_of_mem_tail hn)) hcount1 hfit2 hw
          refine ⟨ret, ?_, r1, r2⟩
          have hsk : skip_dots (['.', '.'] ++ join_rest cs) ('/' :: (names_path names).reverse)
              = skip_dots (join_slash cs) ('/' :: (names_path names.tail).reverse) := by
            rw [← backup_names names hnames]
            cases cs with
            | nil => rfl
            | cons d ds =>
              simp only [join_rest, List.cons_append, List.nil_append]
              rw [skip_dots_cons, if_neg (by decide), if_pos rfl]
              simp only [if_true, if_neg (show ¬ ('.' = '/') by decide)]
          rw [resolve_congr readlink m budget _ _ _ _ _ hsk]
          exact e

/-- C40 (for paths whose files exist, with at most MAX_READLINKS + 1 names and
every intermediate form fitting): for the absolute path `/` followed by `p`,
when readlink fails with EINVAL for every file (each exists and none is a
symbolic link), at most MAX_READLINKS + 1 components are names (not empty, "."
or ".."), and every form the normalisation passes through, component by
component, is shorter than maxreslth, myrealpath returns the lexical
normalisation of the path, and every write goes to an index below maxreslth. -/
theorem myrealpath_lexical (readlink : List Char → ReadlinkRet) (cwd : Option (List Char))
    (p : List Char) (maxreslth : Int)
    (hlink : ∀ s, readlink s = ReadlinkRet.einval)
    (hcount : ((split_slash p).filter is_name).length ≤ MAX_READLINKS + 1)
    (hfit : forms_fit maxreslth [] (split_slash p) = true) :
    ∃ ret, myrealpath readlink cwd ('/' :: p) maxreslth = some ret ∧
      ret.out = RealpathOut.resolved (lexical_normalisation p) ∧
      (ret.written : Int) ≤ maxreslth := by
  have h1 : ((render []).length : Int) < maxreslth := forms_fit_head hfit
  simp only [render_eq, if_true, List.length_singleton, Nat.cast_one] at h1
  obtain ⟨ret, e, r1, r2⟩ := resolve_names readlink maxreslth hlink (split_slash p) []
    (MAX_READLINKS + 1) 1 (split_slash_no_slash p) (by simp) hcount hfit (by push_cast; omega)
  refine ⟨ret, ?_, r1, r2⟩
  unfold myrealpath
  rw [join_split_slash] at e
  simp only [List.head?_cons, if_true, List.tail_cons]
  exact e

/-- Witness of C40: with no symbolic links and a buffer of 64 bytes the path
/usr//./lib/../bin/ resolves to /usr/bin. -/
theorem myrealpath_lexical_witness :
    lexical_normalisation "usr//./lib/../bin/".data = "/usr/bin".data ∧
    ∃ ret, myrealpath (fun _ => ReadlinkRet.einval) none ('/' :: "usr//./lib/../bin/".data) 64
        = some ret ∧
      ret.out = RealpathOut.resolved (lexical_normalisation "usr//./lib/../bin/".data) ∧
      (ret.written : Int) ≤ 64 :=
  ⟨by decide,
    myrealpath_lexical (fun _ => ReadlinkRet.einval) none "usr//./lib/../bin/".data 64
      (fun _ => rfl) (by decide) (by decide)⟩

/-- A path of 34 names without symbolic links, in a buffer of 4096 bytes:
myrealpath fails at the last name, where `readlinks++ > MAX_READLINKS` holds,
though the path is its own normal form, of 68 characters. -/
theorem myrealpath_many_names :
    (myrealpath (fun _ => ReadlinkRet.einval) none (List.replicate 34 ['/', 'a']).flatten
        4096).map (fun r => r.out) = some RealpathOut.eloop ∧
      lexical_normalisation (List.replicate 34 ['/', 'a']).flatten.tail
        = (List.replicate 34 ['/', 'a']).flatten := by
  decide

/-- C40 (as worded): without any symbolic link, myrealpath returns NULL for
/aaaa/.. in a buffer of 4 bytes, because the name aaaa does not fit while it is
copied, though the normal form / fits; and it returns NULL for /a/b when /a
does not exist, readlink failing there with an errno other than EINVAL. -/
theorem myrealpath_null_without_links :
    (myrealpath (fun _ => ReadlinkRet.einval) none "/aaaa/..".data 4).map (fun r => r.out)
        = some RealpathOut.enametoolong ∧
      lexical_normalisation "aaaa/..".data = "/".data ∧
      (myrealpath (fun _ => ReadlinkRet.einval) none "/aaaa/..".data 7).map (fun r => r.out)
        = some (RealpathOut.resolved "/".data) ∧
      (myrealpath (fun s => if s = "/a".data then ReadlinkRet.failed else ReadlinkRet.einval)
          none "/a/b".data 64).map (fun r => r.out) = some RealpathOut.readlink_failed ∧
      lexical_normalisation "a/b".data = "/a/b".data := by
  decide

end Nilfs
